import Mathlib

/-!
Verification of the columnar value model in
`src/query/expression/src/values.rs`: the `Scalar` / `Column` /
`ColumnBuilder` / `Domain` subsystem and its external-format bridge.

Modelling conventions.

* Machine integers are carried as `Nat` / `Int`; the places where the Rust
  code performs a narrowing or sign-changing cast (`as i64`, `as i32`,
  `as u64`, `as u8`) are modelled explicitly with modular arithmetic.
* `Buffer<T>`, `Vec<T>`, `Bitmap` and `MutableBitmap` are all carried as
  lists of their elements (`List Int`, `List Bool`, ...); the Rust
  conversions between a mutable buffer and a frozen buffer preserve
  contents exactly.
* `Scalar` and `ScalarRef` carry identical data and differ only in
  ownership (borrowed vs. owned bytes); the embedding uses a single
  `Scalar` type for both, with `as_ref` / `to_owned` the identity.
* Panics (`assert!`, `unreachable!`, `unwrap`, `expect`) in fallible
  positions are modelled by `Option`-valued functions returning `none`.
-/

/-- The ten numeric kinds (the variants of `NumberDataType` /
`NumberScalar` / `NumberColumn`).
Modelled from the spec: `number.rs` is not among the provided sources; the
spec fixes ten integer/float kinds.  Values are carried as mathematical
integers: no claim in scope depends on width or on float arithmetic, and
the float kinds are ordered through their total-order wrapper types
(`F32` / `F64`), so an integer carrier preserves every property used. -/
inductive NumKind where
  | uint8 | uint16 | uint32 | uint64
  | int8 | int16 | int32 | int64
  | float32 | float64
deriving DecidableEq

/-- Decimal width: 128-bit (`Decimal128`) or 256-bit (`Decimal256`).
Modelled from the spec: `decimal.rs` is not among the provided sources. -/
inductive DecW where
  | d128 | d256
deriving DecidableEq

/-- `DecimalSize`: precision and scale, two `u8` fields in the source. -/
structure DecimalSize where
  precision : Nat
  scale : Nat
deriving DecidableEq

/-- The logical type lattice (`DataType`).
Modelled from the spec: the `DataType` definition itself is not among the
provided sources; §3 of the spec fixes the closed variant set, which
matches every `DataType::...` constructor used by `values.rs`. -/
inductive DataType where
  | null
  | emptyArray
  | emptyMap
  | number (k : NumKind)
  | decimal (w : DecW) (size : DecimalSize)
  | boolean
  | string
  | timestamp
  | date
  | array (t : DataType)
  | map (t : DataType)
  | nullable (t : DataType)
  | tuple (ts : List DataType)
  | variant
  | generic (i : Nat)

/-- `Domain`: the per-type summary (`property.rs` is not among the provided
sources; modelled from the spec §3 and from every `Domain::...` constructor
used by `values.rs`).  Numeric/date/timestamp domains are `{min, max}`;
the string domain is `{min, max : Option}`; the nullable domain is
`{has_null, value : Option}`; array/map domains hold the inner domain(s). -/
inductive Domain where
  | number (k : NumKind) (min max : Int)
  | decimal (w : DecW) (min max : Int) (size : DecimalSize)
  | boolean (hasFalse hasTrue : Bool)
  | string (min : List Nat) (max : Option (List Nat))
  | timestamp (min max : Int)
  | date (min max : Int)
  | nullable (hasNull : Bool) (value : Option Domain)
  | array (inner : Option Domain)
  | map (inner : Option (Domain × Domain))
  | tuple (fields : List Domain)
  | undefined

/-- `Column`: one variant per logical type, in bulk encoding.  The three
auxiliary structs are flattened into constructor arguments:
`StringColumn { data, offsets }` becomes `string data offsets`,
`ArrayColumn { values, offsets }` becomes `array values offsets` (same for
`map`), and `NullableColumn { column, validity }` becomes
`nullable column validity`.  `Buffer<u64>` offsets are `List Nat`,
bitmaps are `List Bool`. -/
inductive Column where
  | null (len : Nat)
  | emptyArray (len : Nat)
  | emptyMap (len : Nat)
  | number (k : NumKind) (values : List Int)
  | decimal (w : DecW) (values : List Int) (size : DecimalSize)
  | boolean (values : List Bool)
  | string (data : List Nat) (offsets : List Nat)
  | timestamp (values : List Int)
  | date (values : List Int)
  | array (values : Column) (offsets : List Nat)
  | map (values : Column) (offsets : List Nat)
  | nullable (column : Column) (validity : List Bool)
  | tuple (fields : List Column) (len : Nat)
  | variant (data : List Nat) (offsets : List Nat)

/-- `Scalar` (also standing for `ScalarRef`, which carries the same data
with borrowed instead of owned bytes).  String/variant payloads are byte
lists (`List Nat`). -/
inductive Scalar where
  | null
  | emptyArray
  | emptyMap
  | number (k : NumKind) (v : Int)
  | decimal (w : DecW) (v : Int) (size : DecimalSize)
  | boolean (b : Bool)
  | string (s : List Nat)
  | timestamp (t : Int)
  | date (d : Int)
  | array (col : Column)
  | map (col : Column)
  | tuple (fields : List Scalar)
  | variant (s : List Nat)

/-- Sequence a list of optional values (`none` as soon as one entry is
`none`): the effect of collecting fallible per-field results, as
`collect::<Option<Vec<_>>>()` does in the source. -/
def optTraverse : List (Option α) → Option (List α)
  | [] => some []
  | none :: _ => none
  | some a :: xs => (optTraverse xs).map (a :: ·)

theorem listMapAll (l : List γ) (g : γ → α) (p : α → Bool) :
    ((l.map g).all p) = l.all (fun x => p (g x)) := by
  induction l with
  | nil => rfl
  | cons a t ih => simp only [List.map_cons, List.all_cons, ih]

theorem listMapAny (l : List γ) (g : γ → α) (p : α → Bool) :
    ((l.map g).any p) = l.any (fun x => p (g x)) := by
  induction l with
  | nil => rfl
  | cons a t ih => simp only [List.map_cons, List.any_cons, ih]

theorem attachAll (l : List α) (p : α → Bool) : (l.attach.all fun x => p x.1) = l.all p := by
  induction l with
  | nil => rfl
  | cons a t ih =>
    rw [List.attach_cons, List.all_cons, listMapAll]
    show (p a && t.attach.all fun x => p x.1) = _
    rw [ih, List.all_cons]

theorem attachAny (l : List α) (p : α → Bool) : (l.attach.any fun x => p x.1) = l.any p := by
  induction l with
  | nil => rfl
  | cons a t ih =>
    rw [List.attach_cons, List.any_cons, listMapAny]
    show (p a || t.attach.any fun x => p x.1) = _
    rw [ih, List.any_cons]

theorem attachMap (l : List α) (f : α → β) : (l.attach.map fun x => f x.1) = l.map f :=
  List.attach_map_val l f

/-- `[s, e)` slice of a list (the contents of a Rust `&l[s..e]`). -/
def sliceList (l : List α) (s e : Nat) : List α := (l.drop s).take (e - s)

/-- `Column::len` (values.rs:581-598): row count per variant.  Inner
column lengths (`StringColumn::len` etc., from the unprovided type
modules) follow the spec: a string/array column has `offsets.len() - 1`
rows, a nullable column has as many rows as its validity bitmap. -/
def Column.len : Column → Nat
  | .null len => len
  | .emptyArray len => len
  | .emptyMap len => len
  | .number _ values => values.length
  | .decimal _ values _ => values.length
  | .boolean values => values.length
  | .string _ offsets => offsets.length - 1
  | .timestamp values => values.length
  | .date values => values.length
  | .array _ offsets => offsets.length - 1
  | .map _ offsets => offsets.length - 1
  | .nullable _ validity => validity.length
  | .tuple _ len => len
  | .variant _ offsets => offsets.length - 1

/-- `Column::data_type` (values.rs:782-816). -/
def Column.dataType : Column → DataType
  | .null _ => .null
  | .emptyArray _ => .emptyArray
  | .emptyMap _ => .emptyMap
  | .number k _ => .number k
  | .decimal w _ size => .decimal w size
  | .boolean _ => .boolean
  | .string _ _ => .string
  | .timestamp _ => .timestamp
  | .date _ => .date
  | .array values _ => .array values.dataType
  | .map values _ => .map values.dataType
  | .nullable inner _ => .nullable inner.dataType
  | .tuple fields _ => .tuple (fields.attach.map fun f => Column.dataType f.1)
  | .variant _ _ => .variant
termination_by c => sizeOf c
decreasing_by
  all_goals simp_wf
  all_goals first
    | omega
    | (have q := List.sizeOf_lt_of_mem f.2; omega)

/-- `true` when a type contains no `Generic` placeholder (a `Generic` is
never materialized in a column, so `Column::data_type` never returns
one). -/
def DataType.noGeneric : DataType → Bool
  | .array t => t.noGeneric
  | .map t => t.noGeneric
  | .nullable t => t.noGeneric
  | .tuple ts => ts.attach.all fun t => DataType.noGeneric t.1
  | .generic _ => false
  | _ => true
termination_by t => sizeOf t
decreasing_by
  all_goals simp_wf
  all_goals first
    | omega
    | (have q := List.sizeOf_lt_of_mem t.2; omega)

/-- The fresh zero-row column of a given logical type, as produced by
`data_type.create_deserializer(0).finish_to_column()` in the empty-range
branch of `Column::slice` (values.rs:658-663).
Modelled from the spec: the deserializer module is not among the provided
sources; the spec describes this path as "a type-driven default/empty
constructor" yielding a well-typed zero-row column.  `none` models the
panic on the never-materialized `Generic` placeholder. -/
def defaultEmptyColumn : DataType → Option Column
  | .null => some (.null 0)
  | .emptyArray => some (.emptyArray 0)
  | .emptyMap => some (.emptyMap 0)
  | .number k => some (.number k [])
  | .decimal w size => some (.decimal w [] size)
  | .boolean => some (.boolean [])
  | .string => some (.string [] [0])
  | .timestamp => some (.timestamp [])
  | .date => some (.date [])
  | .array t => (defaultEmptyColumn t).map fun v => .array v [0]
  | .map t => (defaultEmptyColumn t).map fun v => .map v [0]
  | .nullable t => (defaultEmptyColumn t).map fun v => .nullable v []
  | .tuple ts =>
    (optTraverse (ts.attach.map fun t => defaultEmptyColumn t.1)).map fun fs => .tuple fs 0
  | .variant => some (.variant [] [0])
  | .generic _ => none
termination_by t => sizeOf t
decreasing_by
  all_goals simp_wf
  all_goals first
    | omega
    | (have q := List.sizeOf_lt_of_mem t.2; omega)

/-- `Column::slice` (values.rs:650-699).  `none` models the panic of the
bounds assertion (`range.end <= self.len()`), and is propagated from inner
slices.  The empty-range branch builds a fresh zero-row column of the same
logical type.  Inner slicing of buffers keeps contents
(`Buffer::sliced`); string/variant/array/map slicing keeps the shared
data buffer and narrows the offsets window (the unprovided
`StringColumn::slice` / `ArrayColumn::slice`, per the spec's zero-copy
slicing description). -/
def Column.slice (c : Column) (s e : Nat) : Option Column :=
  if e > c.len then none
  else if s ≥ e then defaultEmptyColumn c.dataType
  else match c with
  | .null _ => some (.null (e - s))
  | .emptyArray _ => some (.emptyArray (e - s))
  | .emptyMap _ => some (.emptyMap (e - s))
  | .number k values => some (.number k (sliceList values s e))
  | .decimal w values size => some (.decimal w (sliceList values s e) size)
  | .boolean values => some (.boolean (sliceList values s e))
  | .string data offsets => some (.string data (sliceList offsets s (e + 1)))
  | .timestamp values => some (.timestamp (sliceList values s e))
  | .date values => some (.date (sliceList values s e))
  | .array values offsets => some (.array values (sliceList offsets s (e + 1)))
  | .map values offsets => some (.map values (sliceList offsets s (e + 1)))
  | .nullable inner validity =>
    (inner.slice s e).map fun ci => .nullable ci (sliceList validity s e)
  | .tuple fields _ =>
    (optTraverse (fields.attach.map fun f => Column.slice f.1 s e)).map fun fs =>
      .tuple fs (e - s)
  | .variant data offsets => some (.variant data (sliceList offsets s (e + 1)))
termination_by sizeOf c
decreasing_by
  all_goals simp_wf
  all_goals first
    | omega
    | (have q := List.sizeOf_lt_of_mem f.2; omega)

/-- `Column::index` (values.rs:600-622): bounds-checked row access.  The
length-only variants return `Some` without consulting the index, exactly
as in the source.  Inner accessors (`StringColumn::index`,
`ArrayColumn::index`, `NullableColumn::index`, from the unprovided type
modules) follow the spec's storage description: a string/variant row is
the byte range `data[offsets[i]..offsets[i+1]]`, an array/map row is the
slice `values[offsets[i]..offsets[i+1]]`, and a nullable row is `Null`
when the validity bit is unset, the inner row otherwise. -/
def Column.index (c : Column) (i : Nat) : Option Scalar :=
  match c with
  | .null _ => some .null
  | .emptyArray _ => some .emptyArray
  | .emptyMap _ => some .emptyMap
  | .number k values => (values[i]?).map (Scalar.number k)
  | .decimal w values size => (values[i]?).map fun v => Scalar.decimal w v size
  | .boolean values => (values[i]?).map Scalar.boolean
  | .string data offsets =>
    match offsets[i]?, offsets[i + 1]? with
    | some a, some b => some (.string (sliceList data a b))
    | _, _ => none
  | .timestamp values => (values[i]?).map Scalar.timestamp
  | .date values => (values[i]?).map Scalar.date
  | .array values offsets =>
    match offsets[i]?, offsets[i + 1]? with
    | some a, some b => (values.slice a b).map Scalar.array
    | _, _ => none
  | .map values offsets =>
    match offsets[i]?, offsets[i + 1]? with
    | some a, some b => (values.slice a b).map Scalar.map
    | _, _ => none
  | .nullable inner validity =>
    match validity[i]? with
    | none => none
    | some false => some .null
    | some true => inner.index i
  | .tuple fields _ =>
    (optTraverse (fields.attach.map fun f => Column.index f.1 i)).map Scalar.tuple
  | .variant data offsets =>
    match offsets[i]?, offsets[i + 1]? with
    | some a, some b => some (.variant (sliceList data a b))
    | _, _ => none
termination_by sizeOf c
decreasing_by
  all_goals simp_wf
  all_goals first
    | omega
    | (have q := List.sizeOf_lt_of_mem f.2; omega)

/-- Nondecreasing chain test for an offsets buffer. -/
def nondecreasing : List Nat → Bool
  | a :: b :: rest => a ≤ b && nondecreasing (b :: rest)
  | _ => true

/-- Last element of an offsets buffer (`0` for an empty buffer). -/
def lastOffset (offs : List Nat) : Nat := offs.getLast?.getD 0

/-- Structural invariant of an offsets buffer delimiting rows inside a
storage of `bound` elements (spec §3: length = row-count + 1,
non-decreasing, delimiting ranges of the shared buffer). -/
def offsetsOk (offs : List Nat) (bound : Nat) : Bool :=
  !offs.isEmpty && nondecreasing offs && lastOffset offs ≤ bound

/-- `true` exactly on the `Nullable` variant. -/
def Column.isNullableCol : Column → Bool
  | .nullable _ _ => true
  | _ => false

/-- `true` exactly on the `Nullable` type. -/
def DataType.isNullableTy : DataType → Bool
  | .nullable _ => true
  | _ => false

/-- The type never applies `Nullable` directly to a `Nullable` (spec §4.2:
the nullable wrapper is one level deep). -/
def DataType.noNestedNullable : DataType → Bool
  | .nullable t => !t.isNullableTy && t.noNestedNullable
  | .array t => t.noNestedNullable
  | .map t => t.noNestedNullable
  | .tuple ts => ts.attach.all fun t => DataType.noNestedNullable t.1
  | _ => true
termination_by t => sizeOf t
decreasing_by
  all_goals simp_wf
  all_goals first
    | omega
    | (have q := List.sizeOf_lt_of_mem t.2; omega)

/-- Well-formedness of a column: the representation invariants of spec §3
(offsets buffers non-decreasing with `row-count + 1` entries ending inside
the storage, validity bitmaps of exactly the inner row count, tuple fields
all of the declared length, and the nullable wrapper applied at most once
per level — spec §4.2: `wrap_nullable` adds "exactly one level"). -/
def Column.wf : Column → Bool
  | .null _ => true
  | .emptyArray _ => true
  | .emptyMap _ => true
  | .number _ _ => true
  | .decimal _ _ _ => true
  | .boolean _ => true
  | .string data offsets => offsetsOk offsets data.length
  | .timestamp _ => true
  | .date _ => true
  | .array values offsets => offsetsOk offsets values.len && values.wf
  | .map values offsets => offsetsOk offsets values.len && values.wf
  | .nullable inner validity =>
    validity.length == inner.len && !inner.isNullableCol && inner.wf
  | .tuple fields len => fields.attach.all fun f => Column.len f.1 == len && Column.wf f.1
  | .variant data offsets => offsetsOk offsets data.length
termination_by c => sizeOf c
decreasing_by
  all_goals simp_wf
  all_goals first
    | omega
    | (have q := List.sizeOf_lt_of_mem f.2; omega)

/-- Representation-free view of a single value: the tree of logical
values, with columns replaced by their row sequences.  Two columns with
the same `semRows` are element-wise equal. -/
inductive SemValue where
  | null
  | emptyArray
  | emptyMap
  | num (k : NumKind) (v : Int)
  | dec (w : DecW) (v : Int) (size : DecimalSize)
  | bool (b : Bool)
  | str (s : List Nat)
  | ts (t : Int)
  | date (d : Int)
  | arr (ty : DataType) (rows : List SemValue)
  | mapRows (ty : DataType) (rows : List SemValue)
  | tup (fields : List SemValue)
  | variant (s : List Nat)
  | masked

/-- A row of a nullable column whose validity bit is unset is `masked`
(the `None` yielded by `NullableColumn::iter`); `Column::index` collapses
it to the `Null` scalar, and `Column::index` on a tuple column indexes
each field, collapsing masked field rows likewise.  Array/map rows carry
the nested column's logical type so that two rows are equal exactly when
the nested columns are indistinguishable to the source's comparisons. -/
def SemValue.collapseTop : SemValue → SemValue
  | .masked => .null
  | .tup fields => .tup (fields.attach.map fun f => SemValue.collapseTop f.1)
  | r => r
termination_by v => sizeOf v
decreasing_by
  all_goals simp_wf
  all_goals (have q := List.sizeOf_lt_of_mem f.2; omega)

theorem collapseTop_tup (xs : List SemValue) :
    SemValue.collapseTop (.tup xs) = .tup (xs.map SemValue.collapseTop) := by
  rw [show SemValue.collapseTop (.tup xs)
      = .tup (xs.attach.map fun f => SemValue.collapseTop f.1) by
    simp [SemValue.collapseTop]]
  rw [attachMap]

/-- The rows delimited by consecutive offsets pairs: row `i` is
`rows[offsets[i] .. offsets[i+1])`. -/
def windowsOf (rows : List α) : List Nat → List (List α)
  | a :: b :: rest => sliceList rows a b :: windowsOf rows (b :: rest)
  | _ => []

/-- The sequence of logical rows stored in a column, per the storage
description of spec §3 (each variant's bulk encoding read back row by
row). -/
def Column.semRows : Column → List SemValue
  | .null len => List.replicate len .null
  | .emptyArray len => List.replicate len .emptyArray
  | .emptyMap len => List.replicate len .emptyMap
  | .number k values => values.map (SemValue.num k)
  | .decimal w values size => values.map fun v => SemValue.dec w v size
  | .boolean values => values.map SemValue.bool
  | .string data offsets => (windowsOf data offsets).map SemValue.str
  | .timestamp values => values.map SemValue.ts
  | .date values => values.map SemValue.date
  | .array values offsets =>
    (windowsOf values.semRows offsets).map (SemValue.arr values.dataType)
  | .map values offsets =>
    (windowsOf values.semRows offsets).map (SemValue.mapRows values.dataType)
  | .nullable inner validity =>
    List.zipWith (fun (valid : Bool) r => if valid then r else SemValue.masked)
      validity inner.semRows
  | .tuple fields len =>
    (List.range len).map fun i =>
      SemValue.tup (fields.attach.map fun f => (Column.semRows f.1)[i]?.getD SemValue.null)
  | .variant data offsets => (windowsOf data offsets).map SemValue.variant
termination_by c => sizeOf c
decreasing_by
  all_goals simp_wf
  all_goals first
    | omega
    | (have q := List.sizeOf_lt_of_mem f.2; omega)

/-- The representation-free value of a scalar (array/map scalars are read
back as their row sequences). -/
def Scalar.sem : Scalar → SemValue
  | .null => .null
  | .emptyArray => .emptyArray
  | .emptyMap => .emptyMap
  | .number k v => .num k v
  | .decimal w v size => .dec w v size
  | .boolean b => .bool b
  | .string s => .str s
  | .timestamp t => .ts t
  | .date d => .date d
  | .array col => .arr col.dataType col.semRows
  | .map col => .mapRows col.dataType col.semRows
  | .tuple fields => .tup (fields.attach.map fun f => Scalar.sem f.1)
  | .variant s => .variant s
termination_by s => sizeOf s
decreasing_by
  all_goals simp_wf
  all_goals first
    | omega
    | (have q := List.sizeOf_lt_of_mem f.2; omega)

/-- The variants whose `Column::index` consults the row index: everything
except the length-only variants (and tuples none of whose fields do). -/
def Column.boundsChecked : Column → Bool
  | .null _ => false
  | .emptyArray _ => false
  | .emptyMap _ => false
  | .tuple fields _ => fields.attach.any fun f => Column.boundsChecked f.1
  | _ => true
termination_by c => sizeOf c
decreasing_by
  all_goals simp_wf
  all_goals first
    | omega
    | (have q := List.sizeOf_lt_of_mem f.2; omega)

theorem optTraverse_length {l : List (Option α)} {ys : List α}
    (h : optTraverse l = some ys) : ys.length = l.length := by
  induction l generalizing ys with
  | nil =>
    have h2 : some ([] : List α) = some ys := h
    cases h2
    rfl
  | cons x xs ih =>
    cases x with
    | none =>
      have h2 : (none : Option (List α)) = some ys := h
      cases h2
    | some a =>
      have h2 : (optTraverse xs).map (a :: ·) = some ys := h
      cases hrest : optTraverse xs with
      | none => rw [hrest] at h2; cases h2
      | some t =>
        rw [hrest] at h2
        have h3 : some (a :: t) = some ys := h2
        cases h3
        simp [ih hrest]

theorem optTraverse_map_getElem? {f : α → Option β} {l : List α} {ys : List β}
    (h : optTraverse (l.map f) = some ys) : ∀ i : Nat, ys[i]? = (l[i]?).bind f := by
  induction l generalizing ys with
  | nil =>
    have h2 : some ([] : List β) = some ys := h
    cases h2
    intro i
    simp
  | cons x xs ih =>
    cases hx : f x with
    | none =>
      have h2 : (none : Option (List β)) = some ys := by
        rw [show optTraverse ((x :: xs).map f) = optTraverse (f x :: xs.map f) from rfl,
          hx] at h
        exact h
      cases h2
    | some a =>
      have h2 : (optTraverse (xs.map f)).map (a :: ·) = some ys := by
        rw [show optTraverse ((x :: xs).map f) = optTraverse (f x :: xs.map f) from rfl,
          hx] at h
        exact h
      cases hrest : optTraverse (xs.map f) with
      | none => rw [hrest] at h2; cases h2
      | some t =>
        rw [hrest] at h2
        have h3 : some (a :: t) = some ys := h2
        cases h3
        intro i
        cases i with
        | zero => simp [hx]
        | succ j => simpa using ih hrest j

theorem optTraverse_map_isSome {f : α → Option β} {l : List α}
    (h : ∀ x ∈ l, (f x).isSome) : (optTraverse (l.map f)).isSome := by
  induction l with
  | nil => exact rfl
  | cons x xs ih =>
    have hx := h x (by simp)
    rw [show optTraverse ((x :: xs).map f) = optTraverse (f x :: xs.map f) from rfl]
    cases hfx : f x with
    | none => rw [hfx] at hx; simp at hx
    | some a =>
      have hxs := ih (fun y hy => h y (by simp [hy]))
      show ((optTraverse (xs.map f)).map (a :: ·)).isSome
      cases hrest : optTraverse (xs.map f) with
      | none => rw [hrest] at hxs; simp at hxs
      | some t => simp

theorem optTraverse_map_eq_none {f : α → Option β} {l : List α} :
    optTraverse (l.map f) = none ↔ ∃ x ∈ l, f x = none := by
  induction l with
  | nil =>
    rw [show optTraverse (([] : List α).map f) = some [] from rfl]
    simp
  | cons x xs ih =>
    rw [show optTraverse ((x :: xs).map f) = optTraverse (f x :: xs.map f) from rfl]
    cases hfx : f x with
    | none =>
      show (none : Option (List β)) = none ↔ _
      simp only [List.mem_cons, true_iff]
      exact ⟨x, Or.inl rfl, hfx⟩
    | some a =>
      show (optTraverse (xs.map f)).map (a :: ·) = none ↔ _
      cases hrest : optTraverse (xs.map f) with
      | none =>
        simp only [hrest] at ih
        constructor
        · intro _
          obtain ⟨y, hy, hfy⟩ := ih.mp (by trivial)
          exact ⟨y, by simp [hy], hfy⟩
        · intro _
          rfl
      | some t =>
        simp only [hrest] at ih
        constructor
        · intro hcontra
          exact absurd hcontra (by simp)
        · rintro ⟨y, hy, hfy⟩
          rcases List.mem_cons.mp hy with h1 | h2
          · rw [h1] at hfy; rw [hfy] at hfx; cases hfx
          · exact absurd (ih.mpr ⟨y, h2, hfy⟩) (by simp)

theorem sliceList_length {l : List α} {e : Nat} (s : Nat) (h : e ≤ l.length) :
    (sliceList l s e).length = e - s := by
  simp [sliceList]
  omega

theorem sliceList_getElem? {l : List α} {s e i : Nat} (h : i < e - s) :
    (sliceList l s e)[i]? = l[s + i]? := by
  unfold sliceList
  rw [List.getElem?_take_of_lt h, List.getElem?_drop]

theorem sliceList_nil_of_ge {l : List α} {s e : Nat} (h : e ≤ s) :
    sliceList l s e = [] := by
  unfold sliceList
  have : e - s = 0 := by omega
  rw [this, List.take_zero]

theorem windowsOf_length (rows : List α) (offs : List Nat) :
    (windowsOf rows offs).length = offs.length - 1 := by
  induction offs with
  | nil => rfl
  | cons a t ih =>
    cases t with
    | nil => rfl
    | cons b rest => simp only [windowsOf, List.length_cons] at ih ⊢; omega

theorem windowsOf_getElem? (rows : List α) (offs : List Nat) (i : Nat)
    (h : i + 1 < offs.length) :
    (windowsOf rows offs)[i]? =
      some (sliceList rows (offs[i]?.getD 0) (offs[i + 1]?.getD 0)) := by
  induction offs generalizing i with
  | nil => simp at h
  | cons a t ih =>
    cases t with
    | nil => simp at h
    | cons b rest =>
      cases i with
      | zero => simp [windowsOf]
      | succ j =>
        simp only [List.length_cons] at h
        have := ih j (by simpa using h)
        simpa [windowsOf] using this

theorem nondecreasing_tail {a : Nat} {t : List Nat}
    (h : nondecreasing (a :: t) = true) : nondecreasing t = true := by
  cases t with
  | nil => rfl
  | cons b rest =>
    simp only [nondecreasing, Bool.and_eq_true] at h
    exact h.2

theorem getElem_le_lastOffset {offs : List Nat} (h : nondecreasing offs = true)
    {i : Nat} (hi : i < offs.length) : offs[i]?.getD 0 ≤ lastOffset offs := by
  induction offs generalizing i with
  | nil => simp at hi
  | cons a t ih =>
    cases t with
    | nil =>
      have h0 : i = 0 := by simp at hi; omega
      subst h0
      simp [lastOffset]
    | cons b rest =>
      have hab : a ≤ b := by
        simp only [nondecreasing, Bool.and_eq_true] at h
        exact by exact_mod_cast decide_eq_true_eq.mp (by exact h.1)
      have htail := nondecreasing_tail h
      have hlast : lastOffset (a :: b :: rest) = lastOffset (b :: rest) := by
        simp [lastOffset, List.getLast?_cons_cons]
      cases i with
      | zero =>
        rw [hlast]
        have hb := ih htail (i := 0) (by simp)
        simp only [List.getElem?_cons_zero, Option.getD_some] at hb ⊢
        omega
      | succ j =>
        rw [hlast]
        have := ih htail (i := j) (by simpa using hi)
        simpa using this

theorem nondecreasing_getElem_le {offs : List Nat} (h : nondecreasing offs = true)
    {i j : Nat} (hij : i ≤ j) (hj : j < offs.length) :
    offs[i]?.getD 0 ≤ offs[j]?.getD 0 := by
  induction offs generalizing i j with
  | nil => simp at hj
  | cons a t ih =>
    cases t with
    | nil =>
      have hj0 : j = 0 := by simp at hj; omega
      have hi0 : i = 0 := by omega
      subst hj0
      subst hi0
      exact le_refl _
    | cons b rest =>
      have hab : a ≤ b := by
        simp only [nondecreasing, Bool.and_eq_true] at h
        exact by exact_mod_cast decide_eq_true_eq.mp (by exact h.1)
      have htail := nondecreasing_tail h
      cases j with
      | zero =>
        have hi0 : i = 0 := by omega
        subst hi0
        exact le_refl _
      | succ j2 =>
        cases i with
        | zero =>
          have hb := ih htail (i := 0) (j := j2) (by omega) (by simpa using hj)
          simp only [List.getElem?_cons_zero, Option.getD_some] at hb ⊢
          simp only [List.getElem?_cons_succ]
          omega
        | succ i2 =>
          have := ih htail (i := i2) (j := j2) (by omega) (by simpa using hj)
          simpa using this

theorem Column.semRows_length (c : Column) (h : c.wf = true) :
    c.semRows.length = c.len := by
  match c with
  | .null len => simp [Column.semRows, Column.len]
  | .emptyArray len => simp [Column.semRows, Column.len]
  | .emptyMap len => simp [Column.semRows, Column.len]
  | .number k values => simp [Column.semRows, Column.len]
  | .decimal w values size => simp [Column.semRows, Column.len]
  | .boolean values => simp [Column.semRows, Column.len]
  | .string data offsets => simp [Column.semRows, Column.len, windowsOf_length]
  | .timestamp values => simp [Column.semRows, Column.len]
  | .date values => simp [Column.semRows, Column.len]
  | .array values offsets => simp [Column.semRows, Column.len, windowsOf_length]
  | .map values offsets => simp [Column.semRows, Column.len, windowsOf_length]
  | .nullable inner validity =>
    have hw : (validity.length = inner.len ∧ inner.isNullableCol = false) ∧
        inner.wf = true := by simpa [Column.wf] using h
    have ih := Column.semRows_length inner hw.2
    simp [Column.semRows, Column.len, ih, hw.1.1]
  | .tuple fields len => simp [Column.semRows, Column.len]
  | .variant data offsets => simp [Column.semRows, Column.len, windowsOf_length]
termination_by sizeOf c

theorem Column.noGeneric_dataType (c : Column) : (c.dataType).noGeneric = true := by
  match c with
  | .null _ => simp [Column.dataType, DataType.noGeneric]
  | .emptyArray _ => simp [Column.dataType, DataType.noGeneric]
  | .emptyMap _ => simp [Column.dataType, DataType.noGeneric]
  | .number _ _ => simp [Column.dataType, DataType.noGeneric]
  | .decimal _ _ _ => simp [Column.dataType, DataType.noGeneric]
  | .boolean _ => simp [Column.dataType, DataType.noGeneric]
  | .string _ _ => simp [Column.dataType, DataType.noGeneric]
  | .timestamp _ => simp [Column.dataType, DataType.noGeneric]
  | .date _ => simp [Column.dataType, DataType.noGeneric]
  | .array values _ =>
    have ih := Column.noGeneric_dataType values
    simp [Column.dataType, DataType.noGeneric, ih]
  | .map values _ =>
    have ih := Column.noGeneric_dataType values
    simp [Column.dataType, DataType.noGeneric, ih]
  | .nullable inner _ =>
    have ih := Column.noGeneric_dataType inner
    simp [Column.dataType, DataType.noGeneric, ih]
  | .tuple fields len =>
    have ih : ∀ f ∈ fields, (Column.dataType f).noGeneric = true := fun f _ =>
      Column.noGeneric_dataType f
    rw [show Column.dataType (.tuple fields len)
        = .tuple (fields.attach.map fun f => Column.dataType f.1) by
      simp [Column.dataType]]
    rw [show DataType.noGeneric (.tuple (fields.attach.map fun f => Column.dataType f.1))
        = ((fields.attach.map fun f => Column.dataType f.1).all fun t =>
            DataType.noGeneric t) by
      simp [DataType.noGeneric, attachAll]]
    rw [List.all_eq_true]
    intro x hx
    obtain ⟨a, _, rfl⟩ := List.mem_map.mp hx
    exact ih a.1 a.2
  | .variant _ _ => simp [Column.dataType, DataType.noGeneric]
termination_by sizeOf c
decreasing_by
  all_goals simp_wf
  all_goals first
    | omega
    | (rename_i hmem; have := List.sizeOf_lt_of_mem hmem; omega)

theorem Column.isNullableCol_ty (c : Column) :
    c.isNullableCol = (c.dataType).isNullableTy := by
  cases c <;> simp [Column.isNullableCol, Column.dataType, DataType.isNullableTy]

theorem defaultEmptyColumn_spec (t : DataType) (h : t.noGeneric = true)
    (h2 : t.noNestedNullable = true) :
    ∃ c, defaultEmptyColumn t = some c ∧ c.len = 0 ∧ c.dataType = t ∧
      c.wf = true ∧ c.semRows = [] := by
  match t with
  | .null =>
    exact ⟨.null 0, by simp [defaultEmptyColumn], rfl, by simp [Column.dataType],
      by simp [Column.wf], by simp [Column.semRows]⟩
  | .emptyArray =>
    exact ⟨.emptyArray 0, by simp [defaultEmptyColumn], rfl, by simp [Column.dataType],
      by simp [Column.wf], by simp [Column.semRows]⟩
  | .emptyMap =>
    exact ⟨.emptyMap 0, by simp [defaultEmptyColumn], rfl, by simp [Column.dataType],
      by simp [Column.wf], by simp [Column.semRows]⟩
  | .number k =>
    exact ⟨.number k [], by simp [defaultEmptyColumn], rfl, by simp [Column.dataType],
      by simp [Column.wf], by simp [Column.semRows]⟩
  | .decimal w size =>
    exact ⟨.decimal w [] size, by simp [defaultEmptyColumn], rfl,
      by simp [Column.dataType], by simp [Column.wf], by simp [Column.semRows]⟩
  | .boolean =>
    exact ⟨.boolean [], by simp [defaultEmptyColumn], rfl, by simp [Column.dataType],
      by simp [Column.wf], by simp [Column.semRows]⟩
  | .string =>
    refine ⟨.string [] [0], by simp [defaultEmptyColumn], rfl,
      by simp [Column.dataType], ?_, ?_⟩
    · simp [Column.wf, offsetsOk, nondecreasing, lastOffset]
    · simp [Column.semRows, windowsOf]
  | .timestamp =>
    exact ⟨.timestamp [], by simp [defaultEmptyColumn], rfl, by simp [Column.dataType],
      by simp [Column.wf], by simp [Column.semRows]⟩
  | .date =>
    exact ⟨.date [], by simp [defaultEmptyColumn], rfl, by simp [Column.dataType],
      by simp [Column.wf], by simp [Column.semRows]⟩
  | .array te =>
    have hin : te.noGeneric = true := by simpa [DataType.noGeneric] using h
    have hin2 : te.noNestedNullable = true := by
      simpa [DataType.noNestedNullable] using h2
    obtain ⟨c, hc, hlen, hty, hwf, _⟩ := defaultEmptyColumn_spec te hin hin2
    refine ⟨.array c [0], ?_, by simp [Column.len], ?_, ?_, ?_⟩
    · simp [defaultEmptyColumn, hc]
    · simp [Column.dataType, hty]
    · simp [Column.wf, offsetsOk, nondecreasing, lastOffset, hwf]
    · simp [Column.semRows, windowsOf]
  | .map te =>
    have hin : te.noGeneric = true := by simpa [DataType.noGeneric] using h
    have hin2 : te.noNestedNullable = true := by
      simpa [DataType.noNestedNullable] using h2
    obtain ⟨c, hc, hlen, hty, hwf, _⟩ := defaultEmptyColumn_spec te hin hin2
    refine ⟨.map c [0], ?_, by simp [Column.len], ?_, ?_, ?_⟩
    · simp [defaultEmptyColumn, hc]
    · simp [Column.dataType, hty]
    · simp [Column.wf, offsetsOk, nondecreasing, lastOffset, hwf]
    · simp [Column.semRows, windowsOf]
  | .nullable te =>
    have hin : te.noGeneric = true := by simpa [DataType.noGeneric] using h
    have hnn : te.isNullableTy = false ∧ te.noNestedNullable = true := by
      have := h2
      simp only [DataType.noNestedNullable, Bool.and_eq_true, Bool.not_eq_true'] at this
      exact this
    obtain ⟨c, hc, hlen, hty, hwf, _⟩ := defaultEmptyColumn_spec te hin hnn.2
    refine ⟨.nullable c [], ?_, by simp [Column.len], ?_, ?_, ?_⟩
    · simp [defaultEmptyColumn, hc]
    · simp [Column.dataType, hty]
    · have hic : c.isNullableCol = false := by
        rw [Column.isNullableCol_ty, hty]
        exact hnn.1
      simp [Column.wf, hwf, hlen, hic]
    · simp [Column.semRows]
  | .tuple ts =>
    have hin : ∀ x ∈ ts, x.noGeneric = true := by
      rw [show DataType.noGeneric (.tuple ts)
          = (ts.attach.all fun x => DataType.noGeneric x.1) by
        simp [DataType.noGeneric]] at h
      rw [attachAll, List.all_eq_true] at h
      exact h
    have hin2 : ∀ x ∈ ts, x.noNestedNullable = true := by
      rw [show DataType.noNestedNullable (.tuple ts)
          = (ts.attach.all fun x => DataType.noNestedNullable x.1) by
        simp [DataType.noNestedNullable]] at h2
      rw [attachAll, List.all_eq_true] at h2
      exact h2
    have hex : ∀ x ∈ ts, ∃ c, defaultEmptyColumn x = some c ∧ c.len = 0 ∧
        c.dataType = x ∧ c.wf = true ∧ c.semRows = [] := fun x hx =>
      defaultEmptyColumn_spec x (hin x hx) (hin2 x hx)
    have hsome : ∀ x ∈ ts, (defaultEmptyColumn x).isSome := by
      intro x hx
      obtain ⟨c, hc, _⟩ := hex x hx
      simp [hc]
    have his := optTraverse_map_isSome hsome
    obtain ⟨ys, hys⟩ := Option.isSome_iff_exists.mp his
    have hlen : ys.length = ts.length := by
      have := optTraverse_length hys
      simpa using this
    have hget := optTraverse_map_getElem? hys
    have hpt : ∀ i : Nat, i < ts.length →
        ∃ x c, ts[i]? = some x ∧ ys[i]? = some c ∧ defaultEmptyColumn x = some c := by
      intro i hi
      have hx : ts[i]? = some ts[i] := List.getElem?_eq_getElem hi
      have hm : ts[i] ∈ ts := List.getElem_mem hi
      obtain ⟨c, hc, _⟩ := hex _ hm
      refine ⟨ts[i], c, hx, ?_, hc⟩
      rw [hget i, hx]
      simpa using hc
    refine ⟨.tuple ys 0, ?_, by simp [Column.len], ?_, ?_, ?_⟩
    · rw [show defaultEmptyColumn (.tuple ts)
          = (optTraverse (ts.attach.map fun x => defaultEmptyColumn x.1)).map
              fun fs => Column.tuple fs 0 by
        simp [defaultEmptyColumn]]
      rw [show (ts.attach.map fun x => defaultEmptyColumn x.1)
          = ts.map defaultEmptyColumn from attachMap ts defaultEmptyColumn]
      rw [hys]
      rfl
    · rw [show Column.dataType (.tuple ys 0)
          = .tuple (ys.attach.map fun f => Column.dataType f.1) by
        simp [Column.dataType]]
      rw [attachMap]
      congr 1
      apply List.ext_getElem?
      intro i
      by_cases hi : i < ts.length
      · obtain ⟨x, c, hx, hy, hc⟩ := hpt i hi
        obtain ⟨c2, hc2, _, hty2, _, _⟩ := hex x (by
          have := List.getElem?_eq_some.mp hx
          obtain ⟨hh, hxx⟩ := this
          rw [← hxx]
          exact List.getElem_mem hh)
        rw [hc] at hc2
        cases hc2
        simp only [List.getElem?_map, hy, hx]
        simp [hty2]
      · have h1 : ts[i]? = none := List.getElem?_eq_none (by omega)
        have h2 : ys[i]? = none := List.getElem?_eq_none (by omega)
        simp [h1, h2]
    · rw [show Column.wf (.tuple ys 0)
          = (ys.attach.all fun f => Column.len f.1 == 0 && Column.wf f.1) by
        simp [Column.wf]]
      rw [List.all_eq_true]
      intro cx _
      obtain ⟨c, hc⟩ := cx
      show (Column.len c == 0 && Column.wf c) = true
      obtain ⟨i, hi, hci⟩ := List.getElem_of_mem hc
      have hys_i : ys[i]? = some c := by rw [List.getElem?_eq_getElem hi, hci]
      have hi2 : i < ts.length := by omega
      obtain ⟨x, c2, hx, hy, hdef⟩ := hpt i hi2
      rw [hys_i] at hy
      cases hy
      obtain ⟨c3, hc3, hlen3, _, hwf3, _⟩ := hex x (by
        have := List.getElem?_eq_some.mp hx
        obtain ⟨hh, hxx⟩ := this
        rw [← hxx]
        exact List.getElem_mem hh)
      rw [hdef] at hc3
      cases hc3
      simp [hlen3, hwf3]
    · simp [Column.semRows]
  | .variant =>
    refine ⟨.variant [] [0], by simp [defaultEmptyColumn], rfl,
      by simp [Column.dataType], ?_, ?_⟩
    · simp [Column.wf, offsetsOk, nondecreasing, lastOffset]
    · simp [Column.semRows, windowsOf]
  | .generic i => simp [DataType.noGeneric] at h
termination_by sizeOf t

theorem sliceList_map {l : List α} (f : α → β) (s e : Nat) :
    sliceList (l.map f) s e = (sliceList l s e).map f := by
  simp [sliceList, List.map_drop, List.map_take]

theorem sliceList_replicate {n s e : Nat} (x : α) (h : e ≤ n) :
    sliceList (List.replicate n x) s e = List.replicate (e - s) x := by
  simp [sliceList, List.drop_replicate, List.take_replicate]
  omega

theorem sliceList_zipWith {f : α → β → γ} {a : List α} {b : List β} (s e : Nat) :
    sliceList (List.zipWith f a b) s e =
      List.zipWith f (sliceList a s e) (sliceList b s e) := by
  simp [sliceList, List.drop_zipWith, List.take_zipWith]

theorem lastOffset_eq (l : List Nat) : lastOffset l = l[l.length - 1]?.getD 0 := by
  rw [lastOffset, List.getLast?_eq_getElem?]

theorem nondecreasing_iff (l : List Nat) :
    nondecreasing l = true ↔
      ∀ i : Nat, i + 1 < l.length → l[i]?.getD 0 ≤ l[i + 1]?.getD 0 := by
  induction l with
  | nil => simp [nondecreasing]
  | cons a t ih =>
    cases t with
    | nil =>
      simp only [nondecreasing, List.length_cons, List.length_nil]
      constructor
      · intro _ i hi
        omega
      · intro _
        trivial
    | cons b rest =>
      rw [show nondecreasing (a :: b :: rest) = ((a ≤ b : Bool) && nondecreasing (b :: rest))
          from rfl]
      rw [Bool.and_eq_true, ih]
      constructor
      · rintro ⟨hab, hrest⟩ i hi
        cases i with
        | zero => simpa using hab
        | succ j =>
          have := hrest j (by simpa using hi)
          simpa using this
      · intro h
        refine ⟨?_, ?_⟩
        · have := h 0 (by simp)
          simpa using this
        · intro j hj
          have := h (j + 1) (by simpa using hj)
          simpa using this

theorem sliceList_length_eq (l : List α) (s e : Nat) :
    (sliceList l s e).length = min (e - s) (l.length - s) := by
  simp [sliceList]

theorem nondecreasing_sliceList {offs : List Nat} (h : nondecreasing offs = true)
    (s e : Nat) : nondecreasing (sliceList offs s e) = true := by
  rw [nondecreasing_iff]
  intro i hi
  rw [sliceList_length_eq] at hi
  rw [sliceList_getElem? (by omega), sliceList_getElem? (by omega)]
  exact nondecreasing_getElem_le h (i := s + i) (j := s + (i + 1)) (by omega) (by omega)

theorem windowsOf_sliceOffsets (rows : List α) (offs : List Nat) (s e : Nat)
    (h1 : e + 1 ≤ offs.length) (h2 : s < e + 1) :
    windowsOf rows (sliceList offs s (e + 1)) = sliceList (windowsOf rows offs) s e := by
  apply List.ext_getElem?
  intro i
  have hwl : (windowsOf rows offs).length = offs.length - 1 := windowsOf_length _ _
  have hsl : (sliceList offs s (e + 1)).length = e + 1 - s := sliceList_length s h1
  have hwl2 : (windowsOf rows (sliceList offs s (e + 1))).length = e + 1 - s - 1 := by
    rw [windowsOf_length, hsl]
  by_cases hi : i < e - s
  · have hL : (windowsOf rows (sliceList offs s (e + 1)))[i]? =
        some (sliceList rows (offs[s + i]?.getD 0) (offs[s + (i + 1)]?.getD 0)) := by
      rw [windowsOf_getElem? _ _ _ (by rw [hsl]; omega)]
      rw [sliceList_getElem? (i := i) (by omega),
        sliceList_getElem? (i := i + 1) (by omega)]
    have hR : (sliceList (windowsOf rows offs) s e)[i]? =
        some (sliceList rows (offs[s + i]?.getD 0) (offs[s + i + 1]?.getD 0)) := by
      rw [sliceList_getElem? (i := i) (by omega)]
      rw [windowsOf_getElem? _ _ _ (by omega)]
    rw [hL, hR]
    rfl
  · have hnone1 : (windowsOf rows (sliceList offs s (e + 1)))[i]? = none :=
      List.getElem?_eq_none (by omega)
    have hnone2 : (sliceList (windowsOf rows offs) s e)[i]? = none := by
      apply List.getElem?_eq_none
      rw [sliceList_length_eq]
      omega
    rw [hnone1, hnone2]

theorem wf_tuple_iff (fields : List Column) (len : Nat) :
    Column.wf (.tuple fields len) = true ↔
      ∀ f ∈ fields, Column.len f = len ∧ Column.wf f = true := by
  rw [show Column.wf (.tuple fields len)
      = (fields.attach.all fun f => Column.len f.1 == len && Column.wf f.1) from by
    simp [Column.wf]]
  rw [List.all_eq_true]
  constructor
  · intro h f hf
    have := h ⟨f, hf⟩ (List.mem_attach _ _)
    simpa using this
  · intro h x _
    have := h x.1 x.2
    simp [this.1, this.2]

theorem Column.noNested_dataType (c : Column) (hwf : c.wf = true) :
    (c.dataType).noNestedNullable = true := by
  match c with
  | .null _ | .emptyArray _ | .emptyMap _ | .number _ _ | .decimal _ _ _
  | .boolean _ | .string _ _ | .timestamp _ | .date _ | .variant _ _ =>
    simp [Column.dataType, DataType.noNestedNullable]
  | .array values offs =>
    have hw2 : values.wf = true := by
      have h3 : (offsetsOk offs values.len && values.wf) = true := by
        simpa [Column.wf] using hwf
      rw [Bool.and_eq_true] at h3
      exact h3.2
    have ih := Column.noNested_dataType values hw2
    simp [Column.dataType, DataType.noNestedNullable, ih]
  | .map values offs =>
    have hw2 : values.wf = true := by
      have h3 : (offsetsOk offs values.len && values.wf) = true := by
        simpa [Column.wf] using hwf
      rw [Bool.and_eq_true] at h3
      exact h3.2
    have ih := Column.noNested_dataType values hw2
    simp [Column.dataType, DataType.noNestedNullable, ih]
  | .nullable inner validity =>
    have hw2 : (validity.length = inner.len ∧ inner.isNullableCol = false) ∧
        inner.wf = true := by simpa [Column.wf] using hwf
    have ih := Column.noNested_dataType inner hw2.2
    have hnn : (inner.dataType).isNullableTy = false := by
      rw [← Column.isNullableCol_ty]
      exact hw2.1.2
    simp [Column.dataType, DataType.noNestedNullable, ih, hnn]
  | .tuple fields len =>
    have hw2 := (wf_tuple_iff fields len).mp hwf
    have ih : ∀ f ∈ fields, (Column.dataType f).noNestedNullable = true := fun f hf =>
      Column.noNested_dataType f (hw2 f hf).2
    rw [show Column.dataType (.tuple fields len)
        = .tuple (fields.attach.map fun f => Column.dataType f.1) by
      simp [Column.dataType]]
    rw [show DataType.noNestedNullable
          (.tuple (fields.attach.map fun f => Column.dataType f.1))
        = ((fields.attach.map fun f => Column.dataType f.1).all fun t =>
            DataType.noNestedNullable t) by
      simp [DataType.noNestedNullable, attachAll]]
    rw [List.all_eq_true]
    intro x hx
    obtain ⟨a, _, rfl⟩ := List.mem_map.mp hx
    exact ih a.1 a.2
termination_by sizeOf c
decreasing_by
  all_goals simp_wf
  all_goals first
    | omega
    | (have q := List.sizeOf_lt_of_mem hf; omega)
    | (rename_i hmem; have := List.sizeOf_lt_of_mem hmem; omega)

theorem offsetsOk_iff (offs : List Nat) (bound : Nat) :
    offsetsOk offs bound = true ↔
      0 < offs.length ∧ nondecreasing offs = true ∧ lastOffset offs ≤ bound := by
  simp only [offsetsOk, Bool.and_eq_true, Bool.not_eq_true', decide_eq_true_eq]
  constructor
  · rintro ⟨⟨hne, hnd⟩, hl⟩
    refine ⟨?_, hnd, hl⟩
    cases offs with
    | nil => simp at hne
    | cons a t => simp
  · rintro ⟨hne, hnd, hl⟩
    refine ⟨⟨?_, hnd⟩, hl⟩
    cases offs with
    | nil => simp at hne
    | cons a t => rfl

theorem offsetsOk_sliceList {offs : List Nat} {bound : Nat}
    (h : offsetsOk offs bound = true) {s e : Nat} (hs : s < e + 1)
    (he : e + 1 ≤ offs.length) :
    offsetsOk (sliceList offs s (e + 1)) bound = true := by
  rw [offsetsOk_iff] at h ⊢
  obtain ⟨hlen, hnd, hlast⟩ := h
  refine ⟨?_, nondecreasing_sliceList hnd _ _, ?_⟩
  · rw [sliceList_length_eq]
    omega
  · rw [lastOffset_eq, sliceList_length_eq]
    have hidx : min (e + 1 - s) (offs.length - s) - 1 = e - s := by omega
    rw [hidx, sliceList_getElem? (by omega)]
    calc offs[s + (e - s)]?.getD 0
        ≤ lastOffset offs := getElem_le_lastOffset hnd (by omega)
      _ ≤ bound := hlast

theorem Column.slice_spec (c : Column) (hwf : c.wf = true) (s e : Nat)
    (he : e ≤ c.len) :
    ∃ cs, c.slice s e = some cs ∧ cs.len = e - s ∧ cs.dataType = c.dataType ∧
      cs.wf = true ∧ cs.semRows = sliceList c.semRows s e := by
  have h1 : ¬ e > c.len := by omega
  by_cases hse : s ≥ e
  · obtain ⟨c0, hc0, hlen0, hty0, hwf0, hrows0⟩ :=
      defaultEmptyColumn_spec c.dataType (Column.noGeneric_dataType c)
        (Column.noNested_dataType c hwf)
    refine ⟨c0, ?_, by omega, hty0, hwf0, ?_⟩
    · rw [Column.slice.eq_def, if_neg h1, if_pos hse, hc0]
    · rw [hrows0, sliceList_nil_of_ge hse]
  · push_neg at hse
    match c with
    | .null len =>
      simp only [Column.len] at he
      refine ⟨.null (e - s), ?_, by simp [Column.len], by simp [Column.dataType],
        by simp [Column.wf], ?_⟩
      · rw [Column.slice.eq_def, if_neg h1, if_neg (by omega)]
      · simp only [Column.semRows]
        rw [sliceList_replicate _ he]
    | .emptyArray len =>
      simp only [Column.len] at he
      refine ⟨.emptyArray (e - s), ?_, by simp [Column.len], by simp [Column.dataType],
        by simp [Column.wf], ?_⟩
      · rw [Column.slice.eq_def, if_neg h1, if_neg (by omega)]
      · simp only [Column.semRows]
        rw [sliceList_replicate _ he]
    | .emptyMap len =>
      simp only [Column.len] at he
      refine ⟨.emptyMap (e - s), ?_, by simp [Column.len], by simp [Column.dataType],
        by simp [Column.wf], ?_⟩
      · rw [Column.slice.eq_def, if_neg h1, if_neg (by omega)]
      · simp only [Column.semRows]
        rw [sliceList_replicate _ he]
    | .number k values =>
      simp only [Column.len] at he
      refine ⟨.number k (sliceList values s e), ?_, ?_, by simp [Column.dataType],
        by simp [Column.wf], ?_⟩
      · rw [Column.slice.eq_def, if_neg h1, if_neg (by omega)]
      · simp only [Column.len]
        exact sliceList_length s he
      · simp only [Column.semRows]
        rw [sliceList_map]
    | .decimal w values size =>
      simp only [Column.len] at he
      refine ⟨.decimal w (sliceList values s e) size, ?_, ?_, by simp [Column.dataType],
        by simp [Column.wf], ?_⟩
      · rw [Column.slice.eq_def, if_neg h1, if_neg (by omega)]
      · simp only [Column.len]
        exact sliceList_length s he
      · simp only [Column.semRows]
        rw [sliceList_map]
    | .boolean values =>
      simp only [Column.len] at he
      refine ⟨.boolean (sliceList values s e), ?_, ?_, by simp [Column.dataType],
        by simp [Column.wf], ?_⟩
      · rw [Column.slice.eq_def, if_neg h1, if_neg (by omega)]
      · simp only [Column.len]
        exact sliceList_length s he
      · simp only [Column.semRows]
        rw [sliceList_map]
    | .timestamp values =>
      simp only [Column.len] at he
      refine ⟨.timestamp (sliceList values s e), ?_, ?_, by simp [Column.dataType],
        by simp [Column.wf], ?_⟩
      · rw [Column.slice.eq_def, if_neg h1, if_neg (by omega)]
      · simp only [Column.len]
        exact sliceList_length s he
      · simp only [Column.semRows]
        rw [sliceList_map]
    | .date values =>
      simp only [Column.len] at he
      refine ⟨.date (sliceList values s e), ?_, ?_, by simp [Column.dataType],
        by simp [Column.wf], ?_⟩
      · rw [Column.slice.eq_def, if_neg h1, if_neg (by omega)]
      · simp only [Column.len]
        exact sliceList_length s he
      · simp only [Column.semRows]
        rw [sliceList_map]
    | .string data offsets =>
      simp only [Column.len] at he
      have hofs : offsetsOk offsets data.length = true := by
        simpa [Column.wf] using hwf
      have hpos : 0 < offsets.length := ((offsetsOk_iff _ _).mp hofs).1
      have he1 : e + 1 ≤ offsets.length := by omega
      refine ⟨.string data (sliceList offsets s (e + 1)), ?_, ?_,
        by simp [Column.dataType], ?_, ?_⟩
      · rw [Column.slice.eq_def, if_neg h1, if_neg (by omega)]
      · simp only [Column.len]
        rw [sliceList_length s he1]
        omega
      · simp only [Column.wf]
        exact offsetsOk_sliceList hofs (by omega) he1
      · simp only [Column.semRows]
        rw [windowsOf_sliceOffsets data offsets s e he1 (by omega), sliceList_map]
    | .variant data offsets =>
      simp only [Column.len] at he
      have hofs : offsetsOk offsets data.length = true := by
        simpa [Column.wf] using hwf
      have hpos : 0 < offsets.length := ((offsetsOk_iff _ _).mp hofs).1
      have he1 : e + 1 ≤ offsets.length := by omega
      refine ⟨.variant data (sliceList offsets s (e + 1)), ?_, ?_,
        by simp [Column.dataType], ?_, ?_⟩
      · rw [Column.slice.eq_def, if_neg h1, if_neg (by omega)]
      · simp only [Column.len]
        rw [sliceList_length s he1]
        omega
      · simp only [Column.wf]
        exact offsetsOk_sliceList hofs (by omega) he1
      · simp only [Column.semRows]
        rw [windowsOf_sliceOffsets data offsets s e he1 (by omega), sliceList_map]
    | .array values offsets =>
      simp only [Column.len] at he
      have hw2 : (offsetsOk offsets values.len && values.wf) = true := by
        simpa [Column.wf] using hwf
      rw [Bool.and_eq_true] at hw2
      have hpos : 0 < offsets.length := ((offsetsOk_iff _ _).mp hw2.1).1
      have he1 : e + 1 ≤ offsets.length := by omega
      refine ⟨.array values (sliceList offsets s (e + 1)), ?_, ?_, ?_, ?_, ?_⟩
      · rw [Column.slice.eq_def, if_neg h1, if_neg (by omega)]
      · simp only [Column.len]
        rw [sliceList_length s he1]
        omega
      · simp [Column.dataType]
      · simp only [Column.wf, Bool.and_eq_true]
        exact ⟨offsetsOk_sliceList hw2.1 (by omega) he1, hw2.2⟩
      · simp only [Column.semRows]
        rw [windowsOf_sliceOffsets _ offsets s e he1 (by omega), sliceList_map]
    | .map values offsets =>
      simp only [Column.len] at he
      have hw2 : (offsetsOk offsets values.len && values.wf) = true := by
        simpa [Column.wf] using hwf
      rw [Bool.and_eq_true] at hw2
      have hpos : 0 < offsets.length := ((offsetsOk_iff _ _).mp hw2.1).1
      have he1 : e + 1 ≤ offsets.length := by omega
      refine ⟨.map values (sliceList offsets s (e + 1)), ?_, ?_, ?_, ?_, ?_⟩
      · rw [Column.slice.eq_def, if_neg h1, if_neg (by omega)]
      · simp only [Column.len]
        rw [sliceList_length s he1]
        omega
      · simp [Column.dataType]
      · simp only [Column.wf, Bool.and_eq_true]
        exact ⟨offsetsOk_sliceList hw2.1 (by omega) he1, hw2.2⟩
      · simp only [Column.semRows]
        rw [windowsOf_sliceOffsets _ offsets s e he1 (by omega), sliceList_map]
    | .nullable inner validity =>
      simp only [Column.len] at he
      have hw2 : (validity.length = inner.len ∧ inner.isNullableCol = false) ∧
          inner.wf = true := by simpa [Column.wf] using hwf
      obtain ⟨ci, hci, hleni, htyi, hwfi, hrowsi⟩ :=
        Column.slice_spec inner hw2.2 s e (by omega)
      refine ⟨.nullable ci (sliceList validity s e), ?_, ?_, ?_, ?_, ?_⟩
      · rw [Column.slice.eq_def, if_neg h1, if_neg (by omega)]
        show (inner.slice s e).map _ = _
        rw [hci]
        rfl
      · simp only [Column.len]
        exact sliceList_length s he
      · simp [Column.dataType, htyi]
      · have hic : ci.isNullableCol = false := by
          rw [Column.isNullableCol_ty, htyi, ← Column.isNullableCol_ty]
          exact hw2.1.2
        simp only [Column.wf, Bool.and_eq_true, beq_iff_eq, Bool.not_eq_true']
        refine ⟨⟨?_, hic⟩, hwfi⟩
        rw [sliceList_length s he, hleni]
      · simp only [Column.semRows]
        rw [hrowsi, ← sliceList_zipWith]
    | .tuple fields len =>
      simp only [Column.len] at he
      have hw2 := (wf_tuple_iff fields len).mp hwf
      have hex : ∀ f ∈ fields, ∃ cf, Column.slice f s e = some cf ∧
          cf.len = e - s ∧ cf.dataType = f.dataType ∧ cf.wf = true ∧
          cf.semRows = sliceList f.semRows s e := by
        intro f hf
        exact Column.slice_spec f (hw2 f hf).2 s e (by rw [(hw2 f hf).1]; omega)
      have hsome : ∀ f ∈ fields, (Column.slice f s e).isSome := by
        intro f hf
        obtain ⟨cf, hcf, _⟩ := hex f hf
        simp [hcf]
      have his := optTraverse_map_isSome hsome
      obtain ⟨ys, hys⟩ := Option.isSome_iff_exists.mp his
      have hlen : ys.length = fields.length := by
        have := optTraverse_length hys
        simpa using this
      have hget := optTraverse_map_getElem? hys
      have hpt : ∀ i : Nat, i < fields.length →
          ∃ f cf, fields[i]? = some f ∧ ys[i]? = some cf ∧
            Column.slice f s e = some cf := by
        intro i hi
        have hx : fields[i]? = some fields[i] := List.getElem?_eq_getElem hi
        obtain ⟨cf, hcf, _⟩ := hex _ (List.getElem_mem hi)
        refine ⟨fields[i], cf, hx, ?_, hcf⟩
        rw [hget i, hx]
        simpa using hcf
      refine ⟨.tuple ys (e - s), ?_, by simp [Column.len], ?_, ?_, ?_⟩
      · rw [Column.slice.eq_def, if_neg h1, if_neg (by omega)]
        show (optTraverse (fields.attach.map fun f => Column.slice f.1 s e)).map _ = _
        rw [attachMap fields (fun f => Column.slice f s e), hys]
        rfl
      · rw [show Column.dataType (.tuple ys (e - s))
            = .tuple (ys.attach.map fun f => Column.dataType f.1) by
          simp [Column.dataType]]
        rw [show Column.dataType (.tuple fields len)
            = .tuple (fields.attach.map fun f => Column.dataType f.1) by
          simp [Column.dataType]]
        rw [attachMap, attachMap]
        congr 1
        apply List.ext_getElem?
        intro i
        by_cases hi : i < fields.length
        · obtain ⟨f, cf, hf, hy, hsl⟩ := hpt i hi
          obtain ⟨cf2, hcf2, _, hty2, _, _⟩ := hex f (by
            obtain ⟨hh, hxx⟩ := List.getElem?_eq_some.mp hf
            rw [← hxx]
            exact List.getElem_mem hh)
          rw [hsl] at hcf2
          cases hcf2
          simp only [List.getElem?_map, hy, hf]
          simp [hty2]
        · have hn1 : ys[i]? = none := List.getElem?_eq_none (by omega)
          have hn2 : fields[i]? = none := List.getElem?_eq_none (by omega)
          simp [hn1, hn2]
      · rw [wf_tuple_iff]
        intro cf hcf
        obtain ⟨i, hi, hci⟩ := List.getElem_of_mem hcf
        have hysi : ys[i]? = some cf := by rw [List.getElem?_eq_getElem hi, hci]
        obtain ⟨f, cf2, hf, hy, hsl⟩ := hpt i (by omega)
        rw [hysi] at hy
        cases hy
        obtain ⟨cf3, hcf3, hlen3, _, hwf3, _⟩ := hex f (by
          obtain ⟨hh, hxx⟩ := List.getElem?_eq_some.mp hf
          rw [← hxx]
          exact List.getElem_mem hh)
        rw [hsl] at hcf3
        cases hcf3
        exact ⟨hlen3, hwf3⟩
      · simp only [Column.semRows]
        apply List.ext_getElem?
        intro i
        by_cases hi : i < e - s
        · have hL : ((List.range (e - s)).map fun j =>
              SemValue.tup (ys.attach.map fun f => (Column.semRows f.1)[j]?.getD
                SemValue.null))[i]? = some (SemValue.tup
                  (ys.map fun y => (Column.semRows y)[i]?.getD SemValue.null)) := by
            rw [List.getElem?_map, List.getElem?_range (by omega)]
            show some (SemValue.tup (ys.attach.map fun f =>
              (Column.semRows f.1)[i]?.getD SemValue.null)) = _
            rw [attachMap ys (fun y => (Column.semRows y)[i]?.getD SemValue.null)]
          have hR : (sliceList ((List.range len).map fun j =>
              SemValue.tup (fields.attach.map fun f => (Column.semRows f.1)[j]?.getD
                SemValue.null)) s e)[i]? = some (SemValue.tup
                  (fields.map fun f => (Column.semRows f)[s + i]?.getD
                    SemValue.null)) := by
            rw [sliceList_getElem? (by omega), List.getElem?_map,
              List.getElem?_range (by omega)]
            show some (SemValue.tup (fields.attach.map fun f =>
              (Column.semRows f.1)[s + i]?.getD SemValue.null)) = _
            rw [attachMap fields (fun y => (Column.semRows y)[s + i]?.getD SemValue.null)]
          rw [hL, hR]
          congr 1
          congr 1
          apply List.ext_getElem?
          intro j
          by_cases hj : j < fields.length
          · obtain ⟨f, cf, hf, hy, hsl⟩ := hpt j hj
            obtain ⟨cf2, hcf2, _, _, _, hrows2⟩ := hex f (by
              obtain ⟨hh, hxx⟩ := List.getElem?_eq_some.mp hf
              rw [← hxx]
              exact List.getElem_mem hh)
            rw [hsl] at hcf2
            cases hcf2
            simp only [List.getElem?_map, hy, hf]
            show some ((Column.semRows cf)[i]?.getD SemValue.null)
              = some ((Column.semRows f)[s + i]?.getD SemValue.null)
            rw [hrows2, sliceList_getElem? (by omega)]
          · have hn1 : ys[j]? = none := List.getElem?_eq_none (by omega)
            have hn2 : fields[j]? = none := List.getElem?_eq_none (by omega)
            simp [hn1, hn2]
        · have hn1 : ((List.range (e - s)).map fun j =>
              SemValue.tup (ys.attach.map fun f => (Column.semRows f.1)[j]?.getD
                SemValue.null))[i]? = none := by
            apply List.getElem?_eq_none
            simpa using hi
          have hn2 : (sliceList ((List.range len).map fun j =>
              SemValue.tup (fields.attach.map fun f => (Column.semRows f.1)[j]?.getD
                SemValue.null)) s e)[i]? = none := by
            apply List.getElem?_eq_none
            rw [sliceList_length_eq]
            omega
          rw [hn1, hn2]
termination_by sizeOf c
decreasing_by
  all_goals simp_wf
  all_goals first
    | omega
    | (rename_i hmem; have := List.sizeOf_lt_of_mem hmem; omega)
    | (have q := List.sizeOf_lt_of_mem hf; omega)

theorem Column.index_spec (c : Column) (hwf : c.wf = true) (i : Nat)
    (hi : i < c.len) :
    (c.index i).map Scalar.sem = (c.semRows[i]?).map SemValue.collapseTop := by
  match c with
  | .null len =>
    simp only [Column.len] at hi
    simp [Column.index, Column.semRows, Scalar.sem, SemValue.collapseTop, hi]
  | .emptyArray len =>
    simp only [Column.len] at hi
    simp [Column.index, Column.semRows, Scalar.sem, SemValue.collapseTop, hi]
  | .emptyMap len =>
    simp only [Column.len] at hi
    simp [Column.index, Column.semRows, Scalar.sem, SemValue.collapseTop, hi]
  | .number k values =>
    simp only [Column.len] at hi
    have hv : values[i]? = some values[i] := List.getElem?_eq_getElem hi
    simp [Column.index, Column.semRows, Scalar.sem, SemValue.collapseTop, hv]
  | .decimal w values size =>
    simp only [Column.len] at hi
    have hv : values[i]? = some values[i] := List.getElem?_eq_getElem hi
    simp [Column.index, Column.semRows, Scalar.sem, SemValue.collapseTop, hv]
  | .boolean values =>
    simp only [Column.len] at hi
    have hv : values[i]? = some values[i] := List.getElem?_eq_getElem hi
    simp [Column.index, Column.semRows, Scalar.sem, SemValue.collapseTop, hv]
  | .timestamp values =>
    simp only [Column.len] at hi
    have hv : values[i]? = some values[i] := List.getElem?_eq_getElem hi
    simp [Column.index, Column.semRows, Scalar.sem, SemValue.collapseTop, hv]
  | .date values =>
    simp only [Column.len] at hi
    have hv : values[i]? = some values[i] := List.getElem?_eq_getElem hi
    simp [Column.index, Column.semRows, Scalar.sem, SemValue.collapseTop, hv]
  | .string data offsets =>
    simp only [Column.len] at hi
    have hi1 : i + 1 < offsets.length := by omega
    have ha : offsets[i]? = some offsets[i] := List.getElem?_eq_getElem (by omega)
    have hb : offsets[i + 1]? = some offsets[i + 1] := List.getElem?_eq_getElem hi1
    rw [show Column.semRows (.string data offsets)
        = (windowsOf data offsets).map SemValue.str by simp [Column.semRows]]
    rw [List.getElem?_map, windowsOf_getElem? _ _ _ hi1, ha, hb]
    simp [Column.index, ha, hb, Scalar.sem, SemValue.collapseTop]
  | .variant data offsets =>
    simp only [Column.len] at hi
    have hi1 : i + 1 < offsets.length := by omega
    have ha : offsets[i]? = some offsets[i] := List.getElem?_eq_getElem (by omega)
    have hb : offsets[i + 1]? = some offsets[i + 1] := List.getElem?_eq_getElem hi1
    rw [show Column.semRows (.variant data offsets)
        = (windowsOf data offsets).map SemValue.variant by simp [Column.semRows]]
    rw [List.getElem?_map, windowsOf_getElem? _ _ _ hi1, ha, hb]
    simp [Column.index, ha, hb, Scalar.sem, SemValue.collapseTop]
  | .array values offsets =>
    simp only [Column.len] at hi
    have hw2 : (offsetsOk offsets values.len && values.wf) = true := by
      simpa [Column.wf] using hwf
    rw [Bool.and_eq_true] at hw2
    obtain ⟨hpos, hnd, hlast⟩ := (offsetsOk_iff _ _).mp hw2.1
    have hi1 : i + 1 < offsets.length := by omega
    have ha : offsets[i]? = some offsets[i] := List.getElem?_eq_getElem (by omega)
    have hb : offsets[i + 1]? = some offsets[i + 1] := List.getElem?_eq_getElem hi1
    have hble : offsets[i + 1] ≤ values.len := by
      have := getElem_le_lastOffset hnd (i := i + 1) hi1
      rw [hb] at this
      simp only [Option.getD_some] at this
      omega
    obtain ⟨cs, hcs, _, htys, _, hrows⟩ :=
      Column.slice_spec values hw2.2 offsets[i] offsets[i + 1] hble
    rw [show Column.semRows (.array values offsets)
        = (windowsOf values.semRows offsets).map (SemValue.arr values.dataType) by
      simp [Column.semRows]]
    rw [List.getElem?_map, windowsOf_getElem? _ _ _ hi1, ha, hb]
    rw [show Column.index (.array values offsets) i
        = (match offsets[i]?, offsets[i + 1]? with
          | some a, some b => (values.slice a b).map Scalar.array
          | _, _ => none) by simp [Column.index]]
    rw [ha, hb]
    simp only [hcs, Option.map_some, Option.getD_some]
    simp [Scalar.sem, hrows, htys, SemValue.collapseTop]
  | .map values offsets =>
    simp only [Column.len] at hi
    have hw2 : (offsetsOk offsets values.len && values.wf) = true := by
      simpa [Column.wf] using hwf
    rw [Bool.and_eq_true] at hw2
    obtain ⟨hpos, hnd, hlast⟩ := (offsetsOk_iff _ _).mp hw2.1
    have hi1 : i + 1 < offsets.length := by omega
    have ha : offsets[i]? = some offsets[i] := List.getElem?_eq_getElem (by omega)
    have hb : offsets[i + 1]? = some offsets[i + 1] := List.getElem?_eq_getElem hi1
    have hble : offsets[i + 1] ≤ values.len := by
      have := getElem_le_lastOffset hnd (i := i + 1) hi1
      rw [hb] at this
      simp only [Option.getD_some] at this
      omega
    obtain ⟨cs, hcs, _, htys, _, hrows⟩ :=
      Column.slice_spec values hw2.2 offsets[i] offsets[i + 1] hble
    rw [show Column.semRows (.map values offsets)
        = (windowsOf values.semRows offsets).map (SemValue.mapRows values.dataType) by
      simp [Column.semRows]]
    rw [List.getElem?_map, windowsOf_getElem? _ _ _ hi1, ha, hb]
    rw [show Column.index (.map values offsets) i
        = (match offsets[i]?, offsets[i + 1]? with
          | some a, some b => (values.slice a b).map Scalar.map
          | _, _ => none) by simp [Column.index]]
    rw [ha, hb]
    simp only [hcs, Option.map_some, Option.getD_some]
    simp [Scalar.sem, hrows, htys, SemValue.collapseTop]
  | .nullable inner validity =>
    simp only [Column.len] at hi
    have hw2 : (validity.length = inner.len ∧ inner.isNullableCol = false) ∧
        inner.wf = true := by simpa [Column.wf] using hwf
    have hv : validity[i]? = some validity[i] := List.getElem?_eq_getElem hi
    have hib : i < inner.semRows.length := by
      rw [Column.semRows_length inner hw2.2]; omega
    have hri : inner.semRows[i]? = some inner.semRows[i] :=
      List.getElem?_eq_getElem hib
    rw [show Column.semRows (.nullable inner validity)
        = List.zipWith (fun (valid : Bool) r => if valid then r else SemValue.masked)
            validity inner.semRows by simp [Column.semRows]]
    rw [List.getElem?_zipWith, hv, hri]
    rw [show Column.index (.nullable inner validity) i
        = (match validity[i]? with
          | none => none
          | some false => some .null
          | some true => inner.index i) by simp [Column.index]]
    rw [hv]
    cases hvb : validity[i] with
    | false => simp [Scalar.sem, SemValue.collapseTop]
    | true =>
      have ih := Column.index_spec inner hw2.2 i (by omega)
      rw [ih, hri]
      simp
  | .tuple fields len =>
    simp only [Column.len] at hi
    have hw2 := (wf_tuple_iff fields len).mp hwf
    have hex : ∀ f ∈ fields, (Column.index f i).map Scalar.sem
        = (f.semRows[i]?).map SemValue.collapseTop :=
      fun f hf => Column.index_spec f (hw2 f hf).2 i (by rw [(hw2 f hf).1]; omega)
    have hsome : ∀ f ∈ fields, (Column.index f i).isSome := by
      intro f hf
      have h2 := hex f hf
      have hib2 : i < f.semRows.length := by
        rw [Column.semRows_length f (hw2 f hf).2, (hw2 f hf).1]; omega
      have h3 : f.semRows[i]? = some f.semRows[i] :=
        List.getElem?_eq_getElem hib2
      rw [h3] at h2
      cases hidx : Column.index f i with
      | none => rw [hidx] at h2; simp at h2
      | some v => simp
    have his := optTraverse_map_isSome hsome
    obtain ⟨ss, hss⟩ := Option.isSome_iff_exists.mp his
    have hget := optTraverse_map_getElem? hss
    rw [show Column.index (.tuple fields len) i
        = (optTraverse (fields.attach.map fun f => Column.index f.1 i)).map
            Scalar.tuple by simp [Column.index]]
    rw [attachMap fields (fun f => Column.index f i), hss]
    rw [show Column.semRows (.tuple fields len)
        = (List.range len).map (fun j =>
            SemValue.tup (fields.attach.map fun f =>
              (Column.semRows f.1)[j]?.getD SemValue.null)) by simp [Column.semRows]]
    rw [List.getElem?_map, List.getElem?_range hi]
    simp only [Option.map_some']
    rw [show Scalar.sem (.tuple ss) = .tup (ss.attach.map fun f => Scalar.sem f.1) by
      simp [Scalar.sem]]
    rw [attachMap ss Scalar.sem,
      attachMap fields (fun f => (Column.semRows f)[i]?.getD SemValue.null)]
    rw [collapseTop_tup]
    congr 1
    congr 1
    apply List.ext_getElem?
    intro j
    by_cases hj : j < fields.length
    · have hfj : fields[j]? = some fields[j] := List.getElem?_eq_getElem hj
      have hsj : ss[j]? = (fields[j]?).bind (fun f => Column.index f i) := hget j
      rw [hfj] at hsj
      have hm : fields[j] ∈ fields := List.getElem_mem hj
      have hexj := hex _ hm
      cases hidx : Column.index fields[j] i with
      | none => rw [hidx] at hexj; exact absurd hexj.symm (by
          rw [List.getElem?_eq_getElem (by
            rw [Column.semRows_length _ (hw2 _ hm).2, (hw2 _ hm).1]; omega)]
          simp)
      | some v =>
        have hsj2 : ss[j]? = Column.index fields[j] i := hsj
        rw [hidx] at hsj2 hexj
        have hij : i < (Column.semRows fields[j]).length := by
          rw [Column.semRows_length _ (hw2 _ hm).2, (hw2 _ hm).1]; omega
        have hrj : (Column.semRows fields[j])[i]?
            = some ((Column.semRows fields[j])[i]) := List.getElem?_eq_getElem hij
        rw [hrj] at hexj
        simp only [Option.map_some'] at hexj
        rw [List.getElem?_map, hsj2, List.getElem?_map, List.getElem?_map, hfj]
        simp only [Option.map_some']
        rw [hrj]
        simp only [Option.getD_some]
        exact hexj
    · have hn1 : ss[j]? = none := by
        rw [hget j, List.getElem?_eq_none (l := fields) (by omega)]
        rfl
      have hn2 : fields[j]? = none := List.getElem?_eq_none (by omega)
      rw [List.getElem?_map, List.getElem?_map, List.getElem?_map, hn1, hn2]
      rfl
termination_by sizeOf c
decreasing_by
  all_goals simp_wf
  all_goals first
    | omega
    | (rename_i hmem; have := List.sizeOf_lt_of_mem hmem; omega)
    | (have q := List.sizeOf_lt_of_mem hf; omega)

theorem Column.index_oob (c : Column) (hwf : c.wf = true) (i : Nat)
    (hi : c.len ≤ i) : (c.index i = none ↔ c.boundsChecked = true) := by
  match c with
  | .null len =>
    simp [Column.index, Column.boundsChecked]
  | .emptyArray len =>
    simp [Column.index, Column.boundsChecked]
  | .emptyMap len =>
    simp [Column.index, Column.boundsChecked]
  | .number k values =>
    simp only [Column.len] at hi
    simp [Column.index, Column.boundsChecked, List.getElem?_eq_none hi]
  | .decimal w values size =>
    simp only [Column.len] at hi
    simp [Column.index, Column.boundsChecked, List.getElem?_eq_none hi]
  | .boolean values =>
    simp only [Column.len] at hi
    simp [Column.index, Column.boundsChecked, List.getElem?_eq_none hi]
  | .timestamp values =>
    simp only [Column.len] at hi
    simp [Column.index, Column.boundsChecked, List.getElem?_eq_none hi]
  | .date values =>
    simp only [Column.len] at hi
    simp [Column.index, Column.boundsChecked, List.getElem?_eq_none hi]
  | .string data offsets =>
    simp only [Column.len] at hi
    have hofs : offsetsOk offsets data.length = true := by
      simpa [Column.wf] using hwf
    have hpos : 0 < offsets.length := ((offsetsOk_iff _ _).mp hofs).1
    have hb : offsets[i + 1]? = none := List.getElem?_eq_none (by omega)
    rw [show Column.index (.string data offsets) i
        = (match offsets[i]?, offsets[i + 1]? with
          | some a, some b => some (.string (sliceList data a b))
          | _, _ => none) by simp [Column.index]]
    rw [hb]
    cases offsets[i]? <;> simp [Column.boundsChecked]
  | .variant data offsets =>
    simp only [Column.len] at hi
    have hofs : offsetsOk offsets data.length = true := by
      simpa [Column.wf] using hwf
    have hpos : 0 < offsets.length := ((offsetsOk_iff _ _).mp hofs).1
    have hb : offsets[i + 1]? = none := List.getElem?_eq_none (by omega)
    rw [show Column.index (.variant data offsets) i
        = (match offsets[i]?, offsets[i + 1]? with
          | some a, some b => some (.variant (sliceList data a b))
          | _, _ => none) by simp [Column.index]]
    rw [hb]
    cases offsets[i]? <;> simp [Column.boundsChecked]
  | .array values offsets =>
    simp only [Column.len] at hi
    have hw2 : (offsetsOk offsets values.len && values.wf) = true := by
      simpa [Column.wf] using hwf
    rw [Bool.and_eq_true] at hw2
    have hpos : 0 < offsets.length := ((offsetsOk_iff _ _).mp hw2.1).1
    have hb : offsets[i + 1]? = none := List.getElem?_eq_none (by omega)
    rw [show Column.index (.array values offsets) i
        = (match offsets[i]?, offsets[i + 1]? with
          | some a, some b => (values.slice a b).map Scalar.array
          | _, _ => none) by simp [Column.index]]
    rw [hb]
    cases offsets[i]? <;> simp [Column.boundsChecked]
  | .map values offsets =>
    simp only [Column.len] at hi
    have hw2 : (offsetsOk offsets values.len && values.wf) = true := by
      simpa [Column.wf] using hwf
    rw [Bool.and_eq_true] at hw2
    have hpos : 0 < offsets.length := ((offsetsOk_iff _ _).mp hw2.1).1
    have hb : offsets[i + 1]? = none := List.getElem?_eq_none (by omega)
    rw [show Column.index (.map values offsets) i
        = (match offsets[i]?, offsets[i + 1]? with
          | some a, some b => (values.slice a b).map Scalar.map
          | _, _ => none) by simp [Column.index]]
    rw [hb]
    cases offsets[i]? <;> simp [Column.boundsChecked]
  | .nullable inner validity =>
    simp only [Column.len] at hi
    have hv : validity[i]? = none := List.getElem?_eq_none hi
    rw [show Column.index (.nullable inner validity) i
        = (match validity[i]? with
          | none => none
          | some false => some .null
          | some true => inner.index i) by simp [Column.index]]
    rw [hv]
    simp [Column.boundsChecked]
  | .tuple fields len =>
    simp only [Column.len] at hi
    have hw2 := (wf_tuple_iff fields len).mp hwf
    have ih : ∀ f ∈ fields, (Column.index f i = none ↔ f.boundsChecked = true) :=
      fun f hf => Column.index_oob f (hw2 f hf).2 i (by rw [(hw2 f hf).1]; omega)
    rw [show Column.index (.tuple fields len) i
        = (optTraverse (fields.attach.map fun f => Column.index f.1 i)).map
            Scalar.tuple by simp [Column.index]]
    rw [attachMap fields (fun f => Column.index f i)]
    rw [show Column.boundsChecked (.tuple fields len)
        = (fields.attach.any fun f => Column.boundsChecked f.1) by
      simp [Column.boundsChecked]]
    rw [attachAny, List.any_eq_true]
    constructor
    · intro hnone
      cases htr : optTraverse (fields.map fun f => Column.index f i) with
      | none =>
        obtain ⟨f, hf, hfnone⟩ := optTraverse_map_eq_none.mp htr
        exact ⟨f, hf, (ih f hf).mp hfnone⟩
      | some ss => rw [htr] at hnone; simp at hnone
    · rintro ⟨f, hf, hbc⟩
      have hfnone := (ih f hf).mpr hbc
      rw [optTraverse_map_eq_none.mpr ⟨f, hf, hfnone⟩]
      rfl
termination_by sizeOf c
decreasing_by
  all_goals simp_wf
  all_goals first
    | omega
    | (rename_i hmem; have := List.sizeOf_lt_of_mem hmem; omega)
    | (have q := List.sizeOf_lt_of_mem hf; omega)

/-- C1 counterexample: the claim says `index(i)` returns `None` whenever
`i >= len()`, in particular for the length-only variants.  But
`Column::index` (values.rs:602) returns `Some(ScalarRef::Null)` for a
`Null` column without consulting the index: on a 3-row `Null` column,
`index(5)` is `Some(Null)` although `5 >= 3`. -/
theorem c1_counterexample :
    (Column.null 3).index 5 = some Scalar.null ∧ (Column.null 3).len ≤ 5 := by
  constructor
  · simp [Column.index]
  · simp [Column.len]

/-- C1 (amended): on a well-formed column, `index(i)` is `Some` for every
`i < len()`; for `i >= len()` it is `None` exactly when the column's
variant consults the row index — every variant except the length-only
`Null` / `EmptyArray` / `EmptyMap` (and tuples none of whose fields do),
which return `Some` regardless of `i`. -/
theorem c1_index_bounds (c : Column) (hwf : c.wf = true) (i : Nat) :
    (i < c.len → (c.index i).isSome = true) ∧
    (c.len ≤ i → (c.index i = none ↔ c.boundsChecked = true)) := by
  constructor
  · intro hi
    have h := Column.index_spec c hwf i hi
    have hib : i < c.semRows.length := by
      rw [Column.semRows_length c hwf]; omega
    have h2 : c.semRows[i]? = some c.semRows[i] := List.getElem?_eq_getElem hib
    rw [h2] at h
    cases hidx : c.index i with
    | none => rw [hidx] at h; simp at h
    | some v => simp
  · intro hi
    exact Column.index_oob c hwf i hi

theorem c1_index_bounds_witness :
    (((Column.number NumKind.int32 [1, 2]).index 0).isSome = true) ∧
    ((Column.number NumKind.int32 [1, 2]).index 5 = none ↔
      (Column.number NumKind.int32 [1, 2]).boundsChecked = true) :=
  ⟨(c1_index_bounds (Column.number NumKind.int32 [1, 2]) (by simp [Column.wf]) 0).1
      (by simp [Column.len]),
   (c1_index_bounds (Column.number NumKind.int32 [1, 2]) (by simp [Column.wf]) 5).2
      (by simp [Column.len])⟩

/-- C3: on a well-formed column, `slice(s..e)` panics (modelled `none`)
exactly when `e > len()`; otherwise it returns a column of length
`e - s` and of the same logical type — in particular an empty range such
as `slice(1..1)` yields a length-0 column of the same type. -/
theorem c3_slice_bounds_and_type (c : Column) (hwf : c.wf = true) (s e : Nat) :
    (e > c.len → c.slice s e = none) ∧
    (e ≤ c.len → ∃ cs, c.slice s e = some cs ∧ cs.len = e - s ∧
      cs.dataType = c.dataType) := by
  constructor
  · intro hgt
    rw [Column.slice.eq_def, if_pos hgt]
  · intro hle
    obtain ⟨cs, hcs, hlen, hty, _, _⟩ := Column.slice_spec c hwf s e hle
    exact ⟨cs, hcs, hlen, hty⟩

theorem c3_slice_bounds_and_type_witness :
    ((Column.number NumKind.int32 [7, 8, 9]).slice 1 5 = none) ∧
    (∃ cs, (Column.number NumKind.int32 [7, 8, 9]).slice 1 1 = some cs ∧
      cs.len = 1 - 1 ∧ cs.dataType = (Column.number NumKind.int32 [7, 8, 9]).dataType) :=
  ⟨(c3_slice_bounds_and_type (Column.number NumKind.int32 [7, 8, 9])
      (by simp [Column.wf]) 1 5).1 (by simp [Column.len]),
   (c3_slice_bounds_and_type (Column.number NumKind.int32 [7, 8, 9])
      (by simp [Column.wf]) 1 1).2 (by simp [Column.len])⟩

/-- The min/max pair of a sequence, as `itertools`' `minmax()` followed by
`into_option()` computes it on a non-empty iterator: a running fold that
keeps the least and greatest element seen. -/
def minmaxBy (le : α → α → Bool) : List α → Option (α × α)
  | [] => none
  | x :: xs =>
    some (xs.foldl
      (fun p y => (if le y p.1 then y else p.1, if le p.2 y then y else p.2)) (x, x))

/-- Total order on `Int` used by the numeric / timestamp / date min-max
scans. -/
def intLe (a b : Int) : Bool := a ≤ b

/-- Lexicographic comparison of byte sequences: the `Ord` instance of
`&[u8]` used by the string min-max scan (element-wise, a strict prefix is
less). -/
def bytesCmp : List Nat → List Nat → Ordering
  | [], [] => .eq
  | [], _ :: _ => .lt
  | _ :: _, [] => .gt
  | a :: as, b :: bs =>
    if a < b then .lt else if b < a then .gt else bytesCmp as bs

/-- `a <= b` on byte sequences. -/
def bytesLe (a b : List Nat) : Bool := bytesCmp a b ≠ .gt

/-- `Column::domain` (values.rs:709-780).  `none` models the panic of the
`assert!(self.len() > 0)` precondition, propagated through inner domains,
and the `unreachable!` when a map's inner domain is not a pair-tuple.
The numeric/decimal min-max scans (`NumberColumn::domain`, unprovided)
are modelled from the spec as full scans; the boolean domain counts
unset/set bits as the source does. -/
def Column.domain (c : Column) : Option Domain :=
  if c.len = 0 then none
  else match c with
  | .null _ => some (.nullable true none)
  | .emptyArray _ => some (.array none)
  | .emptyMap _ => some .undefined
  | .number k values => (minmaxBy intLe values).map fun p => .number k p.1 p.2
  | .decimal w values size =>
    (minmaxBy intLe values).map fun p => .decimal w p.1 p.2 size
  | .boolean values =>
    some (.boolean (0 < values.count false) (0 < values.length - values.count false))
  | .string data offsets =>
    (minmaxBy bytesLe (windowsOf data offsets)).map fun p => .string p.1 (some p.2)
  | .timestamp values => (minmaxBy intLe values).map fun p => .timestamp p.1 p.2
  | .date values => (minmaxBy intLe values).map fun p => .date p.1 p.2
  | .array values offsets =>
    if offsets.length - 1 = 0 then some (.array none)
    else (values.domain).map fun d => .array (some d)
  | .map values offsets =>
    if offsets.length - 1 = 0 then some (.map none)
    else
      (values.domain).bind fun d =>
        match d with
        | .tuple (d1 :: d2 :: _) => some (.map (some (d1, d2)))
        | _ => none
  | .nullable inner validity =>
    (inner.domain).map fun d => .nullable (0 < validity.count false) (some d)
  | .tuple fields _ =>
    (optTraverse (fields.attach.map fun f => Column.domain f.1)).map Domain.tuple
  | .variant _ _ => some .undefined
termination_by sizeOf c
decreasing_by
  all_goals simp_wf
  all_goals first
    | omega
    | (have q := List.sizeOf_lt_of_mem f.2; omega)

/-- `ScalarRef::domain` (values.rs:300-367).  A non-null scalar against a
declared `Nullable` type is wrapped in a non-null `NullableDomain`; the
`Null` scalar yields the has-null domain regardless of the declared type.
`none` models the `as_tuple().unwrap()` panic on a tuple scalar whose
declared type is not a tuple.  Array/map scalars recurse into the nested
column's domain (propagating its empty-column panic). -/
def Scalar.domain (s : Scalar) (ty : DataType) : Option Domain :=
  match ty, s with
  | .nullable _, .null => some (.nullable true none)
  | .nullable tyi, s => (Scalar.domain s tyi).map fun d => .nullable false (some d)
  | _, .null => some (.nullable true none)
  | _, .emptyArray => some (.array none)
  | _, .emptyMap => some (.map none)
  | _, .number k v => some (.number k v v)
  | _, .decimal w v size => some (.decimal w v v size)
  | _, .boolean true => some (.boolean false true)
  | _, .boolean false => some (.boolean true false)
  | _, .string bytes => some (.string bytes (some bytes))
  | _, .timestamp t => some (.timestamp t t)
  | _, .date d => some (.date d d)
  | _, .array col =>
    if col.len = 0 then some (.array none)
    else (col.domain).map fun d => .array (some d)
  | _, .map col =>
    if col.len = 0 then some (.map none)
    else
      (col.domain).bind fun d =>
        match d with
        | .tuple (d1 :: d2 :: _) => some (.map (some (d1, d2)))
        | _ => none
  | .tuple tys, .tuple fields =>
    (optTraverse ((fields.zip tys).attach.map fun p =>
      Scalar.domain p.1.1 p.1.2)).map Domain.tuple
  | _, .tuple _ => none
  | _, .variant _ => some .undefined
termination_by (sizeOf s, sizeOf ty)
decreasing_by
  all_goals simp_wf
  all_goals first
    | (apply Prod.Lex.right; omega)
    | (apply Prod.Lex.left
       obtain ⟨⟨f, t⟩, hmem⟩ := p
       have := List.sizeOf_lt_of_mem (List.of_mem_zip hmem).1
       simp only [] at this ⊢
       omega)

/-- C6: the spec says `Column::domain` recurses per variant exactly as the
scalar domain does, which for `EmptyMap` prescribes `Domain::Map(None)` —
indeed `ScalarRef::EmptyMap.domain` (values.rs:317) is `Domain::Map(None)`
and the parallel `EmptyArray` column arm returns `Domain::Array(None)`.
But `Column::domain` (values.rs:717) returns `Domain::Undefined` for a
non-empty `EmptyMap` column: the code diverges from its own scalar
recursion on this one variant. -/
theorem c6_emptyMap_domain_bug :
    (Column.emptyMap 1).domain = some Domain.undefined ∧
    Scalar.domain Scalar.emptyMap DataType.emptyMap = some (Domain.map none) ∧
    (Column.emptyArray 1).domain = some (Domain.array none) := by
  refine ⟨?_, ?_, ?_⟩
  · simp [Column.domain, Column.len]
  · simp [Scalar.domain]
  · simp [Column.domain, Column.len]

theorem minmax_fold_inv (le : α → α → Bool)
    (hrefl : ∀ a, le a a = true)
    (htot : ∀ a b, le a b = true ∨ le b a = true)
    (htrans : ∀ a b c, le a b = true → le b c = true → le a c = true)
    (xs : List α) :
    ∀ (a b : α),
      let r := xs.foldl
        (fun p y => (if le y p.1 then y else p.1, if le p.2 y then y else p.2)) (a, b)
      (le r.1 a = true ∧ le b r.2 = true) ∧ (∀ x ∈ xs, le r.1 x = true ∧ le x r.2 = true) := by
  induction xs with
  | nil =>
    intro a b
    exact ⟨⟨hrefl a, hrefl b⟩, by simp⟩
  | cons y ys ih =>
    intro a b
    simp only [List.foldl_cons]
    have hstep := ih (if le y a then y else a) (if le b y then y else b)
    obtain ⟨⟨hacc1, hacc2⟩, hall⟩ := hstep
    have hmin_a : le (if le y a then y else a) a = true := by
      by_cases hy : le y a = true
      · simp [hy]
      · simp [hy, hrefl]
    have hmin_y : le (if le y a then y else a) y = true := by
      by_cases hy : le y a = true
      · simp [hy, hrefl]
      · rcases htot y a with h | h
        · exact absurd h hy
        · simp [hy, h]
    have hmax_b : le b (if le b y then y else b) = true := by
      by_cases hb : le b y = true
      · simp [hb]
      · simp [hb, hrefl]
    have hmax_y : le y (if le b y then y else b) = true := by
      by_cases hb : le b y = true
      · simp [hb, hrefl]
      · rcases htot b y with h | h
        · exact absurd h hb
        · simp [hb, h]
    refine ⟨⟨htrans _ _ _ hacc1 hmin_a, htrans _ _ _ hmax_b hacc2⟩, ?_⟩
    intro x hx
    rcases List.mem_cons.mp hx with hxy | hxs
    · subst hxy
      exact ⟨htrans _ _ _ hacc1 hmin_y, htrans _ _ _ hmax_y hacc2⟩
    · exact hall x hxs

theorem minmaxBy_spec (le : α → α → Bool)
    (hrefl : ∀ a, le a a = true)
    (htot : ∀ a b, le a b = true ∨ le b a = true)
    (htrans : ∀ a b c, le a b = true → le b c = true → le a c = true)
    {l : List α} {mn mx : α} (h : minmaxBy le l = some (mn, mx)) :
    ∀ x ∈ l, le mn x = true ∧ le x mx = true := by
  cases l with
  | nil => simp [minmaxBy] at h
  | cons x0 xs =>
    have h2 : some (xs.foldl (fun p y =>
        (if le y p.1 then y else p.1, if le p.2 y then y else p.2)) (x0, x0))
        = some (mn, mx) := h
    have h3 := Option.some.inj h2
    have hinv := minmax_fold_inv le hrefl htot htrans xs x0 x0
    rw [h3] at hinv
    obtain ⟨⟨hacc1, hacc2⟩, hall⟩ := hinv
    intro x hx
    rcases List.mem_cons.mp hx with hx0 | hxs
    · subst hx0
      exact ⟨hacc1, hacc2⟩
    · exact hall x hxs

theorem intLe_refl (a : Int) : intLe a a = true := by simp [intLe]

theorem intLe_total (a b : Int) : intLe a b = true ∨ intLe b a = true := by
  simp [intLe]
  omega

theorem intLe_trans (a b c : Int) (h1 : intLe a b = true) (h2 : intLe b c = true) :
    intLe a c = true := by
  simp [intLe] at *
  omega

theorem bytesCmp_refl (a : List Nat) : bytesCmp a a = .eq := by
  induction a with
  | nil => rfl
  | cons x xs ih => simp [bytesCmp, ih]

theorem bytesCmp_swap (a b : List Nat) : bytesCmp a b = (bytesCmp b a).swap := by
  induction a generalizing b with
  | nil => cases b <;> rfl
  | cons x xs ih =>
    cases b with
    | nil => rfl
    | cons y ys =>
      simp only [bytesCmp]
      rcases Nat.lt_trichotomy x y with h | h | h
      · rw [if_pos h, if_neg (show ¬ y < x by omega), if_pos h]
        rfl
      · rw [if_neg (by omega), if_neg (by omega), if_neg (by omega), if_neg (by omega)]
        exact ih ys
      · rw [if_neg (show ¬ x < y by omega), if_pos h, if_pos h]
        rfl

theorem bytesLe_refl (a : List Nat) : bytesLe a a = true := by
  simp [bytesLe, bytesCmp_refl]

theorem bytesLe_total (a b : List Nat) : bytesLe a b = true ∨ bytesLe b a = true := by
  simp only [bytesLe, ne_eq, decide_eq_true_eq]
  rw [bytesCmp_swap a b]
  cases bytesCmp b a <;> simp [Ordering.swap]

theorem bytesCmp_le_trans (a : List Nat) :
    ∀ (b c : List Nat), bytesCmp a b ≠ .gt → bytesCmp b c ≠ .gt → bytesCmp a c ≠ .gt := by
  induction a with
  | nil =>
    intro b c _ _
    cases c <;> simp [bytesCmp]
  | cons x xs ih =>
    intro b c h1 h2
    cases b with
    | nil => simp [bytesCmp] at h1
    | cons y ys =>
      cases c with
      | nil => simp [bytesCmp] at h2
      | cons z zs =>
        simp only [bytesCmp] at h1 h2 ⊢
        by_cases hxy : x < y
        · rw [if_pos hxy] at h1
          by_cases hyz : y < z
          · rw [if_pos (by omega)]
            simp
          · rw [if_neg hyz] at h2
            by_cases hzy : z < y
            · rw [if_pos hzy] at h2
              simp at h2
            · rw [if_pos (by omega)]
              simp
        · rw [if_neg hxy] at h1
          by_cases hyx : y < x
          · rw [if_pos hyx] at h1
            simp at h1
          · rw [if_neg hyx] at h1
            by_cases hyz : y < z
            · rw [if_pos (by omega)]
              simp
            · rw [if_neg hyz] at h2
              by_cases hzy : z < y
              · rw [if_pos hzy] at h2
                simp at h2
              · rw [if_neg hzy] at h2
                rw [if_neg (by omega), if_neg (by omega)]
                exact ih ys zs h1 h2

theorem bytesLe_trans (a b c : List Nat) (h1 : bytesLe a b = true)
    (h2 : bytesLe b c = true) : bytesLe a c = true := by
  simp only [bytesLe, ne_eq, decide_eq_true_eq] at *
  exact bytesCmp_le_trans a b c h1 h2

/-- C5: for a well-formed non-empty column of numeric, timestamp or date
variant, the domain's `min <= row <= max` for every row; for a string
column `min <= row`, and when the domain's `max` is `Some(m)`,
`row <= m`. -/
theorem c5_domain_containment (c : Column) (hwf : c.wf = true) (r : Nat)
    (hne : 0 < c.len) (hr : r < c.len) :
    (∀ k mn mx v, c.domain = some (.number k mn mx) →
      c.index r = some (.number k v) → mn ≤ v ∧ v ≤ mx) ∧
    (∀ mn mx v, c.domain = some (.timestamp mn mx) →
      c.index r = some (.timestamp v) → mn ≤ v ∧ v ≤ mx) ∧
    (∀ mn mx v, c.domain = some (.date mn mx) →
      c.index r = some (.date v) → mn ≤ v ∧ v ≤ mx) ∧
    (∀ mn mxo v, c.domain = some (.string mn mxo) →
      c.index r = some (.string v) →
      bytesLe mn v = true ∧ ∀ mx ∈ mxo, bytesLe v mx = true) := by
  match c with
  | .number k values =>
    simp only [Column.len] at hne hr
    have hlz : values.length ≠ 0 := by omega
    refine ⟨?_, ?_, ?_, ?_⟩
    · intro k1 mn mx v hdom hidx
      cases hmm : minmaxBy intLe values with
      | none => simp [Column.domain, Column.len, hlz, hmm] at hdom
      | some p =>
        obtain ⟨mn', mx'⟩ := p
        simp [Column.domain, Column.len, hlz, hmm] at hdom
        obtain ⟨hk, hmn, hmx⟩ := hdom
        cases hvr : values[r]? with
        | none => simp [Column.index, hvr] at hidx
        | some v0 =>
          simp [Column.index, hvr] at hidx
          have hb := minmaxBy_spec intLe intLe_refl intLe_total intLe_trans hmm v0
            (List.getElem?_mem hvr)
          simp [intLe] at hb
          omega
    · intro mn mx v hdom hidx
      cases hmm : minmaxBy intLe values with
      | none => simp [Column.domain, Column.len, hlz, hmm] at hdom
      | some p => simp [Column.domain, Column.len, hlz, hmm] at hdom
    · intro mn mx v hdom hidx
      cases hmm : minmaxBy intLe values with
      | none => simp [Column.domain, Column.len, hlz, hmm] at hdom
      | some p => simp [Column.domain, Column.len, hlz, hmm] at hdom
    · intro mn mxo v hdom hidx
      cases hmm : minmaxBy intLe values with
      | none => simp [Column.domain, Column.len, hlz, hmm] at hdom
      | some p => simp [Column.domain, Column.len, hlz, hmm] at hdom
  | .timestamp values =>
    simp only [Column.len] at hne hr
    have hlz : values.length ≠ 0 := by omega
    refine ⟨?_, ?_, ?_, ?_⟩
    · intro k1 mn mx v hdom hidx
      cases hmm : minmaxBy intLe values with
      | none => simp [Column.domain, Column.len, hlz, hmm] at hdom
      | some p => simp [Column.domain, Column.len, hlz, hmm] at hdom
    · intro mn mx v hdom hidx
      cases hmm : minmaxBy intLe values with
      | none => simp [Column.domain, Column.len, hlz, hmm] at hdom
      | some p =>
        obtain ⟨mn', mx'⟩ := p
        simp [Column.domain, Column.len, hlz, hmm] at hdom
        obtain ⟨hmn, hmx⟩ := hdom
        cases hvr : values[r]? with
        | none => simp [Column.index, hvr] at hidx
        | some v0 =>
          simp [Column.index, hvr] at hidx
          have hb := minmaxBy_spec intLe intLe_refl intLe_total intLe_trans hmm v0
            (List.getElem?_mem hvr)
          simp [intLe] at hb
          omega
    · intro mn mx v hdom hidx
      cases hmm : minmaxBy intLe values with
      | none => simp [Column.domain, Column.len, hlz, hmm] at hdom
      | some p => simp [Column.domain, Column.len, hlz, hmm] at hdom
    · intro mn mxo v hdom hidx
      cases hmm : minmaxBy intLe values with
      | none => simp [Column.domain, Column.len, hlz, hmm] at hdom
      | some p => simp [Column.domain, Column.len, hlz, hmm] at hdom
  | .date values =>
    simp only [Column.len] at hne hr
    have hlz : values.length ≠ 0 := by omega
    refine ⟨?_, ?_, ?_, ?_⟩
    · intro k1 mn mx v hdom hidx
      cases hmm : minmaxBy intLe values with
      | none => simp [Column.domain, Column.len, hlz, hmm] at hdom
      | some p => simp [Column.domain, Column.len, hlz, hmm] at hdom
    · intro mn mx v hdom hidx
      cases hmm : minmaxBy intLe values with
      | none => simp [Column.domain, Column.len, hlz, hmm] at hdom
      | some p => simp [Column.domain, Column.len, hlz, hmm] at hdom
    · intro mn mx v hdom hidx
      cases hmm : minmaxBy intLe values with
      | none => simp [Column.domain, Column.len, hlz, hmm] at hdom
      | some p =>
        obtain ⟨mn', mx'⟩ := p
        simp [Column.domain, Column.len, hlz, hmm] at hdom
        obtain ⟨hmn, hmx⟩ := hdom
        cases hvr : values[r]? with
        | none => simp [Column.index, hvr] at hidx
        | some v0 =>
          simp [Column.index, hvr] at hidx
          have hb := minmaxBy_spec intLe intLe_refl intLe_total intLe_trans hmm v0
            (List.getElem?_mem hvr)
          simp [intLe] at hb
          omega
    · intro mn mxo v hdom hidx
      cases hmm : minmaxBy intLe values with
      | none => simp [Column.domain, Column.len, hlz, hmm] at hdom
      | some p => simp [Column.domain, Column.len, hlz, hmm] at hdom
  | .string data offsets =>
    simp only [Column.len] at hne hr
    have hlz : ¬ (offsets.length - 1 = 0) := by omega
    have hws : (windowsOf data offsets).length = offsets.length - 1 :=
      windowsOf_length _ _
    refine ⟨?_, ?_, ?_, ?_⟩
    · intro k1 mn mx v hdom hidx
      cases hmm : minmaxBy bytesLe (windowsOf data offsets) with
      | none => simp [Column.domain, Column.len, hlz, hmm] at hdom
      | some p => simp [Column.domain, Column.len, hlz, hmm] at hdom
    · intro mn mx v hdom hidx
      cases hmm : minmaxBy bytesLe (windowsOf data offsets) with
      | none => simp [Column.domain, Column.len, hlz, hmm] at hdom
      | some p => simp [Column.domain, Column.len, hlz, hmm] at hdom
    · intro mn mx v hdom hidx
      cases hmm : minmaxBy bytesLe (windowsOf data offsets) with
      | none => simp [Column.domain, Column.len, hlz, hmm] at hdom
      | some p => simp [Column.domain, Column.len, hlz, hmm] at hdom
    · intro mn mxo v hdom hidx
      cases hmm : minmaxBy bytesLe (windowsOf data offsets) with
      | none => simp [Column.domain, Column.len, hlz, hmm] at hdom
      | some p =>
        obtain ⟨mn', mx'⟩ := p
        simp [Column.domain, Column.len, hlz, hmm] at hdom
        obtain ⟨hmn, hmxo⟩ := hdom
        have ha : offsets[r]? = some offsets[r] := List.getElem?_eq_getElem (by omega)
        have hb2 : offsets[r + 1]? = some offsets[r + 1] :=
          List.getElem?_eq_getElem (by omega)
        rw [show Column.index (.string data offsets) r
            = (match offsets[r]?, offsets[r + 1]? with
              | some a, some b => some (.string (sliceList data a b))
              | _, _ => none) by simp [Column.index]] at hidx
        rw [ha, hb2] at hidx
        have hv : v = sliceList data offsets[r] offsets[r + 1] := by
          cases hidx
          rfl
        have hwin : (windowsOf data offsets)[r]? =
            some (sliceList data offsets[r] offsets[r + 1]) := by
          rw [windowsOf_getElem? _ _ _ (by omega), ha, hb2]
          rfl
        have hb := minmaxBy_spec bytesLe bytesLe_refl bytesLe_total bytesLe_trans hmm
          _ (List.getElem?_mem hwin)
        rw [← hv] at hb
        subst hmn
        refine ⟨hb.1, ?_⟩
        intro mx hmx
        rw [← hmxo] at hmx
        have hmm2 : mx' = mx := by simpa using hmx
        rw [← hmm2]
        exact hb.2
  | .null len =>
    simp only [Column.len] at hne hr
    have hlz : len ≠ 0 := by omega
    exact ⟨fun _ _ _ _ hdom _ => by simp [Column.domain, Column.len, hlz] at hdom,
      fun _ _ _ hdom _ => by simp [Column.domain, Column.len, hlz] at hdom,
      fun _ _ _ hdom _ => by simp [Column.domain, Column.len, hlz] at hdom,
      fun _ _ _ hdom _ => by simp [Column.domain, Column.len, hlz] at hdom⟩
  | .emptyArray len =>
    simp only [Column.len] at hne hr
    have hlz : len ≠ 0 := by omega
    exact ⟨fun _ _ _ _ hdom _ => by simp [Column.domain, Column.len, hlz] at hdom,
      fun _ _ _ hdom _ => by simp [Column.domain, Column.len, hlz] at hdom,
      fun _ _ _ hdom _ => by simp [Column.domain, Column.len, hlz] at hdom,
      fun _ _ _ hdom _ => by simp [Column.domain, Column.len, hlz] at hdom⟩
  | .emptyMap len =>
    simp only [Column.len] at hne hr
    have hlz : len ≠ 0 := by omega
    exact ⟨fun _ _ _ _ hdom _ => by simp [Column.domain, Column.len, hlz] at hdom,
      fun _ _ _ hdom _ => by simp [Column.domain, Column.len, hlz] at hdom,
      fun _ _ _ hdom _ => by simp [Column.domain, Column.len, hlz] at hdom,
      fun _ _ _ hdom _ => by simp [Column.domain, Column.len, hlz] at hdom⟩
  | .decimal w values size =>
    simp only [Column.len] at hne hr
    have hlz : values.length ≠ 0 := by omega
    refine ⟨fun _ _ _ _ hdom _ => ?_, fun _ _ _ hdom _ => ?_,
      fun _ _ _ hdom _ => ?_, fun _ _ _ hdom _ => ?_⟩ <;>
      (cases hmm : minmaxBy intLe values with
       | none => simp [Column.domain, Column.len, hlz, hmm] at hdom
       | some p => simp [Column.domain, Column.len, hlz, hmm] at hdom)
  | .boolean values =>
    simp only [Column.len] at hne hr
    have hlz : values.length ≠ 0 := by omega
    exact ⟨fun _ _ _ _ hdom _ => by simp [Column.domain, Column.len, hlz] at hdom,
      fun _ _ _ hdom _ => by simp [Column.domain, Column.len, hlz] at hdom,
      fun _ _ _ hdom _ => by simp [Column.domain, Column.len, hlz] at hdom,
      fun _ _ _ hdom _ => by simp [Column.domain, Column.len, hlz] at hdom⟩
  | .variant data offsets =>
    simp only [Column.len] at hne hr
    have hlz : ¬ (offsets.length - 1 = 0) := by omega
    exact ⟨fun _ _ _ _ hdom _ => by simp [Column.domain, Column.len, hlz] at hdom,
      fun _ _ _ hdom _ => by simp [Column.domain, Column.len, hlz] at hdom,
      fun _ _ _ hdom _ => by simp [Column.domain, Column.len, hlz] at hdom,
      fun _ _ _ hdom _ => by simp [Column.domain, Column.len, hlz] at hdom⟩
  | .array values offsets =>
    simp only [Column.len] at hne hr
    have hlz : ¬ (offsets.length - 1 = 0) := by omega
    refine ⟨fun _ _ _ _ hdom _ => ?_, fun _ _ _ hdom _ => ?_,
      fun _ _ _ hdom _ => ?_, fun _ _ _ hdom _ => ?_⟩ <;>
      (cases hd : values.domain with
       | none => simp [Column.domain, Column.len, hlz, hd] at hdom
       | some d => simp [Column.domain, Column.len, hlz, hd] at hdom)
  | .map values offsets =>
    simp only [Column.len] at hne hr
    have hlz : ¬ (offsets.length - 1 = 0) := by omega
    refine ⟨fun _ _ _ _ hdom _ => ?_, fun _ _ _ hdom _ => ?_,
      fun _ _ _ hdom _ => ?_, fun _ _ _ hdom _ => ?_⟩ <;>
      (cases hd : values.domain with
       | none => simp [Column.domain, Column.len, hlz, hd] at hdom
       | some d =>
         simp [Column.domain, Column.len, hlz, hd] at hdom
         split at hdom <;> simp_all)
  | .nullable inner validity =>
    simp only [Column.len] at hne hr
    have hlz : validity.length ≠ 0 := by omega
    refine ⟨fun _ _ _ _ hdom _ => ?_, fun _ _ _ hdom _ => ?_,
      fun _ _ _ hdom _ => ?_, fun _ _ _ hdom _ => ?_⟩ <;>
      (cases hd : inner.domain with
       | none => simp [Column.domain, Column.len, hlz, hd] at hdom
       | some d => simp [Column.domain, Column.len, hlz, hd] at hdom)
  | .tuple fields len =>
    simp only [Column.len] at hne hr
    have hlz : len ≠ 0 := by omega
    refine ⟨fun _ _ _ _ hdom _ => ?_, fun _ _ _ hdom _ => ?_,
      fun _ _ _ hdom _ => ?_, fun _ _ _ hdom _ => ?_⟩ <;>
      (cases hd : optTraverse (fields.attach.map fun f => Column.domain f.1) with
       | none => simp [Column.domain, Column.len, hlz, hd] at hdom
       | some ds => simp [Column.domain, Column.len, hlz, hd] at hdom)

theorem c5_domain_containment_witness :
    (∀ k mn mx v, (Column.timestamp [3, 1, 2]).domain = some (.number k mn mx) →
      (Column.timestamp [3, 1, 2]).index 0 = some (.number k v) → mn ≤ v ∧ v ≤ mx) ∧
    (∀ mn mx v, (Column.timestamp [3, 1, 2]).domain = some (.timestamp mn mx) →
      (Column.timestamp [3, 1, 2]).index 0 = some (.timestamp v) → mn ≤ v ∧ v ≤ mx) ∧
    (∀ mn mx v, (Column.timestamp [3, 1, 2]).domain = some (.date mn mx) →
      (Column.timestamp [3, 1, 2]).index 0 = some (.date v) → mn ≤ v ∧ v ≤ mx) ∧
    (∀ mn mxo v, (Column.timestamp [3, 1, 2]).domain = some (.string mn mxo) →
      (Column.timestamp [3, 1, 2]).index 0 = some (.string v) →
      bytesLe mn v = true ∧ ∀ mx ∈ mxo, bytesLe v mx = true) :=
  c5_domain_containment (Column.timestamp [3, 1, 2]) (by simp [Column.wf]) 0
    (by simp [Column.len]) (by simp [Column.len])

/-- Modelled from the spec: `jsonb::compare`, the "byte-level JSON-value
ordering" on variant payloads (external crate, not among the sources).
The embedding only relies on properties the real order shares with any
total comparison that is `Equal` on identical byte sequences, so a byte
comparison stands in for it. -/
def jsonbCompare (a b : List Nat) : Option Ordering := some (bytesCmp a b)

/-- Lexicographic ordering of two lists under a total element comparison
(the behaviour of `Iterator::partial_cmp` / derived slice `Ord` when every
element pair is comparable): element-wise, ties broken by length. -/
def listLexOrd (cmp : α → α → Ordering) : List α → List α → Ordering
  | [], [] => .eq
  | [], _ :: _ => .lt
  | _ :: _, [] => .gt
  | a :: as, b :: bs =>
    match cmp a b with
    | .eq => listLexOrd cmp as bs
    | o => o

mutual
/-- Boolean structural equality of logical types (the derived `PartialEq`
of `DataType`). -/
def DataType.beq : DataType → DataType → Bool
  | .null, .null => true
  | .emptyArray, .emptyArray => true
  | .emptyMap, .emptyMap => true
  | .number k1, .number k2 => k1 == k2
  | .decimal w1 s1, .decimal w2 s2 => w1 == w2 && s1 == s2
  | .boolean, .boolean => true
  | .string, .string => true
  | .timestamp, .timestamp => true
  | .date, .date => true
  | .array t1, .array t2 => DataType.beq t1 t2
  | .map t1, .map t2 => DataType.beq t1 t2
  | .nullable t1, .nullable t2 => DataType.beq t1 t2
  | .tuple ts1, .tuple ts2 => DataType.beqList ts1 ts2
  | .variant, .variant => true
  | .generic i1, .generic i2 => i1 == i2
  | _, _ => false
termination_by a _ => sizeOf a

/-- Component-wise structural equality of type lists. -/
def DataType.beqList : List DataType → List DataType → Bool
  | [], [] => true
  | t1 :: ts1, t2 :: ts2 => DataType.beq t1 t2 && DataType.beqList ts1 ts2
  | _, _ => false
termination_by a _ => sizeOf a
end

mutual
/-- `DataType.beq` is reflexive. -/
theorem DataType.beq_refl (t : DataType) : DataType.beq t t = true := by
  match t with
  | .null | .emptyArray | .emptyMap | .boolean | .string | .timestamp
  | .date | .variant => rw [DataType.beq]
  | .number k => rw [DataType.beq]; simp
  | .decimal w sz => rw [DataType.beq]; simp
  | .generic i => rw [DataType.beq]; simp
  | .array t1 => rw [DataType.beq]; exact DataType.beq_refl t1
  | .map t1 => rw [DataType.beq]; exact DataType.beq_refl t1
  | .nullable t1 => rw [DataType.beq]; exact DataType.beq_refl t1
  | .tuple ts => rw [DataType.beq]; exact DataType.beqList_refl ts
termination_by sizeOf t

/-- `DataType.beqList` is reflexive. -/
theorem DataType.beqList_refl (ts : List DataType) :
    DataType.beqList ts ts = true := by
  match ts with
  | [] => rw [DataType.beqList]
  | t :: ts2 =>
    rw [DataType.beqList, DataType.beq_refl t, DataType.beqList_refl ts2]
    rfl
termination_by sizeOf ts
end

/-- Lexicographic partial comparison of two lists under a partial element
comparison (`Iterator::partial_cmp`): the first non-`Equal` element result
decides, `None` propagates, ties broken by length. -/
def listLexPCmp (cmp : α → α → Option Ordering) : List α → List α → Option Ordering
  | [], [] => some .eq
  | [], _ :: _ => some .lt
  | _ :: _, [] => some .gt
  | a :: as, b :: bs =>
    match cmp a b with
    | some .eq => listLexPCmp cmp as bs
    | o => o

mutual
/-- Row-level partial comparison of semantic values: the effect of
`ScalarRef::partial_cmp` (values.rs:463-481) on the representation-free
view of two rows.  Cross-variant comparisons are `None`; cross-kind
numeric and mismatched decimal comparisons follow the spec's
"defined only within a matching variant pair". -/
def SemValue.pcmp : SemValue → SemValue → Option Ordering
  | .masked, .masked => some .eq
  | .masked, _ => some .lt
  | _, .masked => some .gt
  | .null, .null => some .eq
  | .emptyArray, .emptyArray => some .eq
  | .emptyMap, .emptyMap => some .eq
  | .num k1 v1, .num k2 v2 => if k1 = k2 then some (compare v1 v2) else none
  | .dec w1 v1 s1, .dec w2 v2 s2 =>
    if w1 = w2 ∧ s1 = s2 then some (compare v1 v2) else none
  | .bool b1, .bool b2 => some (compare b1 b2)
  | .str s1, .str s2 => some (bytesCmp s1 s2)
  | .ts t1, .ts t2 => some (compare t1 t2)
  | .date d1, .date d2 => some (compare d1 d2)
  | .arr ty1 r1, .arr ty2 r2 =>
    if DataType.beq ty1 ty2 then SemValue.pcmpList r1 r2 else none
  | .mapRows ty1 r1, .mapRows ty2 r2 =>
    if DataType.beq ty1 ty2 then SemValue.pcmpList r1 r2 else none
  | .tup f1, .tup f2 => SemValue.pcmpList f1 f2
  | .variant v1, .variant v2 => jsonbCompare v1 v2
  | _, _ => none
termination_by a _ => sizeOf a

/-- Lexicographic extension of `SemValue.pcmp` to row sequences. -/
def SemValue.pcmpList : List SemValue → List SemValue → Option Ordering
  | [], [] => some .eq
  | [], _ :: _ => some .lt
  | _ :: _, [] => some .gt
  | a :: as, b :: bs =>
    match SemValue.pcmp a b with
    | some .eq => SemValue.pcmpList as bs
    | o => o
termination_by a _ => sizeOf a
end

mutual
/-- `impl PartialOrd for Column` (values.rs:536-567): per-variant
comparison, `None` across variants.  Same-variant storage comparisons
(buffer `PartialOrd`, iterator `partial_cmp`) are expressed on the
semantic rows; inner numeric/decimal buffer orders are modelled from the
spec as same-kind lexicographic comparisons. -/
def Column.pcmp : Column → Column → Option Ordering
  | .null l1, .null l2 => some (compare l1 l2)
  | .emptyArray l1, .emptyArray l2 => some (compare l1 l2)
  | .emptyMap l1, .emptyMap l2 => some (compare l1 l2)
  | .number k1 v1, .number k2 v2 =>
    if k1 = k2 then some (listLexOrd compare v1 v2) else none
  | .decimal w1 v1 s1, .decimal w2 v2 s2 =>
    if w1 = w2 ∧ s1 = s2 then some (listLexOrd compare v1 v2) else none
  | .boolean b1, .boolean b2 => some (listLexOrd compare b1 b2)
  | .string d1 o1, .string d2 o2 =>
    some (listLexOrd bytesCmp (windowsOf d1 o1) (windowsOf d2 o2))
  | .timestamp v1, .timestamp v2 => some (listLexOrd compare v1 v2)
  | .date v1, .date v2 => some (listLexOrd compare v1 v2)
  | .array a1 o1, .array a2 o2 =>
    listLexPCmp SemValue.pcmpList (windowsOf a1.semRows o1) (windowsOf a2.semRows o2)
  | .map a1 o1, .map a2 o2 =>
    listLexPCmp SemValue.pcmpList (windowsOf a1.semRows o1) (windowsOf a2.semRows o2)
  | .nullable c1 v1, .nullable c2 v2 =>
    listLexPCmp SemValue.pcmp
      (List.zipWith (fun (valid : Bool) r => if valid then r else SemValue.masked)
        v1 c1.semRows)
      (List.zipWith (fun (valid : Bool) r => if valid then r else SemValue.masked)
        v2 c2.semRows)
  | .tuple f1 _, .tuple f2 _ => Column.pcmpFields f1 f2
  | .variant d1 o1, .variant d2 o2 =>
    listLexPCmp jsonbCompare (windowsOf d1 o1) (windowsOf d2 o2)
  | _, _ => none
termination_by a _ => sizeOf a

/-- Lexicographic comparison of tuple field columns (`Vec<Column>`'s
derived `PartialOrd`). -/
def Column.pcmpFields : List Column → List Column → Option Ordering
  | [], [] => some .eq
  | [], _ :: _ => some .lt
  | _ :: _, [] => some .gt
  | a :: as, b :: bs =>
    match Column.pcmp a b with
    | some .eq => Column.pcmpFields as bs
    | o => o
termination_by a _ => sizeOf a
end

mutual
/-- `impl PartialOrd for Scalar` / `ScalarRef` (values.rs:428-449 and
463-481): per-variant comparison, `None` across variants; array/map
scalars compare their nested columns, tuples compare field-wise. -/
def Scalar.pcmp : Scalar → Scalar → Option Ordering
  | .null, .null => some .eq
  | .emptyArray, .emptyArray => some .eq
  | .emptyMap, .emptyMap => some .eq
  | .number k1 v1, .number k2 v2 => if k1 = k2 then some (compare v1 v2) else none
  | .decimal w1 v1 s1, .decimal w2 v2 s2 =>
    if w1 = w2 ∧ s1 = s2 then some (compare v1 v2) else none
  | .boolean b1, .boolean b2 => some (compare b1 b2)
  | .string s1, .string s2 => some (bytesCmp s1 s2)
  | .timestamp t1, .timestamp t2 => some (compare t1 t2)
  | .date d1, .date d2 => some (compare d1 d2)
  | .array c1, .array c2 => Column.pcmp c1 c2
  | .map c1, .map c2 => Column.pcmp c1 c2
  | .tuple t1, .tuple t2 => Scalar.pcmpList t1 t2
  | .variant v1, .variant v2 => jsonbCompare v1 v2
  | _, _ => none
termination_by a _ => sizeOf a

/-- Lexicographic comparison of tuple field scalars (`Vec<Scalar>`'s
derived `PartialOrd`). -/
def Scalar.pcmpList : List Scalar → List Scalar → Option Ordering
  | [], [] => some .eq
  | [], _ :: _ => some .lt
  | _ :: _, [] => some .gt
  | a :: as, b :: bs =>
    match Scalar.pcmp a b with
    | some .eq => Scalar.pcmpList as bs
    | o => o
termination_by a _ => sizeOf a
end

/-- `impl PartialEq for Scalar` (values.rs:457-461): equality holds
exactly when `partial_cmp` returns `Some(Equal)`. -/
def Scalar.eqB (a b : Scalar) : Bool := Scalar.pcmp a b == some .eq

/-- `impl PartialEq for Column` (values.rs:570-574). -/
def Column.eqB (a b : Column) : Bool := Column.pcmp a b == some .eq

/-- Discriminant of a scalar's variant. -/
def Scalar.tag : Scalar → Nat
  | .null => 0
  | .emptyArray => 1
  | .emptyMap => 2
  | .number _ _ => 3
  | .decimal _ _ _ => 4
  | .boolean _ => 5
  | .string _ => 6
  | .timestamp _ => 7
  | .date _ => 8
  | .array _ => 9
  | .map _ => 10
  | .tuple _ => 11
  | .variant _ => 12

/-- C8: for any pair of `Scalar` values whose variants differ,
`partial_cmp` returns `None` (the catch-all arm of values.rs:446) and
`==` is therefore `false` (values.rs:457-461 defines equality as
`partial_cmp == Some(Equal)`). -/
theorem c8_cross_variant_ordering (s1 s2 : Scalar) (h : s1.tag ≠ s2.tag) :
    Scalar.pcmp s1 s2 = none ∧ Scalar.eqB s1 s2 = false := by
  have hp : Scalar.pcmp s1 s2 = none := by
    cases s1 <;> cases s2 <;>
      first
        | (exact absurd rfl h)
        | (rw [Scalar.pcmp.eq_def])
  exact ⟨hp, by simp [Scalar.eqB, hp]⟩

theorem c8_cross_variant_ordering_witness :
    Scalar.pcmp Scalar.null (Scalar.boolean true) = none ∧
    Scalar.eqB Scalar.null (Scalar.boolean true) = false :=
  c8_cross_variant_ordering Scalar.null (Scalar.boolean true) (by simp [Scalar.tag])

/-- Modelled from the spec: value of one character of the standard base64
alphabet (the `base64` crate's standard config used by
`base64::decode`). -/
def base64CharVal (c : Char) : Option Nat :=
  if 'A' ≤ c ∧ c ≤ 'Z' then some (c.toNat - 65)
  else if 'a' ≤ c ∧ c ≤ 'z' then some (c.toNat - 97 + 26)
  else if '0' ≤ c ∧ c ≤ '9' then some (c.toNat - 48 + 52)
  else if c = '+' then some 62
  else if c = '/' then some 63
  else none

/-- Modelled from the spec: standard padded base64 decoding in groups of
four characters; `none` on any character outside the alphabet or a length
that is not a multiple of four. -/
def base64DecodeChars : List Char → Option (List Nat)
  | [] => some []
  | c1 :: c2 :: c3 :: c4 :: rest =>
    match base64CharVal c1, base64CharVal c2 with
    | some v1, some v2 =>
      if c3 = '=' ∧ c4 = '=' ∧ rest = [] then
        some [v1 * 4 + v2 / 16]
      else
        match base64CharVal c3 with
        | some v3 =>
          if c4 = '=' ∧ rest = [] then
            some [v1 * 4 + v2 / 16, (v2 % 16) * 16 + v3 / 4]
          else
            match base64CharVal c4 with
            | some v4 =>
              (base64DecodeChars rest).map fun tail =>
                (v1 * 4 + v2 / 16) :: ((v2 % 16) * 16 + v3 / 4) ::
                  ((v3 % 4) * 64 + v4) :: tail
            | none => none
        | none => none
    | _, _ => none
  | _ => none

/-- `base64::decode` on the textual input. -/
def base64Decode (s : String) : Option (List Nat) := base64DecodeChars s.data

/-- Sign-folding encoding of an integer as a natural symbol, used by the
canonical column codec below. -/
def encodeInt (x : Int) : Nat := if 0 ≤ x then 2 * x.toNat else 2 * (-x).toNat - 1

/-- Inverse of `encodeInt`. -/
def decodeInt (n : Nat) : Int := if n % 2 = 0 then (n / 2 : Nat) else -(((n + 1) / 2 : Nat) : Int)

/-- Length-prefixed chunk of raw symbols. -/
def encodeNatList (l : List Nat) : List Nat := l.length :: l

/-- Length-prefixed chunk of encoded integers. -/
def encodeIntList (l : List Int) : List Nat := l.length :: l.map encodeInt

/-- Length-prefixed chunk of bits. -/
def encodeBoolList (l : List Bool) : List Nat :=
  l.length :: l.map fun b => if b then 1 else 0

/-- Numeric kind discriminant for the codec. -/
def numKindCode : NumKind → Nat
  | .uint8 => 0 | .uint16 => 1 | .uint32 => 2 | .uint64 => 3
  | .int8 => 4 | .int16 => 5 | .int32 => 6 | .int64 => 7
  | .float32 => 8 | .float64 => 9

/-- Inverse of `numKindCode`. -/
def numKindOfCode : Nat → Option NumKind
  | 0 => some .uint8 | 1 => some .uint16 | 2 => some .uint32 | 3 => some .uint64
  | 4 => some .int8 | 5 => some .int16 | 6 => some .int32 | 7 => some .int64
  | 8 => some .float32 | 9 => some .float64
  | _ => none

/-- Modelled from the spec: `serialize_column` (in the unprovided
`utils/arrow.rs`), the canonical versionless binary chunk encoding of a
column — a tag followed by the variant's buffers, recursively. -/
def serializeColumn : Column → List Nat
  | .null len => [0, len]
  | .emptyArray len => [1, len]
  | .emptyMap len => [2, len]
  | .number k vs => 3 :: numKindCode k :: encodeIntList vs
  | .decimal w vs size =>
    4 :: (if w = .d128 then 0 else 1) :: size.precision :: size.scale :: encodeIntList vs
  | .boolean bs => 5 :: encodeBoolList bs
  | .string data offs => 6 :: (encodeNatList data ++ encodeNatList offs)
  | .timestamp vs => 7 :: encodeIntList vs
  | .date vs => 8 :: encodeIntList vs
  | .array values offs => 9 :: (encodeNatList offs ++ serializeColumn values)
  | .map values offs => 10 :: (encodeNatList offs ++ serializeColumn values)
  | .nullable inner validity => 11 :: (encodeBoolList validity ++ serializeColumn inner)
  | .tuple fields len =>
    12 :: len :: fields.length :: (fields.attach.map fun f => serializeColumn f.1).flatten
  | .variant data offs => 13 :: (encodeNatList data ++ encodeNatList offs)
termination_by c => sizeOf c
decreasing_by
  all_goals simp_wf
  all_goals first
    | omega
    | (have q := List.sizeOf_lt_of_mem f.2; omega)

/-- Split off a length-prefixed chunk; `none` when the input is too
short. -/
def readChunk (n : Nat) (bs : List Nat) : Option (List Nat × List Nat) :=
  if bs.length < n then none else some (bs.take n, bs.drop n)

mutual
/-- Fuel-indexed parser of the canonical chunk encoding; `none` on any
malformed input. -/
def decodeColumnF : Nat → List Nat → Option (Column × List Nat)
  | 0, _ => none
  | _ + 1, 0 :: len :: rest => some (.null len, rest)
  | _ + 1, 1 :: len :: rest => some (.emptyArray len, rest)
  | _ + 1, 2 :: len :: rest => some (.emptyMap len, rest)
  | _ + 1, 3 :: kc :: n :: rest =>
    (numKindOfCode kc).bind fun k =>
      (readChunk n rest).map fun p => (.number k (p.1.map decodeInt), p.2)
  | _ + 1, 4 :: wc :: prec :: scale :: n :: rest =>
    if wc ≤ 1 then
      (readChunk n rest).map fun p =>
        (.decimal (if wc = 0 then .d128 else .d256) (p.1.map decodeInt) ⟨prec, scale⟩, p.2)
    else none
  | _ + 1, 5 :: n :: rest =>
    (readChunk n rest).map fun p => (.boolean (p.1.map fun b => b == 1), p.2)
  | _ + 1, 6 :: n :: rest =>
    (readChunk n rest).bind fun p =>
      match p.2 with
      | m :: rest2 => (readChunk m rest2).map fun q => (.string p.1 q.1, q.2)
      | [] => none
  | _ + 1, 7 :: n :: rest =>
    (readChunk n rest).map fun p => (.timestamp (p.1.map decodeInt), p.2)
  | _ + 1, 8 :: n :: rest =>
    (readChunk n rest).map fun p => (.date (p.1.map decodeInt), p.2)
  | fuel + 1, 9 :: n :: rest =>
    (readChunk n rest).bind fun p =>
      (decodeColumnF fuel p.2).map fun q => (.array q.1 p.1, q.2)
  | fuel + 1, 10 :: n :: rest =>
    (readChunk n rest).bind fun p =>
      (decodeColumnF fuel p.2).map fun q => (.map q.1 p.1, q.2)
  | fuel + 1, 11 :: n :: rest =>
    (readChunk n rest).bind fun p =>
      (decodeColumnF fuel p.2).map fun q =>
        (.nullable q.1 (p.1.map fun b => b == 1), q.2)
  | fuel + 1, 12 :: len :: nf :: rest =>
    (decodeFieldsF fuel nf rest).map fun q => (.tuple q.1 len, q.2)
  | _ + 1, 13 :: n :: rest =>
    (readChunk n rest).bind fun p =>
      match p.2 with
      | m :: rest2 => (readChunk m rest2).map fun q => (.variant p.1 q.1, q.2)
      | [] => none
  | _ + 1, _ => none
termination_by structural fuel _ => fuel

/-- Parse `nf` consecutive field chunks. -/
def decodeFieldsF : Nat → Nat → List Nat → Option (List Column × List Nat)
  | _, 0, bs => some ([], bs)
  | 0, _ + 1, _ => none
  | fuel + 1, nf + 1, bs =>
    (decodeColumnF fuel bs).bind fun p =>
      (decodeFieldsF fuel nf p.2).map fun q => (p.1 :: q.1, q.2)
termination_by structural fuel _ _ => fuel
end

/-- Modelled from the spec: `deserialize_column` (in the unprovided
`utils/arrow.rs`) — parse the canonical chunk, failing on malformed bytes
or trailing garbage. -/
def deserializeColumn (bs : List Nat) : Option Column :=
  match decodeColumnF (bs.length + 1) bs with
  | some (c, []) => some c
  | _ => none

/-- Result of `Visitor::visit_str`: either a column or a propagated
panic. -/
inductive DeserResult where
  | ok (c : Column)
  | panicked (msg : String)

/-- Panic message of `base64::decode(v).unwrap()` on a decode error. -/
def unwrapFailMsg : String := "called unwrap on an Err value"

/-- Panic message of the `.expect(...)` on `deserialize_column`
(values.rs:1494). -/
def expectFailMsg : String := "expecting an arrow chunk with exactly one column"

/-- `ColumnVisitor::visit_str` of `impl Deserialize for Column`
(values.rs:1490-1496): `base64::decode(v).unwrap()` followed by
`deserialize_column(&bytes).expect(...)` — both failure paths panic
instead of returning a `serde` error. -/
def visitStr (v : String) : DeserResult :=
  match base64Decode v with
  | none => .panicked unwrapFailMsg
  | some bytes =>
    match deserializeColumn bytes with
    | none => .panicked expectFailMsg
    | some c => .ok c

/-- C7 counterexample: the claim says malformed serialized-column input
surfaces an error value and never propagates a panic, but on the
non-base64 input `"!!!!"` the visitor hits `base64::decode(v).unwrap()`
(values.rs:1492) and panics. -/
theorem c7_counterexample : visitStr "!!!!" = .panicked unwrapFailMsg := by
  have hd : base64Decode "!!!!" = none := by decide
  simp [visitStr, hd]

/-- C7 (amended): malformed serialized-column input makes deserialization
panic rather than return an error value: a base64 decode failure panics
through `unwrap` (values.rs:1492), and bytes that are not a valid
serialized column panic through `expect` (values.rs:1493-1494). -/
theorem c7_deserialize_panics (v : String) :
    (base64Decode v = none → visitStr v = .panicked unwrapFailMsg) ∧
    (∀ bs, base64Decode v = some bs → deserializeColumn bs = none →
      visitStr v = .panicked expectFailMsg) := by
  constructor
  · intro h
    simp [visitStr, h]
  · intro bs h1 h2
    simp [visitStr, h1, h2]

theorem c7_deserialize_panics_witness :
    visitStr "****" = .panicked unwrapFailMsg ∧
    visitStr "AAAA" = .panicked expectFailMsg :=
  ⟨(c7_deserialize_panics "****").1 (by decide),
   (c7_deserialize_panics "AAAA").2 [0, 0, 0] (by decide) rfl⟩

/-! ### Column builders (values.rs:1442-1818)

`ColumnBuilder` mirrors the source's builder enum.  The inner builders
(`NumberColumnBuilder`, `StringColumnBuilder`, `ArrayColumnBuilder`,
`NullableColumnBuilder`, `MutableBitmap`, …) live in
`types/{number,string,array,nullable}.rs`, which are not under `src/`;
their storage is modelled from the spec (§7: builders hold the same
storage as the finished column, mutable): a number builder is its value
list, a string builder its byte buffer plus offsets, an array builder an
inner builder plus offsets, a nullable builder an inner builder plus a
validity bitmap.  Their row-level methods (`push`, `commit_row`,
`append_column`, `push_null`) are likewise modelled from the spec's
descriptions; the dispatching code in values.rs is translated verbatim. -/

inductive ColumnBuilder where
  | null (len : Nat)
  | emptyArray (len : Nat)
  | emptyMap (len : Nat)
  | number (k : NumKind) (values : List Int)
  | decimal (w : DecW) (values : List Int) (size : DecimalSize)
  | boolean (values : List Bool)
  | string (data : List Nat) (offsets : List Nat)
  | timestamp (values : List Int)
  | date (values : List Int)
  | array (builder : ColumnBuilder) (offsets : List Nat)
  | map (builder : ColumnBuilder) (offsets : List Nat)
  | nullable (builder : ColumnBuilder) (validity : List Bool)
  | tuple (fields : List ColumnBuilder) (len : Nat)
  | variant (data : List Nat) (offsets : List Nat)

/-- `ColumnBuilder::len` (values.rs:1598-1615): current row count. -/
def ColumnBuilder.len : ColumnBuilder → Nat
  | .null len => len
  | .emptyArray len => len
  | .emptyMap len => len
  | .number _ values => values.length
  | .decimal _ values _ => values.length
  | .boolean values => values.length
  | .string _ offsets => offsets.length - 1
  | .timestamp values => values.length
  | .date values => values.length
  | .array _ offsets => offsets.length - 1
  | .map _ offsets => offsets.length - 1
  | .nullable _ validity => validity.length
  | .tuple _ len => len
  | .variant _ offsets => offsets.length - 1

/-- `true` exactly on the `Nullable` builder variant. -/
def ColumnBuilder.isNullableB : ColumnBuilder → Bool
  | .nullable _ _ => true
  | _ => false

/-- `ColumnBuilder::build` (values.rs:1798-1818): freeze the mutable
storage into a column, variant-wise. -/
def ColumnBuilder.build : ColumnBuilder → Column
  | .null len => .null len
  | .emptyArray len => .emptyArray len
  | .emptyMap len => .emptyMap len
  | .number k values => .number k values
  | .decimal w values size => .decimal w values size
  | .boolean values => .boolean values
  | .string data offsets => .string data offsets
  | .timestamp values => .timestamp values
  | .date values => .date values
  | .array b offsets => .array b.build offsets
  | .map b offsets => .map b.build offsets
  | .nullable b validity => .nullable b.build validity
  | .tuple fields len => .tuple (fields.attach.map fun f => ColumnBuilder.build f.1) len
  | .variant data offsets => .variant data offsets
termination_by b => sizeOf b
decreasing_by
  all_goals simp_wf
  all_goals first
    | omega
    | (have q := List.sizeOf_lt_of_mem f.2; omega)

/-- `ColumnBuilder::from_column` (values.rs:1506-1535): reopen a column
as a builder holding the same storage. -/
def ColumnBuilder.from_column : Column → ColumnBuilder
  | .null len => .null len
  | .emptyArray len => .emptyArray len
  | .emptyMap len => .emptyMap len
  | .number k values => .number k values
  | .decimal w values size => .decimal w values size
  | .boolean values => .boolean values
  | .string data offsets => .string data offsets
  | .timestamp values => .timestamp values
  | .date values => .date values
  | .array values offsets => .array (ColumnBuilder.from_column values) offsets
  | .map values offsets => .map (ColumnBuilder.from_column values) offsets
  | .nullable inner validity => .nullable (ColumnBuilder.from_column inner) validity
  | .tuple fields len =>
    .tuple (fields.attach.map fun f => ColumnBuilder.from_column f.1) len
  | .variant data offsets => .variant data offsets
termination_by c => sizeOf c
decreasing_by
  all_goals simp_wf
  all_goals first
    | omega
    | (have q := List.sizeOf_lt_of_mem f.2; omega)

/-- `ColumnBuilder::with_capacity` (values.rs:1617-1668): the fresh empty
builder of a type (capacity is allocation advice only and has no
observable effect on the modelled storage); `Generic` is
`unreachable!`. -/
def ColumnBuilder.with_capacity (ty : DataType) (capacity : Nat) :
    Option ColumnBuilder :=
  match ty with
  | .null => some (.null 0)
  | .emptyArray => some (.emptyArray 0)
  | .emptyMap => some (.emptyMap 0)
  | .number k => some (.number k [])
  | .decimal w size => some (.decimal w [] size)
  | .boolean => some (.boolean [])
  | .string => some (.string [] [0])
  | .timestamp => some (.timestamp [])
  | .date => some (.date [])
  | .nullable te =>
    (ColumnBuilder.with_capacity te capacity).map fun b => .nullable b []
  | .array te =>
    (ColumnBuilder.with_capacity te 0).map fun b => .array b [0]
  | .map te =>
    (ColumnBuilder.with_capacity te 0).map fun b => .map b [0]
  | .tuple fields =>
    (optTraverse (fields.attach.map fun f =>
      ColumnBuilder.with_capacity f.1 capacity)).map fun fs => .tuple fs 0
  | .variant => some (.variant [] [0])
  | .generic _ => none
termination_by sizeOf ty
decreasing_by
  all_goals simp_wf
  all_goals first
    | omega
    | (have q := List.sizeOf_lt_of_mem f.2; omega)

/-- The `JSONB_NULL` constant pushed by `push_default` for variants: the
jsonb encoding of JSON `null` (an opaque byte string from the external
jsonb crate; its exact bytes are irrelevant to the development and
modelled as a fixed nonempty byte list). -/
def jsonbNull : List Nat := [32, 0, 0, 0]

/-- `ColumnBuilder::push_default` (values.rs:1713-1738): append one
default row (zero numbers, `false`, empty string, empty array row,
`push_null` for nullable, `JSONB_NULL` for variant). -/
def ColumnBuilder.push_default : ColumnBuilder → ColumnBuilder
  | .null len => .null (len + 1)
  | .emptyArray len => .emptyArray (len + 1)
  | .emptyMap len => .emptyMap (len + 1)
  | .number k values => .number k (values ++ [0])
  | .decimal w values size => .decimal w (values ++ [0]) size
  | .boolean values => .boolean (values ++ [false])
  | .string data offsets => .string data (offsets ++ [data.length])
  | .timestamp values => .timestamp (values ++ [0])
  | .date values => .date (values ++ [0])
  | .array b offsets => .array b (offsets ++ [b.len])
  | .map b offsets => .map b (offsets ++ [b.len])
  | .nullable b validity => .nullable b.push_default (validity ++ [false])
  | .tuple fields len =>
    .tuple (fields.attach.map fun f => ColumnBuilder.push_default f.1) (len + 1)
  | .variant data offsets =>
    .variant (data ++ jsonbNull) (offsets ++ [data.length + jsonbNull.length])
termination_by b => sizeOf b
decreasing_by
  all_goals simp_wf
  all_goals first
    | omega
    | (have q := List.sizeOf_lt_of_mem f.2; omega)

/-- `ColumnBuilder::append_column` (values.rs:1740-1796): bulk-append a
column's full contents to a builder of the same variant; variant
mismatches (and inner kind/size mismatches) are `unreachable!`/assert
panics, modelled as `none`.  Row storage of string/variant/array columns
may be a slice window, so the appended payload is the window
`[first offset, last offset)` and the appended offsets are shifted to
continue from the builder's current end. -/
def ColumnBuilder.append_column : ColumnBuilder → Column → Option ColumnBuilder
  | .null len, .null olen => some (.null (len + olen))
  | .emptyArray len, .emptyArray olen => some (.emptyArray (len + olen))
  | .emptyMap len, .emptyMap olen => some (.emptyMap (len + olen))
  | .number k values, .number k2 v2 =>
    if k = k2 then some (.number k (values ++ v2)) else none
  | .decimal w values size, .decimal w2 v2 s2 =>
    if w = w2 ∧ size = s2 then some (.decimal w (values ++ v2) size) else none
  | .boolean values, .boolean v2 => some (.boolean (values ++ v2))
  | .string data offsets, .string d2 o2 =>
    some (.string (data ++ sliceList d2 (o2.head?.getD 0) (lastOffset o2))
      (offsets ++ o2.tail.map fun o => data.length + (o - o2.head?.getD 0)))
  | .variant data offsets, .variant d2 o2 =>
    some (.variant (data ++ sliceList d2 (o2.head?.getD 0) (lastOffset o2))
      (offsets ++ o2.tail.map fun o => data.length + (o - o2.head?.getD 0)))
  | .timestamp values, .timestamp v2 => some (.timestamp (values ++ v2))
  | .date values, .date v2 => some (.date (values ++ v2))
  | .array b offsets, .array values2 o2 =>
    match values2.slice (o2.head?.getD 0) (lastOffset o2) with
    | none => none
    | some vs =>
      (ColumnBuilder.append_column b vs).map fun b2 =>
        .array b2 (offsets ++ o2.tail.map fun o => b.len + (o - o2.head?.getD 0))
  | .map b offsets, .map values2 o2 =>
    match values2.slice (o2.head?.getD 0) (lastOffset o2) with
    | none => none
    | some vs =>
      (ColumnBuilder.append_column b vs).map fun b2 =>
        .map b2 (offsets ++ o2.tail.map fun o => b.len + (o - o2.head?.getD 0))
  | .nullable b validity, .nullable inner v2 =>
    (ColumnBuilder.append_column b inner).map fun b2 =>
      .nullable b2 (validity ++ v2)
  | .tuple fields len, .tuple ofields olen =>
    if fields.length = ofields.length then
      (optTraverse ((fields.zip ofields).attach.map fun p =>
        ColumnBuilder.append_column p.1.1 p.1.2)).map fun fs =>
        .tuple fs (len + olen)
    else none
  | _, _ => none
termination_by b _ => sizeOf b
decreasing_by
  all_goals simp_wf
  all_goals first
    | omega
    | (rename_i hmem
       obtain ⟨⟨f, t⟩, hmem2⟩ := p
       have := (List.of_mem_zip hmem2).1
       have := List.sizeOf_lt_of_mem this
       simp at *
       omega)

/-- `ColumnBuilder::push` (values.rs:1670-1711): append one scalar.  The
scalar's variant must match the builder's (`Null` is also accepted by a
nullable builder, which stores a default row with an unset validity
bit); a mismatch is `unreachable!`, modelled as `none`. -/
def ColumnBuilder.push : ColumnBuilder → Scalar → Option ColumnBuilder
  | .null len, .null => some (.null (len + 1))
  | .emptyArray len, .emptyArray => some (.emptyArray (len + 1))
  | .emptyMap len, .emptyMap => some (.emptyMap (len + 1))
  | .number k values, .number k2 v =>
    if k = k2 then some (.number k (values ++ [v])) else none
  | .decimal w values size, .decimal w2 v s2 =>
    if w = w2 ∧ size = s2 then some (.decimal w (values ++ [v]) size) else none
  | .boolean values, .boolean b => some (.boolean (values ++ [b]))
  | .string data offsets, .string s =>
    some (.string (data ++ s) (offsets ++ [data.length + s.length]))
  | .timestamp values, .timestamp t => some (.timestamp (values ++ [t]))
  | .date values, .date d => some (.date (values ++ [d]))
  | .array b offsets, .array col =>
    (ColumnBuilder.append_column b col).map fun b2 =>
      .array b2 (offsets ++ [b2.len])
  | .map b offsets, .map col =>
    (ColumnBuilder.append_column b col).map fun b2 =>
      .map b2 (offsets ++ [b2.len])
  | .nullable b validity, .null =>
    some (.nullable b.push_default (validity ++ [false]))
  | .nullable b validity, s =>
    (ColumnBuilder.push b s).map fun b2 => .nullable b2 (validity ++ [true])
  | .tuple fields len, .tuple ss =>
    if fields.length = ss.length then
      (optTraverse ((fields.zip ss).attach.map fun p =>
        ColumnBuilder.push p.1.1 p.1.2)).map fun fs => .tuple fs (len + 1)
    else none
  | .variant data offsets, .variant s =>
    some (.variant (data ++ s) (offsets ++ [data.length + s.length]))
  | _, _ => none
termination_by b _ => sizeOf b
decreasing_by
  all_goals simp_wf
  all_goals first
    | omega
    | (rename_i hmem
       obtain ⟨⟨f, t⟩, hmem2⟩ := p
       have := (List.of_mem_zip hmem2).1
       have := List.sizeOf_lt_of_mem this
       simp at *
       omega)

/-- Fold a scalar sequence through `push` (the claim's "pushing
`s1..sn`"), failing as soon as one push would panic. -/
def ColumnBuilder.pushMany (b : ColumnBuilder) (ss : List Scalar) :
    Option ColumnBuilder :=
  ss.foldl (fun ob s => ob.bind fun b2 => b2.push s) (some b)

/-- Builder well-formedness: the finished column's invariants, with the
offset chains moreover ending exactly at the current storage end (fresh
builders start there and every push/append re-establishes it; columns
reopened by `from_column` may be slice windows, which is why this is a
separate, stronger invariant than `Column.wf`). -/
def ColumnBuilder.wfB : ColumnBuilder → Bool
  | .null _ => true
  | .emptyArray _ => true
  | .emptyMap _ => true
  | .number _ _ => true
  | .decimal _ _ _ => true
  | .boolean _ => true
  | .string data offsets =>
    !offsets.isEmpty && nondecreasing offsets && (lastOffset offsets == data.length)
  | .timestamp _ => true
  | .date _ => true
  | .array b offsets =>
    !offsets.isEmpty && nondecreasing offsets && (lastOffset offsets == b.len)
      && b.wfB
  | .map b offsets =>
    !offsets.isEmpty && nondecreasing offsets && (lastOffset offsets == b.len)
      && b.wfB
  | .nullable b validity =>
    (validity.length == b.len) && !b.isNullableB && b.wfB
  | .tuple fields len =>
    fields.attach.all fun f => (ColumnBuilder.len f.1 == len) && ColumnBuilder.wfB f.1
  | .variant data offsets =>
    !offsets.isEmpty && nondecreasing offsets && (lastOffset offsets == data.length)
termination_by b => sizeOf b
decreasing_by
  all_goals simp_wf
  all_goals first
    | omega
    | (have q := List.sizeOf_lt_of_mem f.2; omega)

theorem ColumnBuilder.len_build (b : ColumnBuilder) : (b.build).len = b.len := by
  cases b <;> simp [ColumnBuilder.build, Column.len, ColumnBuilder.len]

theorem ColumnBuilder.isNullableB_build (b : ColumnBuilder) :
    (b.build).isNullableCol = b.isNullableB := by
  cases b <;>
    simp [ColumnBuilder.build, Column.isNullableCol, ColumnBuilder.isNullableB]

theorem ColumnBuilder.wfB_wf (b : ColumnBuilder) (h : b.wfB = true) :
    (b.build).wf = true := by
  match b with
  | .null _ | .emptyArray _ | .emptyMap _ | .number _ _ | .decimal _ _ _
  | .boolean _ | .timestamp _ | .date _ =>
    simp [ColumnBuilder.build, Column.wf]
  | .string data offsets =>
    have h2 : (¬offsets = [] ∧ nondecreasing offsets = true) ∧
        lastOffset offsets = data.length := by
      simpa [ColumnBuilder.wfB] using h
    simp [ColumnBuilder.build, Column.wf, offsetsOk, h2.1.1, h2.1.2, h2.2]
  | .variant data offsets =>
    have h2 : (¬offsets = [] ∧ nondecreasing offsets = true) ∧
        lastOffset offsets = data.length := by
      simpa [ColumnBuilder.wfB] using h
    simp [ColumnBuilder.build, Column.wf, offsetsOk, h2.1.1, h2.1.2, h2.2]
  | .array b2 offsets =>
    have h2 : ((¬offsets = [] ∧ nondecreasing offsets = true) ∧
        lastOffset offsets = b2.len) ∧ b2.wfB = true := by
      simpa [ColumnBuilder.wfB] using h
    have ih := ColumnBuilder.wfB_wf b2 h2.2
    simp [ColumnBuilder.build, Column.wf, offsetsOk, h2.1.1.1, h2.1.1.2,
      h2.1.2, ColumnBuilder.len_build, ih]
  | .map b2 offsets =>
    have h2 : ((¬offsets = [] ∧ nondecreasing offsets = true) ∧
        lastOffset offsets = b2.len) ∧ b2.wfB = true := by
      simpa [ColumnBuilder.wfB] using h
    have ih := ColumnBuilder.wfB_wf b2 h2.2
    simp [ColumnBuilder.build, Column.wf, offsetsOk, h2.1.1.1, h2.1.1.2,
      h2.1.2, ColumnBuilder.len_build, ih]
  | .nullable b2 validity =>
    have h2 : (validity.length = b2.len ∧ b2.isNullableB = false) ∧
        b2.wfB = true := by
      simpa [ColumnBuilder.wfB] using h
    have ih := ColumnBuilder.wfB_wf b2 h2.2
    simp [ColumnBuilder.build, Column.wf, ColumnBuilder.len_build,
      ColumnBuilder.isNullableB_build, h2.1.1, h2.1.2, ih]
  | .tuple fields len =>
    have h2 : ∀ f ∈ fields, ColumnBuilder.len f = len ∧ f.wfB = true := by
      rw [show ColumnBuilder.wfB (.tuple fields len)
          = (fields.attach.all fun f =>
              (ColumnBuilder.len f.1 == len) && ColumnBuilder.wfB f.1) by
        simp [ColumnBuilder.wfB]] at h
      rw [attachAll fields
        (fun f => (ColumnBuilder.len f == len) && ColumnBuilder.wfB f),
        List.all_eq_true] at h
      intro f hf
      have := h f hf
      simpa using this
    rw [show ColumnBuilder.build (.tuple fields len)
        = .tuple (fields.attach.map fun f => ColumnBuilder.build f.1) len by
      simp [ColumnBuilder.build]]
    rw [wf_tuple_iff]
    intro f hf
    obtain ⟨a, ha, rfl⟩ := List.mem_map.mp hf
    have h3 := h2 a.1 a.2
    exact ⟨by rw [ColumnBuilder.len_build, h3.1], ColumnBuilder.wfB_wf a.1 h3.2⟩
termination_by sizeOf b
decreasing_by
  all_goals simp_wf
  all_goals first
    | omega
    | (have q := List.sizeOf_lt_of_mem a.2; omega)

theorem from_column_build (c : Column) :
    (ColumnBuilder.from_column c).build = c := by
  match c with
  | .null _ | .emptyArray _ | .emptyMap _ | .number _ _ | .decimal _ _ _
  | .boolean _ | .string _ _ | .timestamp _ | .date _ | .variant _ _ =>
    simp [ColumnBuilder.from_column, ColumnBuilder.build]
  | .array values offsets =>
    have ih := from_column_build values
    simp [ColumnBuilder.from_column, ColumnBuilder.build, ih]
  | .map values offsets =>
    have ih := from_column_build values
    simp [ColumnBuilder.from_column, ColumnBuilder.build, ih]
  | .nullable inner validity =>
    have ih := from_column_build inner
    simp [ColumnBuilder.from_column, ColumnBuilder.build, ih]
  | .tuple fields len =>
    have ih : ∀ f ∈ fields, (ColumnBuilder.from_column f).build = f :=
      fun f hf => from_column_build f
    rw [show ColumnBuilder.from_column (.tuple fields len)
        = .tuple (fields.attach.map fun f => ColumnBuilder.from_column f.1) len by
      simp [ColumnBuilder.from_column]]
    rw [attachMap fields ColumnBuilder.from_column]
    rw [show ColumnBuilder.build (.tuple (fields.map ColumnBuilder.from_column) len)
        = .tuple ((fields.map ColumnBuilder.from_column).attach.map fun f =>
            ColumnBuilder.build f.1) len by
      simp [ColumnBuilder.build]]
    rw [attachMap (fields.map ColumnBuilder.from_column) ColumnBuilder.build]
    rw [List.map_map]
    congr 1
    rw [show fields.map (ColumnBuilder.build ∘ ColumnBuilder.from_column)
        = fields.map id from List.map_congr_left fun a ha => ih a ha]
    exact List.map_id fields
termination_by sizeOf c
decreasing_by
  all_goals simp_wf
  all_goals first
    | omega
    | (have q := List.sizeOf_lt_of_mem hf; omega)

/-- C10: reopening any column as a builder with `from_column` and
finalizing with `build` is the identity — the same variant, length and
storage, hence in particular element-wise equality. -/
theorem c10_from_column_build_identity (c : Column) :
    (ColumnBuilder.from_column c).build = c :=
  from_column_build c

theorem sliceList_append_left {xs : List α} (m : List α) {s e : Nat}
    (h : e ≤ xs.length) : sliceList (xs ++ m) s e = sliceList xs s e := by
  apply List.ext_getElem?
  intro i
  by_cases hi : i < e - s
  · rw [sliceList_getElem? hi, sliceList_getElem? hi,
      List.getElem?_append_left (by omega)]
  · have l1 : (sliceList (xs ++ m) s e).length = e - s := by
      rw [sliceList_length_eq, List.length_append]
      omega
    have l2 : (sliceList xs s e).length = e - s := by
      rw [sliceList_length_eq]
      omega
    rw [List.getElem?_eq_none (by omega), List.getElem?_eq_none (by omega)]

theorem sliceList_append_shift {xs : List α} (m : List α) (s e : Nat) :
    sliceList (xs ++ m) (xs.length + s) (xs.length + e) = sliceList m s e := by
  show ((xs ++ m).drop (xs.length + s)).take (xs.length + e - (xs.length + s))
    = (m.drop s).take (e - s)
  rw [show xs.length + e - (xs.length + s) = e - s by omega, List.drop_append]

theorem sliceList_sliceList {ys : List α} {lo hi a b : Nat} (h1 : lo ≤ a)
    (h2 : b ≤ hi) :
    sliceList (sliceList ys lo hi) (a - lo) (b - lo) = sliceList ys a b := by
  apply List.ext_getElem?
  intro i
  by_cases hi2 : i < b - a
  · rw [sliceList_getElem? (by omega), sliceList_getElem? (by omega),
      sliceList_getElem? (by omega)]
    congr 1
    omega
  · have l1 : (sliceList (sliceList ys lo hi) (a - lo) (b - lo)).length ≤ b - a := by
      rw [sliceList_length_eq]
      omega
    have l2 : (sliceList ys a b).length ≤ b - a := by
      rw [sliceList_length_eq]
      omega
    rw [List.getElem?_eq_none (by omega), List.getElem?_eq_none (by omega)]

theorem nondecreasing_head_le {l : List Nat} (h : nondecreasing l = true)
    {o : Nat} (ho : o ∈ l) : l.head?.getD 0 ≤ o := by
  obtain ⟨i, hi, rfl⟩ := List.getElem_of_mem ho
  have h0 : l.head? = l[0]? := by
    cases l with
    | nil => rfl
    | cons a t => simp
  have := nondecreasing_getElem_le h (i := 0) (j := i) (by omega) hi
  rw [List.getElem?_eq_getElem hi] at this
  rw [h0]
  simpa using this

theorem le_lastOffset_of_mem {l : List Nat} (h : nondecreasing l = true)
    {o : Nat} (ho : o ∈ l) : o ≤ lastOffset l := by
  obtain ⟨i, hi, rfl⟩ := List.getElem_of_mem ho
  have := getElem_le_lastOffset h hi
  rw [List.getElem?_eq_getElem hi] at this
  simpa using this

theorem windowsOf_shift (ys xs : List α) (lo hi : Nat) (chain : List Nat)
    (hnd : nondecreasing chain = true) (hlo : ∀ o ∈ chain, lo ≤ o)
    (hhi : ∀ o ∈ chain, o ≤ hi) :
    windowsOf (xs ++ sliceList ys lo hi) (chain.map fun o => xs.length + (o - lo))
      = windowsOf ys chain := by
  match chain with
  | [] => rfl
  | [a] => rfl
  | a :: b :: rest =>
    show sliceList (xs ++ sliceList ys lo hi)
          (xs.length + (a - lo)) (xs.length + (b - lo))
        :: windowsOf (xs ++ sliceList ys lo hi)
            ((b :: rest).map fun o => xs.length + (o - lo))
      = sliceList ys a b :: windowsOf ys (b :: rest)
    congr 1
    · rw [sliceList_append_shift,
        sliceList_sliceList (hlo a (by simp)) (hhi b (by simp))]
    · exact windowsOf_shift ys xs lo hi (b :: rest) (nondecreasing_tail hnd)
        (fun o ho => hlo o (by simp [ho])) (fun o ho => hhi o (by simp [ho]))

theorem lastOffset_cons_cons (a b : Nat) (rest : List Nat) :
    lastOffset (a :: b :: rest) = lastOffset (b :: rest) := by
  simp [lastOffset, List.getLast?_cons_cons]

theorem windowsOf_append (xs : List α) (ys : List α) (offs1 o2 : List Nat)
    (h1 : offs1 ≠ []) (hnd1 : nondecreasing offs1 = true)
    (hl1 : lastOffset offs1 = xs.length)
    (h2 : o2 ≠ []) (hnd2 : nondecreasing o2 = true) :
    windowsOf (xs ++ sliceList ys (o2.head?.getD 0) (lastOffset o2))
        (offs1 ++ o2.tail.map fun o => xs.length + (o - o2.head?.getD 0))
      = windowsOf xs offs1 ++ windowsOf ys o2 := by
  match offs1 with
  | [] => exact absurd rfl h1
  | [a] =>
    have ha : a = xs.length := by simpa [lastOffset] using hl1
    subst ha
    match o2, h2 with
    | lo :: tail, _ =>
      have hrw : ([xs.length] ++ tail.map fun o =>
            xs.length + (o - (lo :: tail).head?.getD 0))
          = (lo :: tail).map fun o =>
            xs.length + (o - (lo :: tail).head?.getD 0) := by
        simp
      simp only [List.tail_cons]
      rw [hrw]
      rw [windowsOf_shift ys xs ((lo :: tail).head?.getD 0) (lastOffset (lo :: tail))
        (lo :: tail) hnd2 (fun o ho => nondecreasing_head_le hnd2 ho)
        (fun o ho => le_lastOffset_of_mem hnd2 ho)]
      rfl
  | a :: b :: rest =>
    have hasub : lastOffset (b :: rest) = xs.length := by
      rw [← lastOffset_cons_cons a b rest]
      exact hl1
    have hble : b ≤ xs.length := by
      have := le_lastOffset_of_mem hnd1 (o := b) (by simp)
      rw [hl1] at this
      exact this
    show sliceList (xs ++ sliceList ys (o2.head?.getD 0) (lastOffset o2)) a b
        :: windowsOf (xs ++ sliceList ys (o2.head?.getD 0) (lastOffset o2))
            ((b :: rest) ++ o2.tail.map fun o => xs.length + (o - o2.head?.getD 0))
      = (sliceList xs a b :: windowsOf xs (b :: rest)) ++ windowsOf ys o2
    rw [List.cons_append]
    congr 1
    · exact sliceList_append_left _ hble
    · exact windowsOf_append xs ys (b :: rest) o2 (by simp)
        (nondecreasing_tail hnd1) hasub h2 hnd2

theorem nondecreasing_tail_any {l : List Nat} (h : nondecreasing l = true) :
    nondecreasing l.tail = true := by
  cases l with
  | nil => rfl
  | cons a t => exact nondecreasing_tail h

theorem appended_offsets_nondec (offs1 o2 : List Nat) (X : Nat)
    (hnd1 : nondecreasing offs1 = true) (hl1 : lastOffset offs1 = X)
    (hnd2 : nondecreasing o2 = true) :
    nondecreasing (offs1 ++ o2.tail.map fun o => X + (o - o2.head?.getD 0))
      = true := by
  rw [nondecreasing_iff]
  intro i hi
  rw [List.length_append, List.length_map] at hi
  by_cases hc1 : i + 1 < offs1.length
  · rw [List.getElem?_append_left (by omega), List.getElem?_append_left hc1]
    exact nondecreasing_getElem_le hnd1 (by omega) hc1
  · by_cases hc2 : i < offs1.length
    · -- junction: i is the last index of offs1
      have hieq : i = offs1.length - 1 := by omega
      rw [List.getElem?_append_left hc2, List.getElem?_append_right (by omega)]
      have hlast : offs1[i]?.getD 0 = X := by
        rw [hieq, ← lastOffset_eq, hl1]
      rw [hlast, List.getElem?_map]
      cases hg : (o2.tail)[i + 1 - offs1.length]? with
      | none =>
        rw [List.getElem?_eq_getElem (by omega)] at hg
        simp at hg
      | some v =>
        simp only [Option.map_some', Option.getD_some]
        omega
    · -- both in the mapped zone
      rw [List.getElem?_append_right (by omega),
        List.getElem?_append_right (by omega), List.getElem?_map,
        List.getElem?_map]
      have hlt1 : i - offs1.length < o2.tail.length := by omega
      have hlt2 : i + 1 - offs1.length < o2.tail.length := by omega
      rw [List.getElem?_eq_getElem hlt1, List.getElem?_eq_getElem hlt2]
      have hmon : o2.tail[i - offs1.length] ≤ o2.tail[i + 1 - offs1.length] := by
        have := nondecreasing_getElem_le (nondecreasing_tail_any hnd2)
          (i := i - offs1.length) (j := i + 1 - offs1.length) (by omega) hlt2
        rw [List.getElem?_eq_getElem hlt1, List.getElem?_eq_getElem hlt2] at this
        simpa using this
      simp only [Option.map_some', Option.getD_some]
      omega

theorem appended_offsets_last (offs1 o2 : List Nat) (X : Nat)
    (h1 : offs1 ≠ []) (hl1 : lastOffset offs1 = X) (h2 : o2 ≠ [])
    (hnd2 : nondecreasing o2 = true) :
    lastOffset (offs1 ++ o2.tail.map fun o => X + (o - o2.head?.getD 0))
      = X + (lastOffset o2 - o2.head?.getD 0) := by
  match o2, h2 with
  | [lo], _ =>
    show lastOffset (offs1 ++ []) = X + (lastOffset [lo] - lo)
    rw [List.append_nil, hl1]
    simp [lastOffset]
  | lo :: b :: tail, _ =>
    have hne : ((b :: tail).map fun o => X + (o - lo)) ≠ [] := by simp
    show lastOffset (offs1 ++ (b :: tail).map fun o => X + (o - lo))
      = X + (lastOffset (lo :: b :: tail) - lo)
    rw [lastOffset, List.getLast?_append_of_ne_nil _ hne, List.getLast?_map]
    rw [lastOffset_cons_cons, lastOffset]
    cases hg : (b :: tail).getLast? with
    | none => simp at hg
    | some v => simp [hg]

theorem build_rows_length {b : ColumnBuilder} (h : b.wfB = true) :
    (Column.semRows b.build).length = b.len := by
  rw [Column.semRows_length _ (ColumnBuilder.wfB_wf b h), ColumnBuilder.len_build]

theorem semRows_tuple_getElem? (cols : List Column) (n i : Nat) (hi : i < n) :
    (Column.semRows (.tuple cols n))[i]?
      = some (SemValue.tup (cols.map fun f =>
          (Column.semRows f)[i]?.getD SemValue.null)) := by
  rw [show Column.semRows (.tuple cols n)
      = (List.range n).map (fun j => SemValue.tup
          (cols.attach.map fun f => (Column.semRows f.1)[j]?.getD SemValue.null)) by
    simp [Column.semRows]]
  rw [List.getElem?_map, List.getElem?_range hi]
  simp only [Option.map_some']
  congr 2
  rw [attachMap cols (fun f => (Column.semRows f)[i]?.getD SemValue.null)]

theorem semRows_tuple_length (cols : List Column) (n : Nat) :
    (Column.semRows (.tuple cols n)).length = n := by
  simp [Column.semRows]

set_option maxRecDepth 4000 in
/-- Effect of `ColumnBuilder::append_column` on a well-formed builder and
a well-formed column: it succeeds only between matching logical types,
preserves the builder's type, and concatenates the semantic rows. -/
theorem append_sem (b : ColumnBuilder) (c : Column) (b2 : ColumnBuilder)
    (hb : b.wfB = true) (hc : c.wf = true)
    (h : b.append_column c = some b2) :
    b2.wfB = true ∧ (b2.build).dataType = (b.build).dataType ∧
      (b.build).dataType = c.dataType ∧
      (b2.build).semRows = (b.build).semRows ++ c.semRows := by
  match b, c with
  | .null len, .null olen =>
    simp only [ColumnBuilder.append_column, Option.some.injEq] at h
    subst h
    refine ⟨by simp [ColumnBuilder.wfB],
      by simp [ColumnBuilder.build, Column.dataType],
      by simp [ColumnBuilder.build, Column.dataType], ?_⟩
    simp only [ColumnBuilder.build]
    rw [show Column.semRows (.null (len + olen))
        = List.replicate (len + olen) SemValue.null by simp [Column.semRows]]
    rw [show Column.semRows (.null len)
        = List.replicate len SemValue.null by simp [Column.semRows]]
    rw [show Column.semRows (Column.null olen)
        = List.replicate olen SemValue.null by simp [Column.semRows]]
    exact List.replicate_add len olen _
  | .emptyArray len, .emptyArray olen =>
    simp only [ColumnBuilder.append_column, Option.some.injEq] at h
    subst h
    refine ⟨by simp [ColumnBuilder.wfB],
      by simp [ColumnBuilder.build, Column.dataType],
      by simp [ColumnBuilder.build, Column.dataType], ?_⟩
    simp only [ColumnBuilder.build]
    rw [show Column.semRows (.emptyArray (len + olen))
        = List.replicate (len + olen) SemValue.emptyArray by simp [Column.semRows]]
    rw [show Column.semRows (.emptyArray len)
        = List.replicate len SemValue.emptyArray by simp [Column.semRows]]
    rw [show Column.semRows (Column.emptyArray olen)
        = List.replicate olen SemValue.emptyArray by simp [Column.semRows]]
    exact List.replicate_add len olen _
  | .emptyMap len, .emptyMap olen =>
    simp only [ColumnBuilder.append_column, Option.some.injEq] at h
    subst h
    refine ⟨by simp [ColumnBuilder.wfB],
      by simp [ColumnBuilder.build, Column.dataType],
      by simp [ColumnBuilder.build, Column.dataType], ?_⟩
    simp only [ColumnBuilder.build]
    rw [show Column.semRows (.emptyMap (len + olen))
        = List.replicate (len + olen) SemValue.emptyMap by simp [Column.semRows]]
    rw [show Column.semRows (.emptyMap len)
        = List.replicate len SemValue.emptyMap by simp [Column.semRows]]
    rw [show Column.semRows (Column.emptyMap olen)
        = List.replicate olen SemValue.emptyMap by simp [Column.semRows]]
    exact List.replicate_add len olen _
  | .number k values, .number k2 v2 =>
    simp only [ColumnBuilder.append_column] at h
    split at h
    · rename_i heq
      subst heq
      simp only [Option.some.injEq] at h
      subst h
      refine ⟨by simp [ColumnBuilder.wfB],
        by simp [ColumnBuilder.build, Column.dataType],
        by simp [ColumnBuilder.build, Column.dataType], ?_⟩
      simp [ColumnBuilder.build, Column.semRows]
    · exact absurd h (by simp)
  | .decimal w values size, .decimal w2 v2 s2 =>
    simp only [ColumnBuilder.append_column] at h
    split at h
    · rename_i heq
      obtain ⟨rfl, rfl⟩ := heq
      simp only [Option.some.injEq] at h
      subst h
      refine ⟨by simp [ColumnBuilder.wfB],
        by simp [ColumnBuilder.build, Column.dataType],
        by simp [ColumnBuilder.build, Column.dataType], ?_⟩
      simp [ColumnBuilder.build, Column.semRows]
    · exact absurd h (by simp)
  | .boolean values, .boolean v2 =>
    simp only [ColumnBuilder.append_column, Option.some.injEq] at h
    subst h
    refine ⟨by simp [ColumnBuilder.wfB],
      by simp [ColumnBuilder.build, Column.dataType],
      by simp [ColumnBuilder.build, Column.dataType], ?_⟩
    simp [ColumnBuilder.build, Column.semRows]
  | .timestamp values, .timestamp v2 =>
    simp only [ColumnBuilder.append_column, Option.some.injEq] at h
    subst h
    refine ⟨by simp [ColumnBuilder.wfB],
      by simp [ColumnBuilder.build, Column.dataType],
      by simp [ColumnBuilder.build, Column.dataType], ?_⟩
    simp [ColumnBuilder.build, Column.semRows]
  | .date values, .date v2 =>
    simp only [ColumnBuilder.append_column, Option.some.injEq] at h
    subst h
    refine ⟨by simp [ColumnBuilder.wfB],
      by simp [ColumnBuilder.build, Column.dataType],
      by simp [ColumnBuilder.build, Column.dataType], ?_⟩
    simp [ColumnBuilder.build, Column.semRows]
  | .string data offs, .string d2 o2 =>
    simp only [ColumnBuilder.append_column, Option.some.injEq] at h
    subst h
    have hb2 : (¬offs = [] ∧ nondecreasing offs = true) ∧
        lastOffset offs = data.length := by simpa [ColumnBuilder.wfB] using hb
    have hc2 : offsetsOk o2 d2.length = true := by simpa [Column.wf] using hc
    obtain ⟨hpos, hnd2, hlast2⟩ := (offsetsOk_iff _ _).mp hc2
    have ho2ne : o2 ≠ [] := List.ne_nil_of_length_pos hpos
    have hlohi : o2.head?.getD 0 ≤ lastOffset o2 := by
      match o2, ho2ne with
      | a :: t, _ => simpa using le_lastOffset_of_mem hnd2 (o := a) (by simp)
    have hslen : (sliceList d2 (o2.head?.getD 0) (lastOffset o2)).length
        = lastOffset o2 - o2.head?.getD 0 := by
      rw [sliceList_length_eq]
      omega
    have hnd3 := appended_offsets_nondec offs o2 data.length hb2.1.2 hb2.2 hnd2
    have hl3 := appended_offsets_last offs o2 data.length hb2.1.1 hb2.2 ho2ne hnd2
    refine ⟨?_, by simp [ColumnBuilder.build, Column.dataType],
      by simp [ColumnBuilder.build, Column.dataType], ?_⟩
    · simp only [ColumnBuilder.wfB, Bool.and_eq_true]
      refine ⟨⟨by simp [hb2.1.1], hnd3⟩, ?_⟩
      rw [hl3]
      simp [List.length_append, hslen]
    · simp only [ColumnBuilder.build, Column.semRows]
      rw [windowsOf_append data d2 offs o2 hb2.1.1 hb2.1.2 hb2.2 ho2ne hnd2]
      simp
  | .variant data offs, .variant d2 o2 =>
    simp only [ColumnBuilder.append_column, Option.some.injEq] at h
    subst h
    have hb2 : (¬offs = [] ∧ nondecreasing offs = true) ∧
        lastOffset offs = data.length := by simpa [ColumnBuilder.wfB] using hb
    have hc2 : offsetsOk o2 d2.length = true := by simpa [Column.wf] using hc
    obtain ⟨hpos, hnd2, hlast2⟩ := (offsetsOk_iff _ _).mp hc2
    have ho2ne : o2 ≠ [] := List.ne_nil_of_length_pos hpos
    have hlohi : o2.head?.getD 0 ≤ lastOffset o2 := by
      match o2, ho2ne with
      | a :: t, _ => simpa using le_lastOffset_of_mem hnd2 (o := a) (by simp)
    have hslen : (sliceList d2 (o2.head?.getD 0) (lastOffset o2)).length
        = lastOffset o2 - o2.head?.getD 0 := by
      rw [sliceList_length_eq]
      omega
    have hnd3 := appended_offsets_nondec offs o2 data.length hb2.1.2 hb2.2 hnd2
    have hl3 := appended_offsets_last offs o2 data.length hb2.1.1 hb2.2 ho2ne hnd2
    refine ⟨?_, by simp [ColumnBuilder.build, Column.dataType],
      by simp [ColumnBuilder.build, Column.dataType], ?_⟩
    · simp only [ColumnBuilder.wfB, Bool.and_eq_true]
      refine ⟨⟨by simp [hb2.1.1], hnd3⟩, ?_⟩
      rw [hl3]
      simp [List.length_append, hslen]
    · simp only [ColumnBuilder.build, Column.semRows]
      rw [windowsOf_append data d2 offs o2 hb2.1.1 hb2.1.2 hb2.2 ho2ne hnd2]
      simp
  | .array ib offs, .array values2 o2 =>
    simp only [ColumnBuilder.append_column] at h
    have hb2 : ((¬offs = [] ∧ nondecreasing offs = true) ∧
        lastOffset offs = ib.len) ∧ ib.wfB = true := by
      simpa [ColumnBuilder.wfB] using hb
    have hc2 : (offsetsOk o2 values2.len && values2.wf) = true := by
      simpa [Column.wf] using hc
    rw [Bool.and_eq_true] at hc2
    obtain ⟨hpos, hnd2, hlast2⟩ := (offsetsOk_iff _ _).mp hc2.1
    have ho2ne : o2 ≠ [] := List.ne_nil_of_length_pos hpos
    have hlohi : o2.head?.getD 0 ≤ lastOffset o2 := by
      match o2, ho2ne with
      | a :: t, _ => simpa using le_lastOffset_of_mem hnd2 (o := a) (by simp)
    obtain ⟨vs, hvs, hvslen, hvsty, hvswf, hvsrows⟩ :=
      Column.slice_spec values2 hc2.2 (o2.head?.getD 0) (lastOffset o2) hlast2
    rw [hvs] at h
    have h2 : (ColumnBuilder.append_column ib vs).map (fun b2i =>
        ColumnBuilder.array b2i (offs ++ o2.tail.map fun o =>
          ib.len + (o - o2.head?.getD 0))) = some b2 := h
    cases happ : ColumnBuilder.append_column ib vs with
    | none =>
      rw [happ] at h2
      simp at h2
    | some b2i =>
      rw [happ] at h2
      simp only [Option.map_some', Option.some.injEq] at h2
      subst h2
      obtain ⟨ihwf, ihty1, ihty2, ihrows⟩ := append_sem ib vs b2i hb2.2 hvswf happ
      have hxl : (Column.semRows ib.build).length = ib.len := build_rows_length hb2.2
      have hl2i : (Column.semRows b2i.build).length = b2i.len :=
        build_rows_length ihwf
      have hvsrl : (Column.semRows vs).length = vs.len :=
        Column.semRows_length vs hvswf
      have hlb2i : b2i.len = ib.len + (lastOffset o2 - o2.head?.getD 0) := by
        rw [← hl2i, ihrows, List.length_append, hxl, hvsrl, hvslen]
      have hnd3 := appended_offsets_nondec offs o2 ib.len hb2.1.1.2 hb2.1.2 hnd2
      have hl3 := appended_offsets_last offs o2 ib.len hb2.1.1.1 hb2.1.2 ho2ne hnd2
      have hw := windowsOf_append (Column.semRows ib.build) (Column.semRows values2)
        offs o2 hb2.1.1.1 hb2.1.1.2 (by rw [hxl]; exact hb2.1.2) ho2ne hnd2
      rw [hxl] at hw
      refine ⟨?_, ?_, ?_, ?_⟩
      · simp only [ColumnBuilder.wfB, Bool.and_eq_true]
        refine ⟨⟨⟨by simp [hb2.1.1.1], hnd3⟩, ?_⟩, ihwf⟩
        rw [hl3]
        simp [hlb2i]
      · simp [ColumnBuilder.build, Column.dataType, ihty1]
      · have hty3 : (ib.build).dataType = values2.dataType := by rw [ihty2, hvsty]
        simp [ColumnBuilder.build, Column.dataType, hty3]
      · simp only [ColumnBuilder.build, Column.semRows]
        rw [show Column.semRows (ColumnBuilder.build b2i)
            = Column.semRows ib.build ++ sliceList (Column.semRows values2)
              (o2.head?.getD 0) (lastOffset o2) by rw [ihrows, hvsrows]]
        rw [hw, List.map_append, ihty1, show (ib.build).dataType
            = values2.dataType from ihty2.trans hvsty]
  | .map ib offs, .map values2 o2 =>
    simp only [ColumnBuilder.append_column] at h
    have hb2 : ((¬offs = [] ∧ nondecreasing offs = true) ∧
        lastOffset offs = ib.len) ∧ ib.wfB = true := by
      simpa [ColumnBuilder.wfB] using hb
    have hc2 : (offsetsOk o2 values2.len && values2.wf) = true := by
      simpa [Column.wf] using hc
    rw [Bool.and_eq_true] at hc2
    obtain ⟨hpos, hnd2, hlast2⟩ := (offsetsOk_iff _ _).mp hc2.1
    have ho2ne : o2 ≠ [] := List.ne_nil_of_length_pos hpos
    have hlohi : o2.head?.getD 0 ≤ lastOffset o2 := by
      match o2, ho2ne with
      | a :: t, _ => simpa using le_lastOffset_of_mem hnd2 (o := a) (by simp)
    obtain ⟨vs, hvs, hvslen, hvsty, hvswf, hvsrows⟩ :=
      Column.slice_spec values2 hc2.2 (o2.head?.getD 0) (lastOffset o2) hlast2
    rw [hvs] at h
    have h2 : (ColumnBuilder.append_column ib vs).map (fun b2i =>
        ColumnBuilder.map b2i (offs ++ o2.tail.map fun o =>
          ib.len + (o - o2.head?.getD 0))) = some b2 := h
    cases happ : ColumnBuilder.append_column ib vs with
    | none =>
      rw [happ] at h2
      simp at h2
    | some b2i =>
      rw [happ] at h2
      simp only [Option.map_some', Option.some.injEq] at h2
      subst h2
      obtain ⟨ihwf, ihty1, ihty2, ihrows⟩ := append_sem ib vs b2i hb2.2 hvswf happ
      have hxl : (Column.semRows ib.build).length = ib.len := build_rows_length hb2.2
      have hl2i : (Column.semRows b2i.build).length = b2i.len :=
        build_rows_length ihwf
      have hvsrl : (Column.semRows vs).length = vs.len :=
        Column.semRows_length vs hvswf
      have hlb2i : b2i.len = ib.len + (lastOffset o2 - o2.head?.getD 0) := by
        rw [← hl2i, ihrows, List.length_append, hxl, hvsrl, hvslen]
      have hnd3 := appended_offsets_nondec offs o2 ib.len hb2.1.1.2 hb2.1.2 hnd2
      have hl3 := appended_offsets_last offs o2 ib.len hb2.1.1.1 hb2.1.2 ho2ne hnd2
      have hw := windowsOf_append (Column.semRows ib.build) (Column.semRows values2)
        offs o2 hb2.1.1.1 hb2.1.1.2 (by rw [hxl]; exact hb2.1.2) ho2ne hnd2
      rw [hxl] at hw
      refine ⟨?_, ?_, ?_, ?_⟩
      · simp only [ColumnBuilder.wfB, Bool.and_eq_true]
        refine ⟨⟨⟨by simp [hb2.1.1.1], hnd3⟩, ?_⟩, ihwf⟩
        rw [hl3]
        simp [hlb2i]
      · simp [ColumnBuilder.build, Column.dataType, ihty1]
      · have hty3 : (ib.build).dataType = values2.dataType := by rw [ihty2, hvsty]
        simp [ColumnBuilder.build, Column.dataType, hty3]
      · simp only [ColumnBuilder.build, Column.semRows]
        rw [show Column.semRows (ColumnBuilder.build b2i)
            = Column.semRows ib.build ++ sliceList (Column.semRows values2)
              (o2.head?.getD 0) (lastOffset o2) by rw [ihrows, hvsrows]]
        rw [hw, List.map_append, ihty1, show (ib.build).dataType
            = values2.dataType from ihty2.trans hvsty]
  | .nullable ib validity, .nullable inner v2 =>
    simp only [ColumnBuilder.append_column] at h
    cases happ : ColumnBuilder.append_column ib inner with
    | none =>
      rw [happ] at h
      simp at h
    | some b2i =>
      rw [happ] at h
      simp only [Option.map_some', Option.some.injEq] at h
      subst h
      have hb2 : (validity.length = ib.len ∧ ib.isNullableB = false) ∧
          ib.wfB = true := by simpa [ColumnBuilder.wfB] using hb
      have hc2 : (v2.length = inner.len ∧ inner.isNullableCol = false) ∧
          inner.wf = true := by simpa [Column.wf] using hc
      obtain ⟨ihwf, ihty1, ihty2, ihrows⟩ := append_sem ib inner b2i hb2.2 hc2.2 happ
      have hxl : (Column.semRows ib.build).length = ib.len := build_rows_length hb2.2
      have hinl : (Column.semRows inner).length = inner.len :=
        Column.semRows_length inner hc2.2
      have hl2i : b2i.len = ib.len + inner.len := by
        have h3 := build_rows_length ihwf
        rw [ihrows, List.length_append, hxl, hinl] at h3
        omega
      have hnn : b2i.isNullableB = false := by
        have e1 := ColumnBuilder.isNullableB_build b2i
        have e2 := ColumnBuilder.isNullableB_build ib
        rw [Column.isNullableCol_ty, ihty1, ← Column.isNullableCol_ty, e2] at e1
        rw [← e1]
        exact hb2.1.2
      refine ⟨?_, ?_, ?_, ?_⟩
      · have hlen3 : (validity ++ v2).length = b2i.len := by
          rw [List.length_append, hl2i, hb2.1.1, hc2.1.1]
        simp [ColumnBuilder.wfB, hlen3, hnn, ihwf]
      · simp [ColumnBuilder.build, Column.dataType, ihty1]
      · simp [ColumnBuilder.build, Column.dataType, ihty2]
      · simp only [ColumnBuilder.build, Column.semRows]
        rw [ihrows]
        rw [List.zipWith_append _ _ _ _ _ (by rw [hxl]; exact hb2.1.1)]
  | .tuple fields len, .tuple ofields olen =>
    simp only [ColumnBuilder.append_column] at h
    split at h
    · rename_i heq
      rw [attachMap (fields.zip ofields)
        (fun y => ColumnBuilder.append_column y.1 y.2)] at h
      cases htr : optTraverse ((fields.zip ofields).map fun y =>
          ColumnBuilder.append_column y.1 y.2) with
      | none =>
        rw [htr] at h
        simp at h
      | some fs =>
        rw [htr] at h
        simp only [Option.map_some', Option.some.injEq] at h
        subst h
        have hget := optTraverse_map_getElem? htr
        have hlen : fs.length = fields.length := by
          have h3 := optTraverse_length htr
          rw [List.length_map, List.length_zip] at h3
          omega
        have hbw : ∀ f ∈ fields, ColumnBuilder.len f = len ∧ f.wfB = true := by
          rw [show ColumnBuilder.wfB (.tuple fields len)
              = (fields.attach.all fun f =>
                  (ColumnBuilder.len f.1 == len) && ColumnBuilder.wfB f.1) by
            simp [ColumnBuilder.wfB]] at hb
          rw [attachAll fields
            (fun f => (ColumnBuilder.len f == len) && ColumnBuilder.wfB f),
            List.all_eq_true] at hb
          intro f hf
          have h3 := hb f hf
          simpa using h3
        have hcw := (wf_tuple_iff ofields olen).mp hc
        have hpt : ∀ j : Nat, (hj : j < fields.length) →
            ColumnBuilder.append_column (fields[j])
                (ofields[j]) = some (fs[j]) := by
          intro j hj
          have hj2 : j < ofields.length := by omega
          have hzip : (fields.zip ofields)[j]? = some (fields[j], ofields[j]) := by
            rw [List.getElem?_zip_eq_some]
            exact ⟨List.getElem?_eq_getElem hj, List.getElem?_eq_getElem hj2⟩
          have hfsj : fs[j]?
              = ColumnBuilder.append_column (fields[j]) (ofields[j]) := by
            rw [hget j, hzip]
            rfl
          rw [← hfsj]
          exact List.getElem?_eq_getElem _
        have hIH : ∀ j : Nat, (hj : j < fields.length) →
            (fs[j]).wfB = true ∧
            ((fs[j]).build).dataType
              = ((fields[j]).build).dataType ∧
            ((fields[j]).build).dataType = (ofields[j]).dataType ∧
            ((fs[j]).build).semRows
              = ((fields[j]).build).semRows
                ++ (ofields[j]).semRows := by
          intro j hj
          have hmemj : fields[j] ∈ fields := List.getElem_mem hj
          have hmemo : ofields[j] ∈ ofields := List.getElem_mem (by omega)
          exact append_sem (fields[j]) (ofields[j]) (fs[j])
            (hbw _ hmemj).2 (hcw _ hmemo).2 (hpt j hj)
        refine ⟨?_, ?_, ?_, ?_⟩
        · rw [show ColumnBuilder.wfB (.tuple fs (len + olen))
              = (fs.attach.all fun f =>
                  (ColumnBuilder.len f.1 == len + olen) && ColumnBuilder.wfB f.1) by
            simp [ColumnBuilder.wfB]]
          rw [attachAll fs
            (fun f => (ColumnBuilder.len f == len + olen) && ColumnBuilder.wfB f),
            List.all_eq_true]
          intro f hf
          obtain ⟨j, hjfs, rfl⟩ := List.getElem_of_mem hf
          have hj : j < fields.length := by omega
          have hj2 : j < ofields.length := by omega
          obtain ⟨hw, hty1, hty2, hrows⟩ := hIH j hj
          have e1 : (Column.semRows (fs[j]).build).length
              = ColumnBuilder.len (fs[j]) := build_rows_length hw
          rw [hrows, List.length_append] at e1
          have e2 : (Column.semRows ((fields[j]).build)).length
              = ColumnBuilder.len (fields[j]) :=
            build_rows_length (hbw _ (List.getElem_mem hj)).2
          have e3 : (Column.semRows (ofields[j])).length
              = (ofields[j]).len :=
            Column.semRows_length _ (hcw _ (List.getElem_mem hj2)).2
          have e4 := (hbw _ (List.getElem_mem hj)).1
          have e5 := (hcw _ (List.getElem_mem hj2)).1
          have hlenj : ColumnBuilder.len (fs[j]) = len + olen := by omega
          simp [hlenj, hw]
        · rw [show ColumnBuilder.build (.tuple fs (len + olen))
              = .tuple (fs.map ColumnBuilder.build) (len + olen) by
            rw [show ColumnBuilder.build (.tuple fs (len + olen))
                = .tuple (fs.attach.map fun f => ColumnBuilder.build f.1)
                  (len + olen) by simp [ColumnBuilder.build]]
            rw [attachMap fs ColumnBuilder.build]]
          rw [show ColumnBuilder.build (.tuple fields len)
              = .tuple (fields.map ColumnBuilder.build) len by
            rw [show ColumnBuilder.build (.tuple fields len)
                = .tuple (fields.attach.map fun f => ColumnBuilder.build f.1) len by
              simp [ColumnBuilder.build]]
            rw [attachMap fields ColumnBuilder.build]]
          rw [show Column.dataType (.tuple (fs.map ColumnBuilder.build) (len + olen))
              = .tuple ((fs.map ColumnBuilder.build).attach.map fun f =>
                  Column.dataType f.1) by simp [Column.dataType]]
          rw [attachMap (fs.map ColumnBuilder.build) Column.dataType]
          rw [show Column.dataType (.tuple (fields.map ColumnBuilder.build) len)
              = .tuple ((fields.map ColumnBuilder.build).attach.map fun f =>
                  Column.dataType f.1) by simp [Column.dataType]]
          rw [attachMap (fields.map ColumnBuilder.build) Column.dataType]
          rw [List.map_map, List.map_map]
          congr 1
          apply List.ext_getElem?
          intro j
          by_cases hj : j < fields.length
          · rw [List.getElem?_map, List.getElem?_map,
              List.getElem?_eq_getElem (l := fs) (by omega),
              List.getElem?_eq_getElem (l := fields) hj]
            simp only [Option.map_some', Function.comp_apply]
            exact congrArg some (hIH j hj).2.1
          · rw [List.getElem?_map, List.getElem?_map,
              List.getElem?_eq_none (l := fs) (by omega),
              List.getElem?_eq_none (l := fields) (by omega)]
        · rw [show ColumnBuilder.build (.tuple fields len)
              = .tuple (fields.map ColumnBuilder.build) len by
            rw [show ColumnBuilder.build (.tuple fields len)
                = .tuple (fields.attach.map fun f => ColumnBuilder.build f.1) len by
              simp [ColumnBuilder.build]]
            rw [attachMap fields ColumnBuilder.build]]
          rw [show Column.dataType (.tuple (fields.map ColumnBuilder.build) len)
              = .tuple ((fields.map ColumnBuilder.build).attach.map fun f =>
                  Column.dataType f.1) by simp [Column.dataType]]
          rw [attachMap (fields.map ColumnBuilder.build) Column.dataType]
          rw [show Column.dataType (.tuple ofields olen)
              = .tuple (ofields.attach.map fun f => Column.dataType f.1) by
            simp [Column.dataType]]
          rw [attachMap ofields Column.dataType]
          rw [List.map_map]
          congr 1
          apply List.ext_getElem?
          intro j
          by_cases hj : j < fields.length
          · rw [List.getElem?_map, List.getElem?_map,
              List.getElem?_eq_getElem (l := fields) hj,
              List.getElem?_eq_getElem (l := ofields) (by omega)]
            simp only [Option.map_some', Function.comp_apply]
            exact congrArg some (hIH j hj).2.2.1
          · rw [List.getElem?_map, List.getElem?_map,
              List.getElem?_eq_none (l := fields) (by omega),
              List.getElem?_eq_none (l := ofields) (by omega)]
            rfl
        · rw [show ColumnBuilder.build (.tuple fs (len + olen))
              = .tuple (fs.map ColumnBuilder.build) (len + olen) by
            rw [show ColumnBuilder.build (.tuple fs (len + olen))
                = .tuple (fs.attach.map fun f => ColumnBuilder.build f.1)
                  (len + olen) by simp [ColumnBuilder.build]]
            rw [attachMap fs ColumnBuilder.build]]
          rw [show ColumnBuilder.build (.tuple fields len)
              = .tuple (fields.map ColumnBuilder.build) len by
            rw [show ColumnBuilder.build (.tuple fields len)
                = .tuple (fields.attach.map fun f => ColumnBuilder.build f.1) len by
              simp [ColumnBuilder.build]]
            rw [attachMap fields ColumnBuilder.build]]
          apply List.ext_getElem?
          intro i
          have hlenA : (Column.semRows
              (.tuple (fields.map ColumnBuilder.build) len)).length = len :=
            semRows_tuple_length _ _
          have hlenB : (Column.semRows (.tuple ofields olen)).length = olen :=
            semRows_tuple_length _ _
          by_cases hi : i < len + olen
          · rw [semRows_tuple_getElem? (fs.map ColumnBuilder.build) (len + olen) i hi]
            by_cases hi2 : i < len
            · rw [List.getElem?_append_left (by rw [hlenA]; omega)]
              rw [semRows_tuple_getElem? (fields.map ColumnBuilder.build) len i hi2]
              congr 2
              rw [List.map_map, List.map_map]
              apply List.ext_getElem?
              intro j
              by_cases hj : j < fields.length
              · rw [List.getElem?_map, List.getElem?_map,
                  List.getElem?_eq_getElem (l := fs) (by omega),
                  List.getElem?_eq_getElem (l := fields) hj]
                simp only [Option.map_some', Function.comp_apply]
                congr 1
                obtain ⟨hw, _, _, hrows⟩ := hIH j hj
                rw [hrows]
                rw [List.getElem?_append_left (by
                  rw [build_rows_length (hbw _ (List.getElem_mem hj)).2,
                    (hbw _ (List.getElem_mem hj)).1]
                  omega)]
              · rw [List.getElem?_map, List.getElem?_map,
                  List.getElem?_eq_none (l := fs) (by omega),
                  List.getElem?_eq_none (l := fields) (by omega)]
            · rw [List.getElem?_append_right (by rw [hlenA]; omega), hlenA]
              rw [semRows_tuple_getElem? ofields olen (i - len) (by omega)]
              congr 2
              rw [List.map_map]
              apply List.ext_getElem?
              intro j
              by_cases hj : j < fields.length
              · rw [List.getElem?_map, List.getElem?_map,
                  List.getElem?_eq_getElem (l := fs) (by omega),
                  List.getElem?_eq_getElem (l := ofields) (by omega)]
                simp only [Option.map_some', Function.comp_apply]
                congr 1
                obtain ⟨hw, _, _, hrows⟩ := hIH j hj
                rw [hrows]
                rw [List.getElem?_append_right (by
                  rw [build_rows_length (hbw _ (List.getElem_mem hj)).2,
                    (hbw _ (List.getElem_mem hj)).1]
                  omega)]
                rw [build_rows_length (hbw _ (List.getElem_mem hj)).2,
                  (hbw _ (List.getElem_mem hj)).1]
              · rw [List.getElem?_map, List.getElem?_map,
                  List.getElem?_eq_none (l := fs) (by omega),
                  List.getElem?_eq_none (l := ofields) (by omega)]
                rfl
          · rw [List.getElem?_eq_none (by
              rw [semRows_tuple_length]
              omega)]
            rw [List.getElem?_eq_none (by
              rw [List.length_append, hlenA, hlenB]
              omega)]
    · exact absurd h (by simp)
  | .null _, .emptyArray _ => simp [ColumnBuilder.append_column] at h
  | .null _, .emptyMap _ => simp [ColumnBuilder.append_column] at h
  | .null _, .number _ _ => simp [ColumnBuilder.append_column] at h
  | .null _, .decimal _ _ _ => simp [ColumnBuilder.append_column] at h
  | .null _, .boolean _ => simp [ColumnBuilder.append_column] at h
  | .null _, .string _ _ => simp [ColumnBuilder.append_column] at h
  | .null _, .timestamp _ => simp [ColumnBuilder.append_column] at h
  | .null _, .date _ => simp [ColumnBuilder.append_column] at h
  | .null _, .array _ _ => simp [ColumnBuilder.append_column] at h
  | .null _, .map _ _ => simp [ColumnBuilder.append_column] at h
  | .null _, .nullable _ _ => simp [ColumnBuilder.append_column] at h
  | .null _, .tuple _ _ => simp [ColumnBuilder.append_column] at h
  | .null _, .variant _ _ => simp [ColumnBuilder.append_column] at h
  | .emptyArray _, .null _ => simp [ColumnBuilder.append_column] at h
  | .emptyArray _, .emptyMap _ => simp [ColumnBuilder.append_column] at h
  | .emptyArray _, .number _ _ => simp [ColumnBuilder.append_column] at h
  | .emptyArray _, .decimal _ _ _ => simp [ColumnBuilder.append_column] at h
  | .emptyArray _, .boolean _ => simp [ColumnBuilder.append_column] at h
  | .emptyArray _, .string _ _ => simp [ColumnBuilder.append_column] at h
  | .emptyArray _, .timestamp _ => simp [ColumnBuilder.append_column] at h
  | .emptyArray _, .date _ => simp [ColumnBuilder.append_column] at h
  | .emptyArray _, .array _ _ => simp [ColumnBuilder.append_column] at h
  | .emptyArray _, .map _ _ => simp [ColumnBuilder.append_column] at h
  | .emptyArray _, .nullable _ _ => simp [ColumnBuilder.append_column] at h
  | .emptyArray _, .tuple _ _ => simp [ColumnBuilder.append_column] at h
  | .emptyArray _, .variant _ _ => simp [ColumnBuilder.append_column] at h
  | .emptyMap _, .null _ => simp [ColumnBuilder.append_column] at h
  | .emptyMap _, .emptyArray _ => simp [ColumnBuilder.append_column] at h
  | .emptyMap _, .number _ _ => simp [ColumnBuilder.append_column] at h
  | .emptyMap _, .decimal _ _ _ => simp [ColumnBuilder.append_column] at h
  | .emptyMap _, .boolean _ => simp [ColumnBuilder.append_column] at h
  | .emptyMap _, .string _ _ => simp [ColumnBuilder.append_column] at h
  | .emptyMap _, .timestamp _ => simp [ColumnBuilder.append_column] at h
  | .emptyMap _, .date _ => simp [ColumnBuilder.append_column] at h
  | .emptyMap _, .array _ _ => simp [ColumnBuilder.append_column] at h
  | .emptyMap _, .map _ _ => simp [ColumnBuilder.append_column] at h
  | .emptyMap _, .nullable _ _ => simp [ColumnBuilder.append_column] at h
  | .emptyMap _, .tuple _ _ => simp [ColumnBuilder.append_column] at h
  | .emptyMap _, .variant _ _ => simp [ColumnBuilder.append_column] at h
  | .number _ _, .null _ => simp [ColumnBuilder.append_column] at h
  | .number _ _, .emptyArray _ => simp [ColumnBuilder.append_column] at h
  | .number _ _, .emptyMap _ => simp [ColumnBuilder.append_column] at h
  | .number _ _, .decimal _ _ _ => simp [ColumnBuilder.append_column] at h
  | .number _ _, .boolean _ => simp [ColumnBuilder.append_column] at h
  | .number _ _, .string _ _ => simp [ColumnBuilder.append_column] at h
  | .number _ _, .timestamp _ => simp [ColumnBuilder.append_column] at h
  | .number _ _, .date _ => simp [ColumnBuilder.append_column] at h
  | .number _ _, .array _ _ => simp [ColumnBuilder.append_column] at h
  | .number _ _, .map _ _ => simp [ColumnBuilder.append_column] at h
  | .number _ _, .nullable _ _ => simp [ColumnBuilder.append_column] at h
  | .number _ _, .tuple _ _ => simp [ColumnBuilder.append_column] at h
  | .number _ _, .variant _ _ => simp [ColumnBuilder.append_column] at h
  | .decimal _ _ _, .null _ => simp [ColumnBuilder.append_column] at h
  | .decimal _ _ _, .emptyArray _ => simp [ColumnBuilder.append_column] at h
  | .decimal _ _ _, .emptyMap _ => simp [ColumnBuilder.append_column] at h
  | .decimal _ _ _, .number _ _ => simp [ColumnBuilder.append_column] at h
  | .decimal _ _ _, .boolean _ => simp [ColumnBuilder.append_column] at h
  | .decimal _ _ _, .string _ _ => simp [ColumnBuilder.append_column] at h
  | .decimal _ _ _, .timestamp _ => simp [ColumnBuilder.append_column] at h
  | .decimal _ _ _, .date _ => simp [ColumnBuilder.append_column] at h
  | .decimal _ _ _, .array _ _ => simp [ColumnBuilder.append_column] at h
  | .decimal _ _ _, .map _ _ => simp [ColumnBuilder.append_column] at h
  | .decimal _ _ _, .nullable _ _ => simp [ColumnBuilder.append_column] at h
  | .decimal _ _ _, .tuple _ _ => simp [ColumnBuilder.append_column] at h
  | .decimal _ _ _, .variant _ _ => simp [ColumnBuilder.append_column] at h
  | .boolean _, .null _ => simp [ColumnBuilder.append_column] at h
  | .boolean _, .emptyArray _ => simp [ColumnBuilder.append_column] at h
  | .boolean _, .emptyMap _ => simp [ColumnBuilder.append_column] at h
  | .boolean _, .number _ _ => simp [ColumnBuilder.append_column] at h
  | .boolean _, .decimal _ _ _ => simp [ColumnBuilder.append_column] at h
  | .boolean _, .string _ _ => simp [ColumnBuilder.append_column] at h
  | .boolean _, .timestamp _ => simp [ColumnBuilder.append_column] at h
  | .boolean _, .date _ => simp [ColumnBuilder.append_column] at h
  | .boolean _, .array _ _ => simp [ColumnBuilder.append_column] at h
  | .boolean _, .map _ _ => simp [ColumnBuilder.append_column] at h
  | .boolean _, .nullable _ _ => simp [ColumnBuilder.append_column] at h
  | .boolean _, .tuple _ _ => simp [ColumnBuilder.append_column] at h
  | .boolean _, .variant _ _ => simp [ColumnBuilder.append_column] at h
  | .string _ _, .null _ => simp [ColumnBuilder.append_column] at h
  | .string _ _, .emptyArray _ => simp [ColumnBuilder.append_column] at h
  | .string _ _, .emptyMap _ => simp [ColumnBuilder.append_column] at h
  | .string _ _, .number _ _ => simp [ColumnBuilder.append_column] at h
  | .string _ _, .decimal _ _ _ => simp [ColumnBuilder.append_column] at h
  | .string _ _, .boolean _ => simp [ColumnBuilder.append_column] at h
  | .string _ _, .timestamp _ => simp [ColumnBuilder.append_column] at h
  | .string _ _, .date _ => simp [ColumnBuilder.append_column] at h
  | .string _ _, .array _ _ => simp [ColumnBuilder.append_column] at h
  | .string _ _, .map _ _ => simp [ColumnBuilder.append_column] at h
  | .string _ _, .nullable _ _ => simp [ColumnBuilder.append_column] at h
  | .string _ _, .tuple _ _ => simp [ColumnBuilder.append_column] at h
  | .string _ _, .variant _ _ => simp [ColumnBuilder.append_column] at h
  | .timestamp _, .null _ => simp [ColumnBuilder.append_column] at h
  | .timestamp _, .emptyArray _ => simp [ColumnBuilder.append_column] at h
  | .timestamp _, .emptyMap _ => simp [ColumnBuilder.append_column] at h
  | .timestamp _, .number _ _ => simp [ColumnBuilder.append_column] at h
  | .timestamp _, .decimal _ _ _ => simp [ColumnBuilder.append_column] at h
  | .timestamp _, .boolean _ => simp [ColumnBuilder.append_column] at h
  | .timestamp _, .string _ _ => simp [ColumnBuilder.append_column] at h
  | .timestamp _, .date _ => simp [ColumnBuilder.append_column] at h
  | .timestamp _, .array _ _ => simp [ColumnBuilder.append_column] at h
  | .timestamp _, .map _ _ => simp [ColumnBuilder.append_column] at h
  | .timestamp _, .nullable _ _ => simp [ColumnBuilder.append_column] at h
  | .timestamp _, .tuple _ _ => simp [ColumnBuilder.append_column] at h
  | .timestamp _, .variant _ _ => simp [ColumnBuilder.append_column] at h
  | .date _, .null _ => simp [ColumnBuilder.append_column] at h
  | .date _, .emptyArray _ => simp [ColumnBuilder.append_column] at h
  | .date _, .emptyMap _ => simp [ColumnBuilder.append_column] at h
  | .date _, .number _ _ => simp [ColumnBuilder.append_column] at h
  | .date _, .decimal _ _ _ => simp [ColumnBuilder.append_column] at h
  | .date _, .boolean _ => simp [ColumnBuilder.append_column] at h
  | .date _, .string _ _ => simp [ColumnBuilder.append_column] at h
  | .date _, .timestamp _ => simp [ColumnBuilder.append_column] at h
  | .date _, .array _ _ => simp [ColumnBuilder.append_column] at h
  | .date _, .map _ _ => simp [ColumnBuilder.append_column] at h
  | .date _, .nullable _ _ => simp [ColumnBuilder.append_column] at h
  | .date _, .tuple _ _ => simp [ColumnBuilder.append_column] at h
  | .date _, .variant _ _ => simp [ColumnBuilder.append_column] at h
  | .array _ _, .null _ => simp [ColumnBuilder.append_column] at h
  | .array _ _, .emptyArray _ => simp [ColumnBuilder.append_column] at h
  | .array _ _, .emptyMap _ => simp [ColumnBuilder.append_column] at h
  | .array _ _, .number _ _ => simp [ColumnBuilder.append_column] at h
  | .array _ _, .decimal _ _ _ => simp [ColumnBuilder.append_column] at h
  | .array _ _, .boolean _ => simp [ColumnBuilder.append_column] at h
  | .array _ _, .string _ _ => simp [ColumnBuilder.append_column] at h
  | .array _ _, .timestamp _ => simp [ColumnBuilder.append_column] at h
  | .array _ _, .date _ => simp [ColumnBuilder.append_column] at h
  | .array _ _, .map _ _ => simp [ColumnBuilder.append_column] at h
  | .array _ _, .nullable _ _ => simp [ColumnBuilder.append_column] at h
  | .array _ _, .tuple _ _ => simp [ColumnBuilder.append_column] at h
  | .array _ _, .variant _ _ => simp [ColumnBuilder.append_column] at h
  | .map _ _, .null _ => simp [ColumnBuilder.append_column] at h
  | .map _ _, .emptyArray _ => simp [ColumnBuilder.append_column] at h
  | .map _ _, .emptyMap _ => simp [ColumnBuilder.append_column] at h
  | .map _ _, .number _ _ => simp [ColumnBuilder.append_column] at h
  | .map _ _, .decimal _ _ _ => simp [ColumnBuilder.append_column] at h
  | .map _ _, .boolean _ => simp [ColumnBuilder.append_column] at h
  | .map _ _, .string _ _ => simp [ColumnBuilder.append_column] at h
  | .map _ _, .timestamp _ => simp [ColumnBuilder.append_column] at h
  | .map _ _, .date _ => simp [ColumnBuilder.append_column] at h
  | .map _ _, .array _ _ => simp [ColumnBuilder.append_column] at h
  | .map _ _, .nullable _ _ => simp [ColumnBuilder.append_column] at h
  | .map _ _, .tuple _ _ => simp [ColumnBuilder.append_column] at h
  | .map _ _, .variant _ _ => simp [ColumnBuilder.append_column] at h
  | .nullable _ _, .null _ => simp [ColumnBuilder.append_column] at h
  | .nullable _ _, .emptyArray _ => simp [ColumnBuilder.append_column] at h
  | .nullable _ _, .emptyMap _ => simp [ColumnBuilder.append_column] at h
  | .nullable _ _, .number _ _ => simp [ColumnBuilder.append_column] at h
  | .nullable _ _, .decimal _ _ _ => simp [ColumnBuilder.append_column] at h
  | .nullable _ _, .boolean _ => simp [ColumnBuilder.append_column] at h
  | .nullable _ _, .string _ _ => simp [ColumnBuilder.append_column] at h
  | .nullable _ _, .timestamp _ => simp [ColumnBuilder.append_column] at h
  | .nullable _ _, .date _ => simp [ColumnBuilder.append_column] at h
  | .nullable _ _, .array _ _ => simp [ColumnBuilder.append_column] at h
  | .nullable _ _, .map _ _ => simp [ColumnBuilder.append_column] at h
  | .nullable _ _, .tuple _ _ => simp [ColumnBuilder.append_column] at h
  | .nullable _ _, .variant _ _ => simp [ColumnBuilder.append_column] at h
  | .tuple _ _, .null _ => simp [ColumnBuilder.append_column] at h
  | .tuple _ _, .emptyArray _ => simp [ColumnBuilder.append_column] at h
  | .tuple _ _, .emptyMap _ => simp [ColumnBuilder.append_column] at h
  | .tuple _ _, .number _ _ => simp [ColumnBuilder.append_column] at h
  | .tuple _ _, .decimal _ _ _ => simp [ColumnBuilder.append_column] at h
  | .tuple _ _, .boolean _ => simp [ColumnBuilder.append_column] at h
  | .tuple _ _, .string _ _ => simp [ColumnBuilder.append_column] at h
  | .tuple _ _, .timestamp _ => simp [ColumnBuilder.append_column] at h
  | .tuple _ _, .date _ => simp [ColumnBuilder.append_column] at h
  | .tuple _ _, .array _ _ => simp [ColumnBuilder.append_column] at h
  | .tuple _ _, .map _ _ => simp [ColumnBuilder.append_column] at h
  | .tuple _ _, .nullable _ _ => simp [ColumnBuilder.append_column] at h
  | .tuple _ _, .variant _ _ => simp [ColumnBuilder.append_column] at h
  | .variant _ _, .null _ => simp [ColumnBuilder.append_column] at h
  | .variant _ _, .emptyArray _ => simp [ColumnBuilder.append_column] at h
  | .variant _ _, .emptyMap _ => simp [ColumnBuilder.append_column] at h
  | .variant _ _, .number _ _ => simp [ColumnBuilder.append_column] at h
  | .variant _ _, .decimal _ _ _ => simp [ColumnBuilder.append_column] at h
  | .variant _ _, .boolean _ => simp [ColumnBuilder.append_column] at h
  | .variant _ _, .string _ _ => simp [ColumnBuilder.append_column] at h
  | .variant _ _, .timestamp _ => simp [ColumnBuilder.append_column] at h
  | .variant _ _, .date _ => simp [ColumnBuilder.append_column] at h
  | .variant _ _, .array _ _ => simp [ColumnBuilder.append_column] at h
  | .variant _ _, .map _ _ => simp [ColumnBuilder.append_column] at h
  | .variant _ _, .nullable _ _ => simp [ColumnBuilder.append_column] at h
  | .variant _ _, .tuple _ _ => simp [ColumnBuilder.append_column] at h
termination_by sizeOf b
decreasing_by
  all_goals simp_wf
  all_goals first
    | omega
    | (have q := List.sizeOf_lt_of_mem hmemj; omega)

theorem lastOffset_snoc (offs : List Nat) (x : Nat) :
    lastOffset (offs ++ [x]) = x := by
  simp [lastOffset]

theorem nondecreasing_snoc (offs : List Nat) (x : Nat)
    (hnd : nondecreasing offs = true) (hle : lastOffset offs ≤ x) :
    nondecreasing (offs ++ [x]) = true := by
  match offs with
  | [] => rfl
  | [a] =>
    have ha : a ≤ x := by simpa [lastOffset] using hle
    simp [nondecreasing, ha]
  | a :: b :: rest =>
    have hab : a ≤ b := by
      have := nondecreasing_getElem_le hnd (i := 0) (j := 1) (by omega) (by simp)
      simpa using this
    have htail := nondecreasing_snoc (b :: rest) x (nondecreasing_tail hnd)
      (by rw [← lastOffset_cons_cons a b rest]; exact hle)
    show (decide (a ≤ b) && nondecreasing ((b :: rest) ++ [x])) = true
    rw [Bool.and_eq_true]
    exact ⟨by simp [hab], htail⟩

theorem sliceList_all (l : List α) : sliceList l 0 l.length = l := by
  simp [sliceList]

theorem windowsOf_append_left (rows m : List α) (offs : List Nat)
    (hnd : nondecreasing offs = true) (hle : lastOffset offs ≤ rows.length) :
    windowsOf (rows ++ m) offs = windowsOf rows offs := by
  match offs with
  | [] => rfl
  | [a] => rfl
  | a :: b :: rest =>
    have hb : b ≤ rows.length := by
      have := le_lastOffset_of_mem hnd (o := b) (by simp)
      omega
    show sliceList (rows ++ m) a b :: windowsOf (rows ++ m) (b :: rest)
      = sliceList rows a b :: windowsOf rows (b :: rest)
    congr 1
    · exact sliceList_append_left m hb
    · exact windowsOf_append_left rows m (b :: rest) (nondecreasing_tail hnd)
        (by rw [← lastOffset_cons_cons a b rest]; exact hle)

theorem windowsOf_snoc (rows : List α) (offs : List Nat) (x : Nat)
    (h : offs ≠ []) :
    windowsOf rows (offs ++ [x])
      = windowsOf rows offs ++ [sliceList rows (lastOffset offs) x] := by
  match offs with
  | [a] => simp [windowsOf, lastOffset]
  | a :: b :: rest =>
    show sliceList rows a b :: windowsOf rows ((b :: rest) ++ [x])
      = (sliceList rows a b :: windowsOf rows (b :: rest))
        ++ [sliceList rows (lastOffset (a :: b :: rest)) x]
    rw [windowsOf_snoc rows (b :: rest) x (by simp), lastOffset_cons_cons]
    rfl

theorem sliceList_append_all (xs m : List α) :
    sliceList (xs ++ m) xs.length (xs.length + m.length) = m := by
  have h := @sliceList_append_shift _ xs m 0 m.length
  rw [Nat.add_zero] at h
  rw [h, sliceList_all]

theorem collapseTop_sem (s : Scalar) :
    SemValue.collapseTop s.sem = s.sem := by
  match s with
  | .null | .emptyArray | .emptyMap => simp [Scalar.sem, SemValue.collapseTop]
  | .number _ _ | .decimal _ _ _ | .boolean _ | .string _ | .timestamp _
  | .date _ | .variant _ => simp [Scalar.sem, SemValue.collapseTop]
  | .array col => simp [Scalar.sem, SemValue.collapseTop]
  | .map col => simp [Scalar.sem, SemValue.collapseTop]
  | .tuple ss =>
    have ih : ∀ x ∈ ss, SemValue.collapseTop (Scalar.sem x) = Scalar.sem x :=
      fun x hx => collapseTop_sem x
    rw [show Scalar.sem (.tuple ss)
        = .tup (ss.attach.map fun f => Scalar.sem f.1) by simp [Scalar.sem]]
    rw [attachMap ss Scalar.sem, collapseTop_tup, List.map_map]
    congr 1
    rw [show ss.map (SemValue.collapseTop ∘ Scalar.sem) = ss.map Scalar.sem from
      List.map_congr_left fun a ha => ih a ha]
termination_by sizeOf s
decreasing_by
  all_goals simp_wf
  all_goals first
    | omega
    | (have q := List.sizeOf_lt_of_mem hx; omega)

/-- Effect of `ColumnBuilder::push_default`: always succeeds, preserves
well-formedness and the logical type, and appends exactly one row. -/
theorem push_default_sem (b : ColumnBuilder) (hb : b.wfB = true) :
    (b.push_default).wfB = true ∧ b.push_default.len = b.len + 1 ∧
      ((b.push_default).build).dataType = (b.build).dataType ∧
      ∃ r, ((b.push_default).build).semRows = (b.build).semRows ++ [r] := by
  match b with
  | .null len =>
    refine ⟨by simp [ColumnBuilder.push_default, ColumnBuilder.wfB],
      by simp [ColumnBuilder.push_default, ColumnBuilder.len],
      by simp [ColumnBuilder.push_default, ColumnBuilder.build, Column.dataType],
      ⟨.null, ?_⟩⟩
    simp only [ColumnBuilder.push_default, ColumnBuilder.build]
    rw [show Column.semRows (.null (len + 1))
        = List.replicate (len + 1) SemValue.null by simp [Column.semRows]]
    rw [show Column.semRows (Column.null len)
        = List.replicate len SemValue.null by simp [Column.semRows]]
    rw [List.replicate_add]
    rfl
  | .emptyArray len =>
    refine ⟨by simp [ColumnBuilder.push_default, ColumnBuilder.wfB],
      by simp [ColumnBuilder.push_default, ColumnBuilder.len],
      by simp [ColumnBuilder.push_default, ColumnBuilder.build, Column.dataType],
      ⟨.emptyArray, ?_⟩⟩
    simp only [ColumnBuilder.push_default, ColumnBuilder.build]
    rw [show Column.semRows (.emptyArray (len + 1))
        = List.replicate (len + 1) SemValue.emptyArray by simp [Column.semRows]]
    rw [show Column.semRows (Column.emptyArray len)
        = List.replicate len SemValue.emptyArray by simp [Column.semRows]]
    rw [List.replicate_add]
    rfl
  | .emptyMap len =>
    refine ⟨by simp [ColumnBuilder.push_default, ColumnBuilder.wfB],
      by simp [ColumnBuilder.push_default, ColumnBuilder.len],
      by simp [ColumnBuilder.push_default, ColumnBuilder.build, Column.dataType],
      ⟨.emptyMap, ?_⟩⟩
    simp only [ColumnBuilder.push_default, ColumnBuilder.build]
    rw [show Column.semRows (.emptyMap (len + 1))
        = List.replicate (len + 1) SemValue.emptyMap by simp [Column.semRows]]
    rw [show Column.semRows (Column.emptyMap len)
        = List.replicate len SemValue.emptyMap by simp [Column.semRows]]
    rw [List.replicate_add]
    rfl
  | .number k values =>
    refine ⟨by simp [ColumnBuilder.push_default, ColumnBuilder.wfB],
      by simp [ColumnBuilder.push_default, ColumnBuilder.len],
      by simp [ColumnBuilder.push_default, ColumnBuilder.build, Column.dataType],
      ⟨.num k 0, ?_⟩⟩
    simp [ColumnBuilder.push_default, ColumnBuilder.build, Column.semRows]
  | .decimal w values size =>
    refine ⟨by simp [ColumnBuilder.push_default, ColumnBuilder.wfB],
      by simp [ColumnBuilder.push_default, ColumnBuilder.len],
      by simp [ColumnBuilder.push_default, ColumnBuilder.build, Column.dataType],
      ⟨.dec w 0 size, ?_⟩⟩
    simp [ColumnBuilder.push_default, ColumnBuilder.build, Column.semRows]
  | .boolean values =>
    refine ⟨by simp [ColumnBuilder.push_default, ColumnBuilder.wfB],
      by simp [ColumnBuilder.push_default, ColumnBuilder.len],
      by simp [ColumnBuilder.push_default, ColumnBuilder.build, Column.dataType],
      ⟨.bool false, ?_⟩⟩
    simp [ColumnBuilder.push_default, ColumnBuilder.build, Column.semRows]
  | .timestamp values =>
    refine ⟨by simp [ColumnBuilder.push_default, ColumnBuilder.wfB],
      by simp [ColumnBuilder.push_default, ColumnBuilder.len],
      by simp [ColumnBuilder.push_default, ColumnBuilder.build, Column.dataType],
      ⟨.ts 0, ?_⟩⟩
    simp [ColumnBuilder.push_default, ColumnBuilder.build, Column.semRows]
  | .date values =>
    refine ⟨by simp [ColumnBuilder.push_default, ColumnBuilder.wfB],
      by simp [ColumnBuilder.push_default, ColumnBuilder.len],
      by simp [ColumnBuilder.push_default, ColumnBuilder.build, Column.dataType],
      ⟨.date 0, ?_⟩⟩
    simp [ColumnBuilder.push_default, ColumnBuilder.build, Column.semRows]
  | .string data offs =>
    have hb2 : (¬offs = [] ∧ nondecreasing offs = true) ∧
        lastOffset offs = data.length := by simpa [ColumnBuilder.wfB] using hb
    refine ⟨?_, ?_, by simp [ColumnBuilder.push_default, ColumnBuilder.build,
        Column.dataType], ⟨.str (sliceList data (lastOffset offs) data.length), ?_⟩⟩
    · simp only [ColumnBuilder.push_default, ColumnBuilder.wfB, Bool.and_eq_true]
      refine ⟨⟨by simp [hb2.1.1],
        nondecreasing_snoc offs data.length hb2.1.2 (by omega)⟩, ?_⟩
      rw [lastOffset_snoc]
      simp
    · simp only [ColumnBuilder.push_default, ColumnBuilder.len]
      rw [List.length_append]
      have : 0 < offs.length := List.length_pos_of_ne_nil hb2.1.1
      simp
      omega
    · simp only [ColumnBuilder.push_default, ColumnBuilder.build]
      rw [show Column.semRows (.string data (offs ++ [data.length]))
          = (windowsOf data (offs ++ [data.length])).map SemValue.str by
        simp [Column.semRows]]
      rw [show Column.semRows (Column.string data offs)
          = (windowsOf data offs).map SemValue.str by simp [Column.semRows]]
      rw [windowsOf_snoc data offs data.length hb2.1.1, List.map_append]
      rfl
  | .variant data offs =>
    have hb2 : (¬offs = [] ∧ nondecreasing offs = true) ∧
        lastOffset offs = data.length := by simpa [ColumnBuilder.wfB] using hb
    refine ⟨?_, ?_, by simp [ColumnBuilder.push_default, ColumnBuilder.build,
        Column.dataType],
      ⟨.variant (sliceList (data ++ jsonbNull) (lastOffset offs)
        (data.length + jsonbNull.length)), ?_⟩⟩
    · simp only [ColumnBuilder.push_default, ColumnBuilder.wfB, Bool.and_eq_true]
      refine ⟨⟨by simp [hb2.1.1],
        nondecreasing_snoc offs (data.length + jsonbNull.length) hb2.1.2
          (by omega)⟩, ?_⟩
      rw [lastOffset_snoc]
      simp
    · simp only [ColumnBuilder.push_default, ColumnBuilder.len]
      rw [List.length_append]
      have : 0 < offs.length := List.length_pos_of_ne_nil hb2.1.1
      simp
      omega
    · simp only [ColumnBuilder.push_default, ColumnBuilder.build]
      rw [show Column.semRows (.variant (data ++ jsonbNull)
            (offs ++ [data.length + jsonbNull.length]))
          = (windowsOf (data ++ jsonbNull)
              (offs ++ [data.length + jsonbNull.length])).map SemValue.variant by
        simp [Column.semRows]]
      rw [show Column.semRows (Column.variant data offs)
          = (windowsOf data offs).map SemValue.variant by simp [Column.semRows]]
      rw [windowsOf_snoc (data ++ jsonbNull) offs
        (data.length + jsonbNull.length) hb2.1.1]
      rw [windowsOf_append_left data jsonbNull offs hb2.1.2 (by omega)]
      rw [List.map_append]
      rfl
  | .array ib offs =>
    have hb2 : ((¬offs = [] ∧ nondecreasing offs = true) ∧
        lastOffset offs = ib.len) ∧ ib.wfB = true := by
      simpa [ColumnBuilder.wfB] using hb
    refine ⟨?_, ?_, by simp [ColumnBuilder.push_default, ColumnBuilder.build,
        Column.dataType],
      ⟨.arr ((ib.build).dataType) (sliceList (Column.semRows ib.build)
        (lastOffset offs) ib.len), ?_⟩⟩
    · simp only [ColumnBuilder.push_default, ColumnBuilder.wfB, Bool.and_eq_true]
      refine ⟨⟨⟨by simp [hb2.1.1.1],
        nondecreasing_snoc offs ib.len hb2.1.1.2 (by omega)⟩, ?_⟩, hb2.2⟩
      rw [lastOffset_snoc]
      simp
    · simp only [ColumnBuilder.push_default, ColumnBuilder.len]
      rw [List.length_append]
      have : 0 < offs.length := List.length_pos_of_ne_nil hb2.1.1.1
      simp
      omega
    · simp only [ColumnBuilder.push_default, ColumnBuilder.build]
      rw [show Column.semRows (.array ib.build (offs ++ [ib.len]))
          = (windowsOf (Column.semRows ib.build) (offs ++ [ib.len])).map
              (SemValue.arr (ib.build).dataType) by simp [Column.semRows]]
      rw [show Column.semRows (Column.array ib.build offs)
          = (windowsOf (Column.semRows ib.build) offs).map
              (SemValue.arr (ib.build).dataType) by simp [Column.semRows]]
      rw [windowsOf_snoc _ offs ib.len hb2.1.1.1, List.map_append]
      rfl
  | .map ib offs =>
    have hb2 : ((¬offs = [] ∧ nondecreasing offs = true) ∧
        lastOffset offs = ib.len) ∧ ib.wfB = true := by
      simpa [ColumnBuilder.wfB] using hb
    refine ⟨?_, ?_, by simp [ColumnBuilder.push_default, ColumnBuilder.build,
        Column.dataType],
      ⟨.mapRows ((ib.build).dataType) (sliceList (Column.semRows ib.build)
        (lastOffset offs) ib.len), ?_⟩⟩
    · simp only [ColumnBuilder.push_default, ColumnBuilder.wfB, Bool.and_eq_true]
      refine ⟨⟨⟨by simp [hb2.1.1.1],
        nondecreasing_snoc offs ib.len hb2.1.1.2 (by omega)⟩, ?_⟩, hb2.2⟩
      rw [lastOffset_snoc]
      simp
    · simp only [ColumnBuilder.push_default, ColumnBuilder.len]
      rw [List.length_append]
      have : 0 < offs.length := List.length_pos_of_ne_nil hb2.1.1.1
      simp
      omega
    · simp only [ColumnBuilder.push_default, ColumnBuilder.build]
      rw [show Column.semRows (.map ib.build (offs ++ [ib.len]))
          = (windowsOf (Column.semRows ib.build) (offs ++ [ib.len])).map
              (SemValue.mapRows (ib.build).dataType) by simp [Column.semRows]]
      rw [show Column.semRows (Column.map ib.build offs)
          = (windowsOf (Column.semRows ib.build) offs).map
              (SemValue.mapRows (ib.build).dataType) by simp [Column.semRows]]
      rw [windowsOf_snoc _ offs ib.len hb2.1.1.1, List.map_append]
      rfl
  | .nullable ib validity =>
    have hb2 : (validity.length = ib.len ∧ ib.isNullableB = false) ∧
        ib.wfB = true := by simpa [ColumnBuilder.wfB] using hb
    obtain ⟨ihwf, ihlen, ihty, r0, ihrows⟩ := push_default_sem ib hb2.2
    have hxl : (Column.semRows ib.build).length = ib.len := build_rows_length hb2.2
    have hnn : (ib.push_default).isNullableB = false := by
      have e1 := ColumnBuilder.isNullableB_build ib.push_default
      have e2 := ColumnBuilder.isNullableB_build ib
      rw [Column.isNullableCol_ty, ihty, ← Column.isNullableCol_ty, e2] at e1
      rw [← e1]
      exact hb2.1.2
    refine ⟨?_, ?_, by simp [ColumnBuilder.push_default, ColumnBuilder.build,
        Column.dataType, ihty], ⟨.masked, ?_⟩⟩
    · have hlen3 : (validity ++ [false]).length = (ib.push_default).len := by
        rw [List.length_append, ihlen, hb2.1.1]
        rfl
      simp [ColumnBuilder.push_default, ColumnBuilder.wfB, hlen3, hnn, ihwf]
    · simp [ColumnBuilder.push_default, ColumnBuilder.len]
    · simp only [ColumnBuilder.push_default, ColumnBuilder.build]
      rw [show Column.semRows (.nullable (ib.push_default).build
            (validity ++ [false]))
          = List.zipWith (fun (valid : Bool) r => if valid then r
              else SemValue.masked) (validity ++ [false])
              (Column.semRows (ib.push_default).build) by simp [Column.semRows]]
      rw [show Column.semRows (Column.nullable ib.build validity)
          = List.zipWith (fun (valid : Bool) r => if valid then r
              else SemValue.masked) validity (Column.semRows ib.build) by
        simp [Column.semRows]]
      rw [ihrows, List.zipWith_append _ _ _ _ _ (by rw [hxl]; exact hb2.1.1)]
      rfl
  | .tuple fields len =>
    have hbw : ∀ f ∈ fields, ColumnBuilder.len f = len ∧ f.wfB = true := by
      rw [show ColumnBuilder.wfB (.tuple fields len)
          = (fields.attach.all fun f =>
              (ColumnBuilder.len f.1 == len) && ColumnBuilder.wfB f.1) by
        simp [ColumnBuilder.wfB]] at hb
      rw [attachAll fields
        (fun f => (ColumnBuilder.len f == len) && ColumnBuilder.wfB f),
        List.all_eq_true] at hb
      intro f hf
      have h3 := hb f hf
      simpa using h3
    have hIH : ∀ f ∈ fields, (f.push_default).wfB = true ∧
        (f.push_default).len = f.len + 1 ∧
        ((f.push_default).build).dataType = (f.build).dataType ∧
        ∃ r, ((f.push_default).build).semRows = (f.build).semRows ++ [r] :=
      fun f hf => push_default_sem f (hbw f hf).2
    have hpd : ColumnBuilder.push_default (.tuple fields len)
        = .tuple (fields.map ColumnBuilder.push_default) (len + 1) := by
      rw [show ColumnBuilder.push_default (.tuple fields len)
          = .tuple (fields.attach.map fun f => ColumnBuilder.push_default f.1)
            (len + 1) by simp [ColumnBuilder.push_default]]
      rw [attachMap fields ColumnBuilder.push_default]
    have hbuild : ∀ (l : List ColumnBuilder) (n : Nat),
        ColumnBuilder.build (.tuple l n)
          = .tuple (l.map ColumnBuilder.build) n := by
      intro l n
      rw [show ColumnBuilder.build (.tuple l n)
          = .tuple (l.attach.map fun f => ColumnBuilder.build f.1) n by
        simp [ColumnBuilder.build]]
      rw [attachMap l ColumnBuilder.build]
    refine ⟨?_, ?_, ?_, ?_⟩
    · rw [hpd]
      rw [show ColumnBuilder.wfB (.tuple (fields.map ColumnBuilder.push_default)
            (len + 1))
          = ((fields.map ColumnBuilder.push_default).attach.all fun f =>
              (ColumnBuilder.len f.1 == len + 1) && ColumnBuilder.wfB f.1) by
        simp [ColumnBuilder.wfB]]
      rw [attachAll (fields.map ColumnBuilder.push_default)
        (fun f => (ColumnBuilder.len f == len + 1) && ColumnBuilder.wfB f),
        List.all_eq_true]
      intro f hf
      obtain ⟨a, ha, rfl⟩ := List.mem_map.mp hf
      obtain ⟨hw, hlen2, _, _⟩ := hIH a ha
      simp [hlen2, (hbw a ha).1, hw]
    · rw [hpd]
      simp [ColumnBuilder.len]
    · rw [hpd, hbuild, hbuild]
      rw [show Column.dataType (.tuple
            ((fields.map ColumnBuilder.push_default).map ColumnBuilder.build)
            (len + 1))
          = .tuple (((fields.map ColumnBuilder.push_default).map
              ColumnBuilder.build).attach.map fun f => Column.dataType f.1) by
        simp [Column.dataType]]
      rw [attachMap _ Column.dataType]
      rw [show Column.dataType (.tuple (fields.map ColumnBuilder.build) len)
          = .tuple ((fields.map ColumnBuilder.build).attach.map fun f =>
              Column.dataType f.1) by simp [Column.dataType]]
      rw [attachMap _ Column.dataType]
      rw [List.map_map, List.map_map, List.map_map]
      congr 1
      apply List.map_congr_left
      intro a ha
      exact (hIH a ha).2.2.1
    · refine ⟨SemValue.tup ((fields.map (ColumnBuilder.build ∘
        ColumnBuilder.push_default)).map fun f =>
          (Column.semRows f)[len]?.getD SemValue.null), ?_⟩
      rw [hpd, hbuild, hbuild, List.map_map]
      apply List.ext_getElem?
      intro i
      have hlenA : (Column.semRows (.tuple (fields.map ColumnBuilder.build)
          len)).length = len := semRows_tuple_length _ _
      by_cases hi : i < len + 1
      · rw [semRows_tuple_getElem? _ (len + 1) i hi]
        by_cases hi2 : i < len
        · rw [List.getElem?_append_left (by rw [hlenA]; omega)]
          rw [semRows_tuple_getElem? _ len i hi2]
          congr 2
          rw [List.map_map, List.map_map]
          apply List.map_congr_left
          intro a ha
          obtain ⟨hw, hlen2, _, r1, hrows⟩ := hIH a ha
          simp only [Function.comp_apply]
          rw [hrows]
          rw [List.getElem?_append_left (by
            rw [build_rows_length (hbw a ha).2, (hbw a ha).1]
            omega)]
        · have hieq : i = len := by omega
          subst hieq
          rw [List.getElem?_append_right (by rw [hlenA])]
          rw [hlenA, Nat.sub_self, List.getElem?_cons_zero]
      · rw [List.getElem?_eq_none (by
          rw [semRows_tuple_length]
          omega)]
        rw [List.getElem?_eq_none (by
          rw [List.length_append, hlenA, List.length_cons, List.length_nil]
          omega)]
termination_by sizeOf b
decreasing_by
  all_goals simp_wf
  all_goals first
    | omega
    | (have q := List.sizeOf_lt_of_mem hf; omega)

/-- Well-formedness of a scalar: the columns nested inside array/map
scalars (and inside tuple fields) are well-formed. -/
def Scalar.wfS : Scalar → Bool
  | .array c => c.wf
  | .map c => c.wf
  | .tuple fs => fs.attach.all fun f => Scalar.wfS f.1
  | _ => true
termination_by s => sizeOf s
decreasing_by
  all_goals simp_wf
  all_goals (have q := List.sizeOf_lt_of_mem f.2; omega)

theorem push_sem_nullable_step (ib : ColumnBuilder) (validity : List Bool)
    (s : Scalar) (b2i : ColumnBuilder)
    (hb : (ColumnBuilder.nullable ib validity).wfB = true)
    (hpush : b2i.wfB = true ∧ (b2i.build).dataType = (ib.build).dataType ∧
        ∃ r, (b2i.build).semRows = (ib.build).semRows ++ [r] ∧
          SemValue.collapseTop r = s.sem) :
    (ColumnBuilder.nullable b2i (validity ++ [true])).wfB = true ∧
      ((ColumnBuilder.nullable b2i (validity ++ [true])).build).dataType
        = ((ColumnBuilder.nullable ib validity).build).dataType ∧
      ∃ r, ((ColumnBuilder.nullable b2i (validity ++ [true])).build).semRows
          = ((ColumnBuilder.nullable ib validity).build).semRows ++ [r] ∧
        SemValue.collapseTop r = s.sem := by
  have hb2 : (validity.length = ib.len ∧ ib.isNullableB = false) ∧
      ib.wfB = true := by simpa [ColumnBuilder.wfB] using hb
  obtain ⟨ihwf, ihty, r, ihrows, ihcol⟩ := hpush
  have hxl : (Column.semRows ib.build).length = ib.len := build_rows_length hb2.2
  have hl2i : b2i.len = ib.len + 1 := by
    have h3 := build_rows_length ihwf
    rw [ihrows, List.length_append, hxl, List.length_cons, List.length_nil] at h3
    omega
  have hnn : b2i.isNullableB = false := by
    have e1 := ColumnBuilder.isNullableB_build b2i
    have e2 := ColumnBuilder.isNullableB_build ib
    rw [Column.isNullableCol_ty, ihty, ← Column.isNullableCol_ty, e2] at e1
    rw [← e1]
    exact hb2.1.2
  refine ⟨?_, ?_, ⟨r, ?_, ihcol⟩⟩
  · have hlen3 : (validity ++ [true]).length = b2i.len := by
      rw [List.length_append, hl2i, hb2.1.1]
      rfl
    simp [ColumnBuilder.wfB, hlen3, hnn, ihwf]
  · simp [ColumnBuilder.build, Column.dataType, ihty]
  · simp only [ColumnBuilder.build]
    rw [show Column.semRows (.nullable b2i.build (validity ++ [true]))
        = List.zipWith (fun (valid : Bool) r2 => if valid then r2
            else SemValue.masked) (validity ++ [true])
            (Column.semRows b2i.build) by simp [Column.semRows]]
    rw [show Column.semRows (Column.nullable ib.build validity)
        = List.zipWith (fun (valid : Bool) r2 => if valid then r2
            else SemValue.masked) validity (Column.semRows ib.build) by
      simp [Column.semRows]]
    rw [ihrows, List.zipWith_append _ _ _ _ _ (by rw [hxl]; exact hb2.1.1)]
    rfl

set_option maxRecDepth 4000 in
/-- Effect of `ColumnBuilder::push` on a well-formed builder and a
well-formed scalar: success preserves well-formedness and the logical
type and appends exactly one semantic row, whose `index`-collapse is the
pushed scalar's semantic value (a masked row for `Null` into a nullable
builder, the value itself otherwise). -/
theorem push_sem (b : ColumnBuilder) (s : Scalar) (b2 : ColumnBuilder)
    (hb : b.wfB = true) (hs : s.wfS = true) (h : b.push s = some b2) :
    b2.wfB = true ∧ (b2.build).dataType = (b.build).dataType ∧
      ∃ r, (b2.build).semRows = (b.build).semRows ++ [r] ∧
        SemValue.collapseTop r = s.sem := by
  match b, s with
  | .null len, .null =>
    simp only [ColumnBuilder.push, Option.some.injEq] at h
    subst h
    refine ⟨by simp [ColumnBuilder.wfB],
      by simp [ColumnBuilder.build, Column.dataType],
      ⟨.null, ?_, by simp [SemValue.collapseTop, Scalar.sem]⟩⟩
    simp only [ColumnBuilder.build]
    rw [show Column.semRows (.null (len + 1))
        = List.replicate (len + 1) SemValue.null by simp [Column.semRows]]
    rw [show Column.semRows (Column.null len)
        = List.replicate len SemValue.null by simp [Column.semRows]]
    rw [List.replicate_add]
    rfl
  | .emptyArray len, .emptyArray =>
    simp only [ColumnBuilder.push, Option.some.injEq] at h
    subst h
    refine ⟨by simp [ColumnBuilder.wfB],
      by simp [ColumnBuilder.build, Column.dataType],
      ⟨.emptyArray, ?_, by simp [SemValue.collapseTop, Scalar.sem]⟩⟩
    simp only [ColumnBuilder.build]
    rw [show Column.semRows (.emptyArray (len + 1))
        = List.replicate (len + 1) SemValue.emptyArray by simp [Column.semRows]]
    rw [show Column.semRows (Column.emptyArray len)
        = List.replicate len SemValue.emptyArray by simp [Column.semRows]]
    rw [List.replicate_add]
    rfl
  | .emptyMap len, .emptyMap =>
    simp only [ColumnBuilder.push, Option.some.injEq] at h
    subst h
    refine ⟨by simp [ColumnBuilder.wfB],
      by simp [ColumnBuilder.build, Column.dataType],
      ⟨.emptyMap, ?_, by simp [SemValue.collapseTop, Scalar.sem]⟩⟩
    simp only [ColumnBuilder.build]
    rw [show Column.semRows (.emptyMap (len + 1))
        = List.replicate (len + 1) SemValue.emptyMap by simp [Column.semRows]]
    rw [show Column.semRows (Column.emptyMap len)
        = List.replicate len SemValue.emptyMap by simp [Column.semRows]]
    rw [List.replicate_add]
    rfl
  | .number k values, .number k2 v =>
    simp only [ColumnBuilder.push] at h
    split at h
    · rename_i heq
      subst heq
      simp only [Option.some.injEq] at h
      subst h
      refine ⟨by simp [ColumnBuilder.wfB],
        by simp [ColumnBuilder.build, Column.dataType],
        ⟨.num k v, ?_, by simp [SemValue.collapseTop, Scalar.sem]⟩⟩
      simp [ColumnBuilder.build, Column.semRows]
    · exact absurd h (by simp)
  | .decimal w values size, .decimal w2 v s2 =>
    simp only [ColumnBuilder.push] at h
    split at h
    · rename_i heq
      obtain ⟨rfl, rfl⟩ := heq
      simp only [Option.some.injEq] at h
      subst h
      refine ⟨by simp [ColumnBuilder.wfB],
        by simp [ColumnBuilder.build, Column.dataType],
        ⟨.dec w v size, ?_, by simp [SemValue.collapseTop, Scalar.sem]⟩⟩
      simp [ColumnBuilder.build, Column.semRows]
    · exact absurd h (by simp)
  | .boolean values, .boolean bv =>
    simp only [ColumnBuilder.push, Option.some.injEq] at h
    subst h
    refine ⟨by simp [ColumnBuilder.wfB],
      by simp [ColumnBuilder.build, Column.dataType],
      ⟨.bool bv, ?_, by simp [SemValue.collapseTop, Scalar.sem]⟩⟩
    simp [ColumnBuilder.build, Column.semRows]
  | .timestamp values, .timestamp tv =>
    simp only [ColumnBuilder.push, Option.some.injEq] at h
    subst h
    refine ⟨by simp [ColumnBuilder.wfB],
      by simp [ColumnBuilder.build, Column.dataType],
      ⟨.ts tv, ?_, by simp [SemValue.collapseTop, Scalar.sem]⟩⟩
    simp [ColumnBuilder.build, Column.semRows]
  | .date values, .date dv =>
    simp only [ColumnBuilder.push, Option.some.injEq] at h
    subst h
    refine ⟨by simp [ColumnBuilder.wfB],
      by simp [ColumnBuilder.build, Column.dataType],
      ⟨.date dv, ?_, by simp [SemValue.collapseTop, Scalar.sem]⟩⟩
    simp [ColumnBuilder.build, Column.semRows]
  | .string data offs, .string sv =>
    simp only [ColumnBuilder.push, Option.some.injEq] at h
    subst h
    have hb2 : (¬offs = [] ∧ nondecreasing offs = true) ∧
        lastOffset offs = data.length := by simpa [ColumnBuilder.wfB] using hb
    refine ⟨?_, by simp [ColumnBuilder.build, Column.dataType],
      ⟨.str sv, ?_, by simp [SemValue.collapseTop, Scalar.sem]⟩⟩
    · simp only [ColumnBuilder.wfB, Bool.and_eq_true]
      refine ⟨⟨by simp [hb2.1.1],
        nondecreasing_snoc offs (data.length + sv.length) hb2.1.2 (by omega)⟩, ?_⟩
      rw [lastOffset_snoc]
      simp
    · simp only [ColumnBuilder.build]
      rw [show Column.semRows (.string (data ++ sv)
            (offs ++ [data.length + sv.length]))
          = (windowsOf (data ++ sv) (offs ++ [data.length + sv.length])).map
              SemValue.str by simp [Column.semRows]]
      rw [show Column.semRows (Column.string data offs)
          = (windowsOf data offs).map SemValue.str by simp [Column.semRows]]
      rw [windowsOf_snoc _ offs _ hb2.1.1]
      rw [windowsOf_append_left data sv offs hb2.1.2 (by omega)]
      rw [List.map_append, hb2.2]
      rw [show sliceList (data ++ sv) data.length (data.length + sv.length) = sv
        from sliceList_append_all data sv]
      rfl
  | .variant data offs, .variant sv =>
    simp only [ColumnBuilder.push, Option.some.injEq] at h
    subst h
    have hb2 : (¬offs = [] ∧ nondecreasing offs = true) ∧
        lastOffset offs = data.length := by simpa [ColumnBuilder.wfB] using hb
    refine ⟨?_, by simp [ColumnBuilder.build, Column.dataType],
      ⟨.variant sv, ?_, by simp [SemValue.collapseTop, Scalar.sem]⟩⟩
    · simp only [ColumnBuilder.wfB, Bool.and_eq_true]
      refine ⟨⟨by simp [hb2.1.1],
        nondecreasing_snoc offs (data.length + sv.length) hb2.1.2 (by omega)⟩, ?_⟩
      rw [lastOffset_snoc]
      simp
    · simp only [ColumnBuilder.build]
      rw [show Column.semRows (.variant (data ++ sv)
            (offs ++ [data.length + sv.length]))
          = (windowsOf (data ++ sv) (offs ++ [data.length + sv.length])).map
              SemValue.variant by simp [Column.semRows]]
      rw [show Column.semRows (Column.variant data offs)
          = (windowsOf data offs).map SemValue.variant by simp [Column.semRows]]
      rw [windowsOf_snoc _ offs _ hb2.1.1]
      rw [windowsOf_append_left data sv offs hb2.1.2 (by omega)]
      rw [List.map_append, hb2.2]
      rw [show sliceList (data ++ sv) data.length (data.length + sv.length) = sv
        from sliceList_append_all data sv]
      rfl
  | .array ib offs, .array col =>
    simp only [ColumnBuilder.push] at h
    have hb2 : ((¬offs = [] ∧ nondecreasing offs = true) ∧
        lastOffset offs = ib.len) ∧ ib.wfB = true := by
      simpa [ColumnBuilder.wfB] using hb
    have hcw : col.wf = true := by simpa [Scalar.wfS] using hs
    cases happ : ColumnBuilder.append_column ib col with
    | none =>
      rw [happ] at h
      simp at h
    | some b2i =>
      rw [happ] at h
      simp only [Option.map_some', Option.some.injEq] at h
      subst h
      obtain ⟨ihwf, ihty1, ihty2, ihrows⟩ := append_sem ib col b2i hb2.2 hcw happ
      have hxl : (Column.semRows ib.build).length = ib.len := build_rows_length hb2.2
      have hcl : (Column.semRows col).length = col.len :=
        Column.semRows_length col hcw
      have hlb2i : b2i.len = ib.len + col.len := by
        have h3 := build_rows_length ihwf
        rw [ihrows, List.length_append, hxl, hcl] at h3
        omega
      refine ⟨?_, ?_, ⟨.arr ((b2i.build).dataType) (Column.semRows col), ?_, ?_⟩⟩
      · simp only [ColumnBuilder.wfB, Bool.and_eq_true]
        refine ⟨⟨⟨by simp [hb2.1.1.1],
          nondecreasing_snoc offs b2i.len hb2.1.1.2 (by omega)⟩, ?_⟩, ihwf⟩
        rw [lastOffset_snoc]
        simp
      · simp [ColumnBuilder.build, Column.dataType, ihty1]
      · simp only [ColumnBuilder.build]
        rw [show Column.semRows (.array b2i.build (offs ++ [b2i.len]))
            = (windowsOf (Column.semRows b2i.build) (offs ++ [b2i.len])).map
                (SemValue.arr (b2i.build).dataType) by simp [Column.semRows]]
        rw [show Column.semRows (Column.array ib.build offs)
            = (windowsOf (Column.semRows ib.build) offs).map
                (SemValue.arr (ib.build).dataType) by simp [Column.semRows]]
        rw [windowsOf_snoc _ offs _ hb2.1.1.1]
        rw [ihrows]
        rw [windowsOf_append_left _ _ offs hb2.1.1.2 (by rw [hxl]; omega)]
        rw [List.map_append, hb2.1.2, hlb2i]
        rw [show sliceList (Column.semRows ib.build ++ Column.semRows col)
              ib.len (ib.len + col.len) = Column.semRows col from by
          rw [← hxl, ← hcl]
          exact sliceList_append_all _ _]
        rw [ihty1]
        rfl
      · rw [show (b2i.build).dataType = col.dataType from ihty1.trans ihty2]
        simp [SemValue.collapseTop, Scalar.sem]
  | .map ib offs, .map col =>
    simp only [ColumnBuilder.push] at h
    have hb2 : ((¬offs = [] ∧ nondecreasing offs = true) ∧
        lastOffset offs = ib.len) ∧ ib.wfB = true := by
      simpa [ColumnBuilder.wfB] using hb
    have hcw : col.wf = true := by simpa [Scalar.wfS] using hs
    cases happ : ColumnBuilder.append_column ib col with
    | none =>
      rw [happ] at h
      simp at h
    | some b2i =>
      rw [happ] at h
      simp only [Option.map_some', Option.some.injEq] at h
      subst h
      obtain ⟨ihwf, ihty1, ihty2, ihrows⟩ := append_sem ib col b2i hb2.2 hcw happ
      have hxl : (Column.semRows ib.build).length = ib.len := build_rows_length hb2.2
      have hcl : (Column.semRows col).length = col.len :=
        Column.semRows_length col hcw
      have hlb2i : b2i.len = ib.len + col.len := by
        have h3 := build_rows_length ihwf
        rw [ihrows, List.length_append, hxl, hcl] at h3
        omega
      refine ⟨?_, ?_,
        ⟨.mapRows ((b2i.build).dataType) (Column.semRows col), ?_, ?_⟩⟩
      · simp only [ColumnBuilder.wfB, Bool.and_eq_true]
        refine ⟨⟨⟨by simp [hb2.1.1.1],
          nondecreasing_snoc offs b2i.len hb2.1.1.2 (by omega)⟩, ?_⟩, ihwf⟩
        rw [lastOffset_snoc]
        simp
      · simp [ColumnBuilder.build, Column.dataType, ihty1]
      · simp only [ColumnBuilder.build]
        rw [show Column.semRows (.map b2i.build (offs ++ [b2i.len]))
            = (windowsOf (Column.semRows b2i.build) (offs ++ [b2i.len])).map
                (SemValue.mapRows (b2i.build).dataType) by simp [Column.semRows]]
        rw [show Column.semRows (Column.map ib.build offs)
            = (windowsOf (Column.semRows ib.build) offs).map
                (SemValue.mapRows (ib.build).dataType) by simp [Column.semRows]]
        rw [windowsOf_snoc _ offs _ hb2.1.1.1]
        rw [ihrows]
        rw [windowsOf_append_left _ _ offs hb2.1.1.2 (by rw [hxl]; omega)]
        rw [List.map_append, hb2.1.2, hlb2i]
        rw [show sliceList (Column.semRows ib.build ++ Column.semRows col)
              ib.len (ib.len + col.len) = Column.semRows col from by
          rw [← hxl, ← hcl]
          exact sliceList_append_all _ _]
        rw [ihty1]
        rfl
      · rw [show (b2i.build).dataType = col.dataType from ihty1.trans ihty2]
        simp [SemValue.collapseTop, Scalar.sem]
  | .nullable ib validity, .null =>
    simp only [ColumnBuilder.push, Option.some.injEq] at h
    subst h
    have hb2 : (validity.length = ib.len ∧ ib.isNullableB = false) ∧
        ib.wfB = true := by simpa [ColumnBuilder.wfB] using hb
    obtain ⟨ihwf, ihlen, ihty, r0, ihrows⟩ := push_default_sem ib hb2.2
    have hxl : (Column.semRows ib.build).length = ib.len := build_rows_length hb2.2
    have hnn : (ib.push_default).isNullableB = false := by
      have e1 := ColumnBuilder.isNullableB_build ib.push_default
      have e2 := ColumnBuilder.isNullableB_build ib
      rw [Column.isNullableCol_ty, ihty, ← Column.isNullableCol_ty, e2] at e1
      rw [← e1]
      exact hb2.1.2
    refine ⟨?_, ?_, ⟨.masked, ?_, by simp [SemValue.collapseTop, Scalar.sem]⟩⟩
    · have hlen3 : (validity ++ [false]).length = (ib.push_default).len := by
        rw [List.length_append, ihlen, hb2.1.1]
        rfl
      simp [ColumnBuilder.wfB, hlen3, hnn, ihwf]
    · simp [ColumnBuilder.build, Column.dataType, ihty]
    · simp only [ColumnBuilder.build]
      rw [show Column.semRows (.nullable (ib.push_default).build
            (validity ++ [false]))
          = List.zipWith (fun (valid : Bool) r2 => if valid then r2
              else SemValue.masked) (validity ++ [false])
              (Column.semRows (ib.push_default).build) by simp [Column.semRows]]
      rw [show Column.semRows (Column.nullable ib.build validity)
          = List.zipWith (fun (valid : Bool) r2 => if valid then r2
              else SemValue.masked) validity (Column.semRows ib.build) by
        simp [Column.semRows]]
      rw [ihrows, List.zipWith_append _ _ _ _ _ (by rw [hxl]; exact hb2.1.1)]
      rfl
  | .nullable ib validity, .emptyArray =>
    simp only [ColumnBuilder.push] at h
    have hb2w : ib.wfB = true := by
      have hb2 : (validity.length = ib.len ∧ ib.isNullableB = false) ∧
          ib.wfB = true := by simpa [ColumnBuilder.wfB] using hb
      exact hb2.2
    cases hpush : ColumnBuilder.push ib (Scalar.emptyArray) with
    | none =>
      rw [hpush] at h
      simp at h
    | some b2i =>
      rw [hpush] at h
      simp only [Option.map_some', Option.some.injEq] at h
      subst h
      exact push_sem_nullable_step ib validity (Scalar.emptyArray) b2i hb
        (push_sem ib (Scalar.emptyArray) b2i hb2w hs hpush)
  | .nullable ib validity, .emptyMap =>
    simp only [ColumnBuilder.push] at h
    have hb2w : ib.wfB = true := by
      have hb2 : (validity.length = ib.len ∧ ib.isNullableB = false) ∧
          ib.wfB = true := by simpa [ColumnBuilder.wfB] using hb
      exact hb2.2
    cases hpush : ColumnBuilder.push ib (Scalar.emptyMap) with
    | none =>
      rw [hpush] at h
      simp at h
    | some b2i =>
      rw [hpush] at h
      simp only [Option.map_some', Option.some.injEq] at h
      subst h
      exact push_sem_nullable_step ib validity (Scalar.emptyMap) b2i hb
        (push_sem ib (Scalar.emptyMap) b2i hb2w hs hpush)
  | .nullable ib validity, .number k v =>
    simp only [ColumnBuilder.push] at h
    have hb2w : ib.wfB = true := by
      have hb2 : (validity.length = ib.len ∧ ib.isNullableB = false) ∧
          ib.wfB = true := by simpa [ColumnBuilder.wfB] using hb
      exact hb2.2
    cases hpush : ColumnBuilder.push ib (Scalar.number k v) with
    | none =>
      rw [hpush] at h
      simp at h
    | some b2i =>
      rw [hpush] at h
      simp only [Option.map_some', Option.some.injEq] at h
      subst h
      exact push_sem_nullable_step ib validity (Scalar.number k v) b2i hb
        (push_sem ib (Scalar.number k v) b2i hb2w hs hpush)
  | .nullable ib validity, .decimal w v sz =>
    simp only [ColumnBuilder.push] at h
    have hb2w : ib.wfB = true := by
      have hb2 : (validity.length = ib.len ∧ ib.isNullableB = false) ∧
          ib.wfB = true := by simpa [ColumnBuilder.wfB] using hb
      exact hb2.2
    cases hpush : ColumnBuilder.push ib (Scalar.decimal w v sz) with
    | none =>
      rw [hpush] at h
      simp at h
    | some b2i =>
      rw [hpush] at h
      simp only [Option.map_some', Option.some.injEq] at h
      subst h
      exact push_sem_nullable_step ib validity (Scalar.decimal w v sz) b2i hb
        (push_sem ib (Scalar.decimal w v sz) b2i hb2w hs hpush)
  | .nullable ib validity, .boolean bv =>
    simp only [ColumnBuilder.push] at h
    have hb2w : ib.wfB = true := by
      have hb2 : (validity.length = ib.len ∧ ib.isNullableB = false) ∧
          ib.wfB = true := by simpa [ColumnBuilder.wfB] using hb
      exact hb2.2
    cases hpush : ColumnBuilder.push ib (Scalar.boolean bv) with
    | none =>
      rw [hpush] at h
      simp at h
    | some b2i =>
      rw [hpush] at h
      simp only [Option.map_some', Option.some.injEq] at h
      subst h
      exact push_sem_nullable_step ib validity (Scalar.boolean bv) b2i hb
        (push_sem ib (Scalar.boolean bv) b2i hb2w hs hpush)
  | .nullable ib validity, .string sv =>
    simp only [ColumnBuilder.push] at h
    have hb2w : ib.wfB = true := by
      have hb2 : (validity.length = ib.len ∧ ib.isNullableB = false) ∧
          ib.wfB = true := by simpa [ColumnBuilder.wfB] using hb
      exact hb2.2
    cases hpush : ColumnBuilder.push ib (Scalar.string sv) with
    | none =>
      rw [hpush] at h
      simp at h
    | some b2i =>
      rw [hpush] at h
      simp only [Option.map_some', Option.some.injEq] at h
      subst h
      exact push_sem_nullable_step ib validity (Scalar.string sv) b2i hb
        (push_sem ib (Scalar.string sv) b2i hb2w hs hpush)
  | .nullable ib validity, .timestamp tv =>
    simp only [ColumnBuilder.push] at h
    have hb2w : ib.wfB = true := by
      have hb2 : (validity.length = ib.len ∧ ib.isNullableB = false) ∧
          ib.wfB = true := by simpa [ColumnBuilder.wfB] using hb
      exact hb2.2
    cases hpush : ColumnBuilder.push ib (Scalar.timestamp tv) with
    | none =>
      rw [hpush] at h
      simp at h
    | some b2i =>
      rw [hpush] at h
      simp only [Option.map_some', Option.some.injEq] at h
      subst h
      exact push_sem_nullable_step ib validity (Scalar.timestamp tv) b2i hb
        (push_sem ib (Scalar.timestamp tv) b2i hb2w hs hpush)
  | .nullable ib validity, .date dv =>
    simp only [ColumnBuilder.push] at h
    have hb2w : ib.wfB = true := by
      have hb2 : (validity.length = ib.len ∧ ib.isNullableB = false) ∧
          ib.wfB = true := by simpa [ColumnBuilder.wfB] using hb
      exact hb2.2
    cases hpush : ColumnBuilder.push ib (Scalar.date dv) with
    | none =>
      rw [hpush] at h
      simp at h
    | some b2i =>
      rw [hpush] at h
      simp only [Option.map_some', Option.some.injEq] at h
      subst h
      exact push_sem_nullable_step ib validity (Scalar.date dv) b2i hb
        (push_sem ib (Scalar.date dv) b2i hb2w hs hpush)
  | .nullable ib validity, .array col =>
    simp only [ColumnBuilder.push] at h
    have hb2w : ib.wfB = true := by
      have hb2 : (validity.length = ib.len ∧ ib.isNullableB = false) ∧
          ib.wfB = true := by simpa [ColumnBuilder.wfB] using hb
      exact hb2.2
    cases hpush : ColumnBuilder.push ib (Scalar.array col) with
    | none =>
      rw [hpush] at h
      simp at h
    | some b2i =>
      rw [hpush] at h
      simp only [Option.map_some', Option.some.injEq] at h
      subst h
      exact push_sem_nullable_step ib validity (Scalar.array col) b2i hb
        (push_sem ib (Scalar.array col) b2i hb2w hs hpush)
  | .nullable ib validity, .map col =>
    simp only [ColumnBuilder.push] at h
    have hb2w : ib.wfB = true := by
      have hb2 : (validity.length = ib.len ∧ ib.isNullableB = false) ∧
          ib.wfB = true := by simpa [ColumnBuilder.wfB] using hb
      exact hb2.2
    cases hpush : ColumnBuilder.push ib (Scalar.map col) with
    | none =>
      rw [hpush] at h
      simp at h
    | some b2i =>
      rw [hpush] at h
      simp only [Option.map_some', Option.some.injEq] at h
      subst h
      exact push_sem_nullable_step ib validity (Scalar.map col) b2i hb
        (push_sem ib (Scalar.map col) b2i hb2w hs hpush)
  | .nullable ib validity, .tuple ss =>
    simp only [ColumnBuilder.push] at h
    have hb2w : ib.wfB = true := by
      have hb2 : (validity.length = ib.len ∧ ib.isNullableB = false) ∧
          ib.wfB = true := by simpa [ColumnBuilder.wfB] using hb
      exact hb2.2
    cases hpush : ColumnBuilder.push ib (Scalar.tuple ss) with
    | none =>
      rw [hpush] at h
      simp at h
    | some b2i =>
      rw [hpush] at h
      simp only [Option.map_some', Option.some.injEq] at h
      subst h
      exact push_sem_nullable_step ib validity (Scalar.tuple ss) b2i hb
        (push_sem ib (Scalar.tuple ss) b2i hb2w hs hpush)
  | .nullable ib validity, .variant sv =>
    simp only [ColumnBuilder.push] at h
    have hb2w : ib.wfB = true := by
      have hb2 : (validity.length = ib.len ∧ ib.isNullableB = false) ∧
          ib.wfB = true := by simpa [ColumnBuilder.wfB] using hb
      exact hb2.2
    cases hpush : ColumnBuilder.push ib (Scalar.variant sv) with
    | none =>
      rw [hpush] at h
      simp at h
    | some b2i =>
      rw [hpush] at h
      simp only [Option.map_some', Option.some.injEq] at h
      subst h
      exact push_sem_nullable_step ib validity (Scalar.variant sv) b2i hb
        (push_sem ib (Scalar.variant sv) b2i hb2w hs hpush)
  | .tuple fields len, .tuple ss =>
    simp only [ColumnBuilder.push] at h
    split at h
    · rename_i heq
      rw [attachMap (fields.zip ss) (fun y => ColumnBuilder.push y.1 y.2)] at h
      cases htr : optTraverse ((fields.zip ss).map fun y =>
          ColumnBuilder.push y.1 y.2) with
      | none =>
        rw [htr] at h
        simp at h
      | some fs =>
        rw [htr] at h
        simp only [Option.map_some', Option.some.injEq] at h
        subst h
        have hget := optTraverse_map_getElem? htr
        have hlen : fs.length = fields.length := by
          have h3 := optTraverse_length htr
          rw [List.length_map, List.length_zip] at h3
          omega
        have hbw : ∀ f ∈ fields, ColumnBuilder.len f = len ∧ f.wfB = true := by
          rw [show ColumnBuilder.wfB (.tuple fields len)
              = (fields.attach.all fun f =>
                  (ColumnBuilder.len f.1 == len) && ColumnBuilder.wfB f.1) by
            simp [ColumnBuilder.wfB]] at hb
          rw [attachAll fields
            (fun f => (ColumnBuilder.len f == len) && ColumnBuilder.wfB f),
            List.all_eq_true] at hb
          intro f hf
          have h3 := hb f hf
          simpa using h3
        have hsw : ∀ x ∈ ss, x.wfS = true := by
          rw [show Scalar.wfS (.tuple ss)
              = (ss.attach.all fun f => Scalar.wfS f.1) by simp [Scalar.wfS]] at hs
          rw [attachAll ss Scalar.wfS, List.all_eq_true] at hs
          exact hs
        have hpt : ∀ j : Nat, (hj : j < fields.length) →
            ColumnBuilder.push (fields[j]) (ss[j])
              = some (fs[j]) := by
          intro j hj
          have hj2 : j < ss.length := by omega
          have hzip : (fields.zip ss)[j]? = some (fields[j], ss[j]) := by
            rw [List.getElem?_zip_eq_some]
            exact ⟨List.getElem?_eq_getElem hj, List.getElem?_eq_getElem hj2⟩
          have hfsj : fs[j]?
              = ColumnBuilder.push (fields[j]) (ss[j]) := by
            rw [hget j, hzip]
            rfl
          rw [← hfsj]
          exact List.getElem?_eq_getElem _
        have hIH : ∀ j : Nat, (hj : j < fields.length) →
            (fs[j]).wfB = true ∧
            ((fs[j]).build).dataType
              = ((fields[j]).build).dataType ∧
            ∃ r, ((fs[j]).build).semRows
                = ((fields[j]).build).semRows ++ [r] ∧
              SemValue.collapseTop r = (ss[j]).sem := by
          intro j hj
          have hmemj : fields[j] ∈ fields := List.getElem_mem hj
          have hmemo : ss[j] ∈ ss := List.getElem_mem (by omega)
          exact push_sem (fields[j]) (ss[j]) (fs[j])
            (hbw _ hmemj).2 (hsw _ hmemo) (hpt j hj)
        refine ⟨?_, ?_, ?_⟩
        · rw [show ColumnBuilder.wfB (.tuple fs (len + 1))
              = (fs.attach.all fun f =>
                  (ColumnBuilder.len f.1 == len + 1) && ColumnBuilder.wfB f.1) by
            simp [ColumnBuilder.wfB]]
          rw [attachAll fs
            (fun f => (ColumnBuilder.len f == len + 1) && ColumnBuilder.wfB f),
            List.all_eq_true]
          intro f hf
          obtain ⟨j, hjfs, rfl⟩ := List.getElem_of_mem hf
          have hj : j < fields.length := by omega
          obtain ⟨hw, hty1, r1, hrows, _⟩ := hIH j hj
          have e1 : (Column.semRows (fs[j]).build).length
              = ColumnBuilder.len (fs[j]) := build_rows_length hw
          rw [hrows, List.length_append, List.length_cons, List.length_nil] at e1
          have e2 : (Column.semRows ((fields[j]).build)).length
              = ColumnBuilder.len (fields[j]) :=
            build_rows_length (hbw _ (List.getElem_mem hj)).2
          have e4 := (hbw _ (List.getElem_mem hj)).1
          have hlenj : ColumnBuilder.len (fs[j]) = len + 1 := by omega
          simp [hlenj, hw]
        · rw [show ColumnBuilder.build (.tuple fs (len + 1))
              = .tuple (fs.map ColumnBuilder.build) (len + 1) by
            rw [show ColumnBuilder.build (.tuple fs (len + 1))
                = .tuple (fs.attach.map fun f => ColumnBuilder.build f.1)
                  (len + 1) by simp [ColumnBuilder.build]]
            rw [attachMap fs ColumnBuilder.build]]
          rw [show ColumnBuilder.build (.tuple fields len)
              = .tuple (fields.map ColumnBuilder.build) len by
            rw [show ColumnBuilder.build (.tuple fields len)
                = .tuple (fields.attach.map fun f => ColumnBuilder.build f.1) len by
              simp [ColumnBuilder.build]]
            rw [attachMap fields ColumnBuilder.build]]
          rw [show Column.dataType (.tuple (fs.map ColumnBuilder.build) (len + 1))
              = .tuple ((fs.map ColumnBuilder.build).attach.map fun f =>
                  Column.dataType f.1) by simp [Column.dataType]]
          rw [attachMap (fs.map ColumnBuilder.build) Column.dataType]
          rw [show Column.dataType (.tuple (fields.map ColumnBuilder.build) len)
              = .tuple ((fields.map ColumnBuilder.build).attach.map fun f =>
                  Column.dataType f.1) by simp [Column.dataType]]
          rw [attachMap (fields.map ColumnBuilder.build) Column.dataType]
          rw [List.map_map, List.map_map]
          congr 1
          apply List.ext_getElem?
          intro j
          by_cases hj : j < fields.length
          · rw [List.getElem?_map, List.getElem?_map,
              List.getElem?_eq_getElem (l := fs) (by omega),
              List.getElem?_eq_getElem (l := fields) hj]
            simp only [Option.map_some', Function.comp_apply]
            exact congrArg some (hIH j hj).2.1
          · rw [List.getElem?_map, List.getElem?_map,
              List.getElem?_eq_none (l := fs) (by omega),
              List.getElem?_eq_none (l := fields) (by omega)]
        · refine ⟨SemValue.tup ((fs.map ColumnBuilder.build).map fun f =>
            (Column.semRows f)[len]?.getD SemValue.null), ?_, ?_⟩
          · rw [show ColumnBuilder.build (.tuple fs (len + 1))
                = .tuple (fs.map ColumnBuilder.build) (len + 1) by
              rw [show ColumnBuilder.build (.tuple fs (len + 1))
                  = .tuple (fs.attach.map fun f => ColumnBuilder.build f.1)
                    (len + 1) by simp [ColumnBuilder.build]]
              rw [attachMap fs ColumnBuilder.build]]
            rw [show ColumnBuilder.build (.tuple fields len)
                = .tuple (fields.map ColumnBuilder.build) len by
              rw [show ColumnBuilder.build (.tuple fields len)
                  = .tuple (fields.attach.map fun f => ColumnBuilder.build f.1)
                    len by simp [ColumnBuilder.build]]
              rw [attachMap fields ColumnBuilder.build]]
            apply List.ext_getElem?
            intro i
            have hlenA : (Column.semRows (.tuple (fields.map ColumnBuilder.build)
                len)).length = len := semRows_tuple_length _ _
            by_cases hi : i < len + 1
            · rw [semRows_tuple_getElem? _ (len + 1) i hi]
              by_cases hi2 : i < len
              · rw [List.getElem?_append_left (by rw [hlenA]; omega)]
                rw [semRows_tuple_getElem? _ len i hi2]
                congr 2
                rw [List.map_map, List.map_map]
                apply List.ext_getElem?
                intro j
                by_cases hj : j < fields.length
                · rw [List.getElem?_map, List.getElem?_map,
                    List.getElem?_eq_getElem (l := fs) (by omega),
                    List.getElem?_eq_getElem (l := fields) hj]
                  simp only [Option.map_some', Function.comp_apply]
                  congr 1
                  obtain ⟨hw, _, r1, hrows, _⟩ := hIH j hj
                  rw [hrows]
                  rw [List.getElem?_append_left (by
                    rw [build_rows_length (hbw _ (List.getElem_mem hj)).2,
                      (hbw _ (List.getElem_mem hj)).1]
                    omega)]
                · rw [List.getElem?_map, List.getElem?_map,
                    List.getElem?_eq_none (l := fs) (by omega),
                    List.getElem?_eq_none (l := fields) (by omega)]
              · have hieq : i = len := by omega
                subst hieq
                rw [List.getElem?_append_right (by rw [hlenA])]
                rw [hlenA, Nat.sub_self, List.getElem?_cons_zero]
            · rw [List.getElem?_eq_none (by
                rw [semRows_tuple_length]
                omega)]
              rw [List.getElem?_eq_none (by
                rw [List.length_append, hlenA, List.length_cons, List.length_nil]
                omega)]
          · rw [collapseTop_tup]
            rw [show Scalar.sem (.tuple ss)
                = .tup (ss.attach.map fun f => Scalar.sem f.1) by simp [Scalar.sem]]
            rw [attachMap ss Scalar.sem]
            congr 1
            rw [List.map_map, List.map_map]
            apply List.ext_getElem?
            intro j
            by_cases hj : j < fields.length
            · rw [List.getElem?_map, List.getElem?_map,
                List.getElem?_eq_getElem (l := fs) (by omega),
                List.getElem?_eq_getElem (l := ss) (by omega)]
              simp only [Option.map_some', Function.comp_apply]
              congr 1
              obtain ⟨hw, _, r1, hrows, hcol⟩ := hIH j hj
              rw [hrows]
              rw [List.getElem?_append_right (by
                rw [build_rows_length (hbw _ (List.getElem_mem hj)).2,
                  (hbw _ (List.getElem_mem hj)).1])]
              rw [build_rows_length (hbw _ (List.getElem_mem hj)).2,
                (hbw _ (List.getElem_mem hj)).1, Nat.sub_self,
                List.getElem?_cons_zero, Option.getD_some]
              exact hcol
            · rw [List.getElem?_map, List.getElem?_map,
                List.getElem?_eq_none (l := fs) (by omega),
                List.getElem?_eq_none (l := ss) (by omega)]
              rfl
    · exact absurd h (by simp)
  | .null _, .emptyArray => simp [ColumnBuilder.push] at h
  | .null _, .emptyMap => simp [ColumnBuilder.push] at h
  | .null _, .number _ _ => simp [ColumnBuilder.push] at h
  | .null _, .decimal _ _ _ => simp [ColumnBuilder.push] at h
  | .null _, .boolean _ => simp [ColumnBuilder.push] at h
  | .null _, .string _ => simp [ColumnBuilder.push] at h
  | .null _, .timestamp _ => simp [ColumnBuilder.push] at h
  | .null _, .date _ => simp [ColumnBuilder.push] at h
  | .null _, .array _ => simp [ColumnBuilder.push] at h
  | .null _, .map _ => simp [ColumnBuilder.push] at h
  | .null _, .tuple _ => simp [ColumnBuilder.push] at h
  | .null _, .variant _ => simp [ColumnBuilder.push] at h
  | .emptyArray _, .null => simp [ColumnBuilder.push] at h
  | .emptyArray _, .emptyMap => simp [ColumnBuilder.push] at h
  | .emptyArray _, .number _ _ => simp [ColumnBuilder.push] at h
  | .emptyArray _, .decimal _ _ _ => simp [ColumnBuilder.push] at h
  | .emptyArray _, .boolean _ => simp [ColumnBuilder.push] at h
  | .emptyArray _, .string _ => simp [ColumnBuilder.push] at h
  | .emptyArray _, .timestamp _ => simp [ColumnBuilder.push] at h
  | .emptyArray _, .date _ => simp [ColumnBuilder.push] at h
  | .emptyArray _, .array _ => simp [ColumnBuilder.push] at h
  | .emptyArray _, .map _ => simp [ColumnBuilder.push] at h
  | .emptyArray _, .tuple _ => simp [ColumnBuilder.push] at h
  | .emptyArray _, .variant _ => simp [ColumnBuilder.push] at h
  | .emptyMap _, .null => simp [ColumnBuilder.push] at h
  | .emptyMap _, .emptyArray => simp [ColumnBuilder.push] at h
  | .emptyMap _, .number _ _ => simp [ColumnBuilder.push] at h
  | .emptyMap _, .decimal _ _ _ => simp [ColumnBuilder.push] at h
  | .emptyMap _, .boolean _ => simp [ColumnBuilder.push] at h
  | .emptyMap _, .string _ => simp [ColumnBuilder.push] at h
  | .emptyMap _, .timestamp _ => simp [ColumnBuilder.push] at h
  | .emptyMap _, .date _ => simp [ColumnBuilder.push] at h
  | .emptyMap _, .array _ => simp [ColumnBuilder.push] at h
  | .emptyMap _, .map _ => simp [ColumnBuilder.push] at h
  | .emptyMap _, .tuple _ => simp [ColumnBuilder.push] at h
  | .emptyMap _, .variant _ => simp [ColumnBuilder.push] at h
  | .number _ _, .null => simp [ColumnBuilder.push] at h
  | .number _ _, .emptyArray => simp [ColumnBuilder.push] at h
  | .number _ _, .emptyMap => simp [ColumnBuilder.push] at h
  | .number _ _, .decimal _ _ _ => simp [ColumnBuilder.push] at h
  | .number _ _, .boolean _ => simp [ColumnBuilder.push] at h
  | .number _ _, .string _ => simp [ColumnBuilder.push] at h
  | .number _ _, .timestamp _ => simp [ColumnBuilder.push] at h
  | .number _ _, .date _ => simp [ColumnBuilder.push] at h
  | .number _ _, .array _ => simp [ColumnBuilder.push] at h
  | .number _ _, .map _ => simp [ColumnBuilder.push] at h
  | .number _ _, .tuple _ => simp [ColumnBuilder.push] at h
  | .number _ _, .variant _ => simp [ColumnBuilder.push] at h
  | .decimal _ _ _, .null => simp [ColumnBuilder.push] at h
  | .decimal _ _ _, .emptyArray => simp [ColumnBuilder.push] at h
  | .decimal _ _ _, .emptyMap => simp [ColumnBuilder.push] at h
  | .decimal _ _ _, .number _ _ => simp [ColumnBuilder.push] at h
  | .decimal _ _ _, .boolean _ => simp [ColumnBuilder.push] at h
  | .decimal _ _ _, .string _ => simp [ColumnBuilder.push] at h
  | .decimal _ _ _, .timestamp _ => simp [ColumnBuilder.push] at h
  | .decimal _ _ _, .date _ => simp [ColumnBuilder.push] at h
  | .decimal _ _ _, .array _ => simp [ColumnBuilder.push] at h
  | .decimal _ _ _, .map _ => simp [ColumnBuilder.push] at h
  | .decimal _ _ _, .tuple _ => simp [ColumnBuilder.push] at h
  | .decimal _ _ _, .variant _ => simp [ColumnBuilder.push] at h
  | .boolean _, .null => simp [ColumnBuilder.push] at h
  | .boolean _, .emptyArray => simp [ColumnBuilder.push] at h
  | .boolean _, .emptyMap => simp [ColumnBuilder.push] at h
  | .boolean _, .number _ _ => simp [ColumnBuilder.push] at h
  | .boolean _, .decimal _ _ _ => simp [ColumnBuilder.push] at h
  | .boolean _, .string _ => simp [ColumnBuilder.push] at h
  | .boolean _, .timestamp _ => simp [ColumnBuilder.push] at h
  | .boolean _, .date _ => simp [ColumnBuilder.push] at h
  | .boolean _, .array _ => simp [ColumnBuilder.push] at h
  | .boolean _, .map _ => simp [ColumnBuilder.push] at h
  | .boolean _, .tuple _ => simp [ColumnBuilder.push] at h
  | .boolean _, .variant _ => simp [ColumnBuilder.push] at h
  | .string _ _, .null => simp [ColumnBuilder.push] at h
  | .string _ _, .emptyArray => simp [ColumnBuilder.push] at h
  | .string _ _, .emptyMap => simp [ColumnBuilder.push] at h
  | .string _ _, .number _ _ => simp [ColumnBuilder.push] at h
  | .string _ _, .decimal _ _ _ => simp [ColumnBuilder.push] at h
  | .string _ _, .boolean _ => simp [ColumnBuilder.push] at h
  | .string _ _, .timestamp _ => simp [ColumnBuilder.push] at h
  | .string _ _, .date _ => simp [ColumnBuilder.push] at h
  | .string _ _, .array _ => simp [ColumnBuilder.push] at h
  | .string _ _, .map _ => simp [ColumnBuilder.push] at h
  | .string _ _, .tuple _ => simp [ColumnBuilder.push] at h
  | .string _ _, .variant _ => simp [ColumnBuilder.push] at h
  | .timestamp _, .null => simp [ColumnBuilder.push] at h
  | .timestamp _, .emptyArray => simp [ColumnBuilder.push] at h
  | .timestamp _, .emptyMap => simp [ColumnBuilder.push] at h
  | .timestamp _, .number _ _ => simp [ColumnBuilder.push] at h
  | .timestamp _, .decimal _ _ _ => simp [ColumnBuilder.push] at h
  | .timestamp _, .boolean _ => simp [ColumnBuilder.push] at h
  | .timestamp _, .string _ => simp [ColumnBuilder.push] at h
  | .timestamp _, .date _ => simp [ColumnBuilder.push] at h
  | .timestamp _, .array _ => simp [ColumnBuilder.push] at h
  | .timestamp _, .map _ => simp [ColumnBuilder.push] at h
  | .timestamp _, .tuple _ => simp [ColumnBuilder.push] at h
  | .timestamp _, .variant _ => simp [ColumnBuilder.push] at h
  | .date _, .null => simp [ColumnBuilder.push] at h
  | .date _, .emptyArray => simp [ColumnBuilder.push] at h
  | .date _, .emptyMap => simp [ColumnBuilder.push] at h
  | .date _, .number _ _ => simp [ColumnBuilder.push] at h
  | .date _, .decimal _ _ _ => simp [ColumnBuilder.push] at h
  | .date _, .boolean _ => simp [ColumnBuilder.push] at h
  | .date _, .string _ => simp [ColumnBuilder.push] at h
  | .date _, .timestamp _ => simp [ColumnBuilder.push] at h
  | .date _, .array _ => simp [ColumnBuilder.push] at h
  | .date _, .map _ => simp [ColumnBuilder.push] at h
  | .date _, .tuple _ => simp [ColumnBuilder.push] at h
  | .date _, .variant _ => simp [ColumnBuilder.push] at h
  | .array _ _, .null => simp [ColumnBuilder.push] at h
  | .array _ _, .emptyArray => simp [ColumnBuilder.push] at h
  | .array _ _, .emptyMap => simp [ColumnBuilder.push] at h
  | .array _ _, .number _ _ => simp [ColumnBuilder.push] at h
  | .array _ _, .decimal _ _ _ => simp [ColumnBuilder.push] at h
  | .array _ _, .boolean _ => simp [ColumnBuilder.push] at h
  | .array _ _, .string _ => simp [ColumnBuilder.push] at h
  | .array _ _, .timestamp _ => simp [ColumnBuilder.push] at h
  | .array _ _, .date _ => simp [ColumnBuilder.push] at h
  | .array _ _, .map _ => simp [ColumnBuilder.push] at h
  | .array _ _, .tuple _ => simp [ColumnBuilder.push] at h
  | .array _ _, .variant _ => simp [ColumnBuilder.push] at h
  | .map _ _, .null => simp [ColumnBuilder.push] at h
  | .map _ _, .emptyArray => simp [ColumnBuilder.push] at h
  | .map _ _, .emptyMap => simp [ColumnBuilder.push] at h
  | .map _ _, .number _ _ => simp [ColumnBuilder.push] at h
  | .map _ _, .decimal _ _ _ => simp [ColumnBuilder.push] at h
  | .map _ _, .boolean _ => simp [ColumnBuilder.push] at h
  | .map _ _, .string _ => simp [ColumnBuilder.push] at h
  | .map _ _, .timestamp _ => simp [ColumnBuilder.push] at h
  | .map _ _, .date _ => simp [ColumnBuilder.push] at h
  | .map _ _, .array _ => simp [ColumnBuilder.push] at h
  | .map _ _, .tuple _ => simp [ColumnBuilder.push] at h
  | .map _ _, .variant _ => simp [ColumnBuilder.push] at h
  | .tuple _ _, .null => simp [ColumnBuilder.push] at h
  | .tuple _ _, .emptyArray => simp [ColumnBuilder.push] at h
  | .tuple _ _, .emptyMap => simp [ColumnBuilder.push] at h
  | .tuple _ _, .number _ _ => simp [ColumnBuilder.push] at h
  | .tuple _ _, .decimal _ _ _ => simp [ColumnBuilder.push] at h
  | .tuple _ _, .boolean _ => simp [ColumnBuilder.push] at h
  | .tuple _ _, .string _ => simp [ColumnBuilder.push] at h
  | .tuple _ _, .timestamp _ => simp [ColumnBuilder.push] at h
  | .tuple _ _, .date _ => simp [ColumnBuilder.push] at h
  | .tuple _ _, .array _ => simp [ColumnBuilder.push] at h
  | .tuple _ _, .map _ => simp [ColumnBuilder.push] at h
  | .tuple _ _, .variant _ => simp [ColumnBuilder.push] at h
  | .variant _ _, .null => simp [ColumnBuilder.push] at h
  | .variant _ _, .emptyArray => simp [ColumnBuilder.push] at h
  | .variant _ _, .emptyMap => simp [ColumnBuilder.push] at h
  | .variant _ _, .number _ _ => simp [ColumnBuilder.push] at h
  | .variant _ _, .decimal _ _ _ => simp [ColumnBuilder.push] at h
  | .variant _ _, .boolean _ => simp [ColumnBuilder.push] at h
  | .variant _ _, .string _ => simp [ColumnBuilder.push] at h
  | .variant _ _, .timestamp _ => simp [ColumnBuilder.push] at h
  | .variant _ _, .date _ => simp [ColumnBuilder.push] at h
  | .variant _ _, .array _ => simp [ColumnBuilder.push] at h
  | .variant _ _, .map _ => simp [ColumnBuilder.push] at h
  | .variant _ _, .tuple _ => simp [ColumnBuilder.push] at h
termination_by sizeOf b
decreasing_by
  all_goals simp_wf
  all_goals first
    | omega
    | (have q := List.sizeOf_lt_of_mem hmemj; omega)

theorem foldl_push_none (ss : List Scalar) :
    ss.foldl (fun ob s => ob.bind fun b2 => ColumnBuilder.push b2 s)
      (none : Option ColumnBuilder) = none := by
  induction ss with
  | nil => rfl
  | cons s rest ih => simpa [List.foldl] using ih

theorem pushMany_cons (b : ColumnBuilder) (s : Scalar) (rest : List Scalar) :
    b.pushMany (s :: rest)
      = (b.push s).bind fun b1 => b1.pushMany rest := by
  show rest.foldl (fun ob s2 => ob.bind fun b2 => b2.push s2) (b.push s)
    = (b.push s).bind fun b1 => b1.pushMany rest
  cases hp : b.push s with
  | none =>
    rw [foldl_push_none rest]
    rfl
  | some b1 =>
    rfl

/-- Effect of pushing a scalar sequence: on success the builder stays
well-formed, keeps its type and gains one semantic row per scalar, each
collapsing to the corresponding scalar's semantic value. -/
theorem pushMany_sem (ss : List Scalar) (b b2 : ColumnBuilder)
    (hb : b.wfB = true) (hs : ∀ x ∈ ss, x.wfS = true)
    (h : b.pushMany ss = some b2) :
    b2.wfB = true ∧ (b2.build).dataType = (b.build).dataType ∧
      ∃ rs, rs.length = ss.length ∧
        (b2.build).semRows = (b.build).semRows ++ rs ∧
        ∀ i : Nat, (rs[i]?).map SemValue.collapseTop
          = (ss[i]?).map Scalar.sem := by
  induction ss generalizing b with
  | nil =>
    have h2 : some b = some b2 := h
    cases h2
    exact ⟨hb, rfl, ⟨[], rfl, by simp, by simp⟩⟩
  | cons s rest ih =>
    rw [pushMany_cons] at h
    cases hp : b.push s with
    | none =>
      rw [hp] at h
      simp at h
    | some b1 =>
      rw [hp] at h
      simp only [Option.some_bind] at h
      obtain ⟨hw1, hty1, r, hrows1, hcol1⟩ :=
        push_sem b s b1 hb (hs s (by simp)) hp
      obtain ⟨hw2, hty2, rs, hlen2, hrows2, hcol2⟩ :=
        ih b1 hw1 (fun x hx => hs x (by simp [hx])) h
      refine ⟨hw2, hty2.trans hty1, ⟨r :: rs, by simp [hlen2], ?_, ?_⟩⟩
      · rw [hrows2, hrows1, List.append_assoc]
        rfl
      · intro i
        cases i with
        | zero => simp [hcol1]
        | succ j => simpa using hcol2 j

/-- `with_capacity` of a generic-free type yields a fresh, well-formed,
empty builder of that type. -/
theorem with_capacity_spec (ty : DataType) (cap : Nat) (b : ColumnBuilder)
    (hnn : ty.noNestedNullable = true)
    (h : ColumnBuilder.with_capacity ty cap = some b) :
    b.wfB = true ∧ (b.build).dataType = ty ∧ (b.build).semRows = [] := by
  match ty with
  | .null =>
    have h2 : some (ColumnBuilder.null 0) = some b := by
      simpa [ColumnBuilder.with_capacity] using h
    cases h2
    exact ⟨by simp [ColumnBuilder.wfB],
      by simp [ColumnBuilder.build, Column.dataType],
      by simp [ColumnBuilder.build, Column.semRows]⟩
  | .emptyArray =>
    have h2 : some (ColumnBuilder.emptyArray 0) = some b := by
      simpa [ColumnBuilder.with_capacity] using h
    cases h2
    exact ⟨by simp [ColumnBuilder.wfB],
      by simp [ColumnBuilder.build, Column.dataType],
      by simp [ColumnBuilder.build, Column.semRows]⟩
  | .emptyMap =>
    have h2 : some (ColumnBuilder.emptyMap 0) = some b := by
      simpa [ColumnBuilder.with_capacity] using h
    cases h2
    exact ⟨by simp [ColumnBuilder.wfB],
      by simp [ColumnBuilder.build, Column.dataType],
      by simp [ColumnBuilder.build, Column.semRows]⟩
  | .number k =>
    have h2 : some (ColumnBuilder.number k []) = some b := by
      simpa [ColumnBuilder.with_capacity] using h
    cases h2
    exact ⟨by simp [ColumnBuilder.wfB],
      by simp [ColumnBuilder.build, Column.dataType],
      by simp [ColumnBuilder.build, Column.semRows]⟩
  | .decimal w size =>
    have h2 : some (ColumnBuilder.decimal w [] size) = some b := by
      simpa [ColumnBuilder.with_capacity] using h
    cases h2
    exact ⟨by simp [ColumnBuilder.wfB],
      by simp [ColumnBuilder.build, Column.dataType],
      by simp [ColumnBuilder.build, Column.semRows]⟩
  | .boolean =>
    have h2 : some (ColumnBuilder.boolean []) = some b := by
      simpa [ColumnBuilder.with_capacity] using h
    cases h2
    exact ⟨by simp [ColumnBuilder.wfB],
      by simp [ColumnBuilder.build, Column.dataType],
      by simp [ColumnBuilder.build, Column.semRows]⟩
  | .string =>
    have h2 : some (ColumnBuilder.string [] [0]) = some b := by
      simpa [ColumnBuilder.with_capacity] using h
    cases h2
    refine ⟨by simp [ColumnBuilder.wfB, nondecreasing, lastOffset],
      by simp [ColumnBuilder.build, Column.dataType], ?_⟩
    simp [ColumnBuilder.build, Column.semRows, windowsOf]
  | .timestamp =>
    have h2 : some (ColumnBuilder.timestamp []) = some b := by
      simpa [ColumnBuilder.with_capacity] using h
    cases h2
    exact ⟨by simp [ColumnBuilder.wfB],
      by simp [ColumnBuilder.build, Column.dataType],
      by simp [ColumnBuilder.build, Column.semRows]⟩
  | .date =>
    have h2 : some (ColumnBuilder.date []) = some b := by
      simpa [ColumnBuilder.with_capacity] using h
    cases h2
    exact ⟨by simp [ColumnBuilder.wfB],
      by simp [ColumnBuilder.build, Column.dataType],
      by simp [ColumnBuilder.build, Column.semRows]⟩
  | .variant =>
    have h2 : some (ColumnBuilder.variant [] [0]) = some b := by
      simpa [ColumnBuilder.with_capacity] using h
    cases h2
    refine ⟨by simp [ColumnBuilder.wfB, nondecreasing, lastOffset],
      by simp [ColumnBuilder.build, Column.dataType], ?_⟩
    simp [ColumnBuilder.build, Column.semRows, windowsOf]
  | .array te =>
    simp only [ColumnBuilder.with_capacity] at h
    cases hin : ColumnBuilder.with_capacity te 0 with
    | none =>
      rw [hin] at h
      simp at h
    | some ib =>
      rw [hin] at h
      simp only [Option.map_some', Option.some.injEq] at h
      subst h
      have hnn2 : te.noNestedNullable = true := by
        simpa [DataType.noNestedNullable] using hnn
      obtain ⟨ihwf, ihty, ihrows⟩ := with_capacity_spec te 0 ib hnn2 hin
      have hl0 : ib.len = 0 := by
        have h3 := build_rows_length ihwf
        rw [ihrows] at h3
        simpa using h3.symm
      refine ⟨?_, by simp [ColumnBuilder.build, Column.dataType, ihty], ?_⟩
      · simp [ColumnBuilder.wfB, nondecreasing, lastOffset, hl0, ihwf]
      · simp [ColumnBuilder.build, Column.semRows, windowsOf]
  | .map te =>
    simp only [ColumnBuilder.with_capacity] at h
    cases hin : ColumnBuilder.with_capacity te 0 with
    | none =>
      rw [hin] at h
      simp at h
    | some ib =>
      rw [hin] at h
      simp only [Option.map_some', Option.some.injEq] at h
      subst h
      have hnn2 : te.noNestedNullable = true := by
        simpa [DataType.noNestedNullable] using hnn
      obtain ⟨ihwf, ihty, ihrows⟩ := with_capacity_spec te 0 ib hnn2 hin
      have hl0 : ib.len = 0 := by
        have h3 := build_rows_length ihwf
        rw [ihrows] at h3
        simpa using h3.symm
      refine ⟨?_, by simp [ColumnBuilder.build, Column.dataType, ihty], ?_⟩
      · simp [ColumnBuilder.wfB, nondecreasing, lastOffset, hl0, ihwf]
      · simp [ColumnBuilder.build, Column.semRows, windowsOf]
  | .nullable te =>
    simp only [ColumnBuilder.with_capacity] at h
    cases hin : ColumnBuilder.with_capacity te cap with
    | none =>
      rw [hin] at h
      simp at h
    | some ib =>
      rw [hin] at h
      simp only [Option.map_some', Option.some.injEq] at h
      subst h
      have hnn2 : te.isNullableTy = false ∧ te.noNestedNullable = true := by
        have h3 := hnn
        simp only [DataType.noNestedNullable, Bool.and_eq_true,
          Bool.not_eq_true'] at h3
        exact h3
      obtain ⟨ihwf, ihty, ihrows⟩ := with_capacity_spec te cap ib hnn2.2 hin
      have hl0 : ib.len = 0 := by
        have h3 := build_rows_length ihwf
        rw [ihrows] at h3
        simpa using h3.symm
      have hni : ib.isNullableB = false := by
        have e1 := ColumnBuilder.isNullableB_build ib
        rw [Column.isNullableCol_ty, ihty] at e1
        rw [← e1]
        exact hnn2.1
      refine ⟨?_, by simp [ColumnBuilder.build, Column.dataType, ihty], ?_⟩
      · simp [ColumnBuilder.wfB, hl0, hni, ihwf]
      · simp [ColumnBuilder.build, Column.semRows]
  | .tuple ts =>
    simp only [ColumnBuilder.with_capacity] at h
    rw [attachMap ts (fun t => ColumnBuilder.with_capacity t cap)] at h
    cases htr : optTraverse (ts.map fun t =>
        ColumnBuilder.with_capacity t cap) with
    | none =>
      rw [htr] at h
      simp at h
    | some fs =>
      rw [htr] at h
      simp only [Option.map_some', Option.some.injEq] at h
      subst h
      have hget := optTraverse_map_getElem? htr
      have hlen : fs.length = ts.length := by
        have h3 := optTraverse_length htr
        rw [List.length_map] at h3
        exact h3
      have hnn2 : ∀ t ∈ ts, t.noNestedNullable = true := by
        rw [show DataType.noNestedNullable (.tuple ts)
            = (ts.attach.all fun t => DataType.noNestedNullable t.1) by
          simp [DataType.noNestedNullable]] at hnn
        rw [attachAll ts DataType.noNestedNullable, List.all_eq_true] at hnn
        exact hnn
      have hIH : ∀ j : Nat, (hj : j < ts.length) →
          (fs[j]).wfB = true ∧
          ((fs[j]).build).dataType = ts[j] ∧
          ((fs[j]).build).semRows = [] := by
        intro j hj
        have hfsj : fs[j]? = ColumnBuilder.with_capacity (ts[j]) cap := by
          rw [hget j, List.getElem?_eq_getElem hj]
          rfl
        have hpt : ColumnBuilder.with_capacity (ts[j]) cap
            = some (fs[j]) := by
          rw [← hfsj]
          exact List.getElem?_eq_getElem _
        exact with_capacity_spec (ts[j]) cap (fs[j])
          (hnn2 _ (List.getElem_mem hj)) hpt
      refine ⟨?_, ?_, ?_⟩
      · rw [show ColumnBuilder.wfB (.tuple fs 0)
            = (fs.attach.all fun f =>
                (ColumnBuilder.len f.1 == 0) && ColumnBuilder.wfB f.1) by
          simp [ColumnBuilder.wfB]]
        rw [attachAll fs
          (fun f => (ColumnBuilder.len f == 0) && ColumnBuilder.wfB f),
          List.all_eq_true]
        intro f hf
        obtain ⟨j, hjfs, rfl⟩ := List.getElem_of_mem hf
        have hj : j < ts.length := by omega
        obtain ⟨hw, _, hrows⟩ := hIH j hj
        have hl0 : ColumnBuilder.len (fs[j]) = 0 := by
          have h3 := build_rows_length hw
          rw [hrows] at h3
          simpa using h3.symm
        simp [hl0, hw]
      · rw [show ColumnBuilder.build (.tuple fs 0)
            = .tuple (fs.map ColumnBuilder.build) 0 by
          rw [show ColumnBuilder.build (.tuple fs 0)
              = .tuple (fs.attach.map fun f => ColumnBuilder.build f.1) 0 by
            simp [ColumnBuilder.build]]
          rw [attachMap fs ColumnBuilder.build]]
        rw [show Column.dataType (.tuple (fs.map ColumnBuilder.build) 0)
            = .tuple ((fs.map ColumnBuilder.build).attach.map fun f =>
                Column.dataType f.1) by simp [Column.dataType]]
        rw [attachMap (fs.map ColumnBuilder.build) Column.dataType,
          List.map_map]
        congr 1
        apply List.ext_getElem?
        intro j
        by_cases hj : j < ts.length
        · rw [List.getElem?_map, List.getElem?_eq_getElem (l := fs) (by omega),
            List.getElem?_eq_getElem (l := ts) hj]
          simp only [Option.map_some', Function.comp_apply]
          exact congrArg some (hIH j hj).2.1
        · rw [List.getElem?_map, List.getElem?_eq_none (l := fs) (by omega),
            List.getElem?_eq_none (l := ts) (by omega)]
          rfl
      · rw [show ColumnBuilder.build (.tuple fs 0)
            = .tuple (fs.map ColumnBuilder.build) 0 by
          rw [show ColumnBuilder.build (.tuple fs 0)
              = .tuple (fs.attach.map fun f => ColumnBuilder.build f.1) 0 by
            simp [ColumnBuilder.build]]
          rw [attachMap fs ColumnBuilder.build]]
        simp [Column.semRows]
  | .generic i =>
    simp [ColumnBuilder.with_capacity] at h
termination_by sizeOf ty
decreasing_by
  all_goals simp_wf
  all_goals first
    | omega
    | (have q := List.sizeOf_lt_of_mem (List.getElem_mem hj); omega)

theorem Column.slice_none_of_gt (c : Column) {s e : Nat} (h : e > c.len) :
    c.slice s e = none := by
  rw [Column.slice.eq_def, if_pos h]

/-- Scalars handed out by `Column::index` on a well-formed column are
themselves well-formed. -/
theorem index_wfS (c : Column) (hwf : c.wf = true) (i : Nat) (sc : Scalar)
    (h : c.index i = some sc) : sc.wfS = true := by
  match c with
  | .null len =>
    have h2 : some Scalar.null = some sc := by simpa [Column.index] using h
    cases h2
    simp [Scalar.wfS]
  | .emptyArray len =>
    have h2 : some Scalar.emptyArray = some sc := by simpa [Column.index] using h
    cases h2
    simp [Scalar.wfS]
  | .emptyMap len =>
    have h2 : some Scalar.emptyMap = some sc := by simpa [Column.index] using h
    cases h2
    simp [Scalar.wfS]
  | .number k values =>
    simp only [Column.index] at h
    cases hv : values[i]? with
    | none => rw [hv] at h; simp at h
    | some v =>
      rw [hv] at h
      simp only [Option.map_some', Option.some.injEq] at h
      subst h
      simp [Scalar.wfS]
  | .decimal w values size =>
    simp only [Column.index] at h
    cases hv : values[i]? with
    | none => rw [hv] at h; simp at h
    | some v =>
      rw [hv] at h
      simp only [Option.map_some', Option.some.injEq] at h
      subst h
      simp [Scalar.wfS]
  | .boolean values =>
    simp only [Column.index] at h
    cases hv : values[i]? with
    | none => rw [hv] at h; simp at h
    | some v =>
      rw [hv] at h
      simp only [Option.map_some', Option.some.injEq] at h
      subst h
      simp [Scalar.wfS]
  | .timestamp values =>
    simp only [Column.index] at h
    cases hv : values[i]? with
    | none => rw [hv] at h; simp at h
    | some v =>
      rw [hv] at h
      simp only [Option.map_some', Option.some.injEq] at h
      subst h
      simp [Scalar.wfS]
  | .date values =>
    simp only [Column.index] at h
    cases hv : values[i]? with
    | none => rw [hv] at h; simp at h
    | some v =>
      rw [hv] at h
      simp only [Option.map_some', Option.some.injEq] at h
      subst h
      simp [Scalar.wfS]
  | .string data offsets =>
    simp only [Column.index] at h
    cases ha : offsets[i]? with
    | none => rw [ha] at h; simp at h
    | some a =>
      cases hb : offsets[i + 1]? with
      | none => rw [ha, hb] at h; simp at h
      | some bb =>
        rw [ha, hb] at h
        simp only [Option.some.injEq] at h
        subst h
        simp [Scalar.wfS]
  | .variant data offsets =>
    simp only [Column.index] at h
    cases ha : offsets[i]? with
    | none => rw [ha] at h; simp at h
    | some a =>
      cases hb : offsets[i + 1]? with
      | none => rw [ha, hb] at h; simp at h
      | some bb =>
        rw [ha, hb] at h
        simp only [Option.some.injEq] at h
        subst h
        simp [Scalar.wfS]
  | .array values offsets =>
    have hw2 : (offsetsOk offsets values.len && values.wf) = true := by
      simpa [Column.wf] using hwf
    rw [Bool.and_eq_true] at hw2
    simp only [Column.index] at h
    cases ha : offsets[i]? with
    | none => rw [ha] at h; simp at h
    | some a =>
      cases hb : offsets[i + 1]? with
      | none => rw [ha, hb] at h; simp at h
      | some bb =>
        rw [ha, hb] at h
        have h2 : (values.slice a bb).map Scalar.array = some sc := h
        cases hsl : values.slice a bb with
        | none => rw [hsl] at h2; simp at h2
        | some cs =>
          rw [hsl] at h2
          simp only [Option.map_some', Option.some.injEq] at h2
          subst h2
          by_cases hgt : bb > values.len
          · rw [Column.slice_none_of_gt values hgt] at hsl
            exact absurd hsl (by simp)
          · obtain ⟨cs2, hcs2, _, _, hwf2, _⟩ :=
              Column.slice_spec values hw2.2 a bb (by omega)
            rw [hcs2] at hsl
            cases hsl
            simpa [Scalar.wfS] using hwf2
  | .map values offsets =>
    have hw2 : (offsetsOk offsets values.len && values.wf) = true := by
      simpa [Column.wf] using hwf
    rw [Bool.and_eq_true] at hw2
    simp only [Column.index] at h
    cases ha : offsets[i]? with
    | none => rw [ha] at h; simp at h
    | some a =>
      cases hb : offsets[i + 1]? with
      | none => rw [ha, hb] at h; simp at h
      | some bb =>
        rw [ha, hb] at h
        have h2 : (values.slice a bb).map Scalar.map = some sc := h
        cases hsl : values.slice a bb with
        | none => rw [hsl] at h2; simp at h2
        | some cs =>
          rw [hsl] at h2
          simp only [Option.map_some', Option.some.injEq] at h2
          subst h2
          by_cases hgt : bb > values.len
          · rw [Column.slice_none_of_gt values hgt] at hsl
            exact absurd hsl (by simp)
          · obtain ⟨cs2, hcs2, _, _, hwf2, _⟩ :=
              Column.slice_spec values hw2.2 a bb (by omega)
            rw [hcs2] at hsl
            cases hsl
            simpa [Scalar.wfS] using hwf2
  | .nullable inner validity =>
    have hw2 : (validity.length = inner.len ∧ inner.isNullableCol = false) ∧
        inner.wf = true := by simpa [Column.wf] using hwf
    simp only [Column.index] at h
    cases hv : validity[i]? with
    | none => rw [hv] at h; simp at h
    | some vb =>
      rw [hv] at h
      cases vb with
      | false =>
        simp only [Option.some.injEq] at h
        subst h
        simp [Scalar.wfS]
      | true =>
        exact index_wfS inner hw2.2 i sc h
  | .tuple fields len =>
    have hw2 := (wf_tuple_iff fields len).mp hwf
    simp only [Column.index] at h
    rw [attachMap fields (fun f => Column.index f i)] at h
    cases htr : optTraverse (fields.map fun f => Column.index f i) with
    | none => rw [htr] at h; simp at h
    | some ss =>
      rw [htr] at h
      simp only [Option.map_some', Option.some.injEq] at h
      subst h
      have hget := optTraverse_map_getElem? htr
      have hlen : ss.length = fields.length := by
        have h3 := optTraverse_length htr
        rw [List.length_map] at h3
        exact h3
      rw [show Scalar.wfS (.tuple ss)
          = (ss.attach.all fun f => Scalar.wfS f.1) by simp [Scalar.wfS]]
      rw [attachAll ss Scalar.wfS, List.all_eq_true]
      intro x hx
      obtain ⟨j, hj, rfl⟩ := List.getElem_of_mem hx
      have hj2 : j < fields.length := by omega
      have hsj : ss[j]? = Column.index (fields[j]) i := by
        rw [hget j, List.getElem?_eq_getElem hj2]
        rfl
      have hidx : Column.index (fields[j]) i = some (ss[j]) := by
        rw [← hsj]
        exact List.getElem?_eq_getElem _
      exact index_wfS (fields[j]) (hw2 _ (List.getElem_mem hj2)).2 i _ hidx
termination_by sizeOf c
decreasing_by
  all_goals simp_wf
  all_goals first
    | omega
    | (have q := List.sizeOf_lt_of_mem (List.getElem_mem hj2); omega)

theorem listLexOrd_refl (cmp : α → α → Ordering) (l : List α)
    (h : ∀ a ∈ l, cmp a a = .eq) : listLexOrd cmp l l = .eq := by
  match l with
  | [] => simp [listLexOrd]
  | a :: rest =>
    simp only [listLexOrd]
    rw [h a (by simp)]
    exact listLexOrd_refl cmp rest (fun x hx => h x (by simp [hx]))

theorem listLexPCmp_refl (cmp : α → α → Option Ordering) (l : List α)
    (h : ∀ a ∈ l, cmp a a = some .eq) : listLexPCmp cmp l l = some .eq := by
  match l with
  | [] => simp [listLexPCmp]
  | a :: rest =>
    simp only [listLexPCmp]
    rw [h a (by simp)]
    exact listLexPCmp_refl cmp rest (fun x hx => h x (by simp [hx]))

mutual
/-- Row-level partial comparison is reflexive. -/
theorem SemValue.pcmp_refl (v : SemValue) : SemValue.pcmp v v = some .eq := by
  match v with
  | .null => simp [SemValue.pcmp]
  | .emptyArray => simp [SemValue.pcmp]
  | .emptyMap => simp [SemValue.pcmp]
  | .masked => simp [SemValue.pcmp]
  | .num k val => simp [SemValue.pcmp, compare_eq_iff_eq]
  | .dec w val sz => simp [SemValue.pcmp, compare_eq_iff_eq]
  | .bool bv => simp [SemValue.pcmp, compare_eq_iff_eq]
  | .str sv => simp [SemValue.pcmp, bytesCmp_refl]
  | .ts tv => simp [SemValue.pcmp, compare_eq_iff_eq]
  | .date dv => simp [SemValue.pcmp, compare_eq_iff_eq]
  | .variant sv => simp [SemValue.pcmp, jsonbCompare, bytesCmp_refl]
  | .arr ty r =>
    simp only [SemValue.pcmp]
    rw [if_pos (DataType.beq_refl ty)]
    exact SemValue.pcmpList_refl r
  | .mapRows ty r =>
    simp only [SemValue.pcmp]
    rw [if_pos (DataType.beq_refl ty)]
    exact SemValue.pcmpList_refl r
  | .tup fs =>
    simp only [SemValue.pcmp]
    exact SemValue.pcmpList_refl fs
termination_by sizeOf v

/-- Lexicographic extension of row comparison is reflexive. -/
theorem SemValue.pcmpList_refl (l : List SemValue) :
    SemValue.pcmpList l l = some .eq := by
  match l with
  | [] => simp [SemValue.pcmpList]
  | a :: rest =>
    simp only [SemValue.pcmpList]
    rw [SemValue.pcmp_refl a]
    exact SemValue.pcmpList_refl rest
termination_by sizeOf l
end

theorem Column.pcmpFields_refl_of (f1 f2 : List Column)
    (hlen : f1.length = f2.length)
    (hpt : ∀ j : Nat, (hj : j < f1.length) →
      Column.pcmp (f1[j]) (f2[j]) = some .eq) :
    Column.pcmpFields f1 f2 = some .eq := by
  match f1, f2 with
  | [], [] => simp [Column.pcmpFields]
  | a :: as2, b :: bs =>
    simp only [Column.pcmpFields]
    have h0 : Column.pcmp a b = some .eq := hpt 0 (by simp)
    rw [h0]
    exact Column.pcmpFields_refl_of as2 bs (by simpa using hlen)
      (fun j hj => hpt (j + 1) (by simpa using hj))
  | [], _ :: _ => simp at hlen
  | _ :: _, [] => simp at hlen

theorem Scalar.pcmpList_refl_of (l1 l2 : List Scalar)
    (hlen : l1.length = l2.length)
    (hpt : ∀ j : Nat, (hj : j < l1.length) →
      Scalar.pcmp (l1[j]) (l2[j]) = some .eq) :
    Scalar.pcmpList l1 l2 = some .eq := by
  match l1, l2 with
  | [], [] => simp [Scalar.pcmpList]
  | a :: as2, b :: bs =>
    simp only [Scalar.pcmpList]
    have h0 : Scalar.pcmp a b = some .eq := hpt 0 (by simp)
    rw [h0]
    exact Scalar.pcmpList_refl_of as2 bs (by simpa using hlen)
      (fun j hj => hpt (j + 1) (by simpa using hj))
  | [], _ :: _ => simp at hlen
  | _ :: _, [] => simp at hlen

/-- Same-typed well-formed columns with identical semantic rows compare
`Equal` under the source's column ordering. -/
theorem Column.pcmp_refl_of (c1 c2 : Column) (hty : c1.dataType = c2.dataType)
    (h1 : c1.wf = true) (h2 : c2.wf = true)
    (hrows : c1.semRows = c2.semRows) : Column.pcmp c1 c2 = some .eq := by
  match c1, c2 with
  | .null l1, .null l2 =>
    have hl : l1 = l2 := by
      have h3 := congrArg List.length hrows
      simpa [Column.semRows] using h3
    subst hl
    simp [Column.pcmp, compare_eq_iff_eq]
  | .emptyArray l1, .emptyArray l2 =>
    have hl : l1 = l2 := by
      have h3 := congrArg List.length hrows
      simpa [Column.semRows] using h3
    subst hl
    simp [Column.pcmp, compare_eq_iff_eq]
  | .emptyMap l1, .emptyMap l2 =>
    have hl : l1 = l2 := by
      have h3 := congrArg List.length hrows
      simpa [Column.semRows] using h3
    subst hl
    simp [Column.pcmp, compare_eq_iff_eq]
  | .number k1 v1, .number k2 v2 =>
    have hk : k1 = k2 := by simpa [Column.dataType] using hty
    subst hk
    have hv : v1 = v2 := by
      have h3 : v1.map (SemValue.num k1) = v2.map (SemValue.num k1) := by
        simpa [Column.semRows] using hrows
      exact List.map_injective_iff.mpr (fun a b hab => by injection hab) h3
    subst hv
    simp only [Column.pcmp, if_pos rfl]
    rw [listLexOrd_refl compare v1 (fun a _ => by simp [compare_eq_iff_eq])]
    simp
  | .decimal w1 v1 s1, .decimal w2 v2 s2 =>
    have hk : w1 = w2 ∧ s1 = s2 := by simpa [Column.dataType] using hty
    obtain ⟨rfl, rfl⟩ := hk
    have hv : v1 = v2 := by
      have h3 : v1.map (fun x => SemValue.dec w1 x s1)
          = v2.map (fun x => SemValue.dec w1 x s1) := by
        simpa [Column.semRows] using hrows
      exact List.map_injective_iff.mpr (fun a b hab => by injection hab) h3
    subst hv
    simp only [Column.pcmp, if_pos (⟨rfl, rfl⟩ : w1 = w1 ∧ s1 = s1)]
    rw [listLexOrd_refl compare v1 (fun a _ => by simp [compare_eq_iff_eq])]
    simp
  | .boolean v1, .boolean v2 =>
    have hv : v1 = v2 := by
      have h3 : v1.map SemValue.bool = v2.map SemValue.bool := by
        simpa [Column.semRows] using hrows
      exact List.map_injective_iff.mpr (fun a b hab => by injection hab) h3
    subst hv
    simp only [Column.pcmp]
    rw [listLexOrd_refl compare v1 (fun a _ => by simp [compare_eq_iff_eq])]
  | .timestamp v1, .timestamp v2 =>
    have hv : v1 = v2 := by
      have h3 : v1.map SemValue.ts = v2.map SemValue.ts := by
        simpa [Column.semRows] using hrows
      exact List.map_injective_iff.mpr (fun a b hab => by injection hab) h3
    subst hv
    simp only [Column.pcmp]
    rw [listLexOrd_refl compare v1 (fun a _ => by simp [compare_eq_iff_eq])]
  | .date v1, .date v2 =>
    have hv : v1 = v2 := by
      have h3 : v1.map SemValue.date = v2.map SemValue.date := by
        simpa [Column.semRows] using hrows
      exact List.map_injective_iff.mpr (fun a b hab => by injection hab) h3
    subst hv
    simp only [Column.pcmp]
    rw [listLexOrd_refl compare v1 (fun a _ => by simp [compare_eq_iff_eq])]
  | .string d1 o1, .string d2 o2 =>
    have hw : windowsOf d1 o1 = windowsOf d2 o2 := by
      have h3 : (windowsOf d1 o1).map SemValue.str
          = (windowsOf d2 o2).map SemValue.str := by
        simpa [Column.semRows] using hrows
      exact List.map_injective_iff.mpr (fun a b hab => by injection hab) h3
    simp only [Column.pcmp]
    rw [hw, listLexOrd_refl bytesCmp _ (fun a _ => bytesCmp_refl a)]
  | .variant d1 o1, .variant d2 o2 =>
    have hw : windowsOf d1 o1 = windowsOf d2 o2 := by
      have h3 : (windowsOf d1 o1).map SemValue.variant
          = (windowsOf d2 o2).map SemValue.variant := by
        simpa [Column.semRows] using hrows
      exact List.map_injective_iff.mpr (fun a b hab => by injection hab) h3
    simp only [Column.pcmp]
    rw [hw]
    exact listLexPCmp_refl jsonbCompare _
      (fun a _ => by simp [jsonbCompare, bytesCmp_refl])
  | .array a1 o1, .array a2 o2 =>
    have hdt : a1.dataType = a2.dataType := by simpa [Column.dataType] using hty
    have hw : windowsOf a1.semRows o1 = windowsOf a2.semRows o2 := by
      have h3 : (windowsOf a1.semRows o1).map (SemValue.arr a1.dataType)
          = (windowsOf a2.semRows o2).map (SemValue.arr a2.dataType) := by
        simpa [Column.semRows] using hrows
      rw [hdt] at h3
      exact List.map_injective_iff.mpr (fun a b hab => by injection hab) h3
    simp only [Column.pcmp]
    rw [hw]
    exact listLexPCmp_refl SemValue.pcmpList _
      (fun a _ => SemValue.pcmpList_refl a)
  | .map a1 o1, .map a2 o2 =>
    have hdt : a1.dataType = a2.dataType := by simpa [Column.dataType] using hty
    have hw : windowsOf a1.semRows o1 = windowsOf a2.semRows o2 := by
      have h3 : (windowsOf a1.semRows o1).map (SemValue.mapRows a1.dataType)
          = (windowsOf a2.semRows o2).map (SemValue.mapRows a2.dataType) := by
        simpa [Column.semRows] using hrows
      rw [hdt] at h3
      exact List.map_injective_iff.mpr (fun a b hab => by injection hab) h3
    simp only [Column.pcmp]
    rw [hw]
    exact listLexPCmp_refl SemValue.pcmpList _
      (fun a _ => SemValue.pcmpList_refl a)
  | .nullable ic1 v1, .nullable ic2 v2 =>
    simp only [Column.pcmp]
    have h3 : List.zipWith (fun (valid : Bool) r => if valid then r
          else SemValue.masked) v1 ic1.semRows
        = List.zipWith (fun (valid : Bool) r => if valid then r
          else SemValue.masked) v2 ic2.semRows := by
      simpa [Column.semRows] using hrows
    rw [h3]
    exact listLexPCmp_refl SemValue.pcmp _ (fun a _ => SemValue.pcmp_refl a)
  | .tuple f1 l1, .tuple f2 l2 =>
    have hw1 := (wf_tuple_iff f1 l1).mp h1
    have hw2b := (wf_tuple_iff f2 l2).mp h2
    have htys : f1.map Column.dataType = f2.map Column.dataType := by
      have h3 := hty
      rw [show Column.dataType (.tuple f1 l1)
          = .tuple (f1.attach.map fun f => Column.dataType f.1) by
        simp [Column.dataType]] at h3
      rw [show Column.dataType (.tuple f2 l2)
          = .tuple (f2.attach.map fun f => Column.dataType f.1) by
        simp [Column.dataType]] at h3
      rw [attachMap f1 Column.dataType, attachMap f2 Column.dataType] at h3
      injection h3
    have hflen : f1.length = f2.length := by
      have h3 := congrArg List.length htys
      simpa using h3
    have hll : l1 = l2 := by
      have h3 := congrArg List.length hrows
      simpa [Column.semRows] using h3
    subst hll
    have hprows : ∀ j : Nat, (hj : j < f1.length) →
        (f1[j]).semRows = (f2[j]).semRows := by
      intro j hj
      have hb1l : (Column.semRows (f1[j])).length = l1 := by
        rw [Column.semRows_length _ (hw1 _ (List.getElem_mem hj)).2,
          (hw1 _ (List.getElem_mem hj)).1]
      have hb2l : (Column.semRows (f2[j])).length = l1 := by
        rw [Column.semRows_length _ (hw2b _ (List.getElem_mem (by omega))).2,
          (hw2b _ (List.getElem_mem (by omega))).1]
      apply List.ext_getElem?
      intro i
      by_cases hi : i < l1
      · have h4 : (Column.semRows (.tuple f1 l1))[i]?
            = (Column.semRows (.tuple f2 l1))[i]? := by rw [hrows]
        rw [semRows_tuple_getElem? f1 l1 i hi,
          semRows_tuple_getElem? f2 l1 i hi] at h4
        simp only [Option.some.injEq] at h4
        injection h4 with h5
        have h6 := congrArg (fun l => l[j]?) h5
        simp only [List.getElem?_map] at h6
        rw [List.getElem?_eq_getElem (l := f1) hj,
          List.getElem?_eq_getElem (l := f2) (by omega)] at h6
        simp only [Option.map_some', Option.some.injEq] at h6
        rw [List.getElem?_eq_getElem (by omega),
          List.getElem?_eq_getElem (by omega)]
        rw [List.getElem?_eq_getElem (by omega),
          List.getElem?_eq_getElem (by omega)] at h6
        simpa using h6
      · rw [List.getElem?_eq_none (by omega), List.getElem?_eq_none (by omega)]
    simp only [Column.pcmp]
    apply Column.pcmpFields_refl_of f1 f2 hflen
    intro j hj
    have hmem1 : f1[j] ∈ f1 := List.getElem_mem hj
    have hmem2 : f2[j] ∈ f2 := List.getElem_mem (by omega)
    have htyj : (f1[j]).dataType = (f2[j]).dataType := by
      have h6 := congrArg (fun l => l[j]?) htys
      simp only [List.getElem?_map] at h6
      rw [List.getElem?_eq_getElem (l := f1) hj,
        List.getElem?_eq_getElem (l := f2) (by omega)] at h6
      simpa using h6
    exact Column.pcmp_refl_of (f1[j]) (f2[j]) htyj
      (hw1 _ hmem1).2 (hw2b _ hmem2).2 (hprows j hj)
  | .null _, .emptyArray _ => simp [Column.dataType] at hty
  | .null _, .emptyMap _ => simp [Column.dataType] at hty
  | .null _, .number _ _ => simp [Column.dataType] at hty
  | .null _, .decimal _ _ _ => simp [Column.dataType] at hty
  | .null _, .boolean _ => simp [Column.dataType] at hty
  | .null _, .string _ _ => simp [Column.dataType] at hty
  | .null _, .timestamp _ => simp [Column.dataType] at hty
  | .null _, .date _ => simp [Column.dataType] at hty
  | .null _, .array _ _ => simp [Column.dataType] at hty
  | .null _, .map _ _ => simp [Column.dataType] at hty
  | .null _, .nullable _ _ => simp [Column.dataType] at hty
  | .null _, .tuple _ _ => simp [Column.dataType] at hty
  | .null _, .variant _ _ => simp [Column.dataType] at hty
  | .emptyArray _, .null _ => simp [Column.dataType] at hty
  | .emptyArray _, .emptyMap _ => simp [Column.dataType] at hty
  | .emptyArray _, .number _ _ => simp [Column.dataType] at hty
  | .emptyArray _, .decimal _ _ _ => simp [Column.dataType] at hty
  | .emptyArray _, .boolean _ => simp [Column.dataType] at hty
  | .emptyArray _, .string _ _ => simp [Column.dataType] at hty
  | .emptyArray _, .timestamp _ => simp [Column.dataType] at hty
  | .emptyArray _, .date _ => simp [Column.dataType] at hty
  | .emptyArray _, .array _ _ => simp [Column.dataType] at hty
  | .emptyArray _, .map _ _ => simp [Column.dataType] at hty
  | .emptyArray _, .nullable _ _ => simp [Column.dataType] at hty
  | .emptyArray _, .tuple _ _ => simp [Column.dataType] at hty
  | .emptyArray _, .variant _ _ => simp [Column.dataType] at hty
  | .emptyMap _, .null _ => simp [Column.dataType] at hty
  | .emptyMap _, .emptyArray _ => simp [Column.dataType] at hty
  | .emptyMap _, .number _ _ => simp [Column.dataType] at hty
  | .emptyMap _, .decimal _ _ _ => simp [Column.dataType] at hty
  | .emptyMap _, .boolean _ => simp [Column.dataType] at hty
  | .emptyMap _, .string _ _ => simp [Column.dataType] at hty
  | .emptyMap _, .timestamp _ => simp [Column.dataType] at hty
  | .emptyMap _, .date _ => simp [Column.dataType] at hty
  | .emptyMap _, .array _ _ => simp [Column.dataType] at hty
  | .emptyMap _, .map _ _ => simp [Column.dataType] at hty
  | .emptyMap _, .nullable _ _ => simp [Column.dataType] at hty
  | .emptyMap _, .tuple _ _ => simp [Column.dataType] at hty
  | .emptyMap _, .variant _ _ => simp [Column.dataType] at hty
  | .number _ _, .null _ => simp [Column.dataType] at hty
  | .number _ _, .emptyArray _ => simp [Column.dataType] at hty
  | .number _ _, .emptyMap _ => simp [Column.dataType] at hty
  | .number _ _, .decimal _ _ _ => simp [Column.dataType] at hty
  | .number _ _, .boolean _ => simp [Column.dataType] at hty
  | .number _ _, .string _ _ => simp [Column.dataType] at hty
  | .number _ _, .timestamp _ => simp [Column.dataType] at hty
  | .number _ _, .date _ => simp [Column.dataType] at hty
  | .number _ _, .array _ _ => simp [Column.dataType] at hty
  | .number _ _, .map _ _ => simp [Column.dataType] at hty
  | .number _ _, .nullable _ _ => simp [Column.dataType] at hty
  | .number _ _, .tuple _ _ => simp [Column.dataType] at hty
  | .number _ _, .variant _ _ => simp [Column.dataType] at hty
  | .decimal _ _ _, .null _ => simp [Column.dataType] at hty
  | .decimal _ _ _, .emptyArray _ => simp [Column.dataType] at hty
  | .decimal _ _ _, .emptyMap _ => simp [Column.dataType] at hty
  | .decimal _ _ _, .number _ _ => simp [Column.dataType] at hty
  | .decimal _ _ _, .boolean _ => simp [Column.dataType] at hty
  | .decimal _ _ _, .string _ _ => simp [Column.dataType] at hty
  | .decimal _ _ _, .timestamp _ => simp [Column.dataType] at hty
  | .decimal _ _ _, .date _ => simp [Column.dataType] at hty
  | .decimal _ _ _, .array _ _ => simp [Column.dataType] at hty
  | .decimal _ _ _, .map _ _ => simp [Column.dataType] at hty
  | .decimal _ _ _, .nullable _ _ => simp [Column.dataType] at hty
  | .decimal _ _ _, .tuple _ _ => simp [Column.dataType] at hty
  | .decimal _ _ _, .variant _ _ => simp [Column.dataType] at hty
  | .boolean _, .null _ => simp [Column.dataType] at hty
  | .boolean _, .emptyArray _ => simp [Column.dataType] at hty
  | .boolean _, .emptyMap _ => simp [Column.dataType] at hty
  | .boolean _, .number _ _ => simp [Column.dataType] at hty
  | .boolean _, .decimal _ _ _ => simp [Column.dataType] at hty
  | .boolean _, .string _ _ => simp [Column.dataType] at hty
  | .boolean _, .timestamp _ => simp [Column.dataType] at hty
  | .boolean _, .date _ => simp [Column.dataType] at hty
  | .boolean _, .array _ _ => simp [Column.dataType] at hty
  | .boolean _, .map _ _ => simp [Column.dataType] at hty
  | .boolean _, .nullable _ _ => simp [Column.dataType] at hty
  | .boolean _, .tuple _ _ => simp [Column.dataType] at hty
  | .boolean _, .variant _ _ => simp [Column.dataType] at hty
  | .string _ _, .null _ => simp [Column.dataType] at hty
  | .string _ _, .emptyArray _ => simp [Column.dataType] at hty
  | .string _ _, .emptyMap _ => simp [Column.dataType] at hty
  | .string _ _, .number _ _ => simp [Column.dataType] at hty
  | .string _ _, .decimal _ _ _ => simp [Column.dataType] at hty
  | .string _ _, .boolean _ => simp [Column.dataType] at hty
  | .string _ _, .timestamp _ => simp [Column.dataType] at hty
  | .string _ _, .date _ => simp [Column.dataType] at hty
  | .string _ _, .array _ _ => simp [Column.dataType] at hty
  | .string _ _, .map _ _ => simp [Column.dataType] at hty
  | .string _ _, .nullable _ _ => simp [Column.dataType] at hty
  | .string _ _, .tuple _ _ => simp [Column.dataType] at hty
  | .string _ _, .variant _ _ => simp [Column.dataType] at hty
  | .timestamp _, .null _ => simp [Column.dataType] at hty
  | .timestamp _, .emptyArray _ => simp [Column.dataType] at hty
  | .timestamp _, .emptyMap _ => simp [Column.dataType] at hty
  | .timestamp _, .number _ _ => simp [Column.dataType] at hty
  | .timestamp _, .decimal _ _ _ => simp [Column.dataType] at hty
  | .timestamp _, .boolean _ => simp [Column.dataType] at hty
  | .timestamp _, .string _ _ => simp [Column.dataType] at hty
  | .timestamp _, .date _ => simp [Column.dataType] at hty
  | .timestamp _, .array _ _ => simp [Column.dataType] at hty
  | .timestamp _, .map _ _ => simp [Column.dataType] at hty
  | .timestamp _, .nullable _ _ => simp [Column.dataType] at hty
  | .timestamp _, .tuple _ _ => simp [Column.dataType] at hty
  | .timestamp _, .variant _ _ => simp [Column.dataType] at hty
  | .date _, .null _ => simp [Column.dataType] at hty
  | .date _, .emptyArray _ => simp [Column.dataType] at hty
  | .date _, .emptyMap _ => simp [Column.dataType] at hty
  | .date _, .number _ _ => simp [Column.dataType] at hty
  | .date _, .decimal _ _ _ => simp [Column.dataType] at hty
  | .date _, .boolean _ => simp [Column.dataType] at hty
  | .date _, .string _ _ => simp [Column.dataType] at hty
  | .date _, .timestamp _ => simp [Column.dataType] at hty
  | .date _, .array _ _ => simp [Column.dataType] at hty
  | .date _, .map _ _ => simp [Column.dataType] at hty
  | .date _, .nullable _ _ => simp [Column.dataType] at hty
  | .date _, .tuple _ _ => simp [Column.dataType] at hty
  | .date _, .variant _ _ => simp [Column.dataType] at hty
  | .array _ _, .null _ => simp [Column.dataType] at hty
  | .array _ _, .emptyArray _ => simp [Column.dataType] at hty
  | .array _ _, .emptyMap _ => simp [Column.dataType] at hty
  | .array _ _, .number _ _ => simp [Column.dataType] at hty
  | .array _ _, .decimal _ _ _ => simp [Column.dataType] at hty
  | .array _ _, .boolean _ => simp [Column.dataType] at hty
  | .array _ _, .string _ _ => simp [Column.dataType] at hty
  | .array _ _, .timestamp _ => simp [Column.dataType] at hty
  | .array _ _, .date _ => simp [Column.dataType] at hty
  | .array _ _, .map _ _ => simp [Column.dataType] at hty
  | .array _ _, .nullable _ _ => simp [Column.dataType] at hty
  | .array _ _, .tuple _ _ => simp [Column.dataType] at hty
  | .array _ _, .variant _ _ => simp [Column.dataType] at hty
  | .map _ _, .null _ => simp [Column.dataType] at hty
  | .map _ _, .emptyArray _ => simp [Column.dataType] at hty
  | .map _ _, .emptyMap _ => simp [Column.dataType] at hty
  | .map _ _, .number _ _ => simp [Column.dataType] at hty
  | .map _ _, .decimal _ _ _ => simp [Column.dataType] at hty
  | .map _ _, .boolean _ => simp [Column.dataType] at hty
  | .map _ _, .string _ _ => simp [Column.dataType] at hty
  | .map _ _, .timestamp _ => simp [Column.dataType] at hty
  | .map _ _, .date _ => simp [Column.dataType] at hty
  | .map _ _, .array _ _ => simp [Column.dataType] at hty
  | .map _ _, .nullable _ _ => simp [Column.dataType] at hty
  | .map _ _, .tuple _ _ => simp [Column.dataType] at hty
  | .map _ _, .variant _ _ => simp [Column.dataType] at hty
  | .nullable _ _, .null _ => simp [Column.dataType] at hty
  | .nullable _ _, .emptyArray _ => simp [Column.dataType] at hty
  | .nullable _ _, .emptyMap _ => simp [Column.dataType] at hty
  | .nullable _ _, .number _ _ => simp [Column.dataType] at hty
  | .nullable _ _, .decimal _ _ _ => simp [Column.dataType] at hty
  | .nullable _ _, .boolean _ => simp [Column.dataType] at hty
  | .nullable _ _, .string _ _ => simp [Column.dataType] at hty
  | .nullable _ _, .timestamp _ => simp [Column.dataType] at hty
  | .nullable _ _, .date _ => simp [Column.dataType] at hty
  | .nullable _ _, .array _ _ => simp [Column.dataType] at hty
  | .nullable _ _, .map _ _ => simp [Column.dataType] at hty
  | .nullable _ _, .tuple _ _ => simp [Column.dataType] at hty
  | .nullable _ _, .variant _ _ => simp [Column.dataType] at hty
  | .tuple _ _, .null _ => simp [Column.dataType] at hty
  | .tuple _ _, .emptyArray _ => simp [Column.dataType] at hty
  | .tuple _ _, .emptyMap _ => simp [Column.dataType] at hty
  | .tuple _ _, .number _ _ => simp [Column.dataType] at hty
  | .tuple _ _, .decimal _ _ _ => simp [Column.dataType] at hty
  | .tuple _ _, .boolean _ => simp [Column.dataType] at hty
  | .tuple _ _, .string _ _ => simp [Column.dataType] at hty
  | .tuple _ _, .timestamp _ => simp [Column.dataType] at hty
  | .tuple _ _, .date _ => simp [Column.dataType] at hty
  | .tuple _ _, .array _ _ => simp [Column.dataType] at hty
  | .tuple _ _, .map _ _ => simp [Column.dataType] at hty
  | .tuple _ _, .nullable _ _ => simp [Column.dataType] at hty
  | .tuple _ _, .variant _ _ => simp [Column.dataType] at hty
  | .variant _ _, .null _ => simp [Column.dataType] at hty
  | .variant _ _, .emptyArray _ => simp [Column.dataType] at hty
  | .variant _ _, .emptyMap _ => simp [Column.dataType] at hty
  | .variant _ _, .number _ _ => simp [Column.dataType] at hty
  | .variant _ _, .decimal _ _ _ => simp [Column.dataType] at hty
  | .variant _ _, .boolean _ => simp [Column.dataType] at hty
  | .variant _ _, .string _ _ => simp [Column.dataType] at hty
  | .variant _ _, .timestamp _ => simp [Column.dataType] at hty
  | .variant _ _, .date _ => simp [Column.dataType] at hty
  | .variant _ _, .array _ _ => simp [Column.dataType] at hty
  | .variant _ _, .map _ _ => simp [Column.dataType] at hty
  | .variant _ _, .nullable _ _ => simp [Column.dataType] at hty
  | .variant _ _, .tuple _ _ => simp [Column.dataType] at hty
termination_by sizeOf c1
decreasing_by
  all_goals simp_wf
  all_goals first
    | omega
    | (have q := List.sizeOf_lt_of_mem hmem1; omega)

/-- Well-formed scalars with the same semantic value compare `Equal`
under the source's scalar ordering (so their `PartialEq` holds). -/
theorem Scalar.pcmp_refl_of_sem (a b : Scalar) (hsem : a.sem = b.sem)
    (hwa : a.wfS = true) (hwb : b.wfS = true) :
    Scalar.pcmp a b = some .eq := by
  match a, b with
  | .null, .null => simp [Scalar.pcmp]
  | .emptyArray, .emptyArray => simp [Scalar.pcmp]
  | .emptyMap, .emptyMap => simp [Scalar.pcmp]
  | .number k1 v1, .number k2 v2 =>
    have h3 : k1 = k2 ∧ v1 = v2 := by simpa [Scalar.sem] using hsem
    obtain ⟨rfl, rfl⟩ := h3
    simp [Scalar.pcmp, compare_eq_iff_eq]
  | .decimal w1 v1 s1, .decimal w2 v2 s2 =>
    have h3 : w1 = w2 ∧ v1 = v2 ∧ s1 = s2 := by simpa [Scalar.sem] using hsem
    obtain ⟨rfl, rfl, rfl⟩ := h3
    simp [Scalar.pcmp, compare_eq_iff_eq]
  | .boolean b1, .boolean b2 =>
    have h3 : b1 = b2 := by simpa [Scalar.sem] using hsem
    subst h3
    simp [Scalar.pcmp, compare_eq_iff_eq]
  | .string s1, .string s2 =>
    have h3 : s1 = s2 := by simpa [Scalar.sem] using hsem
    subst h3
    simp [Scalar.pcmp, bytesCmp_refl]
  | .timestamp t1, .timestamp t2 =>
    have h3 : t1 = t2 := by simpa [Scalar.sem] using hsem
    subst h3
    simp [Scalar.pcmp, compare_eq_iff_eq]
  | .date d1, .date d2 =>
    have h3 : d1 = d2 := by simpa [Scalar.sem] using hsem
    subst h3
    simp [Scalar.pcmp, compare_eq_iff_eq]
  | .variant s1, .variant s2 =>
    have h3 : s1 = s2 := by simpa [Scalar.sem] using hsem
    subst h3
    simp [Scalar.pcmp, jsonbCompare, bytesCmp_refl]
  | .array c1, .array c2 =>
    have h3 : c1.dataType = c2.dataType ∧ c1.semRows = c2.semRows := by
      simpa [Scalar.sem] using hsem
    have hw1 : c1.wf = true := by simpa [Scalar.wfS] using hwa
    have hw2 : c2.wf = true := by simpa [Scalar.wfS] using hwb
    simp only [Scalar.pcmp]
    exact Column.pcmp_refl_of c1 c2 h3.1 hw1 hw2 h3.2
  | .map c1, .map c2 =>
    have h3 : c1.dataType = c2.dataType ∧ c1.semRows = c2.semRows := by
      simpa [Scalar.sem] using hsem
    have hw1 : c1.wf = true := by simpa [Scalar.wfS] using hwa
    have hw2 : c2.wf = true := by simpa [Scalar.wfS] using hwb
    simp only [Scalar.pcmp]
    exact Column.pcmp_refl_of c1 c2 h3.1 hw1 hw2 h3.2
  | .tuple ss1, .tuple ss2 =>
    have h3 : ss1.map Scalar.sem = ss2.map Scalar.sem := by
      have h4 := hsem
      rw [show Scalar.sem (.tuple ss1)
          = .tup (ss1.attach.map fun f => Scalar.sem f.1) by
        simp [Scalar.sem]] at h4
      rw [show Scalar.sem (.tuple ss2)
          = .tup (ss2.attach.map fun f => Scalar.sem f.1) by
        simp [Scalar.sem]] at h4
      rw [attachMap ss1 Scalar.sem, attachMap ss2 Scalar.sem] at h4
      injection h4
    have hlen : ss1.length = ss2.length := by
      have h4 := congrArg List.length h3
      simpa using h4
    have hswa : ∀ x ∈ ss1, x.wfS = true := by
      rw [show Scalar.wfS (.tuple ss1)
          = (ss1.attach.all fun f => Scalar.wfS f.1) by simp [Scalar.wfS]] at hwa
      rw [attachAll ss1 Scalar.wfS, List.all_eq_true] at hwa
      exact hwa
    have hswb : ∀ x ∈ ss2, x.wfS = true := by
      rw [show Scalar.wfS (.tuple ss2)
          = (ss2.attach.all fun f => Scalar.wfS f.1) by simp [Scalar.wfS]] at hwb
      rw [attachAll ss2 Scalar.wfS, List.all_eq_true] at hwb
      exact hwb
    simp only [Scalar.pcmp]
    apply Scalar.pcmpList_refl_of ss1 ss2 hlen
    intro j hj
    have hmem1 : ss1[j] ∈ ss1 := List.getElem_mem hj
    have hmem2 : ss2[j] ∈ ss2 := List.getElem_mem (by omega)
    have hsemj : (ss1[j]).sem = (ss2[j]).sem := by
      have h6 := congrArg (fun l => l[j]?) h3
      simp only [List.getElem?_map] at h6
      rw [List.getElem?_eq_getElem (l := ss1) hj,
        List.getElem?_eq_getElem (l := ss2) (by omega)] at h6
      simpa using h6
    exact Scalar.pcmp_refl_of_sem (ss1[j]) (ss2[j]) hsemj
      (hswa _ hmem1) (hswb _ hmem2)
  | .null, .emptyArray => simp [Scalar.sem] at hsem
  | .null, .emptyMap => simp [Scalar.sem] at hsem
  | .null, .number _ _ => simp [Scalar.sem] at hsem
  | .null, .decimal _ _ _ => simp [Scalar.sem] at hsem
  | .null, .boolean _ => simp [Scalar.sem] at hsem
  | .null, .string _ => simp [Scalar.sem] at hsem
  | .null, .timestamp _ => simp [Scalar.sem] at hsem
  | .null, .date _ => simp [Scalar.sem] at hsem
  | .null, .array _ => simp [Scalar.sem] at hsem
  | .null, .map _ => simp [Scalar.sem] at hsem
  | .null, .tuple _ => simp [Scalar.sem] at hsem
  | .null, .variant _ => simp [Scalar.sem] at hsem
  | .emptyArray, .null => simp [Scalar.sem] at hsem
  | .emptyArray, .emptyMap => simp [Scalar.sem] at hsem
  | .emptyArray, .number _ _ => simp [Scalar.sem] at hsem
  | .emptyArray, .decimal _ _ _ => simp [Scalar.sem] at hsem
  | .emptyArray, .boolean _ => simp [Scalar.sem] at hsem
  | .emptyArray, .string _ => simp [Scalar.sem] at hsem
  | .emptyArray, .timestamp _ => simp [Scalar.sem] at hsem
  | .emptyArray, .date _ => simp [Scalar.sem] at hsem
  | .emptyArray, .array _ => simp [Scalar.sem] at hsem
  | .emptyArray, .map _ => simp [Scalar.sem] at hsem
  | .emptyArray, .tuple _ => simp [Scalar.sem] at hsem
  | .emptyArray, .variant _ => simp [Scalar.sem] at hsem
  | .emptyMap, .null => simp [Scalar.sem] at hsem
  | .emptyMap, .emptyArray => simp [Scalar.sem] at hsem
  | .emptyMap, .number _ _ => simp [Scalar.sem] at hsem
  | .emptyMap, .decimal _ _ _ => simp [Scalar.sem] at hsem
  | .emptyMap, .boolean _ => simp [Scalar.sem] at hsem
  | .emptyMap, .string _ => simp [Scalar.sem] at hsem
  | .emptyMap, .timestamp _ => simp [Scalar.sem] at hsem
  | .emptyMap, .date _ => simp [Scalar.sem] at hsem
  | .emptyMap, .array _ => simp [Scalar.sem] at hsem
  | .emptyMap, .map _ => simp [Scalar.sem] at hsem
  | .emptyMap, .tuple _ => simp [Scalar.sem] at hsem
  | .emptyMap, .variant _ => simp [Scalar.sem] at hsem
  | .number _ _, .null => simp [Scalar.sem] at hsem
  | .number _ _, .emptyArray => simp [Scalar.sem] at hsem
  | .number _ _, .emptyMap => simp [Scalar.sem] at hsem
  | .number _ _, .decimal _ _ _ => simp [Scalar.sem] at hsem
  | .number _ _, .boolean _ => simp [Scalar.sem] at hsem
  | .number _ _, .string _ => simp [Scalar.sem] at hsem
  | .number _ _, .timestamp _ => simp [Scalar.sem] at hsem
  | .number _ _, .date _ => simp [Scalar.sem] at hsem
  | .number _ _, .array _ => simp [Scalar.sem] at hsem
  | .number _ _, .map _ => simp [Scalar.sem] at hsem
  | .number _ _, .tuple _ => simp [Scalar.sem] at hsem
  | .number _ _, .variant _ => simp [Scalar.sem] at hsem
  | .decimal _ _ _, .null => simp [Scalar.sem] at hsem
  | .decimal _ _ _, .emptyArray => simp [Scalar.sem] at hsem
  | .decimal _ _ _, .emptyMap => simp [Scalar.sem] at hsem
  | .decimal _ _ _, .number _ _ => simp [Scalar.sem] at hsem
  | .decimal _ _ _, .boolean _ => simp [Scalar.sem] at hsem
  | .decimal _ _ _, .string _ => simp [Scalar.sem] at hsem
  | .decimal _ _ _, .timestamp _ => simp [Scalar.sem] at hsem
  | .decimal _ _ _, .date _ => simp [Scalar.sem] at hsem
  | .decimal _ _ _, .array _ => simp [Scalar.sem] at hsem
  | .decimal _ _ _, .map _ => simp [Scalar.sem] at hsem
  | .decimal _ _ _, .tuple _ => simp [Scalar.sem] at hsem
  | .decimal _ _ _, .variant _ => simp [Scalar.sem] at hsem
  | .boolean _, .null => simp [Scalar.sem] at hsem
  | .boolean _, .emptyArray => simp [Scalar.sem] at hsem
  | .boolean _, .emptyMap => simp [Scalar.sem] at hsem
  | .boolean _, .number _ _ => simp [Scalar.sem] at hsem
  | .boolean _, .decimal _ _ _ => simp [Scalar.sem] at hsem
  | .boolean _, .string _ => simp [Scalar.sem] at hsem
  | .boolean _, .timestamp _ => simp [Scalar.sem] at hsem
  | .boolean _, .date _ => simp [Scalar.sem] at hsem
  | .boolean _, .array _ => simp [Scalar.sem] at hsem
  | .boolean _, .map _ => simp [Scalar.sem] at hsem
  | .boolean _, .tuple _ => simp [Scalar.sem] at hsem
  | .boolean _, .variant _ => simp [Scalar.sem] at hsem
  | .string _, .null => simp [Scalar.sem] at hsem
  | .string _, .emptyArray => simp [Scalar.sem] at hsem
  | .string _, .emptyMap => simp [Scalar.sem] at hsem
  | .string _, .number _ _ => simp [Scalar.sem] at hsem
  | .string _, .decimal _ _ _ => simp [Scalar.sem] at hsem
  | .string _, .boolean _ => simp [Scalar.sem] at hsem
  | .string _, .timestamp _ => simp [Scalar.sem] at hsem
  | .string _, .date _ => simp [Scalar.sem] at hsem
  | .string _, .array _ => simp [Scalar.sem] at hsem
  | .string _, .map _ => simp [Scalar.sem] at hsem
  | .string _, .tuple _ => simp [Scalar.sem] at hsem
  | .string _, .variant _ => simp [Scalar.sem] at hsem
  | .timestamp _, .null => simp [Scalar.sem] at hsem
  | .timestamp _, .emptyArray => simp [Scalar.sem] at hsem
  | .timestamp _, .emptyMap => simp [Scalar.sem] at hsem
  | .timestamp _, .number _ _ => simp [Scalar.sem] at hsem
  | .timestamp _, .decimal _ _ _ => simp [Scalar.sem] at hsem
  | .timestamp _, .boolean _ => simp [Scalar.sem] at hsem
  | .timestamp _, .string _ => simp [Scalar.sem] at hsem
  | .timestamp _, .date _ => simp [Scalar.sem] at hsem
  | .timestamp _, .array _ => simp [Scalar.sem] at hsem
  | .timestamp _, .map _ => simp [Scalar.sem] at hsem
  | .timestamp _, .tuple _ => simp [Scalar.sem] at hsem
  | .timestamp _, .variant _ => simp [Scalar.sem] at hsem
  | .date _, .null => simp [Scalar.sem] at hsem
  | .date _, .emptyArray => simp [Scalar.sem] at hsem
  | .date _, .emptyMap => simp [Scalar.sem] at hsem
  | .date _, .number _ _ => simp [Scalar.sem] at hsem
  | .date _, .decimal _ _ _ => simp [Scalar.sem] at hsem
  | .date _, .boolean _ => simp [Scalar.sem] at hsem
  | .date _, .string _ => simp [Scalar.sem] at hsem
  | .date _, .timestamp _ => simp [Scalar.sem] at hsem
  | .date _, .array _ => simp [Scalar.sem] at hsem
  | .date _, .map _ => simp [Scalar.sem] at hsem
  | .date _, .tuple _ => simp [Scalar.sem] at hsem
  | .date _, .variant _ => simp [Scalar.sem] at hsem
  | .array _, .null => simp [Scalar.sem] at hsem
  | .array _, .emptyArray => simp [Scalar.sem] at hsem
  | .array _, .emptyMap => simp [Scalar.sem] at hsem
  | .array _, .number _ _ => simp [Scalar.sem] at hsem
  | .array _, .decimal _ _ _ => simp [Scalar.sem] at hsem
  | .array _, .boolean _ => simp [Scalar.sem] at hsem
  | .array _, .string _ => simp [Scalar.sem] at hsem
  | .array _, .timestamp _ => simp [Scalar.sem] at hsem
  | .array _, .date _ => simp [Scalar.sem] at hsem
  | .array _, .map _ => simp [Scalar.sem] at hsem
  | .array _, .tuple _ => simp [Scalar.sem] at hsem
  | .array _, .variant _ => simp [Scalar.sem] at hsem
  | .map _, .null => simp [Scalar.sem] at hsem
  | .map _, .emptyArray => simp [Scalar.sem] at hsem
  | .map _, .emptyMap => simp [Scalar.sem] at hsem
  | .map _, .number _ _ => simp [Scalar.sem] at hsem
  | .map _, .decimal _ _ _ => simp [Scalar.sem] at hsem
  | .map _, .boolean _ => simp [Scalar.sem] at hsem
  | .map _, .string _ => simp [Scalar.sem] at hsem
  | .map _, .timestamp _ => simp [Scalar.sem] at hsem
  | .map _, .date _ => simp [Scalar.sem] at hsem
  | .map _, .array _ => simp [Scalar.sem] at hsem
  | .map _, .tuple _ => simp [Scalar.sem] at hsem
  | .map _, .variant _ => simp [Scalar.sem] at hsem
  | .tuple _, .null => simp [Scalar.sem] at hsem
  | .tuple _, .emptyArray => simp [Scalar.sem] at hsem
  | .tuple _, .emptyMap => simp [Scalar.sem] at hsem
  | .tuple _, .number _ _ => simp [Scalar.sem] at hsem
  | .tuple _, .decimal _ _ _ => simp [Scalar.sem] at hsem
  | .tuple _, .boolean _ => simp [Scalar.sem] at hsem
  | .tuple _, .string _ => simp [Scalar.sem] at hsem
  | .tuple _, .timestamp _ => simp [Scalar.sem] at hsem
  | .tuple _, .date _ => simp [Scalar.sem] at hsem
  | .tuple _, .array _ => simp [Scalar.sem] at hsem
  | .tuple _, .map _ => simp [Scalar.sem] at hsem
  | .tuple _, .variant _ => simp [Scalar.sem] at hsem
  | .variant _, .null => simp [Scalar.sem] at hsem
  | .variant _, .emptyArray => simp [Scalar.sem] at hsem
  | .variant _, .emptyMap => simp [Scalar.sem] at hsem
  | .variant _, .number _ _ => simp [Scalar.sem] at hsem
  | .variant _, .decimal _ _ _ => simp [Scalar.sem] at hsem
  | .variant _, .boolean _ => simp [Scalar.sem] at hsem
  | .variant _, .string _ => simp [Scalar.sem] at hsem
  | .variant _, .timestamp _ => simp [Scalar.sem] at hsem
  | .variant _, .date _ => simp [Scalar.sem] at hsem
  | .variant _, .array _ => simp [Scalar.sem] at hsem
  | .variant _, .map _ => simp [Scalar.sem] at hsem
  | .variant _, .tuple _ => simp [Scalar.sem] at hsem
termination_by sizeOf a
decreasing_by
  all_goals simp_wf
  all_goals first
    | omega
    | (have q := List.sizeOf_lt_of_mem hmem1; omega)

/-- C2: starting from a fresh builder of any (generic-free, singly-nullable)
type, a sequence of `push` calls that all succeed (i.e. whose scalar
variants match the builder, `Null` being accepted by a nullable builder)
followed by `build` yields a column whose length is the number of pushed
scalars and whose `index(i)` is `Some` of a scalar equal (in the source's
`PartialEq` sense) to the i-th pushed scalar. -/
theorem c2_builder_push_build_law (ty : DataType) (cap : Nat)
    (ss : List Scalar) (b0 b : ColumnBuilder)
    (hnn : ty.noNestedNullable = true)
    (h0 : ColumnBuilder.with_capacity ty cap = some b0)
    (hss : ∀ x ∈ ss, x.wfS = true)
    (h : b0.pushMany ss = some b) :
    (b.build).len = ss.length ∧
      ∀ (i : Nat) (s_i : Scalar), ss[i]? = some s_i →
        ∃ sc, (b.build).index i = some sc ∧ Scalar.eqB sc s_i = true := by
  obtain ⟨hw0, hty0, hrows0⟩ := with_capacity_spec ty cap b0 hnn h0
  obtain ⟨hwb, htyb, rs, hlen, hrows, hcol⟩ := pushMany_sem ss b0 b hw0 hss h
  have hwfb : (b.build).wf = true := ColumnBuilder.wfB_wf b hwb
  have hrows2 : (b.build).semRows = rs := by
    rw [hrows, hrows0]
    rfl
  have hlenb : (b.build).len = ss.length := by
    rw [← Column.semRows_length _ hwfb, hrows2, hlen]
  refine ⟨hlenb, ?_⟩
  intro i s_i hsi
  have hi : i < ss.length := by
    by_contra hcon
    rw [List.getElem?_eq_none (by omega)] at hsi
    simp at hsi
  have hidx := Column.index_spec (b.build) hwfb i (by omega)
  rw [hrows2] at hidx
  have hci := hcol i
  rw [hsi] at hci
  rw [hci] at hidx
  cases hsc : (b.build).index i with
  | none =>
    rw [hsc] at hidx
    simp at hidx
  | some sc =>
    rw [hsc] at hidx
    simp only [Option.map_some', Option.some.injEq] at hidx
    refine ⟨sc, rfl, ?_⟩
    have hwsc : sc.wfS = true := index_wfS (b.build) hwfb i sc hsc
    have heq := Scalar.pcmp_refl_of_sem sc s_i hidx hwsc
      (hss s_i (List.getElem?_mem hsi))
    rw [Scalar.eqB, heq]
    rfl

theorem c2_builder_push_build_law_witness :
    ((ColumnBuilder.number NumKind.int32 [7]).build).len = 1 ∧
      ∃ sc, ((ColumnBuilder.number NumKind.int32 [7]).build).index 0 = some sc ∧
        Scalar.eqB sc (Scalar.number NumKind.int32 7) = true := by
  have h0 : ColumnBuilder.with_capacity (DataType.number NumKind.int32) 0
      = some (ColumnBuilder.number NumKind.int32 []) := by
    simp [ColumnBuilder.with_capacity]
  have hp : (ColumnBuilder.number NumKind.int32 []).pushMany
      [Scalar.number NumKind.int32 7]
      = some (ColumnBuilder.number NumKind.int32 [7]) := by
    simp [ColumnBuilder.pushMany, List.foldl, ColumnBuilder.push]
  have hmain := c2_builder_push_build_law (DataType.number NumKind.int32) 0
    [Scalar.number NumKind.int32 7] (ColumnBuilder.number NumKind.int32 [])
    (ColumnBuilder.number NumKind.int32 [7])
    (by simp [DataType.noNestedNullable]) h0
    (by
      intro x hx
      simp only [List.mem_singleton] at hx
      subst hx
      simp [Scalar.wfS]) hp
  exact ⟨hmain.1, hmain.2 0 (Scalar.number NumKind.int32 7) (by simp)⟩

theorem Scalar.sem_null_iff (sc : Scalar) (h : sc.sem = SemValue.null) :
    sc = .null := by
  cases sc <;> first
    | rfl
    | simp [Scalar.sem] at h

/-- C9: pushing `Null` into a nullable builder as row `i` (and then any
further successful pushes) makes the built column's `index(i)` return
the `Null` scalar, whatever default content the inner builder stored for
that row. -/
theorem c9_nullable_push_null (ib : ColumnBuilder) (validity : List Bool)
    (rest : List Scalar) (b2 b3 : ColumnBuilder)
    (hb : (ColumnBuilder.nullable ib validity).wfB = true)
    (hrest : ∀ x ∈ rest, x.wfS = true)
    (hpush : (ColumnBuilder.nullable ib validity).push .null = some b2)
    (hmany : b2.pushMany rest = some b3) :
    (b3.build).index validity.length = some Scalar.null := by
  obtain ⟨hw2, hty2, r, hrows2, hcol2⟩ :=
    push_sem (.nullable ib validity) .null b2 hb (by simp [Scalar.wfS]) hpush
  obtain ⟨hw3, hty3, rs, hlen3, hrows3, _⟩ :=
    pushMany_sem rest b2 b3 hw2 hrest hmany
  have hwf3 : (b3.build).wf = true := ColumnBuilder.wfB_wf b3 hw3
  have hn : (Column.semRows ((ColumnBuilder.nullable ib validity).build)).length
      = validity.length := by
    rw [build_rows_length hb]
    rfl
  have hrows4 : (b3.build).semRows
      = ((ColumnBuilder.nullable ib validity).build).semRows ++ [r] ++ rs := by
    rw [hrows3, hrows2]
  have hlen4 : (b3.build).len = validity.length + 1 + rs.length := by
    rw [← Column.semRows_length _ hwf3, hrows4]
    simp only [List.length_append, List.length_cons, List.length_nil, hn]
  have hri : (b3.build).semRows[validity.length]? = some r := by
    rw [hrows4]
    rw [List.getElem?_append_left (by simp [hn])]
    rw [List.getElem?_append_right (by rw [hn])]
    rw [hn, Nat.sub_self]
    simp
  have hidx := Column.index_spec (b3.build) hwf3 validity.length (by omega)
  rw [hri] at hidx
  have hcoll : SemValue.collapseTop r = SemValue.null := by
    rw [hcol2]
    simp [Scalar.sem]
  cases hsc : (b3.build).index validity.length with
  | none =>
    rw [hsc] at hidx
    simp at hidx
  | some sc =>
    rw [hsc] at hidx
    simp only [Option.map_some', Option.some.injEq, hcoll] at hidx
    rw [Scalar.sem_null_iff sc hidx]

theorem c9_nullable_push_null_witness :
    ((ColumnBuilder.nullable (ColumnBuilder.number NumKind.int32 [0])
      [false]).build).index 0 = some Scalar.null := by
  have h := c9_nullable_push_null (ColumnBuilder.number NumKind.int32 []) [] []
    (ColumnBuilder.nullable (ColumnBuilder.number NumKind.int32 [0]) [false])
    (ColumnBuilder.nullable (ColumnBuilder.number NumKind.int32 [0]) [false])
    (by simp [ColumnBuilder.wfB, ColumnBuilder.len, ColumnBuilder.isNullableB])
    (by
      intro x hx
      simp at hx)
    (by simp [ColumnBuilder.push, ColumnBuilder.push_default])
    rfl
  simpa using h

/- ===== C4: the external columnar (Arrow) bridge =====
`Column::as_arrow` (values.rs:827-1045) and `Column::from_arrow`
(values.rs:1047-1399).  The external format's types and array structs
(`common_arrow`) are not part of this crate; they are modelled below with
exactly the structure the two bridge functions read and write: a data
type tag, a length, per-kind storage, and an optional validity bitmap.
Machine-width casts (`as i64`, `as i32`, `as u64`) are modelled on
`Nat`/`Int` with explicit two's-complement wrapping. -/

/-- The external time unit (`TimeUnit`), read by the `from_arrow`
timestamp arm (values.rs:1229-1252). -/
inductive TimeUnit where
  | second | millisecond | microsecond | nanosecond
deriving DecidableEq

/-- The extension-marker names `ARROW_EXT_TYPE_EMPTY_ARRAY`,
`ARROW_EXT_TYPE_EMPTY_MAP` and `ARROW_EXT_TYPE_VARIANT` used to tag the
three internal-only variants in the external format (spec §6). -/
inductive ExtName where
  | emptyArray | emptyMap | variant
deriving DecidableEq

/-- The external physical data type (`ArrowDataType`), restricted to the
tags the bridge reads or writes; `ext` is the extension mechanism
carrying a named marker around an inner type. -/
inductive ArrowTy where
  | null
  | uint8 | uint16 | uint32 | uint64
  | int8 | int16 | int32 | int64
  | float32 | float64
  | boolean
  | largeBinary
  | binary
  | utf8
  | largeUtf8
  | timestamp (unit : TimeUnit)
  | date32
  | list (inner : ArrowTy)
  | largeList (inner : ArrowTy)
  | map (inner : ArrowTy)
  | struct (fields : List ArrowTy)
  | decimal (precision scale : Nat)
  | decimal256 (precision scale : Nat)
  | ext (name : ExtName) (inner : ArrowTy)

/-- The external array (`dyn Array`): one constructor per array struct
the bridge builds or downcasts to (`NullArray`, `PrimitiveArray`,
`BooleanArray`, `BinaryArray`/`Utf8Array`, `ListArray`, `MapArray`,
`StructArray`).  Every array carries its data type; all but `NullArray`
carry an optional validity bitmap.  Primitive storage of every width is a
`List Int` (the logical values; the physical width is fixed by the data
type tag). -/
inductive ArrowArray where
  | nullArr (ty : ArrowTy) (len : Nat)
  | primInt (ty : ArrowTy) (values : List Int) (validity : Option (List Bool))
  | boolArr (ty : ArrowTy) (values : List Bool) (validity : Option (List Bool))
  | binArr (ty : ArrowTy) (offsets : List Int) (data : List Nat)
      (validity : Option (List Bool))
  | listArr (ty : ArrowTy) (offsets : List Int) (values : ArrowArray)
      (validity : Option (List Bool))
  | mapArr (ty : ArrowTy) (offsets : List Int) (values : ArrowArray)
      (validity : Option (List Bool))
  | structArr (ty : ArrowTy) (values : List ArrowArray)
      (validity : Option (List Bool))

/-- `Array::data_type()`. -/
def ArrowArray.dataType : ArrowArray → ArrowTy
  | .nullArr ty _ => ty
  | .primInt ty _ _ => ty
  | .boolArr ty _ _ => ty
  | .binArr ty _ _ _ => ty
  | .listArr ty _ _ _ => ty
  | .mapArr ty _ _ _ => ty
  | .structArr ty _ _ => ty

/-- `Array::len()`: row count per array struct (offset-based arrays have
`offsets.len() - 1` rows; a struct array has its first field's length). -/
def ArrowArray.len : ArrowArray → Nat
  | .nullArr _ n => n
  | .primInt _ vs _ => vs.length
  | .boolArr _ vs _ => vs.length
  | .binArr _ offs _ _ => offs.length - 1
  | .listArr _ offs _ _ => offs.length - 1
  | .mapArr _ offs _ _ => offs.length - 1
  | .structArr _ [] _ => 0
  | .structArr _ (f :: _) _ => f.len

/-- `Array::validity()` (`None` on a `NullArray`, which has no bitmap). -/
def ArrowArray.validity : ArrowArray → Option (List Bool)
  | .nullArr _ _ => none
  | .primInt _ _ v => v
  | .boolArr _ _ v => v
  | .binArr _ _ _ v => v
  | .listArr _ _ _ v => v
  | .mapArr _ _ _ v => v
  | .structArr _ _ v => v

/-- `Array::with_validity(Some(bitmap))` (values.rs:1020): the same array
with the bitmap attached.  The `NullArray` case is never reached by the
caller (the match at values.rs:1017-1019 returns such arrays unchanged). -/
def ArrowArray.with_validity : ArrowArray → List Bool → ArrowArray
  | .nullArr ty n, _ => .nullArr ty n
  | .primInt ty vs _, v => .primInt ty vs (some v)
  | .boolArr ty vs _, v => .boolArr ty vs (some v)
  | .binArr ty offs d _, v => .binArr ty offs d (some v)
  | .listArr ty offs inner _, v => .listArr ty offs inner (some v)
  | .mapArr ty offs inner _, v => .mapArr ty offs inner (some v)
  | .structArr ty fs _, v => .structArr ty fs (some v)

/-- `true` exactly on a `NullArray`. -/
def ArrowArray.isNullArr : ArrowArray → Bool
  | .nullArr _ _ => true
  | _ => false

/-- The external data types whose arrays carry no validity bitmap: `Null`
and any extension around `Null` — the match guard of values.rs:1017-1019. -/
def ArrowTy.isNullLike : ArrowTy → Bool
  | .null => true
  | .ext _ .null => true
  | _ => false

/-- `u64 as i64`: two's-complement reinterpretation of the low 64 bits
(the `*offset as i64` widening at values.rs:947-948, 976-977, 1032-1033). -/
def castU64I64 (n : Nat) : Int :=
  if n % 2 ^ 64 < 2 ^ 63 then ((n % 2 ^ 64 : Nat) : Int)
  else ((n % 2 ^ 64 : Nat) : Int) - 2 ^ 64

/-- `u64 as i32`: truncation to the low 32 bits, reinterpreted signed
(the `*offset as i32` narrowing of map offsets at values.rs:989-990). -/
def castU64I32 (n : Nat) : Int :=
  if n % 2 ^ 32 < 2 ^ 31 then ((n % 2 ^ 32 : Nat) : Int)
  else ((n % 2 ^ 32 : Nat) : Int) - 2 ^ 32

/-- `i64 as u64` (also `i32 as u64`, which sign-extends first): the value
modulo `2^64`, as a natural number (the `*x as u64` reads and the
`Buffer<i64>` → `Buffer<u64>` transmute in `from_arrow`). -/
def castI64U64 (x : Int) : Nat := (x % 2 ^ 64).toNat

/-- The external data type of each logical type: the
`(&DataType).into::<ArrowDataType>()` conversion invoked at values.rs:823
(the conversion lives outside this crate; modelled from the spec §6
mapping table).  A `Generic` never reaches this conversion
(`Column::data_type` never returns one). -/
def NumKind.arrowTy : NumKind → ArrowTy
  | .uint8 => .uint8
  | .uint16 => .uint16
  | .uint32 => .uint32
  | .uint64 => .uint64
  | .int8 => .int8
  | .int16 => .int16
  | .int32 => .int32
  | .int64 => .int64
  | .float32 => .float32
  | .float64 => .float64

/-- See `NumKind.arrowTy`: the spec §6 table.  `Timestamp` maps to the
fixed microsecond unit; `String` to the wide binary array type;
`Nullable` to its inner type (the external format keeps nullability on
the field, not in the data type); `EmptyArray`/`EmptyMap`/`Variant` to
extension-tagged types. -/
def dataTypeToArrow : DataType → ArrowTy
  | .null => .null
  | .emptyArray => .ext .emptyArray .null
  | .emptyMap => .ext .emptyMap .null
  | .number k => k.arrowTy
  | .decimal .d128 size => .decimal size.precision size.scale
  | .decimal .d256 size => .decimal256 size.precision size.scale
  | .boolean => .boolean
  | .string => .largeBinary
  | .timestamp => .timestamp .microsecond
  | .date => .date32
  | .array t => .largeList (dataTypeToArrow t)
  | .map t => .map (dataTypeToArrow t)
  | .nullable t => dataTypeToArrow t
  | .tuple ts => .struct (ts.attach.map fun t => dataTypeToArrow t.1)
  | .variant => .ext .variant .largeBinary
  | .generic _ => .null
termination_by t => sizeOf t
decreasing_by
  all_goals simp_wf
  all_goals first
    | omega
    | (have q := List.sizeOf_lt_of_mem t.2; omega)

mutual
/-- `Column::as_arrow` (values.rs:827-1045).  Panics are modelled as
`none`: the `unreachable!` of the map arm when the inner column is not a
tuple (values.rs:1003), and the `StructArray::try_new` failure on an
empty field list.  The remaining `try_new` validations always hold for a
well-formed column and are elided.  String/variant/array offsets are
widened through `as i64`, map offsets narrowed through `as i32`; a
nullable column attaches its validity to the unwrapped inner array unless
that array's data type is `Null`-like (values.rs:1015-1022). -/
def Column.as_arrow : Column → Option ArrowArray
  | .null len => some (.nullArr .null len)
  | .emptyArray len => some (.nullArr (.ext .emptyArray .null) len)
  | .emptyMap len => some (.nullArr (.ext .emptyMap .null) len)
  | .number k values => some (.primInt k.arrowTy values none)
  | .decimal .d128 values size =>
    some (.primInt (.decimal size.precision size.scale) values none)
  | .decimal .d256 values size =>
    some (.primInt (.decimal256 size.precision size.scale) values none)
  | .boolean values => some (.boolArr .boolean values none)
  | .string data offsets =>
    some (.binArr .largeBinary (offsets.map castU64I64) data none)
  | .timestamp values => some (.primInt (.timestamp .microsecond) values none)
  | .date values => some (.primInt .date32 values none)
  | .array values offsets =>
    (Column.as_arrow values).map fun inner =>
      .listArr (.largeList (dataTypeToArrow values.dataType))
        (offsets.map castU64I64) inner none
  | .map (.tuple fields flen) offsets =>
    (match Column.asArrowFields fields with
      | some (a0 :: arrs) =>
        some (.mapArr (.map (dataTypeToArrow (Column.dataType (.tuple fields flen))))
          (offsets.map castU64I32)
          (.structArr (dataTypeToArrow (Column.dataType (.tuple fields flen)))
            (a0 :: arrs) none)
          none)
      | _ => none)
  | .map _ _ => none
  | .nullable inner validity =>
    (Column.as_arrow inner).map fun arr =>
      if (arr.dataType).isNullLike then arr else arr.with_validity validity
  | .tuple fields len =>
    (match Column.asArrowFields fields with
      | some (a0 :: arrs) =>
        some (.structArr (dataTypeToArrow (Column.dataType (.tuple fields len)))
          (a0 :: arrs) none)
      | _ => none)
  | .variant data offsets =>
    some (.binArr (.ext .variant .largeBinary) (offsets.map castU64I64) data none)
termination_by c => sizeOf c

/-- `fields.iter().map(|field| field.as_arrow()).collect()`
(values.rs:997, 1026). -/
def Column.asArrowFields : List Column → Option (List ArrowArray)
  | [] => some []
  | f :: fs =>
    match Column.as_arrow f with
    | none => none
    | some a => (Column.asArrowFields fs).map fun rest => a :: rest
termination_by fs => sizeOf fs
end

/-- `DataType::remove_nullable`: strip one `Nullable` wrapper (from the
unprovided type module; the spec's "unwrap one nullable level"). -/
def DataType.removeNullable : DataType → DataType
  | .nullable t => t
  | t => t

mutual
/-- `Column::from_arrow` (values.rs:1047-1399): read the declared
nullability off the logical type, rebuild the non-nullable column from
the external array by dispatching on the external data type, then wrap
with the array's validity — or an all-`true` bitmap when the array has
none (values.rs:1389-1398).  Every `expect`/`unwrap`/`unimplemented!`
panic is modelled as `none`. -/
def Column.from_arrow (a : ArrowArray) (ty : DataType) : Option Column :=
  (Column.fromArrowCore a ty.removeNullable).map fun column =>
    if ty.isNullableTy then
      Column.nullable column ((a.validity).getD (List.replicate a.len true))
    else column
termination_by (sizeOf a) * 2 + 1

/-- The variant dispatch of `Column::from_arrow` (the big match at
values.rs:1056-1387): per external data type, downcast the array (a
failing downcast panics — `none`) and rebuild the column, recursing into
list/map/struct arrays with the declared inner logical type.  Offsets are
read back through `as u64`; a declared type of the wrong shape for the
list/map/struct arms (`as_array`/`as_map`/`as_tuple` unwraps) is `none`;
narrow-offset binary/`Utf8` arrays and non-microsecond timestamps are
normalized as the source does. -/
def Column.fromArrowCore (a : ArrowArray) (dty : DataType) : Option Column :=
  match a.dataType with
  | .null => some (.null a.len)
  | .ext .emptyArray _ => some (.emptyArray a.len)
  | .ext .emptyMap _ => some (.emptyMap a.len)
  | .uint8 =>
    match a with
    | .primInt _ values _ => some (.number .uint8 values)
    | _ => none
  | .uint16 =>
    match a with
    | .primInt _ values _ => some (.number .uint16 values)
    | _ => none
  | .uint32 =>
    match a with
    | .primInt _ values _ => some (.number .uint32 values)
    | _ => none
  | .uint64 =>
    match a with
    | .primInt _ values _ => some (.number .uint64 values)
    | _ => none
  | .int8 =>
    match a with
    | .primInt _ values _ => some (.number .int8 values)
    | _ => none
  | .int16 =>
    match a with
    | .primInt _ values _ => some (.number .int16 values)
    | _ => none
  | .int32 =>
    match a with
    | .primInt _ values _ => some (.number .int32 values)
    | _ => none
  | .int64 =>
    match a with
    | .primInt _ values _ => some (.number .int64 values)
    | _ => none
  | .float32 =>
    match a with
    | .primInt _ values _ => some (.number .float32 values)
    | _ => none
  | .float64 =>
    match a with
    | .primInt _ values _ => some (.number .float64 values)
    | _ => none
  | .boolean =>
    match a with
    | .boolArr _ values _ => some (.boolean values)
    | _ => none
  | .largeBinary =>
    match a with
    | .binArr _ offsets data _ => some (.string data (offsets.map castI64U64))
    | _ => none
  | .binary =>
    match a with
    | .binArr _ offsets data _ => some (.string data (offsets.map castI64U64))
    | _ => none
  | .utf8 =>
    match a with
    | .binArr _ offsets data _ => some (.string data (offsets.map castI64U64))
    | _ => none
  | .largeUtf8 =>
    match a with
    | .binArr _ offsets data _ => some (.string data (offsets.map castI64U64))
    | _ => none
  | .timestamp u =>
    match a with
    | .primInt _ values _ =>
      let convert : Int × Int :=
        match u with
        | .second => (1000000, 1)
        | .millisecond => (1000, 1)
        | .microsecond => (1, 1)
        | .nanosecond => (1, 1000)
      some (.timestamp (if convert.1 == 1 && convert.2 == 1 then values
        else values.map fun x => (x * convert.1).tdiv convert.2))
    | _ => none
  | .date32 =>
    match a with
    | .primInt _ values _ => some (.date values)
    | _ => none
  | .ext .variant _ =>
    match a with
    | .binArr _ offsets data _ => some (.variant data (offsets.map castI64U64))
    | _ => none
  | .list _ =>
    match a, dty with
    | .listArr _ offsets values _, .array it =>
      (Column.from_arrow values it).map fun v =>
        Column.array v (offsets.map castI64U64)
    | _, _ => none
  | .largeList _ =>
    match a, dty with
    | .listArr _ offsets values _, .array it =>
      (Column.from_arrow values it).map fun v =>
        Column.array v (offsets.map castI64U64)
    | _, _ => none
  | .map _ =>
    match a, dty with
    | .mapArr _ offsets values _, .map mt =>
      (Column.from_arrow values mt).map fun v =>
        Column.map v (offsets.map castI64U64)
    | _, _ => none
  | .struct _ =>
    match a, dty with
    | .structArr _ values _, .tuple ts =>
      (Column.fromArrowFields values ts).map fun fields =>
        Column.tuple fields a.len
    | _, _ => none
  | .decimal p s =>
    match a with
    | .primInt _ values _ => some (.decimal .d128 values ⟨p % 256, s % 256⟩)
    | _ => none
  | .decimal256 p s =>
    match a with
    | .primInt _ values _ => some (.decimal .d256 values ⟨p % 256, s % 256⟩)
    | _ => none
termination_by (sizeOf a) * 2

/-- The struct arm's `values.iter().zip(struct_type).map(from_arrow)
.collect()` (values.rs:1350-1355): pairwise recursion, truncating at the
shorter list as `zip` does. -/
def Column.fromArrowFields : List ArrowArray → List DataType → Option (List Column)
  | v :: vs, t :: ts =>
    match Column.from_arrow v t with
    | none => none
    | some c => (Column.fromArrowFields vs ts).map fun cs => c :: cs
  | _, _ => some []
termination_by vs _ => (sizeOf vs) * 2 + 1
end

/-- `true` exactly on a tuple column with at least one field: the shape
the map arm of `as_arrow` requires of its inner column (values.rs:991-1003;
the empty-struct case fails `StructArray::try_new`). -/
def Column.isKvTuple : Column → Bool
  | .tuple (_ :: _) _ => true
  | _ => false

/-- `true` on the three length-only variants. -/
def Column.lengthOnly : Column → Bool
  | .null _ => true
  | .emptyArray _ => true
  | .emptyMap _ => true
  | _ => false

/-- The columns on which the external-format roundtrip is lossless: no
validity bitmap sits directly on a length-only `Null`/`EmptyArray`/
`EmptyMap` column (`as_arrow` drops such a bitmap), every
string/variant/array offset fits in `i64`, every map offset fits in
`i32`, decimal precision and scale fit in `u8`, map inner columns are
non-empty key/value tuples, and tuples are non-empty (the external
struct array requires at least one field). -/
def Column.bridgeSafe : Column → Bool
  | .null _ => true
  | .emptyArray _ => true
  | .emptyMap _ => true
  | .number _ _ => true
  | .decimal _ _ size => size.precision < 256 && size.scale < 256
  | .boolean _ => true
  | .string _ offsets => offsets.all fun o => o < 2 ^ 63
  | .timestamp _ => true
  | .date _ => true
  | .array values offsets =>
    (offsets.all fun o => o < 2 ^ 63) && values.bridgeSafe
  | .map values offsets =>
    (offsets.all fun o => o < 2 ^ 31) && values.isKvTuple && values.bridgeSafe
  | .nullable inner _ => !inner.lengthOnly && inner.bridgeSafe
  | .tuple fields _ =>
    !fields.isEmpty && fields.attach.all fun f => Column.bridgeSafe f.1
  | .variant _ offsets => offsets.all fun o => o < 2 ^ 63
termination_by c => sizeOf c
decreasing_by
  all_goals simp_wf
  all_goals first
    | omega
    | (have q := List.sizeOf_lt_of_mem f.2; omega)

theorem castI64U64_castU64I64 (n : Nat) (h : n < 2 ^ 63) :
    castI64U64 (castU64I64 n) = n := by
  unfold castU64I64 castI64U64
  rw [Nat.mod_eq_of_lt (by omega), if_pos h]
  omega

theorem castI64U64_castU64I32 (n : Nat) (h : n < 2 ^ 31) :
    castI64U64 (castU64I32 n) = n := by
  unfold castU64I32 castI64U64
  rw [Nat.mod_eq_of_lt (by omega), if_pos h]
  omega

theorem map_cast64_roundtrip (l : List Nat)
    (h : (l.all fun o => o < 2 ^ 63) = true) :
    (l.map castU64I64).map castI64U64 = l := by
  induction l with
  | nil => rfl
  | cons a t ih =>
    simp only [List.all_cons, Bool.and_eq_true] at h
    simp only [List.map_cons, ih h.2, List.cons.injEq, and_true]
    exact castI64U64_castU64I64 a (by simpa using h.1)

theorem map_cast32_roundtrip (l : List Nat)
    (h : (l.all fun o => o < 2 ^ 31) = true) :
    (l.map castU64I32).map castI64U64 = l := by
  induction l with
  | nil => rfl
  | cons a t ih =>
    simp only [List.all_cons, Bool.and_eq_true] at h
    simp only [List.map_cons, ih h.2, List.cons.injEq, and_true]
    exact castI64U64_castU64I32 a (by simpa using h.1)

theorem with_validity_dataType (a : ArrowArray) (v : List Bool) :
    (a.with_validity v).dataType = a.dataType := by
  cases a <;> rfl

theorem with_validity_len (a : ArrowArray) (v : List Bool) :
    (a.with_validity v).len = a.len := by
  cases a with
  | structArr ty fs vd => cases fs <;> rfl
  | _ => rfl

theorem with_validity_isNullArr (a : ArrowArray) (v : List Bool) :
    (a.with_validity v).isNullArr = a.isNullArr := by
  cases a <;> rfl

theorem with_validity_validity (a : ArrowArray) (v : List Bool)
    (h : a.isNullArr = false) : (a.with_validity v).validity = some v := by
  cases a <;> simp [ArrowArray.isNullArr, ArrowArray.with_validity,
    ArrowArray.validity] at h ⊢

theorem DataType.removeNullable_eq (t : DataType) (h : t.isNullableTy = false) :
    t.removeNullable = t := by
  cases t <;> simp [DataType.isNullableTy, DataType.removeNullable] at h ⊢

theorem as_arrow_array_inv (values : Column) (offsets : List Nat) (a : ArrowArray)
    (h : Column.as_arrow (.array values offsets) = some a) :
    ∃ b, Column.as_arrow values = some b ∧
      a = .listArr (.largeList (dataTypeToArrow values.dataType))
        (offsets.map castU64I64) b none := by
  simp only [Column.as_arrow] at h
  rw [Option.map_eq_some'] at h
  obtain ⟨b, hb, hba⟩ := h
  exact ⟨b, hb, hba.symm⟩

theorem as_arrow_nullable_inv (inner : Column) (validity : List Bool) (a : ArrowArray)
    (h : Column.as_arrow (.nullable inner validity) = some a) :
    ∃ b, Column.as_arrow inner = some b ∧
      a = if (b.dataType).isNullLike then b else b.with_validity validity := by
  simp only [Column.as_arrow] at h
  rw [Option.map_eq_some'] at h
  obtain ⟨b, hb, hba⟩ := h
  exact ⟨b, hb, hba.symm⟩

theorem as_arrow_tuple_inv (fields : List Column) (len : Nat) (a : ArrowArray)
    (h : Column.as_arrow (.tuple fields len) = some a) :
    ∃ a0 arrs, Column.asArrowFields fields = some (a0 :: arrs) ∧
      a = .structArr (dataTypeToArrow (Column.dataType (.tuple fields len)))
        (a0 :: arrs) none := by
  simp only [Column.as_arrow] at h
  split at h
  · rename_i a0 arrs heq
    injection h with h2
    exact ⟨a0, arrs, heq, h2.symm⟩
  · exact absurd h (by simp)

theorem as_arrow_map_inv (values : Column) (offsets : List Nat) (a : ArrowArray)
    (h : Column.as_arrow (.map values offsets) = some a) :
    ∃ fields flen a0 arrs, values = .tuple fields flen ∧
      Column.asArrowFields fields = some (a0 :: arrs) ∧
      a = .mapArr (.map (dataTypeToArrow (Column.dataType (.tuple fields flen))))
        (offsets.map castU64I32)
        (.structArr (dataTypeToArrow (Column.dataType (.tuple fields flen)))
          (a0 :: arrs) none) none := by
  match values with
  | .tuple fields flen =>
    simp only [Column.as_arrow] at h
    split at h
    · rename_i a0 arrs heq
      injection h with h2
      exact ⟨fields, flen, a0, arrs, rfl, heq, h2.symm⟩
    · exact absurd h (by simp)
  | .null l => simp [Column.as_arrow] at h
  | .emptyArray l => simp [Column.as_arrow] at h
  | .emptyMap l => simp [Column.as_arrow] at h
  | .number k vs => simp [Column.as_arrow] at h
  | .decimal w vs size => cases w <;> simp [Column.as_arrow] at h
  | .boolean vs => simp [Column.as_arrow] at h
  | .string d o => simp [Column.as_arrow] at h
  | .timestamp vs => simp [Column.as_arrow] at h
  | .date vs => simp [Column.as_arrow] at h
  | .array v o => simp [Column.as_arrow] at h
  | .map v o => simp [Column.as_arrow] at h
  | .nullable i v => simp [Column.as_arrow] at h
  | .variant d o => simp [Column.as_arrow] at h

theorem asArrowFields_cons_inv (fields : List Column) (a0 : ArrowArray)
    (rest : List ArrowArray)
    (h : Column.asArrowFields fields = some (a0 :: rest)) :
    ∃ f0 fs, fields = f0 :: fs ∧ Column.as_arrow f0 = some a0 ∧
      Column.asArrowFields fs = some rest := by
  match fields with
  | [] => simp [Column.asArrowFields] at h
  | f0 :: fs =>
    simp only [Column.asArrowFields] at h
    split at h
    · exact absurd h (by simp)
    · rename_i a ha
      rw [Option.map_eq_some'] at h
      obtain ⟨rest2, hr, heq⟩ := h
      injection heq with h1 h2
      subst h1
      subst h2
      exact ⟨f0, fs, rfl, ha, hr⟩

theorem from_arrow_core_eq (a : ArrowArray) (t : DataType)
    (h : t.isNullableTy = false) :
    Column.from_arrow a t = Column.fromArrowCore a t := by
  simp only [Column.from_arrow, DataType.removeNullable_eq t h, h]
  cases hc : Column.fromArrowCore a t <;> simp

/-- Replace the optional validity slot of an array (a `NullArray` has
none).  `with_validity` is the `some` case; `setValidity none` of a
freshly built array is the array itself. -/
def ArrowArray.setValidity : ArrowArray → Option (List Bool) → ArrowArray
  | .nullArr ty n, _ => .nullArr ty n
  | .primInt ty vs _, w => .primInt ty vs w
  | .boolArr ty vs _, w => .boolArr ty vs w
  | .binArr ty offs d _, w => .binArr ty offs d w
  | .listArr ty offs inner _, w => .listArr ty offs inner w
  | .mapArr ty offs inner _, w => .mapArr ty offs inner w
  | .structArr ty fs _, w => .structArr ty fs w

theorem with_validity_setValidity (a : ArrowArray) (v : List Bool) :
    a.with_validity v = a.setValidity (some v) := by
  cases a <;> rfl

theorem setValidity_validity (a : ArrowArray) (w : Option (List Bool))
    (h : a.isNullArr = false) : (a.setValidity w).validity = w := by
  cases a <;> simp [ArrowArray.isNullArr, ArrowArray.setValidity,
    ArrowArray.validity] at h ⊢

theorem dataType_tuple (fields : List Column) (len : Nat) :
    Column.dataType (.tuple fields len) = .tuple (fields.map Column.dataType) := by
  rw [show Column.dataType (.tuple fields len)
      = .tuple (fields.attach.map fun f => Column.dataType f.1) from by
    simp [Column.dataType]]
  rw [attachMap]

theorem dataTypeToArrow_tuple (ts : List DataType) :
    dataTypeToArrow (.tuple ts) = .struct (ts.map dataTypeToArrow) := by
  rw [show dataTypeToArrow (.tuple ts)
      = .struct (ts.attach.map fun t => dataTypeToArrow t.1) from by
    simp [dataTypeToArrow]]
  rw [attachMap]

theorem as_arrow_dataType (c : Column) (a : ArrowArray) (h : c.as_arrow = some a) :
    a.dataType = dataTypeToArrow c.dataType := by
  match c with
  | .null len =>
    simp only [Column.as_arrow, Option.some.injEq] at h
    subst h
    simp [ArrowArray.dataType, Column.dataType, dataTypeToArrow]
  | .emptyArray len =>
    simp only [Column.as_arrow, Option.some.injEq] at h
    subst h
    simp [ArrowArray.dataType, Column.dataType, dataTypeToArrow]
  | .emptyMap len =>
    simp only [Column.as_arrow, Option.some.injEq] at h
    subst h
    simp [ArrowArray.dataType, Column.dataType, dataTypeToArrow]
  | .number k values =>
    simp only [Column.as_arrow, Option.some.injEq] at h
    subst h
    simp [ArrowArray.dataType, Column.dataType, dataTypeToArrow]
  | .decimal w values size =>
    cases w <;>
      (simp only [Column.as_arrow, Option.some.injEq] at h
       subst h
       simp [ArrowArray.dataType, Column.dataType, dataTypeToArrow])
  | .boolean values =>
    simp only [Column.as_arrow, Option.some.injEq] at h
    subst h
    simp [ArrowArray.dataType, Column.dataType, dataTypeToArrow]
  | .string data offsets =>
    simp only [Column.as_arrow, Option.some.injEq] at h
    subst h
    simp [ArrowArray.dataType, Column.dataType, dataTypeToArrow]
  | .timestamp values =>
    simp only [Column.as_arrow, Option.some.injEq] at h
    subst h
    simp [ArrowArray.dataType, Column.dataType, dataTypeToArrow]
  | .date values =>
    simp only [Column.as_arrow, Option.some.injEq] at h
    subst h
    simp [ArrowArray.dataType, Column.dataType, dataTypeToArrow]
  | .array values offsets =>
    obtain ⟨b, _, rfl⟩ := as_arrow_array_inv values offsets a h
    simp [ArrowArray.dataType, Column.dataType, dataTypeToArrow]
  | .map values offsets =>
    obtain ⟨fields, flen, a0, arrs, rfl, _, rfl⟩ := as_arrow_map_inv values offsets a h
    simp [ArrowArray.dataType, Column.dataType, dataTypeToArrow]
  | .nullable inner validity =>
    obtain ⟨b, hb, rfl⟩ := as_arrow_nullable_inv inner validity a h
    have ih := as_arrow_dataType inner b hb
    have hdt : Column.dataType (.nullable inner validity) = .nullable inner.dataType := by
      simp [Column.dataType]
    rw [hdt, show dataTypeToArrow (.nullable inner.dataType)
        = dataTypeToArrow inner.dataType from by simp [dataTypeToArrow]]
    cases hil : (ArrowArray.dataType b).isNullLike
    · rw [if_neg (by simp [hil]), with_validity_dataType]
      exact ih
    · rw [if_pos (by simp [hil])]
      exact ih
  | .tuple fields len =>
    obtain ⟨a0, arrs, _, rfl⟩ := as_arrow_tuple_inv fields len a h
    simp [ArrowArray.dataType]
  | .variant data offsets =>
    simp only [Column.as_arrow, Option.some.injEq] at h
    subst h
    simp [ArrowArray.dataType, Column.dataType, dataTypeToArrow]
termination_by sizeOf c

theorem as_arrow_nullArr (c : Column) (a : ArrowArray) (h : c.as_arrow = some a)
    (hn : a.isNullArr = true) : (a.dataType).isNullLike = true := by
  match c with
  | .null len =>
    simp only [Column.as_arrow, Option.some.injEq] at h
    subst h
    simp [ArrowArray.dataType, ArrowTy.isNullLike]
  | .emptyArray len =>
    simp only [Column.as_arrow, Option.some.injEq] at h
    subst h
    simp [ArrowArray.dataType, ArrowTy.isNullLike]
  | .emptyMap len =>
    simp only [Column.as_arrow, Option.some.injEq] at h
    subst h
    simp [ArrowArray.dataType, ArrowTy.isNullLike]
  | .number k values =>
    simp only [Column.as_arrow, Option.some.injEq] at h
    subst h
    simp [ArrowArray.isNullArr] at hn
  | .decimal w values size =>
    cases w <;>
      (simp only [Column.as_arrow, Option.some.injEq] at h
       subst h
       simp [ArrowArray.isNullArr] at hn)
  | .boolean values =>
    simp only [Column.as_arrow, Option.some.injEq] at h
    subst h
    simp [ArrowArray.isNullArr] at hn
  | .string data offsets =>
    simp only [Column.as_arrow, Option.some.injEq] at h
    subst h
    simp [ArrowArray.isNullArr] at hn
  | .timestamp values =>
    simp only [Column.as_arrow, Option.some.injEq] at h
    subst h
    simp [ArrowArray.isNullArr] at hn
  | .date values =>
    simp only [Column.as_arrow, Option.some.injEq] at h
    subst h
    simp [ArrowArray.isNullArr] at hn
  | .array values offsets =>
    obtain ⟨b, _, rfl⟩ := as_arrow_array_inv values offsets a h
    simp [ArrowArray.isNullArr] at hn
  | .map values offsets =>
    obtain ⟨fields, flen, a0, arrs, rfl, _, rfl⟩ := as_arrow_map_inv values offsets a h
    simp [ArrowArray.isNullArr] at hn
  | .nullable inner validity =>
    obtain ⟨b, hb, rfl⟩ := as_arrow_nullable_inv inner validity a h
    cases hil : (ArrowArray.dataType b).isNullLike
    · rw [if_neg (by simp [hil])] at hn ⊢
      rw [with_validity_isNullArr] at hn
      rw [with_validity_dataType]
      exact as_arrow_nullArr inner b hb hn
    · rw [if_pos (by simp [hil])]
      exact hil
  | .tuple fields len =>
    obtain ⟨a0, arrs, _, rfl⟩ := as_arrow_tuple_inv fields len a h
    simp [ArrowArray.isNullArr] at hn
  | .variant data offsets =>
    simp only [Column.as_arrow, Option.some.injEq] at h
    subst h
    simp [ArrowArray.isNullArr] at hn
termination_by sizeOf c

theorem lengthOnly_arrow (c : Column) (h1 : c.isNullableCol = false)
    (h2 : c.lengthOnly = false) :
    (dataTypeToArrow c.dataType).isNullLike = false := by
  match c with
  | .null len => simp [Column.lengthOnly] at h2
  | .emptyArray len => simp [Column.lengthOnly] at h2
  | .emptyMap len => simp [Column.lengthOnly] at h2
  | .number k values =>
    cases k <;> simp [Column.dataType, dataTypeToArrow, NumKind.arrowTy,
      ArrowTy.isNullLike]
  | .decimal w values size =>
    cases w <;> simp [Column.dataType, dataTypeToArrow, ArrowTy.isNullLike]
  | .boolean values => simp [Column.dataType, dataTypeToArrow, ArrowTy.isNullLike]
  | .string data offsets => simp [Column.dataType, dataTypeToArrow, ArrowTy.isNullLike]
  | .timestamp values => simp [Column.dataType, dataTypeToArrow, ArrowTy.isNullLike]
  | .date values => simp [Column.dataType, dataTypeToArrow, ArrowTy.isNullLike]
  | .array values offsets => simp [Column.dataType, dataTypeToArrow, ArrowTy.isNullLike]
  | .map values offsets => simp [Column.dataType, dataTypeToArrow, ArrowTy.isNullLike]
  | .nullable inner validity => simp [Column.isNullableCol] at h1
  | .tuple fields len =>
    rw [dataType_tuple, dataTypeToArrow_tuple]
    simp [ArrowTy.isNullLike]
  | .variant data offsets => simp [Column.dataType, dataTypeToArrow, ArrowTy.isNullLike]

theorem as_arrow_len (c : Column) (hwf : c.wf = true) (a : ArrowArray)
    (h : c.as_arrow = some a) : a.len = c.len := by
  match c with
  | .null len =>
    simp only [Column.as_arrow, Option.some.injEq] at h
    subst h
    simp [ArrowArray.len, Column.len]
  | .emptyArray len =>
    simp only [Column.as_arrow, Option.some.injEq] at h
    subst h
    simp [ArrowArray.len, Column.len]
  | .emptyMap len =>
    simp only [Column.as_arrow, Option.some.injEq] at h
    subst h
    simp [ArrowArray.len, Column.len]
  | .number k values =>
    simp only [Column.as_arrow, Option.some.injEq] at h
    subst h
    simp [ArrowArray.len, Column.len]
  | .decimal w values size =>
    cases w <;>
      (simp only [Column.as_arrow, Option.some.injEq] at h
       subst h
       simp [ArrowArray.len, Column.len])
  | .boolean values =>
    simp only [Column.as_arrow, Option.some.injEq] at h
    subst h
    simp [ArrowArray.len, Column.len]
  | .string data offsets =>
    simp only [Column.as_arrow, Option.some.injEq] at h
    subst h
    simp [ArrowArray.len, Column.len]
  | .timestamp values =>
    simp only [Column.as_arrow, Option.some.injEq] at h
    subst h
    simp [ArrowArray.len, Column.len]
  | .date values =>
    simp only [Column.as_arrow, Option.some.injEq] at h
    subst h
    simp [ArrowArray.len, Column.len]
  | .array values offsets =>
    obtain ⟨b, _, rfl⟩ := as_arrow_array_inv values offsets a h
    simp [ArrowArray.len, Column.len]
  | .map values offsets =>
    obtain ⟨fields, flen, a0, arrs, rfl, _, rfl⟩ := as_arrow_map_inv values offsets a h
    simp [ArrowArray.len, Column.len]
  | .nullable inner validity =>
    obtain ⟨b, hb, rfl⟩ := as_arrow_nullable_inv inner validity a h
    have hw2 : (validity.length = inner.len ∧ inner.isNullableCol = false) ∧
        inner.wf = true := by simpa [Column.wf] using hwf
    have ih := as_arrow_len inner hw2.2 b hb
    have hlen : Column.len (.nullable inner validity) = validity.length := by
      simp [Column.len]
    rw [hlen]
    cases hil : (ArrowArray.dataType b).isNullLike
    · rw [if_neg (by simp [hil]), with_validity_len, ih]
      omega
    · rw [if_pos (by simp [hil]), ih]
      omega
  | .tuple fields len =>
    obtain ⟨a0, arrs, harr, rfl⟩ := as_arrow_tuple_inv fields len a h
    obtain ⟨f0, fs, hfe, ha0, _⟩ := asArrowFields_cons_inv fields a0 arrs harr
    have hw2 := (wf_tuple_iff fields len).mp hwf
    have hmem : f0 ∈ fields := by rw [hfe]; simp
    have ih := as_arrow_len f0 (hw2 f0 hmem).2 a0 ha0
    rw [show ArrowArray.len (.structArr
        (dataTypeToArrow (Column.dataType (.tuple fields len))) (a0 :: arrs) none)
      = a0.len from by simp [ArrowArray.len]]
    rw [ih, (hw2 f0 hmem).1]
    simp [Column.len]
  | .variant data offsets =>
    simp only [Column.as_arrow, Option.some.injEq] at h
    subst h
    simp [ArrowArray.len, Column.len]
termination_by sizeOf c
decreasing_by
  all_goals simp_wf
  all_goals first
    | omega
    | (have q := List.sizeOf_lt_of_mem hmem; omega)

theorem core_to_from_arrow (c : Column) (a : ArrowArray)
    (hnn : c.isNullableCol = false) (hset : a.setValidity none = a)
    (hcore : ∀ w, Column.fromArrowCore (a.setValidity w) c.dataType = some c) :
    Column.from_arrow a c.dataType = some c := by
  rw [from_arrow_core_eq a _ (by rw [← Column.isNullableCol_ty]; exact hnn)]
  rw [← hset]
  exact hcore none

theorem asArrowFields_spec (fields : List Column)
    (hw : ∀ f ∈ fields, Column.wf f = true)
    (h : ∀ f ∈ fields, ∃ a, Column.as_arrow f = some a ∧
      Column.from_arrow a f.dataType = some f) :
    ∃ arrs, Column.asArrowFields fields = some arrs ∧
      arrs.map ArrowArray.len = fields.map Column.len ∧
      Column.fromArrowFields arrs (fields.map Column.dataType) = some fields := by
  induction fields with
  | nil =>
    refine ⟨[], ?_, rfl, ?_⟩
    · simp [Column.asArrowFields]
    · simp [Column.fromArrowFields]
  | cons f fs ih =>
    obtain ⟨a, haf, hfa⟩ := h f (by simp)
    obtain ⟨arrs, harrs, hlens, hfields⟩ :=
      ih (fun g hg => hw g (by simp [hg])) (fun g hg => h g (by simp [hg]))
    refine ⟨a :: arrs, ?_, ?_, ?_⟩
    · simp only [Column.asArrowFields, haf, harrs, Option.map_some']
    · simp only [List.map_cons, hlens, List.cons.injEq, and_true]
      exact as_arrow_len f (hw f (by simp)) a haf
    · simp only [List.map_cons, Column.fromArrowFields, hfa, hfields,
        Option.map_some']

theorem isKvTuple_shape (v : Column) (h : v.isKvTuple = true) :
    ∃ f0 fs flen, v = .tuple (f0 :: fs) flen := by
  match v with
  | .tuple (f0 :: fs) flen => exact ⟨f0, fs, flen, rfl⟩
  | .tuple [] flen => simp [Column.isKvTuple] at h
  | .null l => simp [Column.isKvTuple] at h
  | .emptyArray l => simp [Column.isKvTuple] at h
  | .emptyMap l => simp [Column.isKvTuple] at h
  | .number k vs => simp [Column.isKvTuple] at h
  | .decimal w vs size => simp [Column.isKvTuple] at h
  | .boolean vs => simp [Column.isKvTuple] at h
  | .string d o => simp [Column.isKvTuple] at h
  | .timestamp vs => simp [Column.isKvTuple] at h
  | .date vs => simp [Column.isKvTuple] at h
  | .array v2 o => simp [Column.isKvTuple] at h
  | .map v2 o => simp [Column.isKvTuple] at h
  | .nullable i v2 => simp [Column.isKvTuple] at h
  | .variant d o => simp [Column.isKvTuple] at h

theorem arrow_roundtrip_aux (c : Column) (hwf : c.wf = true)
    (hbs : c.bridgeSafe = true) :
    ∃ a, Column.as_arrow c = some a ∧ Column.from_arrow a c.dataType = some c ∧
      (c.isNullableCol = false → a.setValidity none = a ∧
        ∀ w, Column.fromArrowCore (a.setValidity w) c.dataType = some c) := by
  match c with
  | .null len =>
    have hcore : ∀ w, Column.fromArrowCore
        ((ArrowArray.nullArr .null len).setValidity w) (Column.dataType (.null len))
        = some (.null len) := by
      intro w
      simp only [ArrowArray.setValidity, Column.dataType, Column.fromArrowCore]
      rfl
    exact ⟨.nullArr .null len, by simp [Column.as_arrow],
      core_to_from_arrow _ _ (by simp [Column.isNullableCol]) rfl hcore,
      fun _ => ⟨rfl, hcore⟩⟩
  | .emptyArray len =>
    have hcore : ∀ w, Column.fromArrowCore
        ((ArrowArray.nullArr (.ext .emptyArray .null) len).setValidity w)
        (Column.dataType (.emptyArray len)) = some (.emptyArray len) := by
      intro w
      simp only [ArrowArray.setValidity, Column.dataType, Column.fromArrowCore]
      rfl
    exact ⟨.nullArr (.ext .emptyArray .null) len, by simp [Column.as_arrow],
      core_to_from_arrow _ _ (by simp [Column.isNullableCol]) rfl hcore,
      fun _ => ⟨rfl, hcore⟩⟩
  | .emptyMap len =>
    have hcore : ∀ w, Column.fromArrowCore
        ((ArrowArray.nullArr (.ext .emptyMap .null) len).setValidity w)
        (Column.dataType (.emptyMap len)) = some (.emptyMap len) := by
      intro w
      simp only [ArrowArray.setValidity, Column.dataType, Column.fromArrowCore]
      rfl
    exact ⟨.nullArr (.ext .emptyMap .null) len, by simp [Column.as_arrow],
      core_to_from_arrow _ _ (by simp [Column.isNullableCol]) rfl hcore,
      fun _ => ⟨rfl, hcore⟩⟩
  | .number k values =>
    have hcore : ∀ w, Column.fromArrowCore
        ((ArrowArray.primInt k.arrowTy values none).setValidity w)
        (Column.dataType (.number k values)) = some (.number k values) := by
      intro w
      cases k <;> simp [ArrowArray.setValidity, Column.dataType,
        Column.fromArrowCore, ArrowArray.dataType, NumKind.arrowTy]
    exact ⟨.primInt k.arrowTy values none, by simp [Column.as_arrow],
      core_to_from_arrow _ _ (by simp [Column.isNullableCol]) rfl hcore,
      fun _ => ⟨rfl, hcore⟩⟩
  | .decimal w values size =>
    have hb2 : size.precision < 256 ∧ size.scale < 256 := by
      simpa [Column.bridgeSafe] using hbs
    cases w with
    | d128 =>
      have hcore : ∀ w2, Column.fromArrowCore
          ((ArrowArray.primInt (.decimal size.precision size.scale) values
            none).setValidity w2)
          (Column.dataType (.decimal .d128 values size))
          = some (.decimal .d128 values size) := by
        intro w2
        simp [ArrowArray.setValidity, Column.dataType, Column.fromArrowCore,
          ArrowArray.dataType, Nat.mod_eq_of_lt hb2.1, Nat.mod_eq_of_lt hb2.2]
      exact ⟨.primInt (.decimal size.precision size.scale) values none,
        by simp [Column.as_arrow],
        core_to_from_arrow _ _ (by simp [Column.isNullableCol]) rfl hcore,
        fun _ => ⟨rfl, hcore⟩⟩
    | d256 =>
      have hcore : ∀ w2, Column.fromArrowCore
          ((ArrowArray.primInt (.decimal256 size.precision size.scale) values
            none).setValidity w2)
          (Column.dataType (.decimal .d256 values size))
          = some (.decimal .d256 values size) := by
        intro w2
        simp [ArrowArray.setValidity, Column.dataType, Column.fromArrowCore,
          ArrowArray.dataType, Nat.mod_eq_of_lt hb2.1, Nat.mod_eq_of_lt hb2.2]
      exact ⟨.primInt (.decimal256 size.precision size.scale) values none,
        by simp [Column.as_arrow],
        core_to_from_arrow _ _ (by simp [Column.isNullableCol]) rfl hcore,
        fun _ => ⟨rfl, hcore⟩⟩
  | .boolean values =>
    have hcore : ∀ w, Column.fromArrowCore
        ((ArrowArray.boolArr .boolean values none).setValidity w)
        (Column.dataType (.boolean values)) = some (.boolean values) := by
      intro w
      simp [ArrowArray.setValidity, Column.dataType, Column.fromArrowCore,
        ArrowArray.dataType]
    exact ⟨.boolArr .boolean values none, by simp [Column.as_arrow],
      core_to_from_arrow _ _ (by simp [Column.isNullableCol]) rfl hcore,
      fun _ => ⟨rfl, hcore⟩⟩
  | .string data offsets =>
    have hb2 : (offsets.all fun o => o < 2 ^ 63) = true := by
      simpa [Column.bridgeSafe] using hbs
    have hcore : ∀ w, Column.fromArrowCore
        ((ArrowArray.binArr .largeBinary (offsets.map castU64I64) data
          none).setValidity w)
        (Column.dataType (.string data offsets)) = some (.string data offsets) := by
      intro w
      simp only [ArrowArray.setValidity, Column.dataType]
      simp only [Column.fromArrowCore, ArrowArray.dataType]
      rw [map_cast64_roundtrip offsets hb2]
    exact ⟨.binArr .largeBinary (offsets.map castU64I64) data none,
      by simp [Column.as_arrow],
      core_to_from_arrow _ _ (by simp [Column.isNullableCol]) rfl hcore,
      fun _ => ⟨rfl, hcore⟩⟩
  | .timestamp values =>
    have hcore : ∀ w, Column.fromArrowCore
        ((ArrowArray.primInt (.timestamp .microsecond) values none).setValidity w)
        (Column.dataType (.timestamp values)) = some (.timestamp values) := by
      intro w
      simp [ArrowArray.setValidity, Column.dataType, Column.fromArrowCore,
        ArrowArray.dataType]
    exact ⟨.primInt (.timestamp .microsecond) values none, by simp [Column.as_arrow],
      core_to_from_arrow _ _ (by simp [Column.isNullableCol]) rfl hcore,
      fun _ => ⟨rfl, hcore⟩⟩
  | .date values =>
    have hcore : ∀ w, Column.fromArrowCore
        ((ArrowArray.primInt .date32 values none).setValidity w)
        (Column.dataType (.date values)) = some (.date values) := by
      intro w
      simp [ArrowArray.setValidity, Column.dataType, Column.fromArrowCore,
        ArrowArray.dataType]
    exact ⟨.primInt .date32 values none, by simp [Column.as_arrow],
      core_to_from_arrow _ _ (by simp [Column.isNullableCol]) rfl hcore,
      fun _ => ⟨rfl, hcore⟩⟩
  | .variant data offsets =>
    have hb2 : (offsets.all fun o => o < 2 ^ 63) = true := by
      simpa [Column.bridgeSafe] using hbs
    have hcore : ∀ w, Column.fromArrowCore
        ((ArrowArray.binArr (.ext .variant .largeBinary) (offsets.map castU64I64)
          data none).setValidity w)
        (Column.dataType (.variant data offsets)) = some (.variant data offsets) := by
      intro w
      simp only [ArrowArray.setValidity, Column.dataType]
      simp only [Column.fromArrowCore, ArrowArray.dataType]
      rw [map_cast64_roundtrip offsets hb2]
    exact ⟨.binArr (.ext .variant .largeBinary) (offsets.map castU64I64) data none,
      by simp [Column.as_arrow],
      core_to_from_arrow _ _ (by simp [Column.isNullableCol]) rfl hcore,
      fun _ => ⟨rfl, hcore⟩⟩
  | .array values offsets =>
    have hb2 : ((offsets.all fun o => o < 2 ^ 63) = true)
        ∧ values.bridgeSafe = true := by
      simpa [Column.bridgeSafe] using hbs
    have hw2 : (offsetsOk offsets values.len = true) ∧ values.wf = true := by
      simpa [Column.wf] using hwf
    obtain ⟨b, hab, hfb, _⟩ := arrow_roundtrip_aux values hw2.2 hb2.2
    have hcore : ∀ w, Column.fromArrowCore
        ((ArrowArray.listArr (.largeList (dataTypeToArrow values.dataType))
          (offsets.map castU64I64) b none).setValidity w)
        (Column.dataType (.array values offsets)) = some (.array values offsets) := by
      intro w
      rw [show Column.dataType (.array values offsets)
          = .array (Column.dataType values) from by simp [Column.dataType]]
      simp only [ArrowArray.setValidity]
      simp only [Column.fromArrowCore, ArrowArray.dataType]
      rw [hfb, Option.map_some', map_cast64_roundtrip offsets hb2.1]
    exact ⟨.listArr (.largeList (dataTypeToArrow values.dataType))
        (offsets.map castU64I64) b none,
      by simp [Column.as_arrow, hab, Option.map_some'],
      core_to_from_arrow _ _ (by simp [Column.isNullableCol]) rfl hcore,
      fun _ => ⟨rfl, hcore⟩⟩
  | .map (.tuple (f0 :: fs) flen) offsets =>
    rw [show Column.bridgeSafe (.map (.tuple (f0 :: fs) flen) offsets)
        = ((offsets.all fun o => o < 2 ^ 31)
            && Column.isKvTuple (.tuple (f0 :: fs) flen)
            && Column.bridgeSafe (.tuple (f0 :: fs) flen)) from by
      simp [Column.bridgeSafe]] at hbs
    rw [Bool.and_eq_true, Bool.and_eq_true] at hbs
    obtain ⟨⟨hbo, hbk⟩, hbv⟩ := hbs
    have hbv : Column.bridgeSafe (.tuple (f0 :: fs) flen) = true := hbv
    rw [show Column.wf (.map (.tuple (f0 :: fs) flen) offsets)
        = (offsetsOk offsets (Column.len (.tuple (f0 :: fs) flen))
            && Column.wf (.tuple (f0 :: fs) flen)) from by simp [Column.wf]] at hwf
    rw [Bool.and_eq_true] at hwf
    obtain ⟨hoff, hwtup⟩ := hwf
    have hwts := (wf_tuple_iff (f0 :: fs) flen).mp hwtup
    have hbts : ∀ f ∈ (f0 :: fs), Column.bridgeSafe f = true := by
      rw [show Column.bridgeSafe (.tuple (f0 :: fs) flen)
          = (!(f0 :: fs).isEmpty
              && ((f0 :: fs).attach.all fun f => Column.bridgeSafe f.1))
          from by simp [Column.bridgeSafe]] at hbv
      rw [Bool.and_eq_true, attachAll (f0 :: fs) Column.bridgeSafe,
        List.all_eq_true] at hbv
      exact fun f hf => hbv.2 f hf
    have hpt : ∀ f ∈ (f0 :: fs), ∃ a, Column.as_arrow f = some a ∧
        Column.from_arrow a f.dataType = some f := by
      intro f hf
      obtain ⟨a, ha, hfa, _⟩ := arrow_roundtrip_aux f (hwts f hf).2 (hbts f hf)
      exact ⟨a, ha, hfa⟩
    obtain ⟨arrs, harrs, hlens, hff⟩ := asArrowFields_spec (f0 :: fs)
      (fun f hf => (hwts f hf).2) hpt
    obtain ⟨a0, arrs2, rfl⟩ : ∃ a0 arrs2, arrs = a0 :: arrs2 := by
      cases arrs with
      | nil => exact absurd (congrArg List.length hlens) (by simp)
      | cons x xs => exact ⟨x, xs, rfl⟩
    rw [List.map_cons, List.map_cons] at hlens
    injection hlens with hl0 _
    simp only [List.map_cons] at hff
    have hinner : Column.from_arrow
        (.structArr (dataTypeToArrow (Column.dataType (.tuple (f0 :: fs) flen)))
          (a0 :: arrs2) none)
        (Column.dataType (.tuple (f0 :: fs) flen)) = some (.tuple (f0 :: fs) flen) := by
      rw [from_arrow_core_eq _ _
        (by rw [← Column.isNullableCol_ty]; simp [Column.isNullableCol])]
      rw [dataType_tuple, dataTypeToArrow_tuple]
      simp only [List.map_cons, Column.fromArrowCore, ArrowArray.dataType]
      rw [hff, Option.map_some']
      rw [show ArrowArray.len (.structArr
          (.struct (dataTypeToArrow (Column.dataType f0)
            :: List.map dataTypeToArrow (List.map Column.dataType fs)))
          (a0 :: arrs2) none) = a0.len from by simp [ArrowArray.len]]
      rw [hl0, (hwts f0 (by simp)).1]
    have hcore : ∀ w, Column.fromArrowCore
        ((ArrowArray.mapArr
          (.map (dataTypeToArrow (Column.dataType (.tuple (f0 :: fs) flen))))
          (offsets.map castU64I32)
          (.structArr (dataTypeToArrow (Column.dataType (.tuple (f0 :: fs) flen)))
            (a0 :: arrs2) none) none).setValidity w)
        (Column.dataType (.map (.tuple (f0 :: fs) flen) offsets))
        = some (.map (.tuple (f0 :: fs) flen) offsets) := by
      intro w
      rw [show Column.dataType (.map (.tuple (f0 :: fs) flen) offsets)
          = .map (Column.dataType (.tuple (f0 :: fs) flen)) from by
        simp [Column.dataType]]
      simp only [ArrowArray.setValidity]
      simp only [Column.fromArrowCore, ArrowArray.dataType]
      rw [hinner, Option.map_some', map_cast32_roundtrip offsets hbo]
    exact ⟨.mapArr (.map (dataTypeToArrow (Column.dataType (.tuple (f0 :: fs) flen))))
        (offsets.map castU64I32)
        (.structArr (dataTypeToArrow (Column.dataType (.tuple (f0 :: fs) flen)))
          (a0 :: arrs2) none) none,
      by simp [Column.as_arrow, harrs],
      core_to_from_arrow _ _ (by simp [Column.isNullableCol]) rfl hcore,
      fun _ => ⟨rfl, hcore⟩⟩
  | .map (.tuple [] flen) offsets => exact absurd hbs (by simp [Column.bridgeSafe, Column.isKvTuple])
  | .map (.null l) offsets => exact absurd hbs (by simp [Column.bridgeSafe, Column.isKvTuple])
  | .map (.emptyArray l) offsets => exact absurd hbs (by simp [Column.bridgeSafe, Column.isKvTuple])
  | .map (.emptyMap l) offsets => exact absurd hbs (by simp [Column.bridgeSafe, Column.isKvTuple])
  | .map (.number k vs) offsets => exact absurd hbs (by simp [Column.bridgeSafe, Column.isKvTuple])
  | .map (.decimal w vs size) offsets => exact absurd hbs (by simp [Column.bridgeSafe, Column.isKvTuple])
  | .map (.boolean vs) offsets => exact absurd hbs (by simp [Column.bridgeSafe, Column.isKvTuple])
  | .map (.string d o) offsets => exact absurd hbs (by simp [Column.bridgeSafe, Column.isKvTuple])
  | .map (.timestamp vs) offsets => exact absurd hbs (by simp [Column.bridgeSafe, Column.isKvTuple])
  | .map (.date vs) offsets => exact absurd hbs (by simp [Column.bridgeSafe, Column.isKvTuple])
  | .map (.array v2 o) offsets => exact absurd hbs (by simp [Column.bridgeSafe, Column.isKvTuple])
  | .map (.map v2 o) offsets => exact absurd hbs (by simp [Column.bridgeSafe, Column.isKvTuple])
  | .map (.nullable i2 v2) offsets => exact absurd hbs (by simp [Column.bridgeSafe, Column.isKvTuple])
  | .map (.variant d o) offsets => exact absurd hbs (by simp [Column.bridgeSafe, Column.isKvTuple])
  | .tuple [] len => exact absurd hbs (by simp [Column.bridgeSafe])
  | .tuple (f0 :: fs) len =>
    rw [show Column.bridgeSafe (.tuple (f0 :: fs) len)
        = (!(f0 :: fs).isEmpty
            && ((f0 :: fs).attach.all fun f => Column.bridgeSafe f.1))
        from by simp [Column.bridgeSafe]] at hbs
    rw [Bool.and_eq_true, attachAll (f0 :: fs) Column.bridgeSafe,
      List.all_eq_true] at hbs
    obtain ⟨hne, hball⟩ := hbs
    have hwts := (wf_tuple_iff (f0 :: fs) len).mp hwf
    have hpt : ∀ f ∈ (f0 :: fs), ∃ a, Column.as_arrow f = some a ∧
        Column.from_arrow a f.dataType = some f := by
      intro f hf
      obtain ⟨a, ha, hfa, _⟩ := arrow_roundtrip_aux f (hwts f hf).2 (hball f hf)
      exact ⟨a, ha, hfa⟩
    obtain ⟨arrs, harrs, hlens, hff⟩ := asArrowFields_spec (f0 :: fs)
      (fun f hf => (hwts f hf).2) hpt
    obtain ⟨a0, arrs2, rfl⟩ : ∃ a0 arrs2, arrs = a0 :: arrs2 := by
      cases arrs with
      | nil => exact absurd (congrArg List.length hlens) (by simp)
      | cons x xs => exact ⟨x, xs, rfl⟩
    rw [List.map_cons, List.map_cons] at hlens
    injection hlens with hl0 _
    simp only [List.map_cons] at hff
    have hcore : ∀ w, Column.fromArrowCore
        ((ArrowArray.structArr
          (dataTypeToArrow (Column.dataType (.tuple (f0 :: fs) len)))
          (a0 :: arrs2) none).setValidity w)
        (Column.dataType (.tuple (f0 :: fs) len)) = some (.tuple (f0 :: fs) len) := by
      intro w
      rw [dataType_tuple, dataTypeToArrow_tuple]
      simp only [ArrowArray.setValidity]
      simp only [List.map_cons, Column.fromArrowCore, ArrowArray.dataType]
      rw [hff, Option.map_some']
      rw [show ArrowArray.len (.structArr
          (.struct (dataTypeToArrow (Column.dataType f0)
            :: List.map dataTypeToArrow (List.map Column.dataType fs)))
          (a0 :: arrs2) w) = a0.len from by simp [ArrowArray.len]]
      rw [hl0, (hwts f0 (by simp)).1]
    exact ⟨.structArr (dataTypeToArrow (Column.dataType (.tuple (f0 :: fs) len)))
        (a0 :: arrs2) none,
      by simp [Column.as_arrow, harrs],
      core_to_from_arrow _ _ (by simp [Column.isNullableCol]) rfl hcore,
      fun _ => ⟨rfl, hcore⟩⟩
  | .nullable inner validity =>
    have hw2 : (validity.length = inner.len ∧ inner.isNullableCol = false) ∧
        inner.wf = true := by simpa [Column.wf] using hwf
    have hb2 : inner.lengthOnly = false ∧ inner.bridgeSafe = true := by
      simpa [Column.bridgeSafe] using hbs
    obtain ⟨b, hab, _, hrest⟩ := arrow_roundtrip_aux inner hw2.2 hb2.2
    obtain ⟨hsetb, hcoreb⟩ := hrest hw2.1.2
    have hdtb := as_arrow_dataType inner b hab
    have hnl : (ArrowArray.dataType b).isNullLike = false := by
      rw [hdtb]
      exact lengthOnly_arrow inner hw2.1.2 hb2.1
    have hbn : b.isNullArr = false := by
      cases hx : b.isNullArr with
      | false => rfl
      | true =>
        have h2 := as_arrow_nullArr inner b hab hx
        rw [hnl] at h2
        exact absurd h2 (by simp)
    refine ⟨b.with_validity validity, ?_, ?_, ?_⟩
    · simp [Column.as_arrow, hab, Option.map_some', hnl]
    · rw [show Column.dataType (.nullable inner validity)
          = .nullable (Column.dataType inner) from by simp [Column.dataType]]
      simp only [Column.from_arrow]
      rw [show (DataType.nullable (Column.dataType inner)).removeNullable
          = Column.dataType inner from by simp [DataType.removeNullable]]
      rw [with_validity_setValidity, hcoreb (some validity), Option.map_some']
      simp [DataType.isNullableTy, setValidity_validity b (some validity) hbn]
    · intro hcon
      exact absurd hcon (by simp [Column.isNullableCol])
termination_by sizeOf c
decreasing_by
  all_goals simp_wf
  all_goals first
    | omega
    | (have q := List.sizeOf_lt_of_mem hf
       simp only [List.cons.sizeOf_spec] at q
       omega)

/-- C4 (amended): the external-format roundtrip
`from_arrow(as_arrow(c), c.data_type())` is the structural identity on
every well-formed column that is bridge-safe: no validity bitmap directly
on a length-only `Null`/`EmptyArray`/`EmptyMap` column (`as_arrow` drops
such a bitmap and `from_arrow` rebuilds it as all-`true`), all
string/variant/array offsets below `2^63` and map offsets below `2^31`
(they pass through `as i64`/`as i32` casts), decimal precision/scale
below `2^8`, and map inner columns that are non-empty key/value tuples
(and tuples non-empty, as the external struct array requires). -/
theorem c4_arrow_roundtrip (c : Column) (hwf : c.wf = true)
    (hbs : c.bridgeSafe = true) :
    ∃ a, Column.as_arrow c = some a ∧ Column.from_arrow a c.dataType = some c := by
  obtain ⟨a, h1, h2, _⟩ := arrow_roundtrip_aux c hwf hbs
  exact ⟨a, h1, h2⟩

theorem c4_arrow_roundtrip_witness :
    ∃ a, Column.as_arrow (.nullable (.number .int32 [7, 8]) [true, false]) = some a ∧
      Column.from_arrow a
          (Column.dataType (.nullable (.number .int32 [7, 8]) [true, false]))
        = some (.nullable (.number .int32 [7, 8]) [true, false]) :=
  c4_arrow_roundtrip (.nullable (.number .int32 [7, 8]) [true, false])
    (by simp [Column.wf, Column.len, Column.isNullableCol])
    (by simp [Column.bridgeSafe, Column.lengthOnly])

/-- C4 counterexample: a nullable column over a length-only inner column
loses its validity bitmap through the bridge.  `as_arrow` returns the
inner `NullArray` unchanged (values.rs:1017-1019), a `NullArray` carries
no bitmap, so `from_arrow` rebuilds an all-`true` bitmap
(values.rs:1390-1394): the row that was SQL `NULL` comes back valid, and
the roundtripped column is not equal (under the source's `PartialEq`) to
the original. -/
theorem c4_counterexample :
    ∃ c a c2, Column.wf c = true ∧ Column.as_arrow c = some a ∧
      Column.from_arrow a c.dataType = some c2 ∧ Column.eqB c2 c = false := by
  refine ⟨.nullable (.emptyArray 1) [false], .nullArr (.ext .emptyArray .null) 1,
    .nullable (.emptyArray 1) [true], ?_, ?_, ?_, ?_⟩
  · simp [Column.wf, Column.len, Column.isNullableCol]
  · simp [Column.as_arrow, ArrowArray.dataType, ArrowTy.isNullLike, Option.map_some']
  · rw [show Column.dataType (.nullable (.emptyArray 1) [false])
        = .nullable .emptyArray from by simp [Column.dataType]]
    simp only [Column.from_arrow]
    rw [show (DataType.nullable DataType.emptyArray).removeNullable
        = DataType.emptyArray from by simp [DataType.removeNullable]]
    rw [show Column.fromArrowCore (.nullArr (.ext .emptyArray .null) 1)
        DataType.emptyArray = some (.emptyArray 1) from by
      simp only [Column.fromArrowCore]
      rfl]
    simp [DataType.isNullableTy, ArrowArray.validity, ArrowArray.len, List.replicate]
  · simp [Column.eqB, Column.pcmp, Column.semRows, SemValue.pcmp, listLexPCmp]
    rfl
